import Mathlib

/-!
# sandy: bounded concurrent queue, video decoding pipeline and helpers

A shallow embedding of `Sandy/misc/ConcurrentQueue.h`, of the decoder of
`Sandy/MediaFoundation/MfVideoDecoder.cpp` (frame selection, worker thread,
teardown, `Rewind`), of `Play` and `Rewind` of
`Sandy/D3d11Stationery/VideoPlaybackTexture.cpp`, and of `hermite` of
`Sandy/misc/Math.h`, `SimpleAtlasAlgorithm` of
`Sandy/D3d11Stationery/DynamicTextureAtlas.h`, the partial update and the
dynamic vertex buffer of `Sandy/D3d11/Buffer.h` and `Buffer.cpp`, `ClipRect`
of `Sandy/GdiPlus/GdipFontGlyphBitmapLoader.cpp` and the scalar loop of
`Sandy/MediaFoundation/SurfaceFormatConverter.cpp`.

Every member function of `ConcurrentQueue` runs under the queue's mutex, so a
call that does not wait is one atomic transition of the queue state. The two
waiting calls (`emplace`, `pop_wait`) use `condition_variable_any::wait(lock,
pred)`, that is `while (!pred()) wait(lock);`: the predicate runs atomically
under the mutex, and a thread that found it false is parked until it is woken
(by a notification or spuriously) and runs the predicate again. A call is
therefore modelled by its predicate, and an interleaving of threads by a list
of events, each being the start of a call or the wake-up of a parked thread.
-/

namespace sandy

/-! ## ConcurrentQueue -/

/-- Data members of `ConcurrentQueue<T>`: `capacity_`, the entries of
`std::queue<std::optional<T>> queue_` from front to back, and `closed_`. -/
structure ConcurrentQueue (T : Type) where
  capacity_ : Nat
  queue_ : List (Option T)
  closed_ : Bool
deriving DecidableEq, Repr

/-- Outcome of a call that may wait on a condition variable: it returned `r`
leaving the queue in state `s`, or its predicate was false and the calling
thread is parked with the queue in state `s`. -/
inductive Call (R S : Type) where
  | returned (r : R) (s : S)
  | waiting (s : S)
deriving DecidableEq, Repr

namespace ConcurrentQueue

variable {T : Type}

/-- Constructor `ConcurrentQueue(size_t limit)`: empty and open. -/
def new (limit : Nat) : ConcurrentQueue T :=
  { capacity_ := limit, queue_ := [], closed_ := false }

/-- `closed()`: `queue_.empty() && closed_`. -/
def closed (q : ConcurrentQueue T) : Bool := q.queue_.isEmpty && q.closed_

/-- `empty()`: `queue_.empty()`. -/
def empty (q : ConcurrentQueue T) : Bool := q.queue_.isEmpty

/-- `capacity()`: `capacity_`. -/
def capacity (q : ConcurrentQueue T) : Nat := q.capacity_

/-- `size()`: `queue_.size()`. -/
def size (q : ConcurrentQueue T) : Nat := q.queue_.length

/-- The predicate `emplace` hands to `can_produce_.wait`: when
`queue_.size() < capacity_` it appends `optional<T>(in_place, val)` and is
true, otherwise it is false and changes nothing. -/
def emplace_pred (q : ConcurrentQueue T) (val : T) : Bool × ConcurrentQueue T :=
  if q.queue_.length < q.capacity_ then
    (true, { q with queue_ := q.queue_ ++ [some val] })
  else
    (false, q)

/-- One round of `can_produce_.wait(lock, pred)` followed by `return true`:
run the predicate; when it holds the call returns `true`, otherwise the
producer is parked. A parked producer runs this again each time it wakes. -/
def emplace_wait (q : ConcurrentQueue T) (val : T) : Call Bool (ConcurrentQueue T) :=
  match emplace_pred q val with
  | (true, q1) => Call.returned true q1
  | (false, q1) => Call.waiting q1

/-- `emplace(val)`: `if (closed_) return false;` and then the wait. -/
def emplace (q : ConcurrentQueue T) (val : T) : Call Bool (ConcurrentQueue T) :=
  if q.closed_ then Call.returned false q else emplace_wait q val

/-- `close()`: `closed_ = true`. -/
def close (q : ConcurrentQueue T) : ConcurrentQueue T :=
  { q with closed_ := true }

/-- `try_pop()`: on a non-empty queue the front entry is returned and popped,
otherwise `nullopt`. -/
def try_pop (q : ConcurrentQueue T) : Option T × ConcurrentQueue T :=
  match q.queue_ with
  | [] => (none, q)
  | x :: rest => (x, { q with queue_ := rest })

/-- The predicate `pop_wait` hands to `can_consume_.wait`:
`closed() || (ret = try_pop()).has_value()`, with the local `ret` threaded
through. -/
def pop_wait_pred (q : ConcurrentQueue T) (ret : Option T) :
    Bool × Option T × ConcurrentQueue T :=
  if q.closed then (true, ret, q)
  else
    match q.try_pop with
    | (r, q1) => (r.isSome, r, q1)

/-- One round of `can_consume_.wait(lock, pred)` followed by `return ret`,
started with `ret` empty (its value at the start of `pop_wait`, and again
whenever the predicate was false). -/
def pop_wait_wait (q : ConcurrentQueue T) : Call (Option T) (ConcurrentQueue T) :=
  match pop_wait_pred q none with
  | (true, r, q1) => Call.returned r q1
  | (false, _, q1) => Call.waiting q1

/-- `pop_wait()`. -/
def pop_wait (q : ConcurrentQueue T) : Call (Option T) (ConcurrentQueue T) :=
  pop_wait_wait q

end ConcurrentQueue

/-! ## Threads using one queue -/

/-- A queue together with the threads parked on its condition variables:
the values of the producers waiting in `emplace` (oldest first) and the
number of consumers waiting in `pop_wait`. -/
structure System (T : Type) where
  queue : ConcurrentQueue T
  producers : List T
  consumers : Nat
deriving DecidableEq, Repr

/-- What may happen next to a queue. -/
inductive Event (T : Type) where
  /-- a thread calls `emplace(val)` -/
  | emplace (val : T)
  /-- the `i`-th parked producer wakes and runs its predicate again -/
  | emplace_wake (i : Nat)
  /-- a thread calls `close()` -/
  | close
  /-- a thread calls `try_pop()` -/
  | try_pop
  /-- a thread calls `pop_wait()` -/
  | pop_wait
  /-- a parked consumer wakes and runs its predicate again -/
  | pop_wait_wake
deriving DecidableEq, Repr

/-- What an event produced. -/
inductive Output (T : Type) where
  | emplace_returned (b : Bool)
  | close_returned
  | try_pop_returned (r : Option T)
  | pop_wait_returned (r : Option T)
  /-- the predicate was false: the thread is (still) parked -/
  | parked
  /-- a wake-up addressed to a thread that is not parked -/
  | no_thread
deriving DecidableEq, Repr

namespace System

variable {T : Type}

/-- A fresh queue of capacity `limit` with no thread parked on it. -/
def init (limit : Nat) : System T :=
  { queue := ConcurrentQueue.new limit, producers := [], consumers := 0 }

/-- One event. -/
def step (s : System T) : Event T → Output T × System T
  | Event.emplace val =>
    match s.queue.emplace val with
    | Call.returned b q1 => (Output.emplace_returned b, { s with queue := q1 })
    | Call.waiting q1 =>
      (Output.parked, { s with queue := q1, producers := s.producers ++ [val] })
  | Event.emplace_wake i =>
    match s.producers[i]? with
    | none => (Output.no_thread, s)
    | some val =>
      match s.queue.emplace_wait val with
      | Call.returned b q1 =>
        (Output.emplace_returned b,
          { s with queue := q1, producers := s.producers.eraseIdx i })
      | Call.waiting q1 => (Output.parked, { s with queue := q1 })
  | Event.close => (Output.close_returned, { s with queue := s.queue.close })
  | Event.try_pop =>
    match s.queue.try_pop with
    | (r, q1) => (Output.try_pop_returned r, { s with queue := q1 })
  | Event.pop_wait =>
    match s.queue.pop_wait with
    | Call.returned r q1 => (Output.pop_wait_returned r, { s with queue := q1 })
    | Call.waiting q1 =>
      (Output.parked, { s with queue := q1, consumers := s.consumers + 1 })
  | Event.pop_wait_wake =>
    match s.consumers with
    | 0 => (Output.no_thread, s)
    | n + 1 =>
      match s.queue.pop_wait_wait with
      | Call.returned r q1 =>
        (Output.pop_wait_returned r, { s with queue := q1, consumers := n })
      | Call.waiting q1 => (Output.parked, { s with queue := q1 })

/-- The state after a list of events. -/
def run (s : System T) : List (Event T) → System T
  | [] => s
  | e :: es => run (s.step e).2 es

/-- The outputs of a list of events, in order. -/
def outputs (s : System T) : List (Event T) → List (Output T)
  | [] => []
  | e :: es => (s.step e).1 :: outputs (s.step e).2 es

end System

/-! ## Vocabulary for statements about runs -/

/-- A pop by either of the two calls: `try_pop()` when `b`, else `pop_wait()`. -/
def pop_event {T : Type} (b : Bool) : Event T :=
  if b then Event.try_pop else Event.pop_wait

/-- The output of `pop_event b` when the call returns `r`. -/
def pop_output {T : Type} (b : Bool) (r : Option T) : Output T :=
  if b then Output.try_pop_returned r else Output.pop_wait_returned r

/-- Events that may take an entry off the queue. -/
def Event.isPop {T : Type} : Event T → Bool
  | Event.try_pop => true
  | Event.pop_wait => true
  | Event.pop_wait_wake => true
  | _ => false

/-- Every entry of the queue holds a value (`emplace` builds each entry with
`std::in_place`). -/
def ConcurrentQueue.Engaged {T : Type} (q : ConcurrentQueue T) : Prop :=
  ∀ x ∈ q.queue_, x.isSome = true

/-- The value a call of `emplace` took charge of: the value of a call that
returned true or is waiting, nothing for a call that returned false and for
every other event. -/
def accepted_by {T : Type} : Event T → Output T → List T
  | Event.emplace val, Output.emplace_returned true => [val]
  | Event.emplace val, Output.parked => [val]
  | _, _ => []

/-- The value a pop handed to its caller, if any. -/
def popped_by {T : Type} : Output T → List T
  | Output.try_pop_returned (some x) => [x]
  | Output.pop_wait_returned (some x) => [x]
  | _ => []

/-- All values taken in charge by the `emplace` calls of a run, in order. -/
def System.accepted {T : Type} (s : System T) : List (Event T) → List T
  | [] => []
  | e :: es => accepted_by e (s.step e).1 ++ System.accepted (s.step e).2 es

/-- All values handed out by the pops of a run, in order. -/
def System.popped {T : Type} (s : System T) : List (Event T) → List T
  | [] => []
  | e :: es => popped_by (s.step e).1 ++ System.popped (s.step e).2 es

/-! ## MfVideoDecoder: frame selection -/

namespace mf

/-- What the decoder reads of a non-null `IMFSample`: the value that
`GetSampleTime` yields (`LONGLONG`, 100ns ticks) and a tag telling samples
apart. -/
structure SampleData where
  time : Int
  tag : Nat
deriving DecidableEq, Repr

/-- `MfVideoFrameSample`: a handle to a sample that may be null. -/
abbrev MfVideoFrameSample := Option SampleData

/-- `MfSample::operator bool`: the handle is not null. -/
def MfVideoFrameSample.toBool (f : MfVideoFrameSample) : Bool := f.isSome

/-- `MfSample::Time()`: `v` starts at zero and is set from the sample when
the handle is not null. -/
def MfVideoFrameSample.Time : MfVideoFrameSample → Int
  | none => 0
  | some d => d.time

/-- Data members of `MfVideoDecoder::Impl` read or written by `FetchFrame`,
`IsEndOfStream` and `Rewind`. The queue type `xtl::concurrent_queue` of
`decoded_frames_` is taken to be `ConcurrentQueue`. -/
structure Impl where
  ready_ : Bool
  decoder_queue_depth_ : Nat
  video_duration_ : Int
  running_ : Bool
  decoded_frames_ : Option (ConcurrentQueue MfVideoFrameSample)
  next_frame_ : MfVideoFrameSample
deriving DecidableEq, Repr

namespace Impl

/-- `IsReady()`. -/
def IsReady (s : Impl) : Bool := s.ready_

/-- `IsEndOfStream()`: `!decoded_frames_ || decoded_frames_->closed()`. -/
def IsEndOfStream (s : Impl) : Bool :=
  match s.decoded_frames_ with
  | none => true
  | some dq => dq.closed

/-- First statement of the loop body of `FetchFrame`: when `next_frame_` is
null, `try_pop` the queue `dq` and store a popped entry in `next_frame_`. -/
def FetchFrame_refill (s : Impl) (dq : ConcurrentQueue MfVideoFrameSample) : Impl :=
  if !s.next_frame_.toBool then
    match dq.try_pop with
    | (some t, dq1) => { s with decoded_frames_ := some dq1, next_frame_ := t }
    | (none, dq1) => { s with decoded_frames_ := some dq1 }
  else s

/-- The `while` loop of `FetchFrame`, run for at most `fuel` iterations;
`none` when the fuel runs out before the loop exits. -/
def FetchFrame_loop (current_time : Int) :
    Nat → Impl → MfVideoFrameSample → Option (MfVideoFrameSample × Impl)
  | 0, _, _ => none
  | fuel + 1, s, current_frame =>
    match s.decoded_frames_ with
    | none => some (current_frame, s)
    | some dq =>
      if dq.closed then some (current_frame, s)
      else
        let s1 := FetchFrame_refill s dq
        if !s1.next_frame_.toBool || s1.next_frame_.Time > current_time then
          some (current_frame, s1)
        else
          FetchFrame_loop current_time fuel { s1 with next_frame_ := none } s1.next_frame_

/-- Iterations granted to the loop of `FetchFrame`: one for each queued
entry, one for the look-ahead slot and one for the exit test. -/
def FetchFrame_fuel (s : Impl) : Nat :=
  match s.decoded_frames_ with
  | none => 1
  | some dq => dq.size + 2

/-- `FetchFrame(current_time)` with no producer step during the call: the
returned frame and the state afterwards. -/
def FetchFrame (s : Impl) (current_time : Int) : Option (MfVideoFrameSample × Impl) :=
  if !s.IsReady then some (none, s)
  else FetchFrame_loop current_time (FetchFrame_fuel s) s none

end Impl

end mf

end sandy

/-! ## A playback session seen from the queue -/

namespace sandy

namespace mf

/-- The frame an entry of `decoded_frames_` carries: nothing for a
disengaged entry or a null frame. -/
def entry_frame (e : Option MfVideoFrameSample) : Option SampleData := e.join

/-- The frames of a queue, front first. -/
def queue_frames (dq : ConcurrentQueue MfVideoFrameSample) : List SampleData :=
  dq.queue_.filterMap entry_frame

/-- What the producer leaves in the queue: every entry is engaged and holds
a non-null frame (the worker pushes under `if (sample)`). -/
def Impl.WellFormed (s : Impl) : Prop :=
  ∀ dq, s.decoded_frames_ = some dq → ∀ e ∈ dq.queue_, ∃ d, e = some (some d)

/-- The frames a decoder holds and has not returned yet, oldest first: the
look-ahead slot, then the queue. -/
def Impl.held (s : Impl) : List SampleData :=
  s.next_frame_.toList ++
    (match s.decoded_frames_ with
     | none => []
     | some dq => queue_frames dq)

/-- What happens to a decoder during a session, as far as the queue and the
look-ahead slot are concerned. -/
inductive SessionEvent where
  /-- the producer calls `push` with a non-null frame -/
  | push (d : SampleData)
  /-- the producer calls `close()` -/
  | close
  /-- the caller calls `FetchFrame(current_time)` -/
  | fetch (current_time : Int)
deriving DecidableEq, Repr

/-- The frame the event enqueued (`push` returned true at once), the result
of the event when it is a fetch, and the state afterwards. A push that does
not return true at once (queue closed, or no room) enqueues nothing; the
worker calls `push` only when it has seen room. -/
def Impl.session_step (s : Impl) :
    SessionEvent → Option SampleData × MfVideoFrameSample × Impl
  | SessionEvent.push d =>
    match s.decoded_frames_ with
    | none => (none, none, s)
    | some dq =>
      match dq.emplace (some d) with
      | Call.returned true dq1 => (some d, none, { s with decoded_frames_ := some dq1 })
      | Call.returned false _ => (none, none, s)
      | Call.waiting _ => (none, none, s)
  | SessionEvent.close =>
    match s.decoded_frames_ with
    | none => (none, none, s)
    | some dq => (none, none, { s with decoded_frames_ := some dq.close })
  | SessionEvent.fetch current_time =>
    match s.FetchFrame current_time with
    | some (r, s1) => (none, r, s1)
    | none => (none, none, s)

/-- The state after a list of session events. -/
def Impl.session_run (s : Impl) : List SessionEvent → Impl
  | [] => s
  | e :: es => Impl.session_run (s.session_step e).2.2 es

/-- The frames enqueued during a session, in order. -/
def Impl.session_pushed (s : Impl) : List SessionEvent → List SampleData
  | [] => []
  | e :: es => (s.session_step e).1.toList ++ Impl.session_pushed (s.session_step e).2.2 es

/-- The non-null frames returned by the fetches of a session, in order. -/
def Impl.session_fetched (s : Impl) : List SessionEvent → List SampleData
  | [] => []
  | e :: es =>
    (s.session_step e).2.1.toList ++ Impl.session_fetched (s.session_step e).2.2 es

/-- The result of each fetch of a session (null or a frame), in order. -/
def Impl.session_results (s : Impl) : List SessionEvent → List MfVideoFrameSample
  | [] => []
  | SessionEvent.fetch t :: es =>
    (s.session_step (SessionEvent.fetch t)).2.1
      :: Impl.session_results (s.session_step (SessionEvent.fetch t)).2.2 es
  | e :: es => Impl.session_results (s.session_step e).2.2 es

/-- A decoder at the start of a session: ready, with an empty look-ahead slot
and a fresh queue of `depth` entries. -/
def Impl.fresh (depth : Nat) (duration : Int) : Impl :=
  { ready_ := true, decoder_queue_depth_ := depth, video_duration_ := duration,
    running_ := true, decoded_frames_ := some (ConcurrentQueue.new depth),
    next_frame_ := none }

end mf

end sandy

namespace sandy

namespace mf

/-- The frame is due at `current_time`: its time is at most `current_time`. -/
def due (current_time : Int) (d : SampleData) : Bool := decide (d.time ≤ current_time)

/-- The event is a call of `FetchFrame`. -/
def SessionEvent.isFetch : SessionEvent → Bool
  | SessionEvent.fetch _ => true
  | _ => false

end mf

end sandy

/-! ## MfVideoDecoder: the worker thread and the teardown -/

namespace sandy

namespace mf

/-- Signed 64-bit arithmetic (`LONGLONG`): the value of a result after
wrap-around into the range from `-2^63` to `2^63 - 1`. -/
def wrap_int64 (x : Int) : Int := (x + 2 ^ 63) % 2 ^ 64 - 2 ^ 63

/-- What `MfSourceReader::ReadSample` hands to the worker: whether `hr` is a
failure, the two bits of `flags` the worker tests, and the sample (null or a
sample with its source timestamp). -/
structure ReadSampleResult where
  hr_failed : Bool
  flags_media_type_changed : Bool
  flags_end_of_stream : Bool
  sample : MfVideoFrameSample
deriving DecidableEq, Repr

/-- What `GetCurrentMediaType` hands to the worker: whether `hr2` is a
failure and the result of `media_type.as<IMFVideoMediaType>()` (null or a
handle). -/
structure MediaTypeResult where
  hr_failed : Bool
  media_type : Option Nat
deriving DecidableEq, Repr

/-- The captured `looping` and the locals of the worker's thread function:
`DWORD loop_count` and `frame_media_type_`. -/
structure Worker where
  looping : Bool
  loop_count : Nat
  frame_media_type_ : Option Nat
deriving DecidableEq, Repr

/-- How the loop body goes on after `ReadSample`. -/
inductive Decision where
  /-- `break` -/
  | leave
  /-- next iteration without a push; `rewound` when `Seek(0)` and
  `++loop_count` were done -/
  | again (rewound : Bool)
  /-- `push(frame)` for the sample read, then next iteration -/
  | push (sample frame : SampleData)
deriving DecidableEq, Repr

/-- The loop body of the worker from `ReadSample` up to the call of `push`:
`break` on a failed read; refresh of `frame_media_type_` when it is null or
the media type changed, with `break` on a failed query; on end of stream
`Seek(0)`, `++loop_count` (a `DWORD`) and `continue` when looping, else
`break`; for a non-null sample the rebased time
`sample.Time() + video_duration_ * loop_count` in `LONGLONG` arithmetic. -/
def Worker.after_read (video_duration_ : Int) (w : Worker) (rd : ReadSampleResult)
    (mt : MediaTypeResult) : Decision × Worker :=
  if rd.hr_failed then (Decision.leave, w)
  else if (w.frame_media_type_.isNone || rd.flags_media_type_changed) && mt.hr_failed then
    (Decision.leave, w)
  else
    let w1 : Worker :=
      if w.frame_media_type_.isNone || rd.flags_media_type_changed then
        { w with frame_media_type_ := mt.media_type }
      else w
    if rd.flags_end_of_stream then
      if w1.looping then
        (Decision.again true, { w1 with loop_count := (w1.loop_count + 1) % 2 ^ 32 })
      else (Decision.leave, w1)
    else
      match rd.sample with
      | some d =>
        (Decision.push d
          { d with time := wrap_int64 (d.time + wrap_int64 (video_duration_ * w1.loop_count)) },
          w1)
      | none => (Decision.again false, w1)

/-- Where the worker thread stands. -/
inductive WorkerPc where
  /-- about to evaluate `running_.test_and_set()` in the loop condition -/
  | test (w : Worker)
  /-- about to compare `size()` with `capacity()` -/
  | check (w : Worker)
  /-- about to call `ReadSample` -/
  | read (w : Worker)
  /-- about to call `push(frame)` -/
  | push (w : Worker) (frame : SampleData)
  /-- waiting on `can_produce_` inside `push(frame)`; `notified` once
  `can_produce_.notify_all()` has run since it went to sleep -/
  | parked (w : Worker) (frame : SampleData) (notified : Bool)
  /-- out of the loop, about to call `close()` -/
  | close
  /-- the thread function has returned -/
  | done
deriving DecidableEq, Repr

/-- Where the thread that tears the worker down stands (`~Impl`, or the
first block of `Rewind`). -/
inductive ControllerPc where
  /-- no teardown under way -/
  | idle
  /-- `running_.clear()` done, about to call `pop_wait()` -/
  | drain
  /-- waiting on `can_consume_` inside `pop_wait()`; `notified` once
  `can_consume_.notify_all()` has run since it went to sleep -/
  | parked (notified : Bool)
  /-- `pop_wait()` returned `nullopt`; inside `worker_thread_.join()` -/
  | join
  /-- `join()` has returned -/
  | finished
deriving DecidableEq, Repr

/-- The state shared by the worker and the other threads during a session:
`video_duration_`, the flag `running_`, the queue `*decoded_frames_`, and
where the worker and the tearing-down thread stand. -/
structure Machine where
  video_duration_ : Int
  running_ : Bool
  queue : ConcurrentQueue MfVideoFrameSample
  worker : WorkerPc
  controller : ControllerPc
deriving DecidableEq, Repr

/-- What a step did, for the record. -/
inductive Effect where
  /-- the queue was at capacity: `sleep_for(1ms)` and `continue` -/
  | slept
  /-- `ReadSample` was called and answered `rd` -/
  | read (rd : ReadSampleResult)
  /-- end of stream while looping: `Seek(0)` and `++loop_count` -/
  | rewound
  /-- the time of `sample`, read when `loop_count` had this value, was set
  to that of `frame` -/
  | rebased (loop_count : Nat) (sample frame : SampleData)
  /-- `push(frame)` returned `ok` -/
  | pushed (frame : SampleData) (ok : Bool)
  /-- `push(frame)` found no room and waits -/
  | push_parked (frame : SampleData)
  /-- `close()` was called -/
  | closed
  /-- a pop by another thread returned `r` -/
  | popped (r : Option MfVideoFrameSample)
deriving DecidableEq, Repr

/-- Who takes the next step. -/
inductive Step where
  /-- the worker; `rd` and `mt` are what the source answers if it is asked -/
  | worker (rd : ReadSampleResult) (mt : MediaTypeResult)
  /-- the tearing-down thread -/
  | controller
  /-- the caller's `FetchFrame` calls `try_pop()` -/
  | consumer_pop
deriving DecidableEq, Repr

namespace Machine

/-- `can_consume_.notify_all()`: a consumer waiting in `pop_wait` is woken. -/
def notify_consumer (c : ControllerPc) : ControllerPc :=
  match c with
  | ControllerPc.parked _ => ControllerPc.parked true
  | c => c

/-- `can_produce_.notify_all()`: a producer waiting in `push` is woken. -/
def notify_producer (p : WorkerPc) : WorkerPc :=
  match p with
  | WorkerPc.parked w frame _ => WorkerPc.parked w frame true
  | p => p

/-- The outcome of one round of the wait in `push(frame)`. -/
def after_push (s : Machine) (w : Worker) (frame : SampleData)
    (r : Call Bool (ConcurrentQueue MfVideoFrameSample)) : List Effect × Machine :=
  match r with
  | Call.returned true q1 =>
    ([Effect.pushed frame true],
      { s with queue := q1, worker := WorkerPc.test w,
               controller := notify_consumer s.controller })
  | Call.returned false q1 =>
    ([Effect.pushed frame false], { s with queue := q1, worker := WorkerPc.test w })
  | Call.waiting q1 =>
    ([Effect.push_parked frame], { s with queue := q1, worker := WorkerPc.parked w frame false })

/-- The next step of the worker thread; `none` when it cannot move (it
waits in `push` and has not been notified, or it has returned). -/
def worker_step (s : Machine) (rd : ReadSampleResult) (mt : MediaTypeResult) :
    Option (List Effect × Machine) :=
  match s.worker with
  | WorkerPc.test w =>
    if s.running_ then some ([], { s with running_ := true, worker := WorkerPc.check w })
    else some ([], { s with running_ := true, worker := WorkerPc.close })
  | WorkerPc.check w =>
    if s.queue.size = s.queue.capacity then
      some ([Effect.slept], { s with worker := WorkerPc.test w })
    else some ([], { s with worker := WorkerPc.read w })
  | WorkerPc.read w =>
    match w.after_read s.video_duration_ rd mt with
    | (Decision.leave, _) => some ([Effect.read rd], { s with worker := WorkerPc.close })
    | (Decision.again true, w1) =>
      some ([Effect.read rd, Effect.rewound], { s with worker := WorkerPc.test w1 })
    | (Decision.again false, w1) =>
      some ([Effect.read rd], { s with worker := WorkerPc.test w1 })
    | (Decision.push d frame, w1) =>
      some ([Effect.read rd, Effect.rebased w1.loop_count d frame],
        { s with worker := WorkerPc.push w1 frame })
  | WorkerPc.push w frame => some (after_push s w frame (s.queue.emplace (some frame)))
  | WorkerPc.parked w frame true =>
    some (after_push s w frame (s.queue.emplace_wait (some frame)))
  | WorkerPc.parked _ _ false => none
  | WorkerPc.close =>
    some ([Effect.closed],
      { s with queue := s.queue.close, worker := WorkerPc.done,
               controller := notify_consumer s.controller })
  | WorkerPc.done => none

/-- The outcome of one round of the wait in the controller's `pop_wait()`,
started on the queue `q0`: `try_pop` notifies `can_produce_` when it pops. -/
def after_pop_wait (s : Machine) (q0 : ConcurrentQueue MfVideoFrameSample)
    (r : Call (Option MfVideoFrameSample) (ConcurrentQueue MfVideoFrameSample)) :
    List Effect × Machine :=
  let p := if q0.closed || q0.queue_.isEmpty then s.worker else notify_producer s.worker
  match r with
  | Call.returned (some x) q1 =>
    ([Effect.popped (some x)], { s with queue := q1, worker := p, controller := ControllerPc.drain })
  | Call.returned none q1 =>
    ([Effect.popped none], { s with queue := q1, worker := p, controller := ControllerPc.join })
  | Call.waiting q1 =>
    ([], { s with queue := q1, worker := p, controller := ControllerPc.parked false })

/-- The next step of the tearing-down thread:
`running_.clear(); while (decoded_frames_->pop_wait()) {} worker_thread_.join();`.
`none` when it cannot move (it waits in `pop_wait` and has not been
notified, it waits in `join` for a worker that has not returned, or it is
through). -/
def controller_step (s : Machine) : Option (List Effect × Machine) :=
  match s.controller with
  | ControllerPc.idle => some ([], { s with running_ := false, controller := ControllerPc.drain })
  | ControllerPc.drain => some (after_pop_wait s s.queue s.queue.pop_wait)
  | ControllerPc.parked true => some (after_pop_wait s s.queue s.queue.pop_wait_wait)
  | ControllerPc.parked false => none
  | ControllerPc.join =>
    match s.worker with
    | WorkerPc.done => some ([], { s with controller := ControllerPc.finished })
    | _ => none
  | ControllerPc.finished => none

/-- A `try_pop()` by the caller's `FetchFrame`. `FetchFrame` and `Rewind`
lock the same mutex and nothing calls into a decoder that is being
destroyed, so this happens only while no teardown is under way. -/
def consumer_step (s : Machine) : Option (List Effect × Machine) :=
  match s.controller with
  | ControllerPc.idle =>
    match s.queue.try_pop with
    | (r, q1) =>
      some ([Effect.popped r],
        { s with queue := q1,
                 worker := if s.queue.queue_.isEmpty then s.worker
                           else notify_producer s.worker })
  | _ => none

/-- One step of the thread named; `none` when that thread cannot move. -/
def step (s : Machine) : Step → Option (List Effect × Machine)
  | Step.worker rd mt => s.worker_step rd mt
  | Step.controller => s.controller_step
  | Step.consumer_pop => s.consumer_step

/-- The state after a schedule; a step of a thread that cannot move is
skipped. -/
def run (s : Machine) : List Step → Machine
  | [] => s
  | t :: ts =>
    match s.step t with
    | some (_, s1) => run s1 ts
    | none => run s ts

/-- The record of a schedule. -/
def trace (s : Machine) : List Step → List Effect
  | [] => []
  | t :: ts =>
    match s.step t with
    | some (es, s1) => es ++ trace s1 ts
    | none => trace s ts

/-- The state after a schedule every step of which can be taken; `none`
when a step names a thread that cannot move. -/
def exec (s : Machine) : List Step → Option Machine
  | [] => some s
  | t :: ts =>
    match s.step t with
    | some (_, s1) => exec s1 ts
    | none => none

/-- The session as `Rewind(looping)` starts it: the flag set, a fresh queue
of `depth` entries, the worker at the top of its loop with
`loop_count = 0` and no media type, no teardown under way. -/
def start (depth : Nat) (duration : Int) (looping : Bool) : Machine :=
  { video_duration_ := duration, running_ := true,
    queue := ConcurrentQueue.new depth,
    worker := WorkerPc.test { looping := looping, loop_count := 0, frame_media_type_ := none },
    controller := ControllerPc.idle }

end Machine

/-- The samples rebased in a record with the number of rewinds before each
of them, counted from `k`: the pass over the stream, the sample read and
the frame made of it. -/
def rebased_by_pass : Nat → List Effect → List (Nat × SampleData × SampleData)
  | _, [] => []
  | k, Effect.rewound :: es => rebased_by_pass (k + 1) es
  | k, Effect.rebased _ sample frame :: es => (k, sample, frame) :: rebased_by_pass k es
  | k, _ :: es => rebased_by_pass k es

/-- The frames that entered the queue in a record, in order. -/
def enqueued_frames : List Effect → List SampleData
  | [] => []
  | Effect.pushed frame true :: es => frame :: enqueued_frames es
  | _ :: es => enqueued_frames es

/-- A read that delivers a sample with timestamp `t`. -/
def sample_read (t : Int) (tag : Nat) : ReadSampleResult :=
  { hr_failed := false, flags_media_type_changed := false, flags_end_of_stream := false,
    sample := some ⟨t, tag⟩ }

/-- A read that reports the end of the stream. -/
def end_of_stream_read : ReadSampleResult :=
  { hr_failed := false, flags_media_type_changed := false, flags_end_of_stream := true,
    sample := none }

/-- A successful media type query. -/
def media_type_ok : MediaTypeResult := { hr_failed := false, media_type := some 0 }

end mf

end sandy

namespace sandy

namespace mf

/-- The worker is inside its loop. -/
def WorkerPc.in_loop : WorkerPc → Bool
  | WorkerPc.close => false
  | WorkerPc.done => false
  | _ => true

/-- The worker has seen room in the queue and not pushed yet. -/
def WorkerPc.saw_room : WorkerPc → Bool
  | WorkerPc.read _ => true
  | WorkerPc.push _ _ => true
  | _ => false

/-- The worker waits inside `push`. -/
def WorkerPc.waits : WorkerPc → Bool
  | WorkerPc.parked _ _ _ => true
  | _ => false

/-- The worker waits inside `push` and has not been notified. -/
def WorkerPc.asleep : WorkerPc → Bool
  | WorkerPc.parked _ _ false => true
  | _ => false

/-- The thread function has returned. -/
def WorkerPc.returned : WorkerPc → Bool
  | WorkerPc.done => true
  | _ => false

/-- A teardown is under way or over. -/
def ControllerPc.tearing_down : ControllerPc → Bool
  | ControllerPc.idle => false
  | _ => true

/-- The tearing-down thread waits inside `pop_wait` and has not been
notified. -/
def ControllerPc.asleep : ControllerPc → Bool
  | ControllerPc.parked false => true
  | _ => false

/-- The tearing-down thread is past its drain loop. -/
def ControllerPc.drained : ControllerPc → Bool
  | ControllerPc.join => true
  | ControllerPc.finished => true
  | _ => false

/-- Upper bound on the steps the worker still takes once the flag is
cleared, counting three for each notification and enqueued frame it may
cause. -/
def WorkerPc.weight : WorkerPc → Nat
  | WorkerPc.done => 0
  | WorkerPc.close => 2
  | WorkerPc.test _ => 3
  | WorkerPc.parked _ _ false => 7
  | WorkerPc.parked _ _ true => 8
  | WorkerPc.push _ _ => 8
  | WorkerPc.read _ => 9
  | WorkerPc.check _ => 10

/-- Upper bound on the steps the tearing-down thread still takes on an
empty queue. -/
def ControllerPc.weight : ControllerPc → Nat
  | ControllerPc.finished => 0
  | ControllerPc.join => 1
  | ControllerPc.parked false => 2
  | ControllerPc.parked true => 3
  | ControllerPc.drain => 3
  | ControllerPc.idle => 4

/-- A bound on the number of steps a teardown can still take. -/
def Machine.measure (s : Machine) : Nat :=
  s.worker.weight + s.controller.weight + 2 * s.queue.size

/-- What holds of the machine in every state a session reaches, and in the
states from which a teardown is considered: the queue within its capacity
and with engaged entries; room left for a worker that saw room; the queue
closed exactly when the worker has returned; a worker asleep in `push` only
at a full queue of capacity at least one; the flag still cleared while a
teardown is under way and the worker is in its loop; the tearing-down thread
asleep only at an open empty queue, and past its drain loop only when the
worker has returned. -/
structure Machine.Inv (s : Machine) : Prop where
  size_le : s.queue.size ≤ s.queue.capacity
  room : s.worker.saw_room = true → s.queue.size < s.queue.capacity
  opened : s.worker.returned = false → s.queue.closed_ = false
  closed : s.worker.returned = true → s.queue.closed_ = true
  asleep_full : s.worker.asleep = true → s.queue.capacity ≤ s.queue.size
  waits_cap : s.worker.waits = true → 0 < s.queue.capacity
  flag : s.controller.tearing_down = true → s.worker.in_loop = true → s.running_ = false
  consumer_asleep : s.controller.asleep = true →
    s.queue.queue_ = [] ∧ s.queue.closed_ = false
  drained : s.controller.drained = true → s.worker.returned = true
  engaged : s.queue.Engaged

end mf

end sandy

namespace sandy

namespace mf

/-- The worker's `loop_count` is `k` reduced to a `DWORD`, as long as the
worker is in its loop. -/
def WorkerPc.loop_count_is (p : WorkerPc) (k : Nat) : Prop :=
  match p with
  | WorkerPc.test w => w.loop_count = k % 2 ^ 32
  | WorkerPc.check w => w.loop_count = k % 2 ^ 32
  | WorkerPc.read w => w.loop_count = k % 2 ^ 32
  | WorkerPc.push w _ => w.loop_count = k % 2 ^ 32
  | WorkerPc.parked w _ _ => w.loop_count = k % 2 ^ 32
  | WorkerPc.close => True
  | WorkerPc.done => True

/-- The frame the worker has made and not put into the queue yet. -/
def WorkerPc.pending : WorkerPc → List SampleData
  | WorkerPc.push _ frame => [frame]
  | WorkerPc.parked _ frame _ => [frame]
  | _ => []

/-- The effect belongs to a push: a sample was rebased, or `push` returned
or went to sleep. -/
def Effect.is_push : Effect → Bool
  | Effect.rebased _ _ _ => true
  | Effect.pushed _ _ => true
  | Effect.push_parked _ => true
  | _ => false

end mf

end sandy

namespace sandy

namespace mf

/-- The frames made by rebasing in a record, in order. -/
def rebased_frames : List Effect → List SampleData
  | [] => []
  | Effect.rebased _ _ frame :: es => frame :: rebased_frames es
  | _ :: es => rebased_frames es

end mf

end sandy

/-! ## MfVideoDecoder::Impl::Rewind and VideoPlaybackTexture -/

namespace sandy

namespace mf

/-- A decoder with its worker thread object: `worker_thread_` is `none`
while it is not joinable, and otherwise tells where the attached thread
stands. -/
structure Decoder where
  impl : Impl
  worker_thread_ : Option WorkerPc
deriving DecidableEq, Repr

namespace Decoder

/-- The decoder as the constructor leaves it: no thread, no queue, an empty
look-ahead slot. -/
def constructed (ready : Bool) (depth : Nat) (duration : Int) : Decoder :=
  { impl := { ready_ := ready, decoder_queue_depth_ := depth, video_duration_ := duration,
              running_ := false, decoded_frames_ := none, next_frame_ := none },
    worker_thread_ := none }

/-- `Rewind(looping)`, up to the start of the new worker thread. Nothing
happens unless the decoder is ready. When `worker_thread_` is joinable the
teardown comes first (`running_.clear()`, the drain loop and `join()`, which
are the steps of `Machine.controller_step`); kept of it here is its outcome,
the thread joined and then `next_frame_ = {}` and `decoded_frames_.reset()`.
Then `Seek(0)`, `running_.test_and_set()`, `decoded_frames_.emplace(depth)`
and the new thread, which starts with `loop_count = 0` and no media type.
The wait for the first frame that ends `Rewind` only reads `empty()`. -/
def Rewind (d : Decoder) (looping : Bool) : Decoder :=
  if !d.impl.IsReady then d
  else
    let impl1 : Impl :=
      if d.worker_thread_.isSome then
        { d.impl with running_ := false, next_frame_ := none, decoded_frames_ := none }
      else d.impl
    { impl := { impl1 with running_ := true,
                           decoded_frames_ :=
                             some (ConcurrentQueue.new impl1.decoder_queue_depth_) },
      worker_thread_ := some (WorkerPc.test
        { looping := looping, loop_count := 0, frame_media_type_ := none }) }

/-- The session a decoder is in: the machine made of its flag, its queue and
its worker thread, with no teardown under way; `none` without a queue or a
thread. -/
def session (d : Decoder) : Option Machine :=
  match d.impl.decoded_frames_, d.worker_thread_ with
  | some dq, some p =>
    some { video_duration_ := d.impl.video_duration_, running_ := d.impl.running_,
           queue := dq, worker := p, controller := ControllerPc.idle }
  | _, _ => none

/-- A decoder without a thread holds no queue and no frame. -/
def Consistent (d : Decoder) : Prop :=
  d.worker_thread_ = none → d.impl.next_frame_ = none ∧ d.impl.decoded_frames_ = none

end Decoder

end mf

/-- Data members of `VideoPlaybackTexture::Impl` that `Rewind`, `Play` and
`GetCurrentPosition` touch; `play_started_at_` is a time point of
`PresentationClock`, in ticks of that clock. -/
structure VideoPlaybackTexture where
  decoder_ : mf.Decoder
  need_to_clear_texture_ : Bool
  playing_ : Bool
  play_started_at_ : Int
deriving DecidableEq, Repr

namespace VideoPlaybackTexture

/-- `Rewind(loop)`. -/
def Rewind (s : VideoPlaybackTexture) (loop : Bool) : VideoPlaybackTexture :=
  { s with decoder_ := if s.decoder_.impl.IsReady then s.decoder_.Rewind loop else s.decoder_,
           playing_ := false, need_to_clear_texture_ := true }

/-- `Play()`, `now` being what `PresentationClock::now()` returns. -/
def Play (s : VideoPlaybackTexture) (now : Int) : VideoPlaybackTexture :=
  if s.decoder_.impl.IsReady && !s.playing_ then
    { s with play_started_at_ := now, playing_ := true }
  else s

/-- `GetCurrentPosition()`, `now` being what `PresentationClock::now()`
returns and `cast` the conversion `duration_cast<Duration>` from ticks of
the clock to units of 100ns. -/
def GetCurrentPosition (cast : Int → Int) (s : VideoPlaybackTexture) (now : Int) : Int :=
  if s.playing_ then cast (now - s.play_started_at_) else 0

end VideoPlaybackTexture

end sandy

/-! ## MfVideoDecoder: the worker seen from the cleared flag -/

namespace sandy

namespace mf

/-- The number of steps of the worker thread in a schedule. -/
def worker_steps : List Step → Nat
  | [] => 0
  | Step.worker _ _ :: ts => worker_steps ts + 1
  | _ :: ts => worker_steps ts

/-- What a step costs the worker thread: one for its own step. -/
def Step.cost : Step → Nat
  | Step.worker _ _ => 1
  | _ => 0

/-- The longest way of a worker that is not inside `push` to the end of its
thread function once the flag is cleared: the size check, the read, the
push, the loop test that sees the flag, and `close()`. -/
def WorkerPc.distance : WorkerPc → Nat
  | WorkerPc.check _ => 5
  | WorkerPc.read _ => 4
  | WorkerPc.push _ _ => 3
  | WorkerPc.parked _ _ _ => 3
  | WorkerPc.test _ => 2
  | WorkerPc.close => 1
  | WorkerPc.done => 0

end mf

end sandy

namespace sandy

namespace mf

/-- The effect is a `push` that did not return true at once: it was
refused, or it found no room and waits. -/
def Effect.held_up : Effect → Bool
  | Effect.pushed _ false => true
  | Effect.push_parked _ => true
  | _ => false

end mf

end sandy

/-! ## Math.h: interpolation -/

namespace sandy

namespace std

/-- `std::clamp(v, lo, hi)`: `(v < lo) ? lo : (hi < v) ? hi : v`. -/
def clamp {α : Type} [LinearOrder α] (v lo hi : α) : α :=
  if v < lo then lo else if hi < v then hi else v

end std

/-- `hermite(pos0, tan0, pos1, tan1, t)` of `Math.h`, for a scalar `T`, with
the floating point numbers taken as exact rationals: the sum is the one the
source writes, term by term. -/
def hermite (pos0 tan0 pos1 tan1 t : ℚ) : ℚ :=
  let t := std.clamp t 0 1
  let t2 := t * t
  let t3 := t2 * t
  (2 * t * 3 - 3 * t2 + 1) * pos0
    + (t3 - 2 * t2 + t) * tan0
    + (-2 * t3 + 3 * t2) * pos1
    + (t3 - t2) * tan1

/-- The cubic Hermite interpolation between `pos0` and `pos1` with the
tangents `tan0` and `tan1`, at `t` between 0 and 1: the basis polynomials
`2t^3 - 3t^2 + 1`, `t^3 - 2t^2 + t`, `-2t^3 + 3t^2`, `t^3 - t^2`. -/
def cubic_hermite (pos0 tan0 pos1 tan1 t : ℚ) : ℚ :=
  (2 * t ^ 3 - 3 * t ^ 2 + 1) * pos0 + (t ^ 3 - 2 * t ^ 2 + t) * tan0
    + (-2 * t ^ 3 + 3 * t ^ 2) * pos1 + (t ^ 3 - t ^ 2) * tan1

end sandy

/-! ## DynamicTextureAtlas.h: SimpleAtlasAlgorithm -/

namespace sandy

/-- Signed 32-bit arithmetic (`LONG`, `INT`): the value of a result after
wrap-around into the range from `-2^31` to `2^31 - 1`. -/
def wrap_int32 (x : Int) : Int := (x + 2 ^ 31) % 2 ^ 32 - 2 ^ 31

namespace d3d11

/-- The Windows `SIZE`: two `LONG`s. -/
structure SIZE where
  cx : Int
  cy : Int
deriving DecidableEq, Repr

/-- The Windows `POINT`: two `LONG`s. -/
structure POINT where
  x : Int
  y : Int
deriving DecidableEq, Repr

/-- The Windows `RECT`: four `LONG`s; it covers the pixels `(x, y)` with
`left <= x < right` and `top <= y < bottom`. -/
structure RECT where
  left : Int
  top : Int
  right : Int
  bottom : Int
deriving DecidableEq, Repr

/-- Data members of `SimpleAtlasAlgorithm`. -/
structure SimpleAtlasAlgorithm where
  texture_size_ : SIZE
  current_cy_ : Int
  cursor_ : POINT
deriving DecidableEq, Repr

namespace SimpleAtlasAlgorithm

/-- A default-constructed `SimpleAtlasAlgorithm`: all members zero. -/
def default_constructed : SimpleAtlasAlgorithm :=
  { texture_size_ := ⟨0, 0⟩, current_cy_ := 0, cursor_ := ⟨0, 0⟩ }

/-- `Reset(atlas_size)`. -/
def Reset (_s : SimpleAtlasAlgorithm) (atlas_size : SIZE) : SimpleAtlasAlgorithm :=
  { texture_size_ := atlas_size, current_cy_ := 0, cursor_ := ⟨0, 0⟩ }

/-- The tail of `Reserve(size)` after the branch that accepts the request:
the rectangle at the cursor, the cursor moved right by `size.cx + 1` and the
row height raised to at least `size.cy + 1`. -/
def Reserve_place (s : SimpleAtlasAlgorithm) (size : SIZE) :
    Option RECT × SimpleAtlasAlgorithm :=
  (some ⟨s.cursor_.x, s.cursor_.y, wrap_int32 (s.cursor_.x + size.cx),
      wrap_int32 (s.cursor_.y + size.cy)⟩,
    { s with cursor_ := ⟨wrap_int32 (s.cursor_.x + wrap_int32 (size.cx + 1)), s.cursor_.y⟩,
             current_cy_ := max s.current_cy_ (wrap_int32 (size.cy + 1)) })

/-- `Reserve(size)`: the returned rectangle (`nullopt` as `none`) and the
state afterwards. The request goes into the current row when it fits right
of the cursor, else into a new row below the current one when it fits
there, else it is refused. -/
def Reserve (s : SimpleAtlasAlgorithm) (size : SIZE) : Option RECT × SimpleAtlasAlgorithm :=
  if wrap_int32 (s.cursor_.x + size.cx) < s.texture_size_.cx
      ∧ wrap_int32 (s.cursor_.y + size.cy) < s.texture_size_.cy then
    Reserve_place s size
  else if size.cx < s.texture_size_.cx
      ∧ wrap_int32 (wrap_int32 (s.cursor_.y + s.current_cy_) + size.cy)
        < s.texture_size_.cy then
    Reserve_place
      { s with cursor_ := ⟨0, wrap_int32 (s.cursor_.y + s.current_cy_)⟩, current_cy_ := 0 }
      size
  else (none, s)

/-- The results of a sequence of `Reserve` calls, in order. -/
def reserve_all (s : SimpleAtlasAlgorithm) : List SIZE → List (Option RECT)
  | [] => []
  | size :: rest => (s.Reserve size).1 :: reserve_all (s.Reserve size).2 rest

/-- The state after a sequence of `Reserve` calls. -/
def reserve_run (s : SimpleAtlasAlgorithm) : List SIZE → SimpleAtlasAlgorithm
  | [] => s
  | size :: rest => reserve_run (s.Reserve size).2 rest

end SimpleAtlasAlgorithm

/-- The pixel `(x, y)` lies in the rectangle. -/
def RECT.covers (r : RECT) (x y : Int) : Prop :=
  r.left ≤ x ∧ x < r.right ∧ r.top ≤ y ∧ y < r.bottom

/-- The first rectangle ends left of or above the start of the second. -/
def RECT.clear_of (a b : RECT) : Prop := a.right < b.left ∨ a.bottom < b.top

/-- The request has a non-negative size, and on an atlas of `atlas_size` no
sum of `LONG`s that `Reserve` forms for it leaves the 32-bit range: its
width and height, added to those of the atlas, stay below `2^31`. -/
def SIZE.fits (size atlas_size : SIZE) : Prop :=
  0 ≤ size.cx ∧ 0 ≤ size.cy ∧ size.cx + max atlas_size.cx 0 < 2 ^ 31
    ∧ size.cy + max atlas_size.cy 0 < 2 ^ 31

instance (size atlas_size : SIZE) : Decidable (size.fits atlas_size) := by
  unfold SIZE.fits
  infer_instance

end d3d11

end sandy

namespace sandy

namespace d3d11

namespace SimpleAtlasAlgorithm

/-- What holds of the packing state after a `Reset` and any number of
`Reserve` calls with sizes that fit: cursor and row height are
non-negative, the cursor is not right of the atlas and the current row does
not end below it. -/
structure Good (s : SimpleAtlasAlgorithm) : Prop where
  x_nonneg : 0 ≤ s.cursor_.x
  y_nonneg : 0 ≤ s.cursor_.y
  cy_nonneg : 0 ≤ s.current_cy_
  x_le : s.cursor_.x ≤ max s.texture_size_.cx 0
  row : s.cursor_.y + s.current_cy_ ≤ max s.texture_size_.cy 0

/-- The rectangle `a`, handed out earlier, lies above the current row, or in
it left of the cursor and above the row's lower end. -/
def Clear (s : SimpleAtlasAlgorithm) (a : RECT) : Prop :=
  a.bottom < s.cursor_.y ∨ (a.right < s.cursor_.x ∧ a.bottom < s.cursor_.y + s.current_cy_)

end SimpleAtlasAlgorithm

end d3d11

end sandy

/-! ## Buffer.h, Buffer.cpp: partial updates and the dynamic vertex buffer -/

namespace sandy

namespace d3d11

/-- Unsigned 64-bit arithmetic (`size_t`): the value of a result after
wrap-around. -/
def wrap_size_t (x : Nat) : Nat := x % 2 ^ 64

/-- The exceptions thrown by the buffer classes: `std::out_of_range` with
its message. -/
inductive Exception where
  | out_of_range (what : String)
deriving DecidableEq, Repr

/-- The outcome of a call that may throw. -/
inductive Outcome (α : Type) where
  | returned (a : α)
  | threw (e : Exception)
deriving DecidableEq, Repr

/-- Whether the call threw `std::out_of_range`. -/
def Outcome.raised {α : Type} : Outcome α → Bool
  | Outcome.returned _ => false
  | Outcome.threw _ => true

/-- The `D3D11_BOX` of a buffer update: the bytes from `left` up to `right`
(the other four members are 0, 0, 1, 1 for a buffer). -/
structure D3D11_BOX where
  left : Nat
  top : Nat
  front : Nat
  right : Nat
  bottom : Nat
  back : Nat
deriving DecidableEq, Repr

/-- What `BufferResource` knows of its buffer: `Desc.ByteWidth` (a `UINT`). -/
structure BufferResource where
  ByteWidth : Nat
deriving DecidableEq, Repr

/-- `BufferResource::UpdatePartial(context, data, index, length)`: the
exception thrown, or the box handed to `UpdateSubresource`, which copies
`data` to the bytes of the box. -/
def BufferResource.UpdatePartial (b : BufferResource) (index length : Nat) :
    Outcome D3D11_BOX :=
  if index < b.ByteWidth then Outcome.threw (Exception.out_of_range "index")
  else if wrap_size_t (length + length) < b.ByteWidth then
    Outcome.threw (Exception.out_of_range "index + length")
  else
    Outcome.returned
      ⟨index % 2 ^ 32, 0, 0, wrap_size_t (index + length) % 2 ^ 32, 1, 1⟩

/-- A `TypedBufferResource<T>`: the buffer, `Stride = sizeof(T)` and
`Count`. -/
structure TypedBufferResource where
  base : BufferResource
  Stride : Nat
  Count : Nat
deriving DecidableEq, Repr

/-- The constructor of `TypedBufferResource<T>` for a buffer of `ByteWidth`
bytes: `Count(desc.ByteWidth / Stride)`. -/
def TypedBufferResource.constructed (ByteWidth Stride : Nat) : TypedBufferResource :=
  { base := ⟨ByteWidth⟩, Stride := Stride, Count := ByteWidth / Stride }

/-- `TypedBufferResource<T>::UpdatePartial(context, data, index, count)`. -/
def TypedBufferResource.UpdatePartial (b : TypedBufferResource) (index count : Nat) :
    Outcome D3D11_BOX :=
  if index > b.Count then Outcome.threw (Exception.out_of_range "index")
  else if wrap_size_t (index + count) > b.Count then
    Outcome.threw (Exception.out_of_range "index + count")
  else b.base.UpdatePartial (wrap_size_t (index * b.Stride)) (wrap_size_t (count * b.Stride))

/-- A `DynamicVertexBuffer<T>`: `Count`, `Cursor` and the elements of the
mapped buffer, `none` for an element whose value is undefined. -/
structure DynamicVertexBuffer (T : Type) where
  Count : Nat
  Cursor : Nat
  elements : Nat → Option T

namespace DynamicVertexBuffer

variable {T : Type}

/-- The constructor for `count_of_elements` elements (with
`sizeof(T) * count_of_elements` within a `UINT`, so that `Count` is
`count_of_elements`): `Cursor{}` and a buffer with no element written. -/
def constructed (count_of_elements : Nat) : DynamicVertexBuffer T :=
  { Count := count_of_elements, Cursor := 0, elements := fun _ => none }

/-- `Map(context, desired_count)`, the mapping itself succeeding: the index
of the first element of the view returned and the state afterwards.
`D3D11_MAP_WRITE_NO_OVERWRITE` keeps the elements, `D3D11_MAP_WRITE_DISCARD`
leaves all of them undefined. -/
def Map (b : DynamicVertexBuffer T) (desired_count : Nat) :
    Outcome (Nat × DynamicVertexBuffer T) :=
  if wrap_size_t (b.Cursor + desired_count) ≤ b.Count then Outcome.returned (b.Cursor, b)
  else if desired_count ≤ b.Count then
    Outcome.returned (0, { b with Cursor := 0, elements := fun _ => none })
  else Outcome.threw (Exception.out_of_range "count too large")

/-- `Unmap(context, wrote_count)`: `std::exchange(Cursor, Cursor + wrote_count)`. -/
def Unmap (b : DynamicVertexBuffer T) (wrote_count : Nat) : Nat × DynamicVertexBuffer T :=
  (b.Cursor, { b with Cursor := wrap_size_t (b.Cursor + wrote_count) })

/-- `for (size_t i = 0; i < count; ++i) view[i] = *data++;` from `i` on, the
view starting at element `start` and `data` being what is left to copy. -/
def Append_copy (start : Nat) : List T → Nat → (Nat → Option T) → (Nat → Option T)
  | [], _, elements => elements
  | x :: rest, i, elements =>
    Append_copy start rest (i + 1)
      (fun j => if j = start + i then some x else elements j)

/-- `Append(context, data, count)` with `data` the `count` elements
passed: the exception thrown, or the index returned and the state
afterwards. -/
def Append (b : DynamicVertexBuffer T) (data : List T) :
    Outcome (Nat × DynamicVertexBuffer T) :=
  match b.Map data.length with
  | Outcome.threw e => Outcome.threw e
  | Outcome.returned (start, b1) =>
    Outcome.returned
      (Unmap { b1 with elements := Append_copy start data 0 b1.elements } data.length)

/-- The state after a sequence of `Append` calls; a call that throws leaves
the buffer as it was. -/
def append_run (b : DynamicVertexBuffer T) : List (List T) → DynamicVertexBuffer T
  | [] => b
  | data :: rest =>
    match b.Append data with
    | Outcome.returned (_, b1) => append_run b1 rest
    | Outcome.threw _ => append_run b rest

end DynamicVertexBuffer

end d3d11

end sandy

/-! ## GdipFontGlyphBitmapLoader.cpp: ClipRect -/

namespace sandy

namespace gdip

/-- `Gdiplus::Rect`: four `INT`s; it covers the pixels `(x, y)` with
`X <= x < X + Width` and `Y <= y < Y + Height`. -/
structure Rect where
  X : Int
  Y : Int
  Width : Int
  Height : Int
deriving DecidableEq, Repr

/-- `Gdiplus::Point`: two `INT`s. -/
structure Point where
  X : Int
  Y : Int
deriving DecidableEq, Repr

/-- `ClipRect(src_rect, dst_pos, dst_clip)`: `src_rect` and `dst_pos` as the
call leaves them. -/
def ClipRect (src_rect : Rect) (dst_pos : Point) (dst_clip : Rect) : Rect × Point :=
  let r1 : Rect × Point :=
    if dst_pos.X < dst_clip.X then
      ({ src_rect with
          X := wrap_int32 (src_rect.X - wrap_int32 (dst_pos.X - dst_clip.X)),
          Width := wrap_int32 (src_rect.Width
            - wrap_int32 (wrap_int32 (-dst_pos.X) - dst_clip.X)) },
        { dst_pos with X := dst_clip.X })
    else (src_rect, dst_pos)
  let r2 : Rect × Point :=
    if r1.2.Y < dst_clip.Y then
      ({ r1.1 with
          Y := wrap_int32 (r1.1.Y - wrap_int32 (r1.2.Y - dst_clip.Y)),
          Height := wrap_int32 (r1.1.Height
            - wrap_int32 (wrap_int32 (-r1.2.Y) - dst_clip.Y)) },
        { r1.2 with Y := dst_clip.Y })
    else r1
  ({ r2.1 with
      Width := std.clamp r2.1.Width 0
        (wrap_int32 (wrap_int32 (dst_clip.X + dst_clip.Width) - r2.2.X)),
      Height := std.clamp r2.1.Height 0
        (wrap_int32 (wrap_int32 (dst_clip.Y + dst_clip.Height) - r2.2.Y)) },
    r2.2)

/-- The pixel `(x, y)` lies in the rectangle. -/
def Rect.covers (r : Rect) (x y : Int) : Prop :=
  r.X ≤ x ∧ x < r.X + r.Width ∧ r.Y ≤ y ∧ y < r.Y + r.Height

/-- `Gdiplus::Rect(left, top, right - left, bottom - top)`, as
`BitBlt32bppArgb` makes its rectangles from the `RECT`s passed. -/
def Rect.of_RECT (r : d3d11.RECT) : Rect :=
  ⟨r.left, r.top, wrap_int32 (r.right - r.left), wrap_int32 (r.bottom - r.top)⟩

end gdip

end sandy

/-! ## SurfaceFormatConverter.cpp: NV12 to A8R8G8B8 -/

namespace sandy

/-- Signed 16-bit conversion (`int16_t`): the value after wrap-around into
the range from `-2^15` to `2^15 - 1`. -/
def wrap_int16 (x : Int) : Int := (x + 2 ^ 15) % 2 ^ 16 - 2 ^ 15

namespace mf

namespace sfc

/-- The template arguments of `TransformImage_NV12_to_A8R8G8B8`. -/
structure Kernel where
  kYrgb : Int
  kUr : Int
  kUg : Int
  kUb : Int
  kVr : Int
  kVg : Int
  kVb : Int
deriving DecidableEq, Repr

/-- `static_cast<int>(c * 256)` for the constant `c = thousandths / 1000`:
the product cut off towards zero. (The `double` nearest to `c` times 256 is
within `10^-13` of the exact product, which for the constants of the source
is at least `0.008` away from an integer.) -/
def scaled (thousandths : Int) : Int := Int.tdiv (thousandths * 256) 1000

/-- The template arguments `TransformImage_NV12_BT601_to_A8R8G8B8` passes. -/
def BT601 : Kernel :=
  { kYrgb := scaled 1164,
    kUr := scaled 0,
    kVr := scaled 1596,
    kUg := scaled (-391),
    kVg := scaled (-813),
    kUb := scaled 2018,
    kVb := scaled 0 }

/-- The template arguments `TransformImage_NV12_BT709_to_A8R8G8B8` passes. -/
def BT709 : Kernel :=
  { kYrgb := scaled 1164,
    kUr := scaled 0,
    kVr := scaled 1793,
    kUg := scaled (-213),
    kVg := scaled (-533),
    kUb := scaled 2112,
    kVb := scaled 0 }

/-- `constexpr int kPreShift = 3;` -/
def kPreShift : Nat := 3

/-- `constexpr int kPostShift = 8 - kPreShift;` -/
def kPostShift : Nat := 8 - kPreShift

namespace Kernel

/-- `static constexpr int16_t kRGBy = kYrgb >> kPreShift;` -/
def kRGBy (k : Kernel) : Int := wrap_int16 (k.kYrgb >>> kPreShift)

/-- `static constexpr int16_t kRu = kUr >> kPreShift;` -/
def kRu (k : Kernel) : Int := wrap_int16 (k.kUr >>> kPreShift)

/-- `static constexpr int16_t kRv = kVr >> kPreShift;` -/
def kRv (k : Kernel) : Int := wrap_int16 (k.kVr >>> kPreShift)

/-- `static constexpr int16_t kGu = kUg >> kPreShift;` -/
def kGu (k : Kernel) : Int := wrap_int16 (k.kUg >>> kPreShift)

/-- `static constexpr int16_t kGv = kVg >> kPreShift;` -/
def kGv (k : Kernel) : Int := wrap_int16 (k.kVg >>> kPreShift)

/-- `static constexpr int16_t kBu = kUb >> kPreShift;` -/
def kBu (k : Kernel) : Int := wrap_int16 (k.kUb >>> kPreShift)

/-- `static constexpr int16_t kBv = kVb >> kPreShift;` -/
def kBv (k : Kernel) : Int := wrap_int16 (k.kVb >>> kPreShift)

end Kernel

/-- `n & ~1` for a `size_t` `n`. -/
def even_floor (n : Nat) : Nat := n &&& (2 ^ 64 - 2)

/-- One colour byte as the scalar loop computes it:
`static_cast<byte_t>(std::clamp((ky * y + ku * cb + kv * cr) >> kPostShift, 0, 255))`
in `int` arithmetic. -/
def channel (ky ku kv y cb cr : Int) : Int :=
  std.clamp
      (wrap_int32 (wrap_int32 (wrap_int32 (ky * y) + wrap_int32 (ku * cb))
        + wrap_int32 (kv * cr)) >>> kPostShift)
      0 255
    % 256

/-- The memory after the assignment `p[0] = v` for the byte pointer at
address `a`. -/
def store (m : Int → Int) (a v : Int) : Int → Int := fun j => if j = a then v else m j

/-- The four assignments of the scalar loop for one pixel at `p`: blue,
green, red for the luma `y` and the chroma `cb`, `cr`, and 255. -/
def store_bgra (k : Kernel) (m : Int → Int) (p y cb cr : Int) : Int → Int :=
  store
    (store
      (store (store m (p + 0) (channel k.kRGBy k.kBu k.kBv y cb cr))
        (p + 1) (channel k.kRGBy k.kGu k.kGv y cb cr))
      (p + 2) (channel k.kRGBy k.kRu k.kRv y cb cr))
    (p + 3) (255 % 256)

/-- The body of the scalar loop `for (; x < (width & ~1); x += 2)` up to
the increments of the two destination pointers: four pixels from four luma
bytes and one pair of chroma bytes. Source bytes are read from `luma` and
`chroma`, indexed by their offset from `src_luma_plain` and
`src_chroma_plain`; the destination memory is indexed by the offset from
`dst`. -/
def scalar_step (k : Kernel) (luma chroma : Int → Int) (src_luma0 src_luma1 src_chroma : Int)
    (x : Nat) (dst_bgra0 dst_bgra1 : Int) (m : Int → Int) : Int → Int :=
  let y00 := luma (src_luma0 + (x + 0)) - 16
  let y01 := luma (src_luma0 + (x + 1)) - 16
  let y10 := luma (src_luma1 + (x + 0)) - 16
  let y11 := luma (src_luma1 + (x + 1)) - 16
  let cb := chroma (src_chroma + (x + 0)) - 128
  let cr := chroma (src_chroma + (x + 1)) - 128
  let m1 := store_bgra k m (dst_bgra0 + 0) y00 cb cr
  let m2 := store_bgra k m1 (dst_bgra0 + 4) y01 cb cr
  let m3 := store_bgra k m2 (dst_bgra1 + 0) y10 cb cr
  store_bgra k m3 (dst_bgra1 + 4) y11 cb cr

/-- The scalar loop `for (; x < (width & ~1); x += 2)` with its pointer
increments, run for at most `fuel` iterations; `none` when the fuel runs out
before the loop exits. -/
def scalar_loop (k : Kernel) (luma chroma : Int → Int)
    (src_luma0 src_luma1 src_chroma : Int) (width : Nat) :
    Nat → Nat → Int → Int → (Int → Int) → Option (Int → Int)
  | 0, x, _, _, m => if x < even_floor width then none else some m
  | fuel + 1, x, dst_bgra0, dst_bgra1, m =>
    if x < even_floor width then
      scalar_loop k luma chroma src_luma0 src_luma1 src_chroma width fuel (x + 2)
        (dst_bgra0 + 8) (dst_bgra1 + 8)
        (scalar_step k luma chroma src_luma0 src_luma1 src_chroma x dst_bgra0 dst_bgra1 m)
    else some m

/-- `n & ~15` for a `size_t` `n`. -/
def floor16 (n : Nat) : Nat := n &&& (2 ^ 64 - 16)

/-- `n & ~31` for a `size_t` `n`. -/
def floor32 (n : Nat) : Nat := n &&& (2 ^ 64 - 32)

/-- The width the loops run over, lines 48 to 66: `image_width & ~1`,
rounded up to the next multiple of 32 when it is none and both strides
leave room for it, and then to the next multiple of 16 when it is none and
both strides leave room for that. Sums and products are those of `size_t`;
`static_cast<size_t>(std::abs(stride))` is the absolute value. -/
def rounded_width (dst_stride src_stride : Int) (image_width : Nat) : Nat :=
  let width := even_floor image_width
  let width :=
    let rounded_up := floor32 (d3d11.wrap_size_t (width + 31))
    if width &&& 31 ≠ 0 ∧ src_stride.natAbs ≥ d3d11.wrap_size_t (rounded_up * 1)
        ∧ dst_stride.natAbs ≥ d3d11.wrap_size_t (rounded_up * 4) then rounded_up
    else width
  let rounded_up := floor16 (d3d11.wrap_size_t (width + 15))
  if width &&& 15 ≠ 0 ∧ src_stride.natAbs ≥ d3d11.wrap_size_t (rounded_up * 1)
      ∧ dst_stride.natAbs ≥ d3d11.wrap_size_t (rounded_up * 4) then rounded_up
  else width

/-- What the two blocks written with the vector types of `ark/xmm.h`
compute. That header is not among the sources, so the values are taken as
given: `block32 k y c i` is byte `i`, below 128, of the four vectors
`bgra00` to `bgra03` (and likewise `bgra10` to `bgra13`) that the block for
32 pixels makes of the 32 bytes `y` loaded from a row of luma and the 32
bytes `c` loaded from the row of chroma, and `block16 k y c i` is byte `i`,
below 64, of the two vectors `bgra00`, `bgra01` (and likewise `bgra10`,
`bgra11`) that the block for 16 pixels makes of 16 bytes of luma and 16
bytes of chroma. In both blocks the vectors of the second row are made of
the luma of that row and the same chroma by the same operations. -/
structure VectorCode where
  block32 : Kernel → List Int → List Int → Nat → Int
  block16 : Kernel → List Int → List Int → Nat → Int

/-- `load_u` of a vector of `n` bytes at the address `a`. -/
def load_u (mem : Int → Int) (a : Int) (n : Nat) : List Int :=
  (List.range n).map (fun i => mem (a + i))

/-- The memory after `store_u` of a vector of `n` bytes `v 0`, `v 1`, ... at
the address `p`. -/
def store_u (m : Int → Int) (p : Int) (n : Nat) (v : Nat → Int) : Int → Int :=
  fun j => if p ≤ j ∧ j < p + n then v (j - p).toNat else m j

/-- The body of the loop `for (; x < (width & ~31); x += 32)` up to the
increments of the two destination pointers: three loads of 32 bytes, and
four stores of 32 bytes to each of the two destination rows. -/
def vector32_step (V : VectorCode) (k : Kernel) (luma chroma : Int → Int)
    (src_luma0 src_luma1 src_chroma : Int) (x : Nat) (dst_bgra0 dst_bgra1 : Int)
    (m : Int → Int) : Int → Int :=
  let y0 := load_u luma (src_luma0 + x) 32
  let y1 := load_u luma (src_luma1 + x) 32
  let c0 := load_u chroma (src_chroma + x) 32
  let bgra0 := V.block32 k y0 c0
  let bgra1 := V.block32 k y1 c0
  let m1 := store_u m (dst_bgra0 + 32 * 0) 32 (fun i => bgra0 (32 * 0 + i))
  let m2 := store_u m1 (dst_bgra0 + 32 * 1) 32 (fun i => bgra0 (32 * 1 + i))
  let m3 := store_u m2 (dst_bgra0 + 32 * 2) 32 (fun i => bgra0 (32 * 2 + i))
  let m4 := store_u m3 (dst_bgra0 + 32 * 3) 32 (fun i => bgra0 (32 * 3 + i))
  let m5 := store_u m4 (dst_bgra1 + 32 * 0) 32 (fun i => bgra1 (32 * 0 + i))
  let m6 := store_u m5 (dst_bgra1 + 32 * 1) 32 (fun i => bgra1 (32 * 1 + i))
  let m7 := store_u m6 (dst_bgra1 + 32 * 2) 32 (fun i => bgra1 (32 * 2 + i))
  store_u m7 (dst_bgra1 + 32 * 3) 32 (fun i => bgra1 (32 * 3 + i))

/-- The loop `for (; x < (width & ~31); x += 32)` with its pointer
increments of `sizeof(vu32x8) * 4`, run for at most `fuel` iterations: the
column and the destination pointers it leaves, and the memory; `none` when
the fuel runs out before the loop exits. -/
def vector32_loop (V : VectorCode) (k : Kernel) (luma chroma : Int → Int)
    (src_luma0 src_luma1 src_chroma : Int) (width : Nat) :
    Nat → Nat → Int → Int → (Int → Int) → Option (Nat × Int × Int × (Int → Int))
  | 0, x, dst_bgra0, dst_bgra1, m =>
    if x < floor32 width then none else some (x, dst_bgra0, dst_bgra1, m)
  | fuel + 1, x, dst_bgra0, dst_bgra1, m =>
    if x < floor32 width then
      vector32_loop V k luma chroma src_luma0 src_luma1 src_chroma width fuel (x + 32)
        (dst_bgra0 + 32 * 4) (dst_bgra1 + 32 * 4)
        (vector32_step V k luma chroma src_luma0 src_luma1 src_chroma x dst_bgra0 dst_bgra1 m)
    else some (x, dst_bgra0, dst_bgra1, m)

/-- The body of the loop `for (; x < (width & ~15); x += 16)` up to the
increments of the two destination pointers: three loads of 16 bytes, and
two stores of 32 bytes to each of the two destination rows. -/
def vector16_step (V : VectorCode) (k : Kernel) (luma chroma : Int → Int)
    (src_luma0 src_luma1 src_chroma : Int) (x : Nat) (dst_bgra0 dst_bgra1 : Int)
    (m : Int → Int) : Int → Int :=
  let y0 := load_u luma (src_luma0 + x) 16
  let y1 := load_u luma (src_luma1 + x) 16
  let c0 := load_u chroma (src_chroma + x) 16
  let bgra0 := V.block16 k y0 c0
  let bgra1 := V.block16 k y1 c0
  let m1 := store_u m (dst_bgra0 + 32 * 0) 32 (fun i => bgra0 (32 * 0 + i))
  let m2 := store_u m1 (dst_bgra0 + 32 * 1) 32 (fun i => bgra0 (32 * 1 + i))
  let m3 := store_u m2 (dst_bgra1 + 32 * 0) 32 (fun i => bgra1 (32 * 0 + i))
  store_u m3 (dst_bgra1 + 32 * 1) 32 (fun i => bgra1 (32 * 1 + i))

/-- The loop `for (; x < (width & ~15); x += 16)` with its pointer
increments of `sizeof(vu32x8) * 2`, run for at most `fuel` iterations from
the column and the pointers the loop before it left. -/
def vector16_loop (V : VectorCode) (k : Kernel) (luma chroma : Int → Int)
    (src_luma0 src_luma1 src_chroma : Int) (width : Nat) :
    Nat → Nat → Int → Int → (Int → Int) → Option (Nat × Int × Int × (Int → Int))
  | 0, x, dst_bgra0, dst_bgra1, m =>
    if x < floor16 width then none else some (x, dst_bgra0, dst_bgra1, m)
  | fuel + 1, x, dst_bgra0, dst_bgra1, m =>
    if x < floor16 width then
      vector16_loop V k luma chroma src_luma0 src_luma1 src_chroma width fuel (x + 16)
        (dst_bgra0 + 32 * 2) (dst_bgra1 + 32 * 2)
        (vector16_step V k luma chroma src_luma0 src_luma1 src_chroma x dst_bgra0 dst_bgra1 m)
    else some (x, dst_bgra0, dst_bgra1, m)

/-- The body of the loop over `y`: the row pointers for the rows `y` and
`y + 1`, then from `x = 0` the loop over blocks of 32 columns, the loop over
blocks of 16 columns and the scalar loop, each from the column and the
destination pointers the one before it left. -/
def rows_step (V : VectorCode) (k : Kernel) (dst_stride : Int) (luma chroma : Int → Int)
    (src_stride : Int) (width y : Nat) (m : Int → Int) : Option (Int → Int) :=
  let src_luma0 := src_stride * (y + 0)
  let src_luma1 := src_stride * (y + 1)
  let src_chroma := src_stride * (y / 2 : Nat)
  match vector32_loop V k luma chroma src_luma0 src_luma1 src_chroma width width 0
      (dst_stride * (y + 0)) (dst_stride * (y + 1)) m with
  | none => none
  | some (x, dst_bgra0, dst_bgra1, m1) =>
    match vector16_loop V k luma chroma src_luma0 src_luma1 src_chroma width width x
        dst_bgra0 dst_bgra1 m1 with
    | none => none
    | some (x, dst_bgra0, dst_bgra1, m2) =>
      scalar_loop k luma chroma src_luma0 src_luma1 src_chroma width width x dst_bgra0
        dst_bgra1 m2

/-- The loop `for (size_t y = 0; y < (height & ~1); y += 2)`, run for at
most `fuel` iterations. -/
def rows_loop (V : VectorCode) (k : Kernel) (dst_stride : Int) (luma chroma : Int → Int)
    (src_stride : Int) (width height : Nat) : Nat → Nat → (Int → Int) → Option (Int → Int)
  | 0, y, m => if y < even_floor height then none else some m
  | fuel + 1, y, m =>
    if y < even_floor height then
      match rows_step V k dst_stride luma chroma src_stride width y m with
      | none => none
      | some m1 => rows_loop V k dst_stride luma chroma src_stride width height fuel (y + 2) m1
    else some m

/-- `TransformImage_NV12_to_A8R8G8B8<k>` as it is built, with the blocks
under `__AVX2__` (the file does not compile without it): the destination
memory afterwards. Source bytes are read from `luma` and `chroma`, indexed
by their offset from `src_luma_plain` and `src_chroma_plain`; the
destination memory is indexed by the offset from `dst`. -/
def TransformImage_NV12_to_A8R8G8B8 (V : VectorCode) (k : Kernel) (dst : Int → Int)
    (dst_stride : Int) (luma chroma : Int → Int) (src_stride : Int)
    (image_width image_height : Nat) : Option (Int → Int) :=
  let height := even_floor image_height
  let width := rounded_width dst_stride src_stride image_width
  rows_loop V k dst_stride luma chroma src_stride width height height 0 dst

/-- `TransformImage_NV12_BT601_to_A8R8G8B8`. -/
def TransformImage_NV12_BT601_to_A8R8G8B8 (V : VectorCode) (dst : Int → Int)
    (dst_stride : Int) (luma chroma : Int → Int) (src_stride : Int)
    (image_width image_height : Nat) : Option (Int → Int) :=
  TransformImage_NV12_to_A8R8G8B8 V BT601 dst dst_stride luma chroma src_stride image_width
    image_height

/-- `TransformImage_NV12_BT709_to_A8R8G8B8`. -/
def TransformImage_NV12_BT709_to_A8R8G8B8 (V : VectorCode) (dst : Int → Int)
    (dst_stride : Int) (luma chroma : Int → Int) (src_stride : Int)
    (image_width image_height : Nat) : Option (Int → Int) :=
  TransformImage_NV12_to_A8R8G8B8 V BT709 dst dst_stride luma chroma src_stride image_width
    image_height

/-- The colour byte the conversion is said to give: the sum of the luma
minus 16 and the chroma bytes minus 128, each times its coefficient, shifted
right by 5 and clamped to the range of a byte. -/
def converted (kY kU kV Y Cb Cr : Int) : Int :=
  std.clamp ((kY * (Y - 16) + kU * (Cb - 128) + kV * (Cr - 128)) >>> (5 : Nat)) 0 255

end sfc

end mf

end sandy

namespace sandy

namespace mf

namespace sfc

/-- Byte `c` (0 blue, 1 green, 2 red, else alpha) of the pixel in column
`x` of a row, as the scalar loop computes it from the luma byte of the
pixel, at `x` from `src_luma`, and the pair of chroma bytes at the even
column `2 * (x / 2)` and the next one from `src_chroma`. -/
def pixel (k : Kernel) (luma chroma : Int → Int) (src_luma src_chroma : Int) (x c : Nat) :
    Int :=
  let y := luma (src_luma + x) - 16
  let cb := chroma (src_chroma + (2 * (x / 2) : Nat)) - 128
  let cr := chroma (src_chroma + ((2 * (x / 2) : Nat) + 1)) - 128
  match c with
  | 0 => channel k.kRGBy k.kBu k.kBv y cb cr
  | 1 => channel k.kRGBy k.kGu k.kGv y cb cr
  | 2 => channel k.kRGBy k.kRu k.kRv y cb cr
  | _ => 255

end sfc

end mf

end sandy

namespace sandy

namespace mf

/-- The number of end-of-stream rewinds (`Seek(0)` and `++loop_count`) in a
record. -/
def rewinds : List Effect → Nat
  | [] => 0
  | Effect.rewound :: es => rewinds es + 1
  | _ :: es => rewinds es

/-- The loop body asks for the current media type in this iteration:
`!frame_media_type_ || (flags & MF_SOURCE_READERF_CURRENTMEDIATYPECHANGED)`. -/
def Worker.queries_media_type (w : Worker) (rd : ReadSampleResult) : Bool :=
  w.frame_media_type_.isNone || rd.flags_media_type_changed

end mf

end sandy

namespace sandy

namespace mf

namespace sfc

/-- Byte `i` of a destination row as the loop over blocks of 32 columns
leaves it: byte `i % 128` of the block `i / 128`, made of the 32 luma bytes
at `src_luma + 32 * (i / 128)` and the 32 chroma bytes of those columns. -/
def row32 (V : VectorCode) (k : Kernel) (luma chroma : Int → Int) (src_luma src_chroma : Int)
    (i : Nat) : Int :=
  V.block32 k (load_u luma (src_luma + (32 * (i / 128) : Nat)) 32)
    (load_u chroma (src_chroma + (32 * (i / 128) : Nat)) 32) (i % 128)

/-- Byte `i` of a destination row as the loop over blocks of 16 columns
leaves it: byte `i % 64` of the block made of the 16 luma bytes at
`src_luma + 16 * (i / 64)` and the 16 chroma bytes of those columns. -/
def row16 (V : VectorCode) (k : Kernel) (luma chroma : Int → Int) (src_luma src_chroma : Int)
    (i : Nat) : Int :=
  V.block16 k (load_u luma (src_luma + (16 * (i / 64) : Nat)) 16)
    (load_u chroma (src_chroma + (16 * (i / 64) : Nat)) 16) (i % 64)

/-- Byte `i` of a destination row of `width` columns after the three loops:
the columns below `width & ~31` come from the blocks of 32, those below
`width & ~15` from the blocks of 16, the others from the scalar loop. -/
def row_bytes (V : VectorCode) (k : Kernel) (luma chroma : Int → Int)
    (src_luma src_chroma : Int) (width i : Nat) : Int :=
  if i < 4 * floor32 width then row32 V k luma chroma src_luma src_chroma i
  else if i < 4 * floor16 width then row16 V k luma chroma src_luma src_chroma i
  else pixel k luma chroma src_luma src_chroma (i / 4) (i % 4)

end sfc

end mf

end sandy

/-! ## Properties of the queue operations -/

namespace sandy

namespace ConcurrentQueue

variable {T : Type}

theorem emplace_pred_eq (q : ConcurrentQueue T) (val : T) :
    q.emplace_pred val =
      if q.size < q.capacity then (true, { q with queue_ := q.queue_ ++ [some val] })
      else (false, q) := rfl

theorem emplace_wait_of_lt (q : ConcurrentQueue T) (val : T) (h : q.size < q.capacity) :
    q.emplace_wait val = Call.returned true { q with queue_ := q.queue_ ++ [some val] } := by
  have h1 : q.queue_.length < q.capacity_ := h
  simp [emplace_wait, emplace_pred, h1]

theorem emplace_wait_of_ge (q : ConcurrentQueue T) (val : T) (h : q.capacity ≤ q.size) :
    q.emplace_wait val = Call.waiting q := by
  have h1 : ¬ q.queue_.length < q.capacity_ := Nat.not_lt.mpr h
  simp [emplace_wait, emplace_pred, h1]

theorem emplace_of_closed (q : ConcurrentQueue T) (val : T) (h : q.closed_ = true) :
    q.emplace val = Call.returned false q := by
  simp [emplace, h]

theorem emplace_of_open (q : ConcurrentQueue T) (val : T) (h : q.closed_ = false) :
    q.emplace val = q.emplace_wait val := by
  simp [emplace, h]

theorem pop_wait_wait_nil_closed (q : ConcurrentQueue T) (h : q.queue_ = [])
    (hc : q.closed_ = true) : q.pop_wait_wait = Call.returned none q := by
  simp [pop_wait_wait, pop_wait_pred, closed, h, hc]

theorem pop_wait_wait_nil_open (q : ConcurrentQueue T) (h : q.queue_ = [])
    (hc : q.closed_ = false) : q.pop_wait_wait = Call.waiting q := by
  simp [pop_wait_wait, pop_wait_pred, closed, try_pop, h, hc]

theorem pop_wait_wait_cons_some (q : ConcurrentQueue T) (x : T) (rest : List (Option T))
    (h : q.queue_ = some x :: rest) :
    q.pop_wait_wait = Call.returned (some x) { q with queue_ := rest } := by
  simp [pop_wait_wait, pop_wait_pred, closed, try_pop, h]

theorem pop_wait_wait_cons_none (q : ConcurrentQueue T) (rest : List (Option T))
    (h : q.queue_ = none :: rest) :
    q.pop_wait_wait = Call.waiting { q with queue_ := rest } := by
  simp [pop_wait_wait, pop_wait_pred, closed, try_pop, h]

/-- Whenever the predicate of `pop_wait` is false, the local `ret` is empty
again, whatever it held before. -/
theorem pop_wait_pred_false_ret (q : ConcurrentQueue T) (ret : Option T)
    (h : (q.pop_wait_pred ret).1 = false) : (q.pop_wait_pred ret).2.1 = none := by
  unfold pop_wait_pred at h ⊢
  by_cases hc : q.closed = true
  · simp [hc] at h
  · simp only [hc] at h ⊢
    cases hq : q.queue_ with
    | nil => simp [try_pop, hq]
    | cons x rest =>
      simp only [try_pop, hq] at h ⊢
      cases x with
      | none => rfl
      | some v => simp at h

end ConcurrentQueue

end sandy

namespace sandy

namespace System

variable {T : Type}

theorem run_append (s : System T) (es fs : List (Event T)) :
    s.run (es ++ fs) = (s.run es).run fs := by
  induction es generalizing s with
  | nil => rfl
  | cons e es ih => simp [run, ih]

theorem outputs_append (s : System T) (es fs : List (Event T)) :
    s.outputs (es ++ fs) = s.outputs es ++ (s.run es).outputs fs := by
  induction es generalizing s with
  | nil => rfl
  | cons e es ih => simp [run, outputs, ih]

theorem outputs_length (s : System T) (es : List (Event T)) :
    (s.outputs es).length = es.length := by
  induction es generalizing s with
  | nil => rfl
  | cons e es ih => simp [outputs, ih]

/-- No event changes the capacity. -/
theorem step_capacity (s : System T) (e : Event T) :
    (s.step e).2.queue.capacity = s.queue.capacity := by
  cases e with
  | emplace val =>
    simp only [step, ConcurrentQueue.emplace, ConcurrentQueue.emplace_wait,
      ConcurrentQueue.emplace_pred]
    by_cases hc : s.queue.closed_ = true
    · simp [hc]
    · by_cases hl : s.queue.queue_.length < s.queue.capacity_ <;>
        simp [hc, hl, ConcurrentQueue.capacity]
  | emplace_wake i =>
    simp only [step]
    cases s.producers[i]? with
    | none => rfl
    | some val =>
      by_cases hl : s.queue.queue_.length < s.queue.capacity_ <;>
        simp [hl, ConcurrentQueue.capacity, ConcurrentQueue.emplace_wait,
          ConcurrentQueue.emplace_pred]
  | close => rfl
  | try_pop =>
    simp only [step, ConcurrentQueue.try_pop]
    cases s.queue.queue_ <;> rfl
  | pop_wait =>
    cases hq : s.queue.queue_ with
    | nil =>
      cases hc : s.queue.closed_
      · simp [step, ConcurrentQueue.pop_wait, ConcurrentQueue.pop_wait_wait_nil_open _ hq hc]
      · simp [step, ConcurrentQueue.pop_wait, ConcurrentQueue.pop_wait_wait_nil_closed _ hq hc]
    | cons x rest =>
      cases x with
      | none =>
        simp [step, ConcurrentQueue.pop_wait, ConcurrentQueue.pop_wait_wait_cons_none _ _ hq,
          ConcurrentQueue.capacity]
      | some v =>
        simp [step, ConcurrentQueue.pop_wait, ConcurrentQueue.pop_wait_wait_cons_some _ _ _ hq,
          ConcurrentQueue.capacity]
  | pop_wait_wake =>
    simp only [step]
    cases s.consumers with
    | zero => rfl
    | succ n =>
      cases hq : s.queue.queue_ with
      | nil =>
        cases hc : s.queue.closed_
        · simp [ConcurrentQueue.pop_wait_wait_nil_open _ hq hc]
        · simp [ConcurrentQueue.pop_wait_wait_nil_closed _ hq hc]
      | cons x rest =>
        cases x with
        | none =>
          simp [ConcurrentQueue.pop_wait_wait_cons_none _ _ hq, ConcurrentQueue.capacity]
        | some v =>
          simp [ConcurrentQueue.pop_wait_wait_cons_some _ _ _ hq, ConcurrentQueue.capacity]

end System

end sandy

namespace sandy

namespace System

variable {T : Type}

/-! ### What each event does, case by case -/

theorem step_emplace_closed (s : System T) (val : T) (hc : s.queue.closed_ = true) :
    s.step (Event.emplace val) = (Output.emplace_returned false, s) := by
  simp [step, ConcurrentQueue.emplace_of_closed _ _ hc]

theorem step_emplace_room (s : System T) (val : T) (hc : s.queue.closed_ = false)
    (hl : s.queue.size < s.queue.capacity) :
    s.step (Event.emplace val) =
      (Output.emplace_returned true,
        { s with queue := { s.queue with queue_ := s.queue.queue_ ++ [some val] } }) := by
  simp [step, ConcurrentQueue.emplace_of_open _ _ hc, ConcurrentQueue.emplace_wait_of_lt _ _ hl]

theorem step_emplace_full (s : System T) (val : T) (hc : s.queue.closed_ = false)
    (hl : s.queue.capacity ≤ s.queue.size) :
    s.step (Event.emplace val) =
      (Output.parked, { s with producers := s.producers ++ [val] }) := by
  simp [step, ConcurrentQueue.emplace_of_open _ _ hc, ConcurrentQueue.emplace_wait_of_ge _ _ hl]

theorem step_wake_none (s : System T) (i : Nat) (hi : s.producers[i]? = none) :
    s.step (Event.emplace_wake i) = (Output.no_thread, s) := by
  simp [step, hi]

theorem step_wake_room (s : System T) (i : Nat) (val : T) (hi : s.producers[i]? = some val)
    (hl : s.queue.size < s.queue.capacity) :
    s.step (Event.emplace_wake i) =
      (Output.emplace_returned true,
        { s with queue := { s.queue with queue_ := s.queue.queue_ ++ [some val] },
                 producers := s.producers.eraseIdx i }) := by
  simp [step, hi, ConcurrentQueue.emplace_wait_of_lt _ _ hl]

theorem step_wake_full (s : System T) (i : Nat) (val : T) (hi : s.producers[i]? = some val)
    (hl : s.queue.capacity ≤ s.queue.size) :
    s.step (Event.emplace_wake i) = (Output.parked, s) := by
  simp [step, hi, ConcurrentQueue.emplace_wait_of_ge _ _ hl]

theorem step_close (s : System T) :
    s.step Event.close = (Output.close_returned, { s with queue := s.queue.close }) := rfl

theorem step_try_pop_nil (s : System T) (hq : s.queue.queue_ = []) :
    s.step Event.try_pop = (Output.try_pop_returned none, s) := by
  simp [step, ConcurrentQueue.try_pop, hq]

theorem step_try_pop_cons (s : System T) (x : Option T) (rest : List (Option T))
    (hq : s.queue.queue_ = x :: rest) :
    s.step Event.try_pop =
      (Output.try_pop_returned x, { s with queue := { s.queue with queue_ := rest } }) := by
  simp [step, ConcurrentQueue.try_pop, hq]

theorem step_pop_wait_nil_closed (s : System T) (hq : s.queue.queue_ = [])
    (hc : s.queue.closed_ = true) :
    s.step Event.pop_wait = (Output.pop_wait_returned none, s) := by
  simp [step, ConcurrentQueue.pop_wait, ConcurrentQueue.pop_wait_wait_nil_closed _ hq hc]

theorem step_pop_wait_nil_open (s : System T) (hq : s.queue.queue_ = [])
    (hc : s.queue.closed_ = false) :
    s.step Event.pop_wait = (Output.parked, { s with consumers := s.consumers + 1 }) := by
  simp [step, ConcurrentQueue.pop_wait, ConcurrentQueue.pop_wait_wait_nil_open _ hq hc]

theorem step_pop_wait_cons_some (s : System T) (x : T) (rest : List (Option T))
    (hq : s.queue.queue_ = some x :: rest) :
    s.step Event.pop_wait =
      (Output.pop_wait_returned (some x),
        { s with queue := { s.queue with queue_ := rest } }) := by
  simp [step, ConcurrentQueue.pop_wait, ConcurrentQueue.pop_wait_wait_cons_some _ _ _ hq]

theorem step_pop_wait_cons_none (s : System T) (rest : List (Option T))
    (hq : s.queue.queue_ = none :: rest) :
    s.step Event.pop_wait =
      (Output.parked,
        { s with queue := { s.queue with queue_ := rest }, consumers := s.consumers + 1 }) := by
  simp [step, ConcurrentQueue.pop_wait, ConcurrentQueue.pop_wait_wait_cons_none _ _ hq]

theorem step_pop_wake_zero (s : System T) (hn : s.consumers = 0) :
    s.step Event.pop_wait_wake = (Output.no_thread, s) := by
  simp [step, hn]

theorem step_pop_wake_nil_closed (s : System T) (n : Nat) (hn : s.consumers = n + 1)
    (hq : s.queue.queue_ = []) (hc : s.queue.closed_ = true) :
    s.step Event.pop_wait_wake =
      (Output.pop_wait_returned none, { s with consumers := n }) := by
  simp [step, hn, ConcurrentQueue.pop_wait_wait_nil_closed _ hq hc]

theorem step_pop_wake_nil_open (s : System T) (n : Nat) (hn : s.consumers = n + 1)
    (hq : s.queue.queue_ = []) (hc : s.queue.closed_ = false) :
    s.step Event.pop_wait_wake = (Output.parked, s) := by
  cases s
  simp_all [step, ConcurrentQueue.pop_wait_wait_nil_open]

theorem step_pop_wake_cons_some (s : System T) (n : Nat) (hn : s.consumers = n + 1)
    (x : T) (rest : List (Option T)) (hq : s.queue.queue_ = some x :: rest) :
    s.step Event.pop_wait_wake =
      (Output.pop_wait_returned (some x),
        { s with queue := { s.queue with queue_ := rest }, consumers := n }) := by
  simp [step, hn, ConcurrentQueue.pop_wait_wait_cons_some _ _ _ hq]

theorem step_pop_wake_cons_none (s : System T) (n : Nat) (hn : s.consumers = n + 1)
    (rest : List (Option T)) (hq : s.queue.queue_ = none :: rest) :
    s.step Event.pop_wait_wake =
      (Output.parked, { s with queue := { s.queue with queue_ := rest } }) := by
  simp [step, hn, ConcurrentQueue.pop_wait_wait_cons_none _ _ hq]

end System

end sandy

namespace sandy

namespace System

variable {T : Type}

/-- Case analysis on one event: a property of the event and its result holds
as soon as it holds in each of the situations in which the event can run. -/
theorem step_cases (s : System T) (e : Event T) (P : Event T → Output T × System T → Prop)
    (emplace_closed : ∀ val, s.queue.closed_ = true →
      P (Event.emplace val) (Output.emplace_returned false, s))
    (emplace_room : ∀ val, s.queue.closed_ = false → s.queue.size < s.queue.capacity →
      P (Event.emplace val) (Output.emplace_returned true,
        { s with queue := { s.queue with queue_ := s.queue.queue_ ++ [some val] } }))
    (emplace_full : ∀ val, s.queue.closed_ = false → s.queue.capacity ≤ s.queue.size →
      P (Event.emplace val) (Output.parked, { s with producers := s.producers ++ [val] }))
    (wake_none : ∀ i, s.producers[i]? = none → P (Event.emplace_wake i) (Output.no_thread, s))
    (wake_room : ∀ i val, s.producers[i]? = some val → s.queue.size < s.queue.capacity →
      P (Event.emplace_wake i) (Output.emplace_returned true,
        { s with queue := { s.queue with queue_ := s.queue.queue_ ++ [some val] },
                 producers := s.producers.eraseIdx i }))
    (wake_full : ∀ i val, s.producers[i]? = some val → s.queue.capacity ≤ s.queue.size →
      P (Event.emplace_wake i) (Output.parked, s))
    (close : P Event.close (Output.close_returned, { s with queue := s.queue.close }))
    (try_pop_nil : s.queue.queue_ = [] → P Event.try_pop (Output.try_pop_returned none, s))
    (try_pop_cons : ∀ x rest, s.queue.queue_ = x :: rest →
      P Event.try_pop (Output.try_pop_returned x,
        { s with queue := { s.queue with queue_ := rest } }))
    (pop_wait_nil_closed : s.queue.queue_ = [] → s.queue.closed_ = true →
      P Event.pop_wait (Output.pop_wait_returned none, s))
    (pop_wait_nil_open : s.queue.queue_ = [] → s.queue.closed_ = false →
      P Event.pop_wait (Output.parked, { s with consumers := s.consumers + 1 }))
    (pop_wait_cons_some : ∀ x rest, s.queue.queue_ = some x :: rest →
      P Event.pop_wait (Output.pop_wait_returned (some x),
        { s with queue := { s.queue with queue_ := rest } }))
    (pop_wait_cons_none : ∀ rest, s.queue.queue_ = none :: rest →
      P Event.pop_wait (Output.parked,
        { s with queue := { s.queue with queue_ := rest }, consumers := s.consumers + 1 }))
    (pop_wake_zero : s.consumers = 0 → P Event.pop_wait_wake (Output.no_thread, s))
    (pop_wake_nil_closed : ∀ n, s.consumers = n + 1 → s.queue.queue_ = [] →
      s.queue.closed_ = true →
      P Event.pop_wait_wake (Output.pop_wait_returned none, { s with consumers := n }))
    (pop_wake_nil_open : ∀ n, s.consumers = n + 1 → s.queue.queue_ = [] →
      s.queue.closed_ = false → P Event.pop_wait_wake (Output.parked, s))
    (pop_wake_cons_some : ∀ n x rest, s.consumers = n + 1 → s.queue.queue_ = some x :: rest →
      P Event.pop_wait_wake (Output.pop_wait_returned (some x),
        { s with queue := { s.queue with queue_ := rest }, consumers := n }))
    (pop_wake_cons_none : ∀ n rest, s.consumers = n + 1 → s.queue.queue_ = none :: rest →
      P Event.pop_wait_wake (Output.parked,
        { s with queue := { s.queue with queue_ := rest } })) :
    P e (s.step e) := by
  cases e with
  | emplace val =>
    cases hc : s.queue.closed_ with
    | true => rw [step_emplace_closed s val hc]; exact emplace_closed val hc
    | false =>
      by_cases hl : s.queue.size < s.queue.capacity
      · rw [step_emplace_room s val hc hl]; exact emplace_room val hc hl
      · rw [step_emplace_full s val hc (Nat.not_lt.mp hl)]
        exact emplace_full val hc (Nat.not_lt.mp hl)
  | emplace_wake i =>
    cases hi : s.producers[i]? with
    | none => rw [step_wake_none s i hi]; exact wake_none i hi
    | some val =>
      by_cases hl : s.queue.size < s.queue.capacity
      · rw [step_wake_room s i val hi hl]; exact wake_room i val hi hl
      · rw [step_wake_full s i val hi (Nat.not_lt.mp hl)]
        exact wake_full i val hi (Nat.not_lt.mp hl)
  | close => exact close
  | try_pop =>
    cases hq : s.queue.queue_ with
    | nil => rw [step_try_pop_nil s hq]; exact try_pop_nil hq
    | cons x rest => rw [step_try_pop_cons s x rest hq]; exact try_pop_cons x rest hq
  | pop_wait =>
    cases hq : s.queue.queue_ with
    | nil =>
      cases hc : s.queue.closed_ with
      | true => rw [step_pop_wait_nil_closed s hq hc]; exact pop_wait_nil_closed hq hc
      | false => rw [step_pop_wait_nil_open s hq hc]; exact pop_wait_nil_open hq hc
    | cons x rest =>
      cases x with
      | none => rw [step_pop_wait_cons_none s rest hq]; exact pop_wait_cons_none rest hq
      | some v => rw [step_pop_wait_cons_some s v rest hq]; exact pop_wait_cons_some v rest hq
  | pop_wait_wake =>
    cases hn : s.consumers with
    | zero => rw [step_pop_wake_zero s hn]; exact pop_wake_zero hn
    | succ n =>
      cases hq : s.queue.queue_ with
      | nil =>
        cases hc : s.queue.closed_ with
        | true =>
          rw [step_pop_wake_nil_closed s n hn hq hc]; exact pop_wake_nil_closed n hn hq hc
        | false =>
          rw [step_pop_wake_nil_open s n hn hq hc]; exact pop_wake_nil_open n hn hq hc
      | cons x rest =>
        cases x with
        | none =>
          rw [step_pop_wake_cons_none s n hn rest hq]; exact pop_wake_cons_none n rest hn hq
        | some v =>
          rw [step_pop_wake_cons_some s n hn v rest hq]
          exact pop_wake_cons_some n v rest hn hq

end System

end sandy

namespace sandy

namespace System

variable {T : Type}

/-- One event keeps `size() <= capacity()`. -/
theorem step_size_le (s : System T) (e : Event T) (h : s.queue.size ≤ s.queue.capacity) :
    (s.step e).2.queue.size ≤ (s.step e).2.queue.capacity := by
  refine step_cases s e (fun _ r => r.2.queue.size ≤ r.2.queue.capacity)
    ?_ ?_ ?_ ?_ ?_ ?_ ?_ ?_ ?_ ?_ ?_ ?_ ?_ ?_ ?_ ?_ ?_ ?_ <;>
    intros <;>
    simp_all [ConcurrentQueue.size, ConcurrentQueue.capacity, ConcurrentQueue.close] <;>
    omega

theorem run_size_le (s : System T) (es : List (Event T)) (h : s.queue.size ≤ s.queue.capacity) :
    (s.run es).queue.size ≤ (s.run es).queue.capacity := by
  induction es generalizing s with
  | nil => exact h
  | cons e es ih => exact ih _ (step_size_le s e h)

theorem run_capacity (s : System T) (es : List (Event T)) :
    (s.run es).queue.capacity = s.queue.capacity := by
  induction es generalizing s with
  | nil => rfl
  | cons e es ih => rw [run, ih, step_capacity]

end System

/-- C1: for every capacity (in particular every capacity >= 1), every list of
events on a queue that starts empty (calls of emplace, try_pop, pop_wait and
close, and wake-ups of the calls that are waiting) and every point `n` of
that list, `size() <= capacity()` holds after the first `n` events, and the
capacity is still the one the queue was built with. -/
theorem C1_size_le_capacity {T : Type} (limit : Nat) (evs : List (Event T)) (n : Nat) :
    ((System.init limit).run (evs.take n)).queue.size
        ≤ ((System.init limit).run (evs.take n)).queue.capacity
      ∧ ((System.init limit).run (evs.take n)).queue.capacity = limit := by
  constructor
  · apply System.run_size_le
    simp [System.init, ConcurrentQueue.new, ConcurrentQueue.size]
  · rw [System.run_capacity]
    rfl

end sandy

namespace sandy

namespace System

variable {T : Type}

/-- Pushing a list into an open queue with room for all of it: every call
returns `true` at once. -/
theorem outputs_emplace_list (s : System T) (l : List T) (hc : s.queue.closed_ = false)
    (hl : s.queue.size + l.length ≤ s.queue.capacity) :
    s.outputs (l.map Event.emplace) = l.map (fun _ => Output.emplace_returned true)
      ∧ s.run (l.map Event.emplace) =
        { s with queue := { s.queue with queue_ := s.queue.queue_ ++ l.map some } } := by
  induction l generalizing s with
  | nil => simp [outputs, run]
  | cons a l ih =>
    have hlt : s.queue.size < s.queue.capacity := by simp at hl; omega
    have hstep := step_emplace_room s a hc hlt
    have hl2 : ({ s with queue := { s.queue with queue_ := s.queue.queue_ ++ [some a] } } :
        System T).queue.size + l.length ≤ s.queue.capacity := by
      simp [ConcurrentQueue.size] at hl ⊢; omega
    obtain ⟨h1, h2⟩ := ih { s with queue := { s.queue with queue_ := s.queue.queue_ ++ [some a] } }
      hc hl2
    constructor
    · simp only [List.map_cons, outputs, hstep, h1]
    · simp only [List.map_cons, run, hstep, h2]
      simp

/-- Popping the values at the front of the queue, each by `try_pop` or by
`pop_wait`: they come out in queue order. -/
theorem outputs_pop_list (s : System T) (l : List T) (rest : List (Option T))
    (pops : List Bool) (hp : pops.length = l.length)
    (hq : s.queue.queue_ = l.map some ++ rest) :
    s.outputs (pops.map pop_event) = List.zipWith pop_output pops (l.map some)
      ∧ s.run (pops.map pop_event) = { s with queue := { s.queue with queue_ := rest } } := by
  induction l generalizing s pops with
  | nil =>
    cases pops with
    | nil =>
      simp at hq
      simp [outputs, run, ← hq]
    | cons b pops => simp at hp
  | cons a l ih =>
    cases pops with
    | nil => simp at hp
    | cons b pops =>
      have hq1 : s.queue.queue_ = some a :: (l.map some ++ rest) := by simpa using hq
      have hp1 : pops.length = l.length := by simpa using hp
      have hstep : s.step (pop_event b) =
          (pop_output b (some a),
            { s with queue := { s.queue with queue_ := l.map some ++ rest } }) := by
        cases b
        · simpa [pop_event, pop_output] using step_pop_wait_cons_some s a _ hq1
        · simpa [pop_event, pop_output] using step_try_pop_cons s (some a) _ hq1
      obtain ⟨h1, h2⟩ := ih { s with queue := { s.queue with queue_ := l.map some ++ rest } }
        pops hp1 rfl
      constructor
      · simp only [List.map_cons, outputs, hstep, h1, List.zipWith_cons_cons]
      · simp only [List.map_cons, run, hstep, h2]

end System

/-- C2: FIFO. For every list `l` of at most `limit` values and every choice
`pops` of one pop call (try_pop or pop_wait) per value, pushing `l` in order
into a fresh queue of capacity `limit` and then popping that many times
gives: every push returns true, the pops return the values of `l` in the
order they were pushed, and the queue is empty afterwards. -/
theorem C2_fifo {T : Type} (limit : Nat) (l : List T) (pops : List Bool)
    (hN : l.length ≤ limit) (hp : pops.length = l.length) :
    (System.init limit).outputs (l.map Event.emplace ++ pops.map pop_event)
        = l.map (fun _ => Output.emplace_returned true)
          ++ List.zipWith pop_output pops (l.map some)
      ∧ ((System.init limit).run (l.map Event.emplace ++ pops.map pop_event)).queue.queue_
        = [] := by
  have hpush := System.outputs_emplace_list (System.init limit) l rfl
    (by simpa [System.init, ConcurrentQueue.new, ConcurrentQueue.size,
      ConcurrentQueue.capacity] using hN)
  have hpop := System.outputs_pop_list ((System.init limit).run (l.map Event.emplace)) l []
    pops hp (by rw [hpush.2]; simp [System.init, ConcurrentQueue.new])
  rw [System.outputs_append, System.run_append, hpush.1, hpop.1, hpop.2]
  simp

/-- C2 at capacity 3: pushing 10, 20, 30 and popping by try_pop, pop_wait,
try_pop. -/
theorem C2_fifo_witness :
    [10, 20, 30].length ≤ 3 ∧ [true, false, true].length = [10, 20, 30].length
      ∧ (System.init 3).outputs
          ([10, 20, 30].map Event.emplace ++ [true, false, true].map pop_event)
        = [Output.emplace_returned true, Output.emplace_returned true,
            Output.emplace_returned true, Output.try_pop_returned (some 10),
            Output.pop_wait_returned (some 20), Output.try_pop_returned (some 30)] :=
  ⟨by decide, by decide, (C2_fifo 3 [10, 20, 30] [true, false, true] (by decide) (by decide)).1⟩

end sandy

namespace sandy

/-- C3: `emplace(val)` returns false exactly when `closed_` was set when it
was called, and then the queue is unchanged (the item is not enqueued). On an
open queue with room it appends `val` at the back and returns true; on an
open queue at capacity it waits with the queue unchanged, and each time the
waiting call runs its predicate again (on whatever state `q2` the queue then
has) it either appends `val` at the back and returns true, when there is
room, or keeps waiting: a call that passed the entry test never returns
false. -/
theorem C3_emplace_result {T : Type} (q : ConcurrentQueue T) (val : T) :
    ((∃ q1, q.emplace val = Call.returned false q1) ↔ q.closed_ = true)
      ∧ (q.closed_ = true → q.emplace val = Call.returned false q)
      ∧ (q.closed_ = false → q.size < q.capacity →
          q.emplace val = Call.returned true { q with queue_ := q.queue_ ++ [some val] })
      ∧ (q.closed_ = false → q.capacity ≤ q.size → q.emplace val = Call.waiting q)
      ∧ (∀ q2 : ConcurrentQueue T,
          (q2.size < q2.capacity →
            q2.emplace_wait val
              = Call.returned true { q2 with queue_ := q2.queue_ ++ [some val] })
          ∧ (q2.capacity ≤ q2.size → q2.emplace_wait val = Call.waiting q2)) := by
  refine ⟨?_, ?_, ?_, ?_, ?_⟩
  · constructor
    · rintro ⟨q1, h⟩
      cases hc : q.closed_ with
      | true => rfl
      | false =>
        rw [ConcurrentQueue.emplace_of_open q val hc] at h
        by_cases hl : q.size < q.capacity
        · rw [ConcurrentQueue.emplace_wait_of_lt q val hl] at h
          simp at h
        · rw [ConcurrentQueue.emplace_wait_of_ge q val (Nat.not_lt.mp hl)] at h
          simp at h
    · intro hc
      exact ⟨q, ConcurrentQueue.emplace_of_closed q val hc⟩
  · exact ConcurrentQueue.emplace_of_closed q val
  · intro hc hl
    rw [ConcurrentQueue.emplace_of_open q val hc, ConcurrentQueue.emplace_wait_of_lt q val hl]
  · intro hc hl
    rw [ConcurrentQueue.emplace_of_open q val hc, ConcurrentQueue.emplace_wait_of_ge q val hl]
  · intro q2
    exact ⟨ConcurrentQueue.emplace_wait_of_lt q2 val, ConcurrentQueue.emplace_wait_of_ge q2 val⟩

/-- C3 on a closed queue holding one item: the push of 7 returns false and
the queue is as before. -/
theorem C3_emplace_result_witness :
    ({ capacity_ := 2, queue_ := [some 5], closed_ := true } : ConcurrentQueue Nat).emplace 7
      = Call.returned false { capacity_ := 2, queue_ := [some 5], closed_ := true } :=
  (C3_emplace_result { capacity_ := 2, queue_ := [some 5], closed_ := true } 7).2.1 rfl

end sandy

namespace sandy

namespace System

variable {T : Type}

/-- On a queue at capacity, one event that is not a pop leaves the entries
alone, completes no push and keeps every parked producer parked. -/
theorem step_full_no_pop (s : System T) (e : Event T) (hfull : s.queue.capacity ≤ s.queue.size)
    (he : e.isPop = false) :
    (s.step e).2.queue.queue_ = s.queue.queue_
      ∧ (s.step e).2.queue.capacity = s.queue.capacity
      ∧ s.producers <+: (s.step e).2.producers
      ∧ (s.step e).1 ≠ Output.emplace_returned true := by
  revert he
  apply step_cases s e
    (fun e r => e.isPop = false → r.2.queue.queue_ = s.queue.queue_
      ∧ r.2.queue.capacity = s.queue.capacity ∧ s.producers <+: r.2.producers
      ∧ r.1 ≠ Output.emplace_returned true)
  case emplace_room => intro val _ hl; omega
  case wake_room => intro i val _ hl; omega
  all_goals
    intros
    simp_all [Event.isPop, ConcurrentQueue.close, ConcurrentQueue.capacity]

/-- On a queue at capacity, a run without pops leaves the entries alone,
completes no push and keeps every parked producer parked. -/
theorem run_full_no_pop (s : System T) (es : List (Event T))
    (hfull : s.queue.capacity ≤ s.queue.size) (hes : ∀ e ∈ es, e.isPop = false) :
    (s.run es).queue.queue_ = s.queue.queue_
      ∧ s.producers <+: (s.run es).producers
      ∧ Output.emplace_returned true ∉ s.outputs es := by
  induction es generalizing s with
  | nil => simp [run, outputs]
  | cons e es ih =>
    obtain ⟨h1, h2, h3, h4⟩ := step_full_no_pop s e hfull (hes e (List.mem_cons_self _ _))
    have hfull2 : (s.step e).2.queue.capacity ≤ (s.step e).2.queue.size := by
      rw [h2]
      simpa [ConcurrentQueue.size, h1] using hfull
    obtain ⟨i1, i2, i3⟩ := ih (s.step e).2 hfull2
      (fun e1 he1 => hes e1 (List.mem_cons_of_mem _ he1))
    refine ⟨by rw [run, i1, h1], ?_, ?_⟩
    · exact List.IsPrefix.trans h3 i2
    · simp only [outputs, List.mem_cons, not_or]
      exact ⟨fun h => h4 h.symm, i3⟩

end System

end sandy

namespace sandy

/-- Removing the entry at a position and putting it in front permutes a list. -/
theorem perm_cons_eraseIdx {α : Type} (l : List α) (i : Nat) (a : α) (h : l[i]? = some a) :
    List.Perm l (a :: l.eraseIdx i) := by
  induction l generalizing i with
  | nil => simp at h
  | cons b l ih =>
    cases i with
    | zero =>
      simp at h
      simp [h]
    | succ i =>
      simp at h
      simp only [List.eraseIdx_cons_succ]
      exact ((ih i h).cons b).trans (List.Perm.swap a b _)

/-- Two lists in front of a third may change places. -/
theorem perm_append_swap {α : Type} (a b c : List α) :
    List.Perm (a ++ (b ++ c)) (b ++ (a ++ c)) := by
  rw [← List.append_assoc a b c, ← List.append_assoc b a c]
  exact List.Perm.append_right _ List.perm_append_comm

namespace System

variable {T : Type}

/-- One event keeps every entry of the queue engaged. -/
theorem step_engaged (s : System T) (e : Event T) (h : s.queue.Engaged) :
    (s.step e).2.queue.Engaged := by
  unfold ConcurrentQueue.Engaged at h ⊢
  apply step_cases s e (fun _ r => ∀ x ∈ r.2.queue.queue_, x.isSome = true)
  all_goals
    intros
    simp_all [ConcurrentQueue.close]
  all_goals
    rename_i x hx
    rcases hx with hx | hx
    · exact h x hx
    · simp [hx]

theorem run_engaged (s : System T) (es : List (Event T)) (h : s.queue.Engaged) :
    (s.run es).queue.Engaged := by
  induction es generalizing s with
  | nil => exact h
  | cons e es ih => exact ih _ (step_engaged s e h)

theorem init_engaged (limit : Nat) : (System.init limit : System T).queue.Engaged := by
  simp [ConcurrentQueue.Engaged, System.init, ConcurrentQueue.new]

end System

end sandy

namespace sandy

namespace System

variable {T : Type}

/-- One event loses no value: what the event took in charge together with
the entries and the parked values before it is, up to order, what it handed
out together with the entries and the parked values after it. -/
theorem step_conserve (s : System T) (e : Event T) (h : s.queue.Engaged) :
    List.Perm
      ((accepted_by e (s.step e).1).map some ++ (s.queue.queue_ ++ s.producers.map some))
      ((popped_by (s.step e).1).map some
        ++ ((s.step e).2.queue.queue_ ++ (s.step e).2.producers.map some)) := by
  apply step_cases s e (fun e r => List.Perm
      ((accepted_by e r.1).map some ++ (s.queue.queue_ ++ s.producers.map some))
      ((popped_by r.1).map some ++ (r.2.queue.queue_ ++ r.2.producers.map some)))
  case emplace_room =>
    intro val _ _
    simp only [accepted_by, popped_by, List.map_cons, List.map_nil, List.nil_append,
      List.append_assoc]
    exact perm_append_swap _ _ _
  case emplace_full =>
    intro val _ _
    simp only [accepted_by, popped_by, List.map_cons, List.map_nil, List.nil_append,
      List.map_append]
    exact List.perm_append_comm.trans (List.Perm.of_eq (List.append_assoc _ _ _))
  case wake_room =>
    intro i val hi _
    simp only [accepted_by, popped_by, List.map_nil, List.nil_append, List.append_assoc]
    refine List.Perm.append_left _ ?_
    exact ((perm_cons_eraseIdx s.producers i val hi).map some)
  case try_pop_cons =>
    intro x rest hq
    have hx : x.isSome = true := h x (by simp [hq])
    obtain ⟨v, rfl⟩ := Option.isSome_iff_exists.mp hx
    simp [accepted_by, popped_by, hq]
  case pop_wait_cons_some =>
    intro x rest hq
    simp [accepted_by, popped_by, hq]
  case pop_wake_cons_some =>
    intro n x rest _ hq
    simp [accepted_by, popped_by, hq]
  case pop_wait_cons_none =>
    intro rest hq
    have := h none (by simp [hq])
    simp at this
  case pop_wake_cons_none =>
    intro n rest _ hq
    have := h none (by simp [hq])
    simp at this
  all_goals
    intros
    simp [accepted_by, popped_by, ConcurrentQueue.close]

/-- A run loses no value. -/
theorem run_conserve (s : System T) (es : List (Event T)) (h : s.queue.Engaged) :
    List.Perm
      ((s.accepted es).map some ++ (s.queue.queue_ ++ s.producers.map some))
      ((s.popped es).map some
        ++ ((s.run es).queue.queue_ ++ (s.run es).producers.map some)) := by
  induction es generalizing s with
  | nil => simp [accepted, popped, run]
  | cons e es ih =>
    have h1 := step_conserve s e h
    have h2 := ih (s.step e).2 (step_engaged s e h)
    simp only [accepted, popped, run, List.map_append, List.append_assoc]
    -- move the values accepted later past the first event
    have h3 : List.Perm
        ((accepted_by e (s.step e).1).map some
          ++ (((s.step e).2.accepted es).map some ++ (s.queue.queue_ ++ s.producers.map some)))
        (((s.step e).2.accepted es).map some
          ++ ((accepted_by e (s.step e).1).map some
            ++ (s.queue.queue_ ++ s.producers.map some))) := by
      exact perm_append_swap _ _ _
    refine h3.trans ?_
    refine (List.Perm.append_left _ h1).trans ?_
    have h4 : List.Perm
        (((s.step e).2.accepted es).map some
          ++ ((popped_by (s.step e).1).map some
            ++ ((s.step e).2.queue.queue_ ++ (s.step e).2.producers.map some)))
        ((popped_by (s.step e).1).map some
          ++ (((s.step e).2.accepted es).map some
            ++ ((s.step e).2.queue.queue_ ++ (s.step e).2.producers.map some))) := by
      exact perm_append_swap _ _ _
    exact h4.trans (List.Perm.append_left _ h2)

end System

end sandy

namespace sandy

namespace System

variable {T : Type}

/-- The backpressure scenario: a queue filled to capacity with `a :: l`, two
further pushes `x` and `y`, one `try_pop`, then both parked producers woken
in turn. Both pushes park, the pop returns `a`, the first wake-up completes
the push of `x` and the second leaves `y` parked. -/
theorem backpressure_scenario (a : T) (l : List T) (x y : T) :
    (System.init (l.length + 1)).outputs
        ((a :: l).map Event.emplace ++
          [Event.emplace x, Event.emplace y, Event.try_pop,
            Event.emplace_wake 0, Event.emplace_wake 0])
        = (a :: l).map (fun _ => Output.emplace_returned true)
          ++ [Output.parked, Output.parked, Output.try_pop_returned (some a),
              Output.emplace_returned true, Output.parked]
      ∧ ((System.init (l.length + 1)).run
          ((a :: l).map Event.emplace ++
            [Event.emplace x, Event.emplace y, Event.try_pop,
              Event.emplace_wake 0, Event.emplace_wake 0])).queue.queue_
        = (l ++ [x]).map some
      ∧ ((System.init (l.length + 1)).run
          ((a :: l).map Event.emplace ++
            [Event.emplace x, Event.emplace y, Event.try_pop,
              Event.emplace_wake 0, Event.emplace_wake 0])).producers
        = [y] := by
  have hpush := outputs_emplace_list (System.init (l.length + 1)) (a :: l) rfl
    (by simp [System.init, ConcurrentQueue.new, ConcurrentQueue.size, ConcurrentQueue.capacity])
  rw [outputs_append, run_append, hpush.1, hpush.2]
  simp [outputs, run, step, System.init, ConcurrentQueue.new, ConcurrentQueue.emplace,
    ConcurrentQueue.emplace_wait, ConcurrentQueue.emplace_pred, ConcurrentQueue.try_pop]

end System

end sandy

namespace sandy

/-- C4: backpressure. (1) On an open queue whose size equals its capacity a
call of emplace parks: the entries are unchanged and the value is kept with
the parked producers, neither enqueued nor dropped. (2) From a queue at
capacity, no run without a pop changes the entries, completes a push or
loses a parked producer. (3) After `limit` pushes into a fresh queue of
capacity `limit >= 1` and two more pushes `x`, `y` (both park), one pop
returns the first value and lets exactly one parked push complete: the first
producer to wake appends `x`, the next wake-up leaves `y` parked. (4) In
every run from a fresh queue the values taken in charge by emplace calls
(returned true or waiting) are, up to order, the values handed out by pops
together with the entries of the queue and the values still parked: no
pushed item is lost. -/
theorem C4_backpressure {T : Type} :
    (∀ (s : System T) (val : T), s.queue.closed_ = false →
        s.queue.size = s.queue.capacity →
        s.step (Event.emplace val)
          = (Output.parked, { s with producers := s.producers ++ [val] }))
      ∧ (∀ (s : System T) (es : List (Event T)), s.queue.capacity ≤ s.queue.size →
          (∀ e ∈ es, e.isPop = false) →
          (s.run es).queue.queue_ = s.queue.queue_
            ∧ s.producers <+: (s.run es).producers
            ∧ Output.emplace_returned true ∉ s.outputs es)
      ∧ (∀ (a : T) (l : List T) (x y : T),
          (System.init (l.length + 1)).outputs
              ((a :: l).map Event.emplace ++
                [Event.emplace x, Event.emplace y, Event.try_pop,
                  Event.emplace_wake 0, Event.emplace_wake 0])
              = (a :: l).map (fun _ => Output.emplace_returned true)
                ++ [Output.parked, Output.parked, Output.try_pop_returned (some a),
                    Output.emplace_returned true, Output.parked]
            ∧ ((System.init (l.length + 1)).run
                ((a :: l).map Event.emplace ++
                  [Event.emplace x, Event.emplace y, Event.try_pop,
                    Event.emplace_wake 0, Event.emplace_wake 0])).queue.queue_
              = (l ++ [x]).map some
            ∧ ((System.init (l.length + 1)).run
                ((a :: l).map Event.emplace ++
                  [Event.emplace x, Event.emplace y, Event.try_pop,
                    Event.emplace_wake 0, Event.emplace_wake 0])).producers
              = [y])
      ∧ (∀ (limit : Nat) (es : List (Event T)),
          List.Perm (((System.init limit).accepted es).map some)
            (((System.init limit).popped es).map some
              ++ (((System.init limit).run es).queue.queue_
                ++ ((System.init limit).run es).producers.map some))) := by
  refine ⟨?_, ?_, ?_, ?_⟩
  · intro s val hc hl
    exact System.step_emplace_full s val hc (Nat.le_of_eq hl.symm)
  · intro s es hfull hes
    exact System.run_full_no_pop s es hfull hes
  · intro a l x y
    exact System.backpressure_scenario a l x y
  · intro limit es
    have h := System.run_conserve (System.init limit) es (System.init_engaged limit)
    simpa [System.init, ConcurrentQueue.new] using h

/-- C4 at capacity 1: with 5 queued, the push of 6 parks and the queue still
holds 5 alone. -/
theorem C4_backpressure_witness :
    ({ queue := { capacity_ := 1, queue_ := [some 5], closed_ := false },
       producers := [], consumers := 0 } : System Nat).step (Event.emplace 6)
      = (Output.parked,
          { queue := { capacity_ := 1, queue_ := [some 5], closed_ := false },
            producers := [6], consumers := 0 }) :=
  C4_backpressure.1
    { queue := { capacity_ := 1, queue_ := [some 5], closed_ := false },
      producers := [], consumers := 0 } 6 rfl rfl

end sandy

namespace sandy

namespace System

variable {T : Type}

/-- No event clears `closed_`. -/
theorem step_closed (s : System T) (e : Event T) (hc : s.queue.closed_ = true) :
    (s.step e).2.queue.closed_ = true := by
  apply step_cases s e (fun _ r => r.2.queue.closed_ = true)
  all_goals
    intros
    simp_all [ConcurrentQueue.close]

theorem run_closed (s : System T) (es : List (Event T)) (hc : s.queue.closed_ = true) :
    (s.run es).queue.closed_ = true := by
  induction es generalizing s with
  | nil => exact hc
  | cons e es ih => exact ih _ (step_closed s e hc)

/-- On a closed queue an event that does not complete a push does not grow
the queue. -/
theorem step_closed_size (s : System T) (e : Event T) (hc : s.queue.closed_ = true)
    (ho : (s.step e).1 ≠ Output.emplace_returned true) :
    (s.step e).2.queue.size ≤ s.queue.size := by
  revert ho
  apply step_cases s e
    (fun _ r => r.1 ≠ Output.emplace_returned true → r.2.queue.size ≤ s.queue.size)
  all_goals
    intros
    simp_all [ConcurrentQueue.size, ConcurrentQueue.close]

/-- On a closed queue only the wake-up of a parked producer completes a push. -/
theorem step_closed_true (s : System T) (e : Event T) (hc : s.queue.closed_ = true)
    (ho : (s.step e).1 = Output.emplace_returned true) :
    ∃ i val, e = Event.emplace_wake i ∧ s.producers[i]? = some val := by
  revert ho
  apply step_cases s e
    (fun e r => r.1 = Output.emplace_returned true →
      ∃ i val, e = Event.emplace_wake i ∧ s.producers[i]? = some val)
  all_goals
    intros
    simp_all

/-- On a closed queue no event parks a producer. -/
theorem step_closed_producers (s : System T) (e : Event T) (hc : s.queue.closed_ = true)
    (hp : s.producers = []) : (s.step e).2.producers = [] := by
  apply step_cases s e (fun _ r => r.2.producers = [])
  all_goals
    intros
    simp_all

theorem run_closed_producers (s : System T) (es : List (Event T))
    (hc : s.queue.closed_ = true) (hp : s.producers = []) : (s.run es).producers = [] := by
  induction es generalizing s with
  | nil => exact hp
  | cons e es ih => exact ih _ (step_closed s e hc) (step_closed_producers s e hc hp)

/-- The run of one more event of a list. -/
theorem run_take_succ (s : System T) (es : List (Event T)) (n : Nat) :
    s.run (es.take (n + 1)) = (s.run (es.take n)).run es[n]?.toList := by
  rw [List.take_succ, run_append]

end System

end sandy

namespace sandy

/-- C5, as stated, fails: with capacity 1, push 1, push 2 (parks on the full
queue), close, try_pop (returns 1, size 0), then the parked push wakes and
completes: it returns true and the closed queue grows from 0 to 1 entries. -/
theorem C5_counterexample :
    ((System.init 1 : System Nat).run
        [Event.emplace 1, Event.emplace 2, Event.close, Event.try_pop]).queue.closed_ = true
      ∧ ((System.init 1 : System Nat).run
        [Event.emplace 1, Event.emplace 2, Event.close, Event.try_pop]).queue.size = 0
      ∧ ((System.init 1 : System Nat).run
        [Event.emplace 1, Event.emplace 2, Event.close, Event.try_pop,
          Event.emplace_wake 0]).queue.size = 1
      ∧ (System.init 1 : System Nat).outputs
        [Event.emplace 1, Event.emplace 2, Event.close, Event.try_pop, Event.emplace_wake 0]
        = [Output.emplace_returned true, Output.parked, Output.close_returned,
            Output.try_pop_returned (some 1), Output.emplace_returned true] := by
  decide

/-- C5, amended: once `closed_` is set it stays set, and every event that
does not complete a push (a new emplace, which returns false, close,
try_pop, pop_wait, a wake-up after which the thread is still parked) leaves
`size()` at most what it was. The one event that can complete a push on a
closed queue is the wake-up of a producer that is parked. So when no
producer is parked, `size()` never grows again: after `n + 1` events of any
list it is at most what it was after `n`. -/
theorem C5_size_after_close {T : Type} (s : System T) (hc : s.queue.closed_ = true) :
    (∀ e : Event T, (s.step e).2.queue.closed_ = true)
      ∧ (∀ e : Event T, (s.step e).1 ≠ Output.emplace_returned true →
          (s.step e).2.queue.size ≤ s.queue.size)
      ∧ (∀ e : Event T, (s.step e).1 = Output.emplace_returned true →
          ∃ i val, e = Event.emplace_wake i ∧ s.producers[i]? = some val)
      ∧ (s.producers = [] → ∀ (es : List (Event T)) (n : Nat),
          (s.run (es.take (n + 1))).queue.size ≤ (s.run (es.take n)).queue.size) := by
  refine ⟨fun e => System.step_closed s e hc, fun e => System.step_closed_size s e hc,
    fun e => System.step_closed_true s e hc, ?_⟩
  intro hp es n
  rw [System.run_take_succ]
  cases es[n]? with
  | none => exact Nat.le_refl _
  | some e =>
    have hc1 := System.run_closed s (es.take n) hc
    have hp1 := System.run_closed_producers s (es.take n) hc hp
    apply System.step_closed_size _ e hc1
    intro ho
    obtain ⟨i, val, _, hi⟩ := System.step_closed_true _ e hc1 ho
    simp [hp1] at hi

/-- C5 amended, on a closed queue holding 5 and 6 with nobody parked: after
try_pop and a push of 7 the size is at most what it was after the try_pop
alone. -/
theorem C5_size_after_close_witness :
    ((System.mk (ConcurrentQueue.mk 2 [some 5, some 6] true) [] 0 : System Nat).run
        ([Event.try_pop, Event.emplace 7].take (1 + 1))).queue.size
      ≤ ((System.mk (ConcurrentQueue.mk 2 [some 5, some 6] true) [] 0 : System Nat).run
        ([Event.try_pop, Event.emplace 7].take 1)).queue.size :=
  (C5_size_after_close
    (System.mk (ConcurrentQueue.mk 2 [some 5, some 6] true) [] 0) rfl).2.2.2 rfl [Event.try_pop, Event.emplace 7] 1

end sandy

namespace sandy

/-- C6: close is idempotent and terminal. Closing twice gives the same
state as closing once, close changes neither the entries nor the capacity,
and after a close, whatever events follow, every newly started emplace
returns false and changes nothing. -/
theorem C6_close_idempotent_terminal {T : Type} (s : System T) (es : List (Event T))
    (val : T) :
    s.queue.close.close = s.queue.close
      ∧ ((s.step Event.close).2.step Event.close).2 = (s.step Event.close).2
      ∧ s.queue.close.queue_ = s.queue.queue_
      ∧ s.queue.close.capacity = s.queue.capacity
      ∧ ((s.step Event.close).2.run es).step (Event.emplace val)
        = (Output.emplace_returned false, (s.step Event.close).2.run es) := by
  refine ⟨rfl, rfl, rfl, rfl, ?_⟩
  apply System.step_emplace_closed
  apply System.run_closed
  rfl

/-- C7: `try_pop` is a plain function of the queue state (it has no waiting
outcome). In every state a fresh queue can reach, it returns `nullopt`
exactly when the queue is empty, and `closed_` plays no part; on an empty
queue `q` nothing changes; on a non-empty queue it returns the front entry,
which holds a value, and removes that entry alone, the rest keeping its
order. -/
theorem C7_try_pop {T : Type} (limit : Nat) (es : List (Event T)) (q : ConcurrentQueue T) :
    ((((System.init limit).run es).queue.try_pop).1 = none
        ↔ ((System.init limit).run es).queue.queue_ = [])
      ∧ (∀ x rest, ((System.init limit).run es).queue.queue_ = x :: rest →
          ∃ v, x = some v
            ∧ ((System.init limit).run es).queue.try_pop
              = (some v, { ((System.init limit).run es).queue with queue_ := rest }))
      ∧ (q.queue_ = [] → q.try_pop = (none, q))
      ∧ (∀ x rest, q.queue_ = x :: rest → q.try_pop = (x, { q with queue_ := rest })) := by
  have he := System.run_engaged (System.init limit) es (System.init_engaged limit)
  refine ⟨?_, ?_, ?_, ?_⟩
  · cases hq : ((System.init limit).run es).queue.queue_ with
    | nil => simp [ConcurrentQueue.try_pop, hq]
    | cons x rest =>
      have hx : x.isSome = true := he x (by simp [hq])
      obtain ⟨v, rfl⟩ := Option.isSome_iff_exists.mp hx
      simp [ConcurrentQueue.try_pop, hq]
  · intro x rest hq
    have hx : x.isSome = true := he x (by simp [hq])
    obtain ⟨v, rfl⟩ := Option.isSome_iff_exists.mp hx
    exact ⟨v, rfl, by simp [ConcurrentQueue.try_pop, hq]⟩
  · intro hq
    simp [ConcurrentQueue.try_pop, hq]
  · intro x rest hq
    simp [ConcurrentQueue.try_pop, hq]

/-- C7 on a closed queue holding 5 and 6: try_pop returns 5 and leaves 6. -/
theorem C7_try_pop_witness :
    (ConcurrentQueue.mk 2 [some 5, some 6] true : ConcurrentQueue Nat).try_pop
      = (some 5, ConcurrentQueue.mk 2 [some 6] true) :=
  (C7_try_pop 0 [] (ConcurrentQueue.mk 2 [some 5, some 6] true)).2.2.2 (some 5) [some 6] rfl

/-- C8: in every state a fresh queue can reach, one round of `pop_wait`
(the call itself, or the re-check of a waiting call) returns the front item
and removes it whenever the queue holds an item, open or closed; it returns
`nullopt` exactly when the queue is closed and empty, leaving it unchanged;
and on an open empty queue it waits, leaving it unchanged. -/
theorem C8_pop_wait {T : Type} (limit : Nat) (es : List (Event T)) :
    (∀ x rest, ((System.init limit).run es).queue.queue_ = x :: rest →
        ∃ v, x = some v
          ∧ ((System.init limit).run es).queue.pop_wait
            = Call.returned (some v)
                { ((System.init limit).run es).queue with queue_ := rest })
      ∧ ((∃ q1, ((System.init limit).run es).queue.pop_wait = Call.returned none q1)
          ↔ ((System.init limit).run es).queue.closed_ = true
            ∧ ((System.init limit).run es).queue.queue_ = [])
      ∧ (((System.init limit).run es).queue.closed_ = true →
          ((System.init limit).run es).queue.queue_ = [] →
          ((System.init limit).run es).queue.pop_wait
            = Call.returned none ((System.init limit).run es).queue)
      ∧ (((System.init limit).run es).queue.closed_ = false →
          ((System.init limit).run es).queue.queue_ = [] →
          ((System.init limit).run es).queue.pop_wait
            = Call.waiting ((System.init limit).run es).queue) := by
  have he := System.run_engaged (System.init limit) es (System.init_engaged limit)
  generalize ((System.init limit).run es).queue = q at he ⊢
  have hfront : ∀ x rest, q.queue_ = x :: rest →
      ∃ v, x = some v ∧ q.pop_wait = Call.returned (some v) { q with queue_ := rest } := by
    intro x rest hq
    have hx : x.isSome = true := he x (by simp [hq])
    obtain ⟨v, rfl⟩ := Option.isSome_iff_exists.mp hx
    exact ⟨v, rfl, ConcurrentQueue.pop_wait_wait_cons_some q v rest hq⟩
  refine ⟨hfront, ?_, ?_, ?_⟩
  · constructor
    · rintro ⟨q1, h⟩
      cases hq : q.queue_ with
      | nil =>
        cases hc : q.closed_ with
        | true => exact ⟨rfl, rfl⟩
        | false =>
          have h2 : q.pop_wait = Call.waiting q := ConcurrentQueue.pop_wait_wait_nil_open q hq hc
          rw [h2] at h
          simp at h
      | cons x rest =>
        obtain ⟨v, _, h2⟩ := hfront x rest hq
        rw [h2] at h
        simp at h
    · rintro ⟨hc, hq⟩
      exact ⟨q, ConcurrentQueue.pop_wait_wait_nil_closed q hq hc⟩
  · intro hc hq
    exact ConcurrentQueue.pop_wait_wait_nil_closed q hq hc
  · intro hc hq
    exact ConcurrentQueue.pop_wait_wait_nil_open q hq hc

/-- C8 on the queue reached by pushing 5 and closing: pop_wait returns 5
although the queue is closed. -/
theorem C8_pop_wait_witness :
    ∃ v, some 5 = some v
      ∧ ((System.init 2 : System Nat).run [Event.emplace 5, Event.close]).queue.pop_wait
        = Call.returned (some v)
            { ((System.init 2 : System Nat).run [Event.emplace 5, Event.close]).queue with
              queue_ := [] } :=
  (C8_pop_wait 2 [Event.emplace 5, Event.close]).1 (some 5) [] rfl

end sandy

namespace sandy

namespace System

variable {T : Type}

/-- After one event `closed_` is set exactly when it was set before or the
event is a call of close. -/
theorem step_closed_iff (s : System T) (e : Event T) :
    (s.step e).2.queue.closed_ = true ↔ s.queue.closed_ = true ∨ e = Event.close := by
  apply step_cases s e
    (fun e r => r.2.queue.closed_ = true ↔ s.queue.closed_ = true ∨ e = Event.close)
  all_goals
    intros
    simp_all [ConcurrentQueue.close]

/-- After a run `closed_` is set exactly when it was set before or close was
called during the run. -/
theorem run_closed_iff (s : System T) (es : List (Event T)) :
    (s.run es).queue.closed_ = true ↔ s.queue.closed_ = true ∨ Event.close ∈ es := by
  induction es generalizing s with
  | nil => simp [run]
  | cons e es ih =>
    rw [run, ih, step_closed_iff, List.mem_cons, or_assoc]
    constructor
    · rintro (h | h | h)
      · exact Or.inl h
      · exact Or.inr (Or.inl h.symm)
      · exact Or.inr (Or.inr h)
    · rintro (h | h | h)
      · exact Or.inl h
      · exact Or.inr (Or.inl h.symm)
      · exact Or.inr (Or.inr h)

end System

/-- C9: on a queue that started fresh, `closed()` is true exactly when
close() has been called during the run and the queue is empty. So a queue on
which close() was called but which still holds entries reports false, and a
queue on which close() was never called reports false, empty or not. -/
theorem C9_closed_iff {T : Type} (limit : Nat) (es : List (Event T)) :
    (((System.init limit).run es).queue.closed = true
        ↔ Event.close ∈ es ∧ ((System.init limit).run es).queue.queue_ = [])
      ∧ (Event.close ∈ es → ((System.init limit).run es).queue.queue_ ≠ [] →
          ((System.init limit).run es).queue.closed = false)
      ∧ (Event.close ∉ es → ((System.init limit).run es).queue.closed = false) := by
  have hrun := System.run_closed_iff (System.init limit) es
  have hinit : (System.init limit : System T).queue.closed_ = false := rfl
  simp only [hinit, Bool.false_eq_true, false_or] at hrun
  have key : ((System.init limit).run es).queue.closed = true
      ↔ Event.close ∈ es ∧ ((System.init limit).run es).queue.queue_ = [] := by
    simp only [ConcurrentQueue.closed, Bool.and_eq_true, List.isEmpty_iff, hrun]
    exact And.comm
  refine ⟨key, ?_, ?_⟩
  · intro _ hne
    cases hcl : ((System.init limit).run es).queue.closed with
    | false => rfl
    | true => exact absurd (key.mp hcl).2 hne
  · intro hno
    cases hcl : ((System.init limit).run es).queue.closed with
    | false => rfl
    | true => exact absurd (key.mp hcl).1 hno

/-- C9 after pushing 5 and closing: close() was called and an entry is
left, so `closed()` is false. -/
theorem C9_closed_iff_witness :
    ((System.init 2 : System Nat).run [Event.emplace 5, Event.close]).queue.closed = false :=
  (C9_closed_iff 2 [Event.emplace 5, Event.close]).2.1 (by decide) (by decide)

end sandy

/-! ## Properties of the frame selection -/

namespace sandy

namespace mf

namespace Impl

/-- Refilling the look-ahead slot does not touch a slot that holds a frame. -/
theorem FetchFrame_refill_of_some (s : Impl) (dq : ConcurrentQueue MfVideoFrameSample)
    (d : SampleData) (h : s.next_frame_ = some d) : FetchFrame_refill s dq = s := by
  simp [FetchFrame_refill, MfVideoFrameSample.toBool, h]

theorem FetchFrame_loop_none (current_time : Int) (fuel : Nat) (s : Impl)
    (current_frame : MfVideoFrameSample) (hdq : s.decoded_frames_ = none) :
    FetchFrame_loop current_time (fuel + 1) s current_frame = some (current_frame, s) := by
  simp [FetchFrame_loop, hdq]

theorem FetchFrame_loop_closed (current_time : Int) (fuel : Nat) (s : Impl)
    (current_frame : MfVideoFrameSample) (dq : ConcurrentQueue MfVideoFrameSample)
    (hdq : s.decoded_frames_ = some dq) (hcl : dq.closed = true) :
    FetchFrame_loop current_time (fuel + 1) s current_frame = some (current_frame, s) := by
  simp [FetchFrame_loop, hdq, hcl]

theorem FetchFrame_loop_null (current_time : Int) (fuel : Nat) (s : Impl)
    (current_frame : MfVideoFrameSample) (dq : ConcurrentQueue MfVideoFrameSample)
    (hdq : s.decoded_frames_ = some dq) (hcl : dq.closed = false)
    (hn : (FetchFrame_refill s dq).next_frame_ = none) :
    FetchFrame_loop current_time (fuel + 1) s current_frame
      = some (current_frame, FetchFrame_refill s dq) := by
  simp [FetchFrame_loop, hdq, hcl, hn, MfVideoFrameSample.toBool]

theorem FetchFrame_loop_future (current_time : Int) (fuel : Nat) (s : Impl)
    (current_frame : MfVideoFrameSample) (dq : ConcurrentQueue MfVideoFrameSample)
    (d : SampleData) (hdq : s.decoded_frames_ = some dq) (hcl : dq.closed = false)
    (hn : (FetchFrame_refill s dq).next_frame_ = some d) (ht : current_time < d.time) :
    FetchFrame_loop current_time (fuel + 1) s current_frame
      = some (current_frame, FetchFrame_refill s dq) := by
  simp [FetchFrame_loop, hdq, hcl, hn, MfVideoFrameSample.toBool, MfVideoFrameSample.Time, ht]

theorem FetchFrame_loop_take (current_time : Int) (fuel : Nat) (s : Impl)
    (current_frame : MfVideoFrameSample) (dq : ConcurrentQueue MfVideoFrameSample)
    (d : SampleData) (hdq : s.decoded_frames_ = some dq) (hcl : dq.closed = false)
    (hn : (FetchFrame_refill s dq).next_frame_ = some d) (ht : d.time ≤ current_time) :
    FetchFrame_loop current_time (fuel + 1) s current_frame
      = FetchFrame_loop current_time fuel
          { FetchFrame_refill s dq with next_frame_ := none } (some d) := by
  simp [FetchFrame_loop, hdq, hcl, hn, MfVideoFrameSample.toBool, MfVideoFrameSample.Time,
    Int.not_lt.mpr ht]

/-- The loop of `FetchFrame` only ever returns the frame it was started with
or a frame whose time is at most `current_time`. -/
theorem FetchFrame_loop_time (current_time : Int) (fuel : Nat) (s : Impl)
    (current_frame : MfVideoFrameSample) (r : MfVideoFrameSample) (s1 : Impl)
    (hcur : ∀ d, current_frame = some d → d.time ≤ current_time)
    (h : FetchFrame_loop current_time fuel s current_frame = some (r, s1)) :
    ∀ d, r = some d → d.time ≤ current_time := by
  induction fuel generalizing s current_frame with
  | zero => simp [FetchFrame_loop] at h
  | succ fuel ih =>
    cases hdq : s.decoded_frames_ with
    | none =>
      rw [FetchFrame_loop_none _ _ _ _ hdq] at h
      simp only [Option.some.injEq, Prod.mk.injEq] at h
      rw [← h.1]
      exact hcur
    | some dq =>
      cases hcl : dq.closed with
      | true =>
        rw [FetchFrame_loop_closed _ _ _ _ dq hdq hcl] at h
        simp only [Option.some.injEq, Prod.mk.injEq] at h
        rw [← h.1]
        exact hcur
      | false =>
        cases hn : (FetchFrame_refill s dq).next_frame_ with
        | none =>
          rw [FetchFrame_loop_null _ _ _ _ dq hdq hcl hn] at h
          simp only [Option.some.injEq, Prod.mk.injEq] at h
          rw [← h.1]
          exact hcur
        | some d =>
          by_cases ht : current_time < d.time
          · rw [FetchFrame_loop_future _ _ _ _ dq d hdq hcl hn ht] at h
            simp only [Option.some.injEq, Prod.mk.injEq] at h
            rw [← h.1]
            exact hcur
          · rw [FetchFrame_loop_take _ _ _ _ dq d hdq hcl hn (Int.not_lt.mp ht)] at h
            refine ih _ _ ?_ h
            intro d1 hd1
            simp only [Option.some.injEq] at hd1
            rw [← hd1]
            exact Int.not_lt.mp ht

/-- When the slot holds a frame after the refill, the queue and the slot
together hold at least one entry, and the queue is left with at most that
many entries less one. -/
theorem FetchFrame_refill_measure (s : Impl) (dq : ConcurrentQueue MfVideoFrameSample)
    (d : SampleData) (hdq : s.decoded_frames_ = some dq)
    (hn : (FetchFrame_refill s dq).next_frame_ = some d) :
    ∃ dq1, (FetchFrame_refill s dq).decoded_frames_ = some dq1
      ∧ dq1.size + 1 ≤ dq.size + (if s.next_frame_.isSome then 1 else 0) := by
  cases hs : s.next_frame_ with
  | some d0 =>
    rw [FetchFrame_refill_of_some s dq d0 hs]
    exact ⟨dq, hdq, by simp⟩
  | none =>
    cases hq : dq.queue_ with
    | nil =>
      simp [FetchFrame_refill, MfVideoFrameSample.toBool, hs, ConcurrentQueue.try_pop, hq] at hn
    | cons x rest =>
      cases x with
      | none =>
        simp [FetchFrame_refill, MfVideoFrameSample.toBool, hs, ConcurrentQueue.try_pop,
          hq] at hn
      | some t =>
        refine ⟨{ dq with queue_ := rest }, ?_, ?_⟩
        · simp [FetchFrame_refill, MfVideoFrameSample.toBool, hs, ConcurrentQueue.try_pop, hq]
        · simp [ConcurrentQueue.size, hq]

/-- The loop of `FetchFrame` exits within one iteration more than the number
of entries held by the queue and the look-ahead slot. -/
theorem FetchFrame_loop_total (current_time : Int) (fuel : Nat) (s : Impl)
    (current_frame : MfVideoFrameSample) (h0 : 0 < fuel)
    (hm : ∀ dq, s.decoded_frames_ = some dq →
      dq.size + (if s.next_frame_.isSome then 1 else 0) < fuel) :
    ∃ r s1, FetchFrame_loop current_time fuel s current_frame = some (r, s1) := by
  induction fuel generalizing s current_frame with
  | zero => exact absurd h0 (Nat.lt_irrefl 0)
  | succ fuel ih =>
    cases hdq : s.decoded_frames_ with
    | none => exact ⟨_, _, FetchFrame_loop_none _ _ _ _ hdq⟩
    | some dq =>
      cases hcl : dq.closed with
      | true => exact ⟨_, _, FetchFrame_loop_closed _ _ _ _ dq hdq hcl⟩
      | false =>
        cases hn : (FetchFrame_refill s dq).next_frame_ with
        | none => exact ⟨_, _, FetchFrame_loop_null _ _ _ _ dq hdq hcl hn⟩
        | some d =>
          by_cases ht : current_time < d.time
          · exact ⟨_, _, FetchFrame_loop_future _ _ _ _ dq d hdq hcl hn ht⟩
          · rw [FetchFrame_loop_take _ _ _ _ dq d hdq hcl hn (Int.not_lt.mp ht)]
            obtain ⟨dq1, hdq1, hsz⟩ := FetchFrame_refill_measure s dq d hdq hn
            have hlt := hm dq hdq
            apply ih
            · omega
            · intro dq2 hdq2
              have h2 : dq2 = dq1 := by
                have : (FetchFrame_refill s dq).decoded_frames_ = some dq2 := hdq2
                rw [hdq1] at this
                exact (Option.some.inj this).symm
              subst h2
              simp only [Option.isSome_none, Bool.false_eq_true, if_false, Nat.add_zero]
              omega

/-- `FetchFrame` always returns. -/
theorem FetchFrame_total (s : Impl) (current_time : Int) :
    ∃ r s1, s.FetchFrame current_time = some (r, s1) := by
  unfold FetchFrame
  cases hr : s.IsReady with
  | false => exact ⟨none, s, by simp⟩
  | true =>
    simp only [Bool.not_true, Bool.false_eq_true, if_false]
    apply FetchFrame_loop_total
    · unfold FetchFrame_fuel
      cases s.decoded_frames_ <;> simp
    · intro dq hdq
      simp only [FetchFrame_fuel, hdq]
      split <;> omega

/-- A frame of the future in the look-ahead slot stops `FetchFrame` at once:
nothing is returned and nothing changes. -/
theorem FetchFrame_future_slot (s : Impl) (current_time : Int) (d : SampleData)
    (hn : s.next_frame_ = some d) (ht : current_time < d.time) :
    s.FetchFrame current_time = some (none, s) := by
  unfold FetchFrame
  cases hr : s.IsReady with
  | false => simp
  | true =>
    simp only [Bool.not_true, Bool.false_eq_true, if_false]
    have hf : FetchFrame_fuel s = (FetchFrame_fuel s - 1) + 1 := by
      unfold FetchFrame_fuel
      cases s.decoded_frames_ <;> simp
    rw [hf]
    cases hdq : s.decoded_frames_ with
    | none => exact FetchFrame_loop_none _ _ _ _ hdq
    | some dq =>
      cases hcl : dq.closed with
      | true => exact FetchFrame_loop_closed _ _ _ _ dq hdq hcl
      | false =>
        have hre := FetchFrame_refill_of_some s dq d hn
        have := FetchFrame_loop_future current_time (FetchFrame_fuel s - 1) s none dq d hdq hcl
          (by rw [hre]; exact hn) ht
        rw [hre] at this
        exact this

end Impl

end mf

end sandy

namespace sandy

/-- C10: `FetchFrame(current_time)` always returns, and it never returns a
frame from the future: a returned frame has a time at most `current_time`.
A frame in the look-ahead slot whose time is greater than `current_time`
stays there: when the slot holds one at the call, nothing is returned and
the state (slot and queue) is unchanged; and in any iteration of the loop,
when the slot holds such a frame after the refill from the queue, the loop
exits with that frame still in the slot. -/
theorem C10_FetchFrame_not_future (s : mf.Impl) (current_time : Int) :
    (∃ r s1, s.FetchFrame current_time = some (r, s1))
      ∧ (∀ r s1 d, s.FetchFrame current_time = some (r, s1) → r = some d →
          d.time ≤ current_time)
      ∧ (∀ d, s.next_frame_ = some d → current_time < d.time →
          s.FetchFrame current_time = some (none, s))
      ∧ (∀ fuel current_frame dq d, s.decoded_frames_ = some dq → dq.closed = false →
          (mf.Impl.FetchFrame_refill s dq).next_frame_ = some d → current_time < d.time →
          mf.Impl.FetchFrame_loop current_time (fuel + 1) s current_frame
            = some (current_frame, mf.Impl.FetchFrame_refill s dq)) := by
  refine ⟨mf.Impl.FetchFrame_total s current_time, ?_, ?_, ?_⟩
  · intro r s1 d h hr
    unfold mf.Impl.FetchFrame at h
    cases hre : s.IsReady with
    | false =>
      simp [hre] at h
      rw [← h.1] at hr
      simp at hr
    | true =>
      simp only [hre, Bool.not_true, Bool.false_eq_true, if_false] at h
      exact mf.Impl.FetchFrame_loop_time current_time _ s none r s1 (by simp) h d hr
  · intro d hn ht
    exact mf.Impl.FetchFrame_future_slot s current_time d hn ht
  · intro fuel current_frame dq d hdq hcl hn ht
    exact mf.Impl.FetchFrame_loop_future current_time fuel s current_frame dq d hdq hcl hn ht

/-- C10 on a decoder whose slot holds the frame at time 10 and whose queue
holds the frames at 20 and 30, asked for time 5: nothing is returned and the
frame at 10 stays in the slot. -/
theorem C10_FetchFrame_not_future_witness :
    (mf.Impl.mk true 4 300 true
        (some (ConcurrentQueue.mk 4 [some (some ⟨20, 2⟩), some (some ⟨30, 3⟩)] false))
        (some ⟨10, 1⟩)).FetchFrame 5
      = some (none, mf.Impl.mk true 4 300 true
        (some (ConcurrentQueue.mk 4 [some (some ⟨20, 2⟩), some (some ⟨30, 3⟩)] false))
        (some ⟨10, 1⟩)) :=
  (C10_FetchFrame_not_future (mf.Impl.mk true 4 300 true
        (some (ConcurrentQueue.mk 4 [some (some ⟨20, 2⟩), some (some ⟨30, 3⟩)] false))
        (some ⟨10, 1⟩)) 5).2.2.1 ⟨10, 1⟩ rfl (by decide)

end sandy

/-! ## Properties of a playback session -/

namespace sandy

namespace mf

namespace Impl

theorem held_of_queue (s : Impl) (dq : ConcurrentQueue MfVideoFrameSample)
    (hdq : s.decoded_frames_ = some dq) :
    s.held = s.next_frame_.toList ++ queue_frames dq := by
  simp [held, hdq]

/-- The refill of the look-ahead slot moves the front frame of the queue to
the empty slot and loses nothing. -/
theorem FetchFrame_refill_held (s : Impl) (dq : ConcurrentQueue MfVideoFrameSample)
    (hdq : s.decoded_frames_ = some dq) (hwf : s.WellFormed) :
    (FetchFrame_refill s dq).held = s.held
      ∧ (FetchFrame_refill s dq).WellFormed
      ∧ (FetchFrame_refill s dq).ready_ = s.ready_
      ∧ ∃ dq1, (FetchFrame_refill s dq).decoded_frames_ = some dq1
          ∧ dq1.closed_ = dq.closed_ ∧ dq1.capacity_ = dq.capacity_
          ∧ ((FetchFrame_refill s dq).next_frame_ = none → dq1.queue_ = []) := by
  cases hs : s.next_frame_ with
  | some d0 =>
    rw [FetchFrame_refill_of_some s dq d0 hs]
    exact ⟨rfl, hwf, rfl, dq, hdq, rfl, rfl, fun h => by rw [hs] at h; cases h⟩
  | none =>
    cases hq : dq.queue_ with
    | nil =>
      have hre : FetchFrame_refill s dq = { s with decoded_frames_ := some dq } := by
        simp [FetchFrame_refill, MfVideoFrameSample.toBool, hs, ConcurrentQueue.try_pop, hq]
      rw [hre]
      refine ⟨?_, ?_, rfl, dq, rfl, rfl, rfl, fun _ => hq⟩
      · simp [held, hdq]
      · intro dq2 h2 e he
        simp only [Option.some.injEq] at h2
        subst h2
        exact hwf dq hdq e he
    | cons e rest =>
      obtain ⟨d, rfl⟩ := hwf dq hdq e (by simp [hq])
      have hre : FetchFrame_refill s dq
          = { s with decoded_frames_ := some { dq with queue_ := rest },
                     next_frame_ := some d } := by
        simp [FetchFrame_refill, MfVideoFrameSample.toBool, hs, ConcurrentQueue.try_pop, hq]
      rw [hre]
      refine ⟨?_, ?_, rfl, { dq with queue_ := rest }, rfl, rfl, rfl, fun h => by cases h⟩
      · simp [held, hdq, hs, queue_frames, hq, entry_frame]
      · intro dq2 h2 e he
        simp only [Option.some.injEq] at h2
        subst h2
        exact hwf dq hdq e (by simp [hq]; exact Or.inr he)

end Impl

end mf

end sandy

namespace sandy

namespace mf

namespace Impl

theorem getLast?_toList_append_cons (cur : MfVideoFrameSample) (d : SampleData)
    (c : List SampleData) :
    (cur.toList ++ d :: c).getLast? = (d :: c).getLast? := by
  rw [List.getLast?_append]
  cases h : (d :: c).getLast? with
  | none => simp at h
  | some x => rfl

/-- What the loop of `FetchFrame` does to a well-formed decoder: it takes a
prefix `consumed` of the held frames, all with a time at most
`current_time`, and returns the last of them, or the frame it was started
with when it takes none. Started on a queue that is not closed and drained
it stops only with nothing held or in front of a frame of the future. -/
theorem FetchFrame_loop_consumes (current_time : Int) (fuel : Nat) (s : Impl)
    (current_frame r : MfVideoFrameSample) (s1 : Impl) (hwf : s.WellFormed)
    (h : FetchFrame_loop current_time fuel s current_frame = some (r, s1)) :
    ∃ consumed, s.held = consumed ++ s1.held
      ∧ r = (current_frame.toList ++ consumed).getLast?
      ∧ (∀ d ∈ consumed, d.time ≤ current_time)
      ∧ s1.WellFormed
      ∧ s1.ready_ = s.ready_
      ∧ (∀ dq, s.decoded_frames_ = some dq →
          ∃ dq1, s1.decoded_frames_ = some dq1 ∧ dq1.closed_ = dq.closed_
            ∧ dq1.capacity_ = dq.capacity_)
      ∧ (s.decoded_frames_ = none → s1 = s)
      ∧ (∀ dq, s.decoded_frames_ = some dq → dq.closed = false →
          s1.held = [] ∨ ∃ d rest, s1.held = d :: rest ∧ current_time < d.time) := by
  induction fuel generalizing s current_frame with
  | zero => simp [FetchFrame_loop] at h
  | succ fuel ih =>
    have hcur : current_frame = (current_frame.toList ++ []).getLast? := by
      cases current_frame <;> rfl
    have hopt : s.decoded_frames_ = none ∨ ∃ dq, s.decoded_frames_ = some dq := by
      cases s.decoded_frames_ with
      | none => exact Or.inl rfl
      | some dq => exact Or.inr ⟨dq, rfl⟩
    rcases hopt with hdq | ⟨dq, hdq⟩
    · rw [FetchFrame_loop_none _ _ _ _ hdq] at h
      simp only [Option.some.injEq, Prod.mk.injEq] at h
      obtain ⟨rfl, rfl⟩ := h
      refine ⟨[], by simp, hcur, by simp, hwf, rfl, ?_, fun _ => rfl, ?_⟩
      · intro dq h2; exact absurd (hdq.symm.trans h2) (by simp)
      · intro dq h2; exact absurd (hdq.symm.trans h2) (by simp)
    · cases hcl : dq.closed with
      | true =>
        rw [FetchFrame_loop_closed _ _ _ _ dq hdq hcl] at h
        simp only [Option.some.injEq, Prod.mk.injEq] at h
        obtain ⟨rfl, rfl⟩ := h
        refine ⟨[], by simp, hcur, by simp, hwf, rfl, ?_, ?_, ?_⟩
        · intro dq2 h2
          exact ⟨dq2, h2, rfl, rfl⟩
        · intro h2; exact absurd (hdq.symm.trans h2) (by simp)
        · intro dq2 h2 hop
          rw [hdq] at h2
          simp only [Option.some.injEq] at h2
          subst h2
          rw [hcl] at hop
          cases hop
      | false =>
        obtain ⟨hheld, hwf1, hready, dq1, hdq1, hcl1, hcap1, hnil⟩ :=
          FetchFrame_refill_held s dq hdq hwf
        have hchain : ∀ dq2, s.decoded_frames_ = some dq2 →
            ∃ dq3, (FetchFrame_refill s dq).decoded_frames_ = some dq3
              ∧ dq3.closed_ = dq2.closed_ ∧ dq3.capacity_ = dq2.capacity_ := by
          intro dq2 h2
          rw [hdq] at h2
          simp only [Option.some.injEq] at h2
          subst h2
          exact ⟨dq1, hdq1, hcl1, hcap1⟩
        cases hn : (FetchFrame_refill s dq).next_frame_ with
        | none =>
          rw [FetchFrame_loop_null _ _ _ _ dq hdq hcl hn] at h
          simp only [Option.some.injEq, Prod.mk.injEq] at h
          obtain ⟨rfl, rfl⟩ := h
          refine ⟨[], by simp [hheld], hcur, by simp, hwf1, hready, hchain, ?_, ?_⟩
          · intro h2; exact absurd (hdq.symm.trans h2) (by simp)
          · intro _ _ _
            left
            rw [held_of_queue _ dq1 hdq1, hn]
            simp [queue_frames, hnil hn]
        | some d =>
          have hheld1 : (FetchFrame_refill s dq).held = d :: queue_frames dq1 := by
            rw [held_of_queue _ dq1 hdq1, hn]
            rfl
          by_cases ht : current_time < d.time
          · rw [FetchFrame_loop_future _ _ _ _ dq d hdq hcl hn ht] at h
            simp only [Option.some.injEq, Prod.mk.injEq] at h
            obtain ⟨rfl, rfl⟩ := h
            refine ⟨[], by simp [hheld], hcur, by simp, hwf1, hready, hchain, ?_, ?_⟩
            · intro h2; exact absurd (hdq.symm.trans h2) (by simp)
            · intro _ _ _
              exact Or.inr ⟨d, _, hheld1, ht⟩
          · rw [FetchFrame_loop_take _ _ _ _ dq d hdq hcl hn (Int.not_lt.mp ht)] at h
            have hwf2 : ({ FetchFrame_refill s dq with next_frame_ := none } : Impl).WellFormed :=
              hwf1
            have hheld2 : ({ FetchFrame_refill s dq with next_frame_ := none } : Impl).held
                = queue_frames dq1 := by
              simp [held, hdq1]
            have hlast : ({ FetchFrame_refill s dq with next_frame_ := none } : Impl).held
                  = []
                ∨ dq1.closed = false := by
              cases hcl3 : dq1.closed with
              | false => exact Or.inr rfl
              | true =>
                left
                rw [hheld2]
                have hq : dq1.queue_ = [] := by
                  simp only [ConcurrentQueue.closed, Bool.and_eq_true,
                    List.isEmpty_iff] at hcl3
                  exact hcl3.1
                simp [queue_frames, hq]
            have hdq2 : ({ FetchFrame_refill s dq with next_frame_ := none } : Impl).decoded_frames_
                = some dq1 := hdq1
            have hstop : dq1.closed = true →
                s1 = ({ FetchFrame_refill s dq with next_frame_ := none } : Impl) := by
              intro hcl3
              cases fuel with
              | zero => simp [FetchFrame_loop] at h
              | succ fuel =>
                rw [FetchFrame_loop_closed _ _ _ _ dq1 hdq2 hcl3] at h
                simp only [Option.some.injEq, Prod.mk.injEq] at h
                exact h.2.symm
            obtain ⟨c, hc1, hc2, hc3, hc4, hc5, hc6, _, hc8⟩ := ih _ _ hwf2 h
            refine ⟨d :: c, ?_, ?_, ?_, hc4, ?_, ?_, ?_, ?_⟩
            · rw [← hheld, hheld1, ← hheld2, hc1]
              rfl
            · rw [hc2, getLast?_toList_append_cons]
              rfl
            · intro x hx
              rcases List.mem_cons.mp hx with rfl | hx
              · exact Int.not_lt.mp ht
              · exact hc3 x hx
            · rw [hc5]
              exact hready
            · intro dq2 h2
              obtain ⟨dq3, h3, h4, h5⟩ := hchain dq2 h2
              obtain ⟨dq4, h6, h7, h8⟩ := hc6 dq3 h3
              exact ⟨dq4, h6, h7.trans h4, h8.trans h5⟩
            · intro h2; exact absurd (hdq.symm.trans h2) (by simp)
            · intro _ _ _
              cases hcl3 : dq1.closed with
              | false => exact hc8 dq1 hdq2 hcl3
              | true =>
                left
                rw [hstop hcl3]
                rcases hlast with h0 | h0
                · exact h0
                · rw [hcl3] at h0
                  cases h0

end Impl

end mf

end sandy

namespace sandy

namespace mf

namespace Impl

/-- What one call of `FetchFrame` does to a well-formed decoder: it returns,
takes a prefix `consumed` of the held frames, all with a time at most
`current_time`, and the result is the last frame of that prefix (null when
the prefix is empty). On a ready decoder whose queue is not closed and
drained the call stops only with nothing held or in front of a frame of the
future. -/
theorem FetchFrame_consumes (s : Impl) (current_time : Int) (hwf : s.WellFormed) :
    ∃ r s1 consumed, s.FetchFrame current_time = some (r, s1)
      ∧ s.held = consumed ++ s1.held
      ∧ r = consumed.getLast?
      ∧ (∀ d ∈ consumed, d.time ≤ current_time)
      ∧ s1.WellFormed
      ∧ s1.ready_ = s.ready_
      ∧ (∀ dq, s.decoded_frames_ = some dq →
          ∃ dq1, s1.decoded_frames_ = some dq1 ∧ dq1.closed_ = dq.closed_
            ∧ dq1.capacity_ = dq.capacity_)
      ∧ (s.decoded_frames_ = none → s1 = s)
      ∧ (s.ready_ = true → ∀ dq, s.decoded_frames_ = some dq → dq.closed = false →
          s1.held = [] ∨ ∃ d rest, s1.held = d :: rest ∧ current_time < d.time) := by
  obtain ⟨r, s1, h⟩ := FetchFrame_total s current_time
  refine ⟨r, s1, ?_⟩
  have h0 := h
  unfold FetchFrame at h
  cases hr : s.IsReady with
  | false =>
    simp only [hr, Bool.not_false, if_true, Option.some.injEq, Prod.mk.injEq] at h
    obtain ⟨rfl, rfl⟩ := h
    refine ⟨[], h0, by simp, rfl, by simp, hwf, rfl, fun dq hdq => ⟨dq, hdq, rfl, rfl⟩,
      fun _ => rfl, ?_⟩
    intro hready
    have : s.ready_ = false := hr
    rw [this] at hready
    cases hready
  | true =>
    simp only [hr, Bool.not_true, Bool.false_eq_true, if_false] at h
    obtain ⟨c, h1, h2, h3, h4, h5, h6, h7, h8⟩ :=
      FetchFrame_loop_consumes current_time _ s none r s1 hwf h
    exact ⟨c, h0, h1, by simpa using h2, h3, h4, h5, h6, h7, fun _ => h8⟩

theorem session_step_wellFormed (s : Impl) (e : SessionEvent) (hwf : s.WellFormed) :
    (s.session_step e).2.2.WellFormed := by
  cases e with
  | push d =>
    cases hdq : s.decoded_frames_ with
    | none => simpa [session_step, hdq] using hwf
    | some dq =>
      cases hc : dq.closed_ with
      | true =>
        simpa [session_step, hdq, ConcurrentQueue.emplace_of_closed _ _ hc] using hwf
      | false =>
        by_cases hl : dq.size < dq.capacity
        · simp only [session_step, hdq, ConcurrentQueue.emplace_of_open _ _ hc,
            ConcurrentQueue.emplace_wait_of_lt _ _ hl]
          intro dq2 h2 e he
          simp only [Option.some.injEq] at h2
          subst h2
          simp only [List.mem_append, List.mem_singleton] at he
          rcases he with he | he
          · exact hwf dq hdq e he
          · exact ⟨d, he⟩
        · simpa [session_step, hdq, ConcurrentQueue.emplace_of_open _ _ hc,
            ConcurrentQueue.emplace_wait_of_ge _ _ (Nat.not_lt.mp hl)] using hwf
  | close =>
    cases hdq : s.decoded_frames_ with
    | none => simpa [session_step, hdq] using hwf
    | some dq =>
      simp only [session_step, hdq]
      intro dq2 h2 e he
      simp only [Option.some.injEq] at h2
      subst h2
      exact hwf dq hdq e he
  | fetch t =>
    obtain ⟨r, s1, c, h, _, _, _, h4, _⟩ := FetchFrame_consumes s t hwf
    simpa [session_step, h] using h4

theorem session_run_wellFormed (s : Impl) (es : List SessionEvent) (hwf : s.WellFormed) :
    (s.session_run es).WellFormed := by
  induction es generalizing s with
  | nil => exact hwf
  | cons e es ih => exact ih _ (session_step_wellFormed s e hwf)

theorem fresh_wellFormed (depth : Nat) (duration : Int) :
    (Impl.fresh depth duration).WellFormed := by
  intro dq h e he
  simp only [Impl.fresh, Option.some.injEq] at h
  subst h
  simp [ConcurrentQueue.new] at he

end Impl

end mf

end sandy

namespace sandy

/-- The last entry of a list, as a list, is a sublist of it. -/
theorem getLast?_toList_sublist {α : Type} (l : List α) : List.Sublist l.getLast?.toList l := by
  cases h : l.getLast? with
  | none => exact List.nil_sublist _
  | some a =>
    obtain ⟨ys, rfl⟩ := List.getLast?_eq_some_iff.mp h
    exact List.sublist_append_right ys [a]

namespace mf

namespace Impl

/-- One session event on a well-formed decoder: the held frames followed by
the frame the event enqueued are a prefix `consumed` followed by the frames
held afterwards, and the event's result is the last frame of `consumed`. -/
theorem session_step_held (s : Impl) (e : SessionEvent) (hwf : s.WellFormed) :
    ∃ consumed, s.held ++ (s.session_step e).1.toList
        = consumed ++ (s.session_step e).2.2.held
      ∧ (s.session_step e).2.1 = consumed.getLast? := by
  cases e with
  | push d =>
    cases hdq : s.decoded_frames_ with
    | none => exact ⟨[], by simp [session_step, hdq], by simp [session_step, hdq]⟩
    | some dq =>
      cases hc : dq.closed_ with
      | true =>
        exact ⟨[], by simp [session_step, hdq, ConcurrentQueue.emplace_of_closed _ _ hc],
          by simp [session_step, hdq, ConcurrentQueue.emplace_of_closed _ _ hc]⟩
      | false =>
        by_cases hl : dq.size < dq.capacity
        · refine ⟨[], ?_, ?_⟩
          · simp [session_step, hdq, ConcurrentQueue.emplace_of_open _ _ hc,
              ConcurrentQueue.emplace_wait_of_lt _ _ hl, held, queue_frames, entry_frame]
          · simp [session_step, hdq, ConcurrentQueue.emplace_of_open _ _ hc,
              ConcurrentQueue.emplace_wait_of_lt _ _ hl]
        · exact ⟨[], by simp [session_step, hdq, ConcurrentQueue.emplace_of_open _ _ hc,
              ConcurrentQueue.emplace_wait_of_ge _ _ (Nat.not_lt.mp hl)],
            by simp [session_step, hdq, ConcurrentQueue.emplace_of_open _ _ hc,
              ConcurrentQueue.emplace_wait_of_ge _ _ (Nat.not_lt.mp hl)]⟩
  | close =>
    cases hdq : s.decoded_frames_ with
    | none => exact ⟨[], by simp [session_step, hdq], by simp [session_step, hdq]⟩
    | some dq =>
      exact ⟨[], by simp [session_step, hdq, held, queue_frames, ConcurrentQueue.close],
        by simp [session_step, hdq]⟩
  | fetch t =>
    obtain ⟨r, s1, c, h, h1, h2, _⟩ := FetchFrame_consumes s t hwf
    exact ⟨c, by simp [session_step, h, h1], by simp [session_step, h, h2]⟩

/-- Over a session on a well-formed decoder, the frames held at the start
followed by the frames enqueued are the frames taken by the fetches followed
by the frames still held, and the frames returned are a sublist of the
frames taken. -/
theorem session_run_held (s : Impl) (es : List SessionEvent) (hwf : s.WellFormed) :
    ∃ consumed, s.held ++ s.session_pushed es = consumed ++ (s.session_run es).held
      ∧ List.Sublist (s.session_fetched es) consumed := by
  induction es generalizing s with
  | nil => exact ⟨[], by simp [session_pushed, session_run], by simp [session_fetched]⟩
  | cons e es ih =>
    obtain ⟨c1, h1, h2⟩ := session_step_held s e hwf
    obtain ⟨c2, h3, h4⟩ := ih _ (session_step_wellFormed s e hwf)
    refine ⟨c1 ++ c2, ?_, ?_⟩
    · simp only [session_pushed, session_run]
      rw [← List.append_assoc, h1, List.append_assoc, h3, List.append_assoc]
    · simp only [session_fetched]
      rw [h2]
      exact List.Sublist.append (getLast?_toList_sublist c1) h4

theorem fresh_held (depth : Nat) (duration : Int) : (Impl.fresh depth duration).held = [] := by
  simp [Impl.fresh, held, queue_frames, ConcurrentQueue.new]

/-- The frames returned during a session are a sublist of the frames held
at its start followed by the frames enqueued during it. -/
theorem session_fetched_sublist (s : Impl) (es : List SessionEvent) (hwf : s.WellFormed) :
    List.Sublist (s.session_fetched es) (s.held ++ s.session_pushed es) := by
  obtain ⟨c, h1, h2⟩ := session_run_held s es hwf
  rw [h1]
  exact h2.trans (List.sublist_append_left c _)

end Impl

end mf

end sandy

namespace sandy

namespace mf

/-- In a list with non-decreasing times the frames due at a time form a
prefix. -/
theorem takeWhile_due_eq_filter (current_time : Int) (l : List SampleData)
    (hs : l.Pairwise (fun a b => a.time ≤ b.time)) :
    l.takeWhile (due current_time) = l.filter (due current_time) := by
  induction l with
  | nil => rfl
  | cons a l ih =>
    rw [List.pairwise_cons] at hs
    by_cases ha : due current_time a = true
    · rw [List.takeWhile_cons_of_pos ha, List.filter_cons_of_pos ha, ih hs.2]
    · rw [List.takeWhile_cons_of_neg ha, List.filter_cons_of_neg ha]
      symm
      rw [List.filter_eq_nil_iff]
      intro b hb
      have h1 := hs.1 b hb
      simp only [due, decide_eq_true_eq, not_le] at ha ⊢
      omega

namespace Impl

/-- A call of `FetchFrame` on a ready, well-formed decoder whose queue is not
closed and drained returns the last of the leading held frames that are due
and leaves the other held frames. -/
theorem FetchFrame_open (s : Impl) (current_time : Int) (hwf : s.WellFormed)
    (hready : s.ready_ = true) (dq : ConcurrentQueue MfVideoFrameSample)
    (hdq : s.decoded_frames_ = some dq) (hopen : dq.closed = false) :
    ∃ s1, s.FetchFrame current_time
        = some ((s.held.takeWhile (due current_time)).getLast?, s1)
      ∧ s1.held = s.held.dropWhile (due current_time)
      ∧ s1.WellFormed ∧ s1.ready_ = true
      ∧ ∃ dq1, s1.decoded_frames_ = some dq1 ∧ dq1.closed_ = dq.closed_ := by
  obtain ⟨r, s1, c, h, h1, h2, h3, h4, h5, h6, _, h8⟩ := FetchFrame_consumes s current_time hwf
  have hc : ∀ d ∈ c, due current_time d = true := by
    intro d hd
    simpa [due] using h3 d hd
  have hrest : s1.held.takeWhile (due current_time) = []
      ∧ s1.held.dropWhile (due current_time) = s1.held := by
    rcases h8 hready dq hdq hopen with hnil | ⟨d, rest, hd, ht⟩
    · simp [hnil]
    · have hnd : ¬ due current_time d = true := by
        simp only [due, decide_eq_true_eq, not_le]
        exact ht
      rw [hd]
      exact ⟨List.takeWhile_cons_of_neg hnd, List.dropWhile_cons_of_neg hnd⟩
  obtain ⟨dq1, hdq1, hcl1, _⟩ := h6 dq hdq
  refine ⟨s1, ?_, ?_, h4, h5.trans hready, dq1, hdq1, hcl1⟩
  · rw [h, h1, List.takeWhile_append_of_pos hc, hrest.1, List.append_nil, h2]
  · rw [h1, List.dropWhile_append_of_pos hc, hrest.2]

/-- Once the queue is closed and drained `FetchFrame` returns nothing and
changes nothing, whatever the look-ahead slot holds. -/
theorem FetchFrame_closed (s : Impl) (current_time : Int)
    (dq : ConcurrentQueue MfVideoFrameSample) (hdq : s.decoded_frames_ = some dq)
    (hcl : dq.closed = true) : s.FetchFrame current_time = some (none, s) := by
  unfold FetchFrame
  cases hr : s.IsReady with
  | false => simp
  | true =>
    simp only [Bool.not_true, Bool.false_eq_true, if_false]
    have hf : FetchFrame_fuel s = dq.size + 1 + 1 := by simp [FetchFrame_fuel, hdq]
    rw [hf]
    exact FetchFrame_loop_closed _ _ _ _ dq hdq hcl

end Impl

end mf

end sandy

namespace sandy

namespace mf

namespace Impl

/-- A session returns at most one frame for each call of `FetchFrame`. -/
theorem session_fetched_length (s : Impl) (es : List SessionEvent) :
    (s.session_fetched es).length ≤ es.countP SessionEvent.isFetch := by
  induction es generalizing s with
  | nil => simp [session_fetched]
  | cons e es ih =>
    have hstep : (s.session_step e).2.1.toList.length ≤ if e.isFetch = true then 1 else 0 := by
      cases e with
      | push d =>
        simp only [session_step]
        split
        · simp
        · split <;> simp
      | close =>
        simp only [session_step]
        split <;> simp
      | fetch t =>
        simp only [SessionEvent.isFetch, if_true]
        cases (s.session_step (SessionEvent.fetch t)).2.1 <;> simp
    have := ih (s.session_step e).2.2
    simp only [session_fetched, List.length_append, List.countP_cons]
    omega

end Impl

end mf

/-- C11, as stated, fails: with the frames at 0 and 10 queued, `FetchFrame(5)`
returns the frame at 0 and the following `FetchFrame(7)` returns nothing,
although the frame at 0 is the latest frame whose time is at most 7. -/
theorem C11_counterexample :
    (mf.Impl.fresh 4 300).session_results
        [mf.SessionEvent.push ⟨0, 0⟩, mf.SessionEvent.push ⟨10, 1⟩,
          mf.SessionEvent.fetch 5, mf.SessionEvent.fetch 7]
      = [some ⟨0, 0⟩, none] := by
  decide

/-- C11, amended: on a ready decoder, in every state but the one in which
the queue is closed and drained while the look-ahead slot still holds a
frame, `FetchFrame(current_time)` takes, from the frames still held (the
look-ahead slot, then the queue: the frames made available and not taken by
an earlier call), the leading frames whose time is at most `current_time`,
returns the last of them and leaves the others held; whether the producer
has closed the queue stays as it was. When the held frames have
non-decreasing times the result is the latest held frame whose time is at
most `current_time`, and it is null exactly when no held frame has a time at
most `current_time`. -/
theorem C11_FetchFrame_latest_held (s : mf.Impl) (current_time : Int)
    (hwf : s.WellFormed) (hready : s.ready_ = true)
    (dq : ConcurrentQueue mf.MfVideoFrameSample) (hdq : s.decoded_frames_ = some dq)
    (hslot : dq.closed = true → s.next_frame_ = none) :
    ∃ s1, s.FetchFrame current_time
        = some ((s.held.takeWhile (mf.due current_time)).getLast?, s1)
      ∧ s1.held = s.held.dropWhile (mf.due current_time)
      ∧ s1.WellFormed ∧ s1.ready_ = true
      ∧ (∃ dq1, s1.decoded_frames_ = some dq1 ∧ dq1.closed_ = dq.closed_)
      ∧ (s.held.Pairwise (fun a b => a.time ≤ b.time) →
          (s.held.takeWhile (mf.due current_time)).getLast?
              = (s.held.filter (mf.due current_time)).getLast?
            ∧ ((s.held.takeWhile (mf.due current_time)).getLast? = none
              ↔ ∀ d ∈ s.held, current_time < d.time)) := by
  have hmain : ∃ s1, s.FetchFrame current_time
        = some ((s.held.takeWhile (mf.due current_time)).getLast?, s1)
      ∧ s1.held = s.held.dropWhile (mf.due current_time)
      ∧ s1.WellFormed ∧ s1.ready_ = true
      ∧ (∃ dq1, s1.decoded_frames_ = some dq1 ∧ dq1.closed_ = dq.closed_) := by
    cases hcl : dq.closed with
    | false => exact mf.Impl.FetchFrame_open s current_time hwf hready dq hdq hcl
    | true =>
      have hq : dq.queue_ = [] := by
        simp only [ConcurrentQueue.closed, Bool.and_eq_true, List.isEmpty_iff] at hcl
        exact hcl.1
      have hheld : s.held = [] := by
        rw [mf.Impl.held_of_queue s dq hdq, hslot hcl]
        simp [mf.queue_frames, hq]
      refine ⟨s, ?_, ?_, hwf, hready, dq, hdq, rfl⟩
      · rw [mf.Impl.FetchFrame_closed s current_time dq hdq hcl, hheld]
        rfl
      · rw [hheld]
        rfl
  obtain ⟨s1, h1, h2, h3, h4, h5⟩ := hmain
  refine ⟨s1, h1, h2, h3, h4, h5, ?_⟩
  intro hs
  rw [mf.takeWhile_due_eq_filter current_time s.held hs]
  refine ⟨rfl, ?_⟩
  rw [List.getLast?_eq_none_iff, List.filter_eq_nil_iff]
  constructor
  · intro h d hd
    have := h d hd
    simpa [mf.due] using this
  · intro h d hd
    have := h d hd
    simpa [mf.due] using this

/-- C11 amended, on the frames at 0, 10, 20, 30 all queued: the fetches at
5, 15, 25, 100 return the frames at 0, 10, 20, 30; and after the producer
has closed the queue with the four frames in it, a first fetch at 15 returns
the frame at 10 and leaves the frames at 20 and 30 held. -/
theorem C11_FetchFrame_latest_held_witness :
    (mf.Impl.fresh 4 300).session_results
        [mf.SessionEvent.push ⟨0, 0⟩, mf.SessionEvent.push ⟨10, 1⟩,
          mf.SessionEvent.push ⟨20, 2⟩, mf.SessionEvent.push ⟨30, 3⟩,
          mf.SessionEvent.fetch 5, mf.SessionEvent.fetch 15, mf.SessionEvent.fetch 25,
          mf.SessionEvent.fetch 100]
        = [some ⟨0, 0⟩, some ⟨10, 1⟩, some ⟨20, 2⟩, some ⟨30, 3⟩]
      ∧ ∃ s1, (mf.Impl.mk true 4 300 true
            (some (ConcurrentQueue.mk 4
              [some (some ⟨0, 0⟩), some (some ⟨10, 1⟩), some (some ⟨20, 2⟩),
                some (some ⟨30, 3⟩)] true))
            none).FetchFrame 15
          = some (some ⟨10, 1⟩, s1)
        ∧ s1.held = [⟨20, 2⟩, ⟨30, 3⟩] := by
  refine ⟨by decide, ?_⟩
  obtain ⟨s1, h1, h2, _⟩ := C11_FetchFrame_latest_held
    (mf.Impl.mk true 4 300 true
      (some (ConcurrentQueue.mk 4
        [some (some ⟨0, 0⟩), some (some ⟨10, 1⟩), some (some ⟨20, 2⟩),
          some (some ⟨30, 3⟩)] true))
      none) 15
    (by
      intro dq h e he
      simp only [Option.some.injEq] at h
      subst h
      simp only [List.mem_cons, List.mem_singleton, List.not_mem_nil, or_false] at he
      rcases he with rfl | rfl | rfl | rfl <;> exact ⟨_, rfl⟩)
    rfl _ rfl (fun _ => rfl)
  exact ⟨s1, h1, h2⟩

/-- C12 fails on the code. With the frames at 0, 100, 200 pushed and the
queue closed by the producer, `FetchFrame(0)` returns the frame at 0,
`FetchFrame(150)` the frame at 100, and `FetchFrame(1000)` returns nothing:
the frame at 200 sits in the look-ahead slot while `IsEndOfStream()` is
true. In general, once the queue is closed and drained every `FetchFrame`
returns nothing and leaves the look-ahead slot as it is. -/
theorem C12_last_frame_not_delivered :
    (mf.Impl.fresh 4 300).session_results
        [mf.SessionEvent.push ⟨0, 0⟩, mf.SessionEvent.push ⟨100, 1⟩,
          mf.SessionEvent.push ⟨200, 2⟩, mf.SessionEvent.close,
          mf.SessionEvent.fetch 0, mf.SessionEvent.fetch 150, mf.SessionEvent.fetch 1000]
        = [some ⟨0, 0⟩, some ⟨100, 1⟩, none]
      ∧ ((mf.Impl.fresh 4 300).session_run
        [mf.SessionEvent.push ⟨0, 0⟩, mf.SessionEvent.push ⟨100, 1⟩,
          mf.SessionEvent.push ⟨200, 2⟩, mf.SessionEvent.close,
          mf.SessionEvent.fetch 0, mf.SessionEvent.fetch 150,
          mf.SessionEvent.fetch 1000]).next_frame_ = some ⟨200, 2⟩
      ∧ ((mf.Impl.fresh 4 300).session_run
        [mf.SessionEvent.push ⟨0, 0⟩, mf.SessionEvent.push ⟨100, 1⟩,
          mf.SessionEvent.push ⟨200, 2⟩, mf.SessionEvent.close,
          mf.SessionEvent.fetch 0, mf.SessionEvent.fetch 150,
          mf.SessionEvent.fetch 1000]).IsEndOfStream = true
      ∧ (∀ (s : mf.Impl) (current_time : Int) (dq : ConcurrentQueue mf.MfVideoFrameSample),
          s.decoded_frames_ = some dq → dq.closed = true →
          s.FetchFrame current_time = some (none, s)) := by
  refine ⟨by decide, by decide, by decide, ?_⟩
  intro s current_time dq hdq hcl
  exact mf.Impl.FetchFrame_closed s current_time dq hdq hcl

/-- C13: over every session on a well-formed decoder (pushes, a close and
fetches in any order, with any query times), when the frames held at the
start followed by the frames pushed have non-decreasing times, so have the
frames returned: no call returns a frame with a smaller time than a frame
returned by an earlier call. -/
theorem C13_fetched_nondecreasing (s : mf.Impl) (es : List mf.SessionEvent)
    (hwf : s.WellFormed)
    (hs : (s.held ++ s.session_pushed es).Pairwise (fun a b => a.time ≤ b.time)) :
    (s.session_fetched es).Pairwise (fun a b => a.time ≤ b.time) :=
  List.Pairwise.sublist (mf.Impl.session_fetched_sublist s es hwf) hs

/-- C13 on a fresh session: frames at 0, 10, 20 pushed, fetched at 15, then
at 5, then at 30. -/
theorem C13_fetched_nondecreasing_witness :
    ((mf.Impl.fresh 4 300).session_fetched
        [mf.SessionEvent.push ⟨0, 0⟩, mf.SessionEvent.push ⟨10, 1⟩,
          mf.SessionEvent.push ⟨20, 2⟩, mf.SessionEvent.fetch 15,
          mf.SessionEvent.fetch 5, mf.SessionEvent.fetch 30]).Pairwise
      (fun a b => a.time ≤ b.time) :=
  C13_fetched_nondecreasing (mf.Impl.fresh 4 300) _ (mf.Impl.fresh_wellFormed 4 300)
    (by decide)

/-- C14: a call of `FetchFrame` returns one handle, null or one frame, so a
session returns at most as many frames as it has fetches. Over every
session that starts fresh, the frames pushed are the frames taken out of
the slot and the queue by the fetches followed by the frames still held, so
each pushed frame is taken at most once; the frames returned are a
sublist of the frames taken, hence of the frames pushed: they come in push
order, and no pushed frame is returned twice. -/
theorem C14_fetched_sublist_pushed (depth : Nat) (duration : Int)
    (es : List mf.SessionEvent) :
    ((mf.Impl.fresh depth duration).session_fetched es).length
        ≤ es.countP mf.SessionEvent.isFetch
      ∧ (∃ consumed, (mf.Impl.fresh depth duration).session_pushed es
            = consumed ++ ((mf.Impl.fresh depth duration).session_run es).held
          ∧ List.Sublist ((mf.Impl.fresh depth duration).session_fetched es) consumed)
      ∧ List.Sublist ((mf.Impl.fresh depth duration).session_fetched es)
          ((mf.Impl.fresh depth duration).session_pushed es)
      ∧ (((mf.Impl.fresh depth duration).session_pushed es).Nodup →
          ((mf.Impl.fresh depth duration).session_fetched es).Nodup) := by
  have hsub := mf.Impl.session_fetched_sublist (mf.Impl.fresh depth duration) es
    (mf.Impl.fresh_wellFormed depth duration)
  have hrun := mf.Impl.session_run_held (mf.Impl.fresh depth duration) es
    (mf.Impl.fresh_wellFormed depth duration)
  rw [mf.Impl.fresh_held, List.nil_append] at hsub hrun
  exact ⟨mf.Impl.session_fetched_length _ es, hrun, hsub, fun h => h.sublist hsub⟩

end sandy

namespace sandy

/-- C14 on a fresh session: frames at 0, 10, 20 pushed, fetched at 15 and at
30; the frames returned are distinct because the frames pushed are. -/
theorem C14_fetched_sublist_pushed_witness :
    ((mf.Impl.fresh 4 300).session_fetched
        [mf.SessionEvent.push ⟨0, 0⟩, mf.SessionEvent.push ⟨10, 1⟩,
          mf.SessionEvent.push ⟨20, 2⟩, mf.SessionEvent.fetch 15,
          mf.SessionEvent.fetch 30]).Nodup :=
  (C14_fetched_sublist_pushed 4 300 _).2.2.2 (by decide)

end sandy

/-! ## Properties of the worker thread -/

namespace sandy

namespace mf

theorem wrap_int64_of_range (x : Int) (h1 : -(2 ^ 63) ≤ x) (h2 : x < 2 ^ 63) :
    wrap_int64 x = x := by
  unfold wrap_int64
  have : (x + 2 ^ 63) % 2 ^ 64 = x + 2 ^ 63 :=
    Int.emod_eq_of_lt (by omega) (by omega)
  omega

theorem wrap_int64_add_wrap (a b : Int) :
    wrap_int64 (a + wrap_int64 b) = wrap_int64 (a + b) := by
  unfold wrap_int64
  have h : (a + ((b + 2 ^ 63) % 2 ^ 64 - 2 ^ 63) + 2 ^ 63) % 2 ^ 64
      = (a + b + 2 ^ 63) % 2 ^ 64 := by
    have e1 : a + ((b + 2 ^ 63) % 2 ^ 64 - 2 ^ 63) + 2 ^ 63 = a + (b + 2 ^ 63) % 2 ^ 64 := by
      omega
    have e2 : a + b + 2 ^ 63 = a + (b + 2 ^ 63) := by omega
    rw [e1, e2, Int.add_emod, Int.emod_emod_of_dvd _ (dvd_refl _), ← Int.add_emod]
  rw [h]

/-- The four ways the loop body can go on after `ReadSample`, with what
each does to the worker's locals. -/
theorem after_read_cases (duration : Int) (w : Worker) (rd : ReadSampleResult)
    (mt : MediaTypeResult) :
    (∃ w1, w.after_read duration rd mt = (Decision.leave, w1)
        ∧ (rd.hr_failed = true
          ∨ ((w.frame_media_type_.isNone || rd.flags_media_type_changed) = true
              ∧ mt.hr_failed = true)
          ∨ (rd.flags_end_of_stream = true ∧ w.looping = false)))
      ∨ (∃ w1, w.after_read duration rd mt = (Decision.again true, w1)
          ∧ rd.hr_failed = false ∧ rd.flags_end_of_stream = true ∧ w.looping = true
          ∧ w1.looping = w.looping ∧ w1.loop_count = (w.loop_count + 1) % 2 ^ 32)
      ∨ (∃ w1, w.after_read duration rd mt = (Decision.again false, w1)
          ∧ rd.hr_failed = false ∧ rd.flags_end_of_stream = false ∧ rd.sample = none
          ∧ w1.looping = w.looping ∧ w1.loop_count = w.loop_count)
      ∨ (∃ d w1, w.after_read duration rd mt
            = (Decision.push d
                { d with time := wrap_int64 (d.time + wrap_int64 (duration * w.loop_count)) },
              w1)
          ∧ rd.hr_failed = false ∧ rd.flags_end_of_stream = false ∧ rd.sample = some d
          ∧ w1.looping = w.looping ∧ w1.loop_count = w.loop_count) := by
  by_cases h1 : rd.hr_failed = true
  · left
    exact ⟨w, by simp [Worker.after_read, h1], Or.inl h1⟩
  · have h1f : rd.hr_failed = false := by simpa using h1
    by_cases h2 : ((w.frame_media_type_.isNone || rd.flags_media_type_changed)
        && mt.hr_failed) = true
    · left
      refine ⟨w, by simp only [Worker.after_read, h1f, Bool.false_eq_true, if_false, h2, if_true],
        Or.inr (Or.inl ?_)⟩
      simpa [Bool.and_eq_true] using h2
    · by_cases h3 : rd.flags_end_of_stream = true
      · by_cases h4 : w.looping = true
        · right; left
          have e : w.after_read duration rd mt
              = (Decision.again true,
                  { (if w.frame_media_type_.isNone || rd.flags_media_type_changed then
                      { w with frame_media_type_ := mt.media_type } else w) with
                    loop_count := (w.loop_count + 1) % 2 ^ 32 }) := by
            simp only [Worker.after_read, h1f, Bool.false_eq_true, if_false, h2, h3, if_true]
            split <;> simp_all
          exact ⟨_, e, h1f, h3, h4, by split <;> rfl, rfl⟩
        · left
          have h4f : w.looping = false := by simpa using h4
          have e : w.after_read duration rd mt
              = (Decision.leave,
                  (if w.frame_media_type_.isNone || rd.flags_media_type_changed then
                      { w with frame_media_type_ := mt.media_type } else w)) := by
            simp only [Worker.after_read, h1f, Bool.false_eq_true, if_false, h2, h3, if_true]
            split <;> simp_all
          exact ⟨_, e, Or.inr (Or.inr ⟨h3, h4f⟩)⟩
      · have h3f : rd.flags_end_of_stream = false := by simpa using h3
        cases hs : rd.sample with
        | none =>
          right; right; left
          have e : w.after_read duration rd mt
              = (Decision.again false,
                  (if w.frame_media_type_.isNone || rd.flags_media_type_changed then
                      { w with frame_media_type_ := mt.media_type } else w)) := by
            simp only [Worker.after_read, h1f, Bool.false_eq_true, if_false, h2, h3f, hs]
          exact ⟨_, e, h1f, h3f, rfl, by split <;> rfl, by split <;> rfl⟩
        | some d =>
          right; right; right
          have e : w.after_read duration rd mt
              = (Decision.push d
                  { d with time := wrap_int64 (d.time + wrap_int64 (duration * w.loop_count)) },
                  (if w.frame_media_type_.isNone || rd.flags_media_type_changed then
                      { w with frame_media_type_ := mt.media_type } else w)) := by
            simp only [Worker.after_read, h1f, Bool.false_eq_true, if_false, h2, h3f, hs]
            split <;> rfl
          exact ⟨d, _, e, h1f, h3f, rfl, by split <;> rfl, by split <;> rfl⟩

end mf

end sandy

namespace sandy

namespace mf

namespace Machine

/-- Case analysis on one step of the machine: a property of the step, its
record and the state it leads to holds as soon as it holds for each
transition of the worker, of the tearing-down thread and of the caller. -/
theorem transition_cases (s : Machine) (P : Step → List Effect → Machine → Prop)
    (test_run : ∀ rd mt w, s.worker = WorkerPc.test w → s.running_ = true →
      P (Step.worker rd mt) [] { s with running_ := true, worker := WorkerPc.check w })
    (test_stop : ∀ rd mt w, s.worker = WorkerPc.test w → s.running_ = false →
      P (Step.worker rd mt) [] { s with running_ := true, worker := WorkerPc.close })
    (check_full : ∀ rd mt w, s.worker = WorkerPc.check w → s.queue.size = s.queue.capacity →
      P (Step.worker rd mt) [Effect.slept] { s with worker := WorkerPc.test w })
    (check_room : ∀ rd mt w, s.worker = WorkerPc.check w → s.queue.size ≠ s.queue.capacity →
      P (Step.worker rd mt) [] { s with worker := WorkerPc.read w })
    (read_leave : ∀ rd mt w w1, s.worker = WorkerPc.read w →
      w.after_read s.video_duration_ rd mt = (Decision.leave, w1) →
      P (Step.worker rd mt) [Effect.read rd] { s with worker := WorkerPc.close })
    (read_rewind : ∀ rd mt w w1, s.worker = WorkerPc.read w →
      w.after_read s.video_duration_ rd mt = (Decision.again true, w1) →
      P (Step.worker rd mt) [Effect.read rd, Effect.rewound]
        { s with worker := WorkerPc.test w1 })
    (read_skip : ∀ rd mt w w1, s.worker = WorkerPc.read w →
      w.after_read s.video_duration_ rd mt = (Decision.again false, w1) →
      P (Step.worker rd mt) [Effect.read rd] { s with worker := WorkerPc.test w1 })
    (read_push : ∀ rd mt w w1 d frame, s.worker = WorkerPc.read w →
      w.after_read s.video_duration_ rd mt = (Decision.push d frame, w1) →
      P (Step.worker rd mt) [Effect.read rd, Effect.rebased w1.loop_count d frame]
        { s with worker := WorkerPc.push w1 frame })
    (push_refused : ∀ rd mt w frame, s.worker = WorkerPc.push w frame →
      s.queue.closed_ = true →
      P (Step.worker rd mt) [Effect.pushed frame false] { s with worker := WorkerPc.test w })
    (push_done : ∀ rd mt w frame, s.worker = WorkerPc.push w frame →
      s.queue.closed_ = false → s.queue.size < s.queue.capacity →
      P (Step.worker rd mt) [Effect.pushed frame true]
        { s with queue := { s.queue with queue_ := s.queue.queue_ ++ [some (some frame)] },
                 worker := WorkerPc.test w, controller := notify_consumer s.controller })
    (push_full : ∀ rd mt w frame, s.worker = WorkerPc.push w frame →
      s.queue.closed_ = false → s.queue.capacity ≤ s.queue.size →
      P (Step.worker rd mt) [Effect.push_parked frame]
        { s with worker := WorkerPc.parked w frame false })
    (wake_done : ∀ rd mt w frame, s.worker = WorkerPc.parked w frame true →
      s.queue.size < s.queue.capacity →
      P (Step.worker rd mt) [Effect.pushed frame true]
        { s with queue := { s.queue with queue_ := s.queue.queue_ ++ [some (some frame)] },
                 worker := WorkerPc.test w, controller := notify_consumer s.controller })
    (wake_full : ∀ rd mt w frame, s.worker = WorkerPc.parked w frame true →
      s.queue.capacity ≤ s.queue.size →
      P (Step.worker rd mt) [Effect.push_parked frame]
        { s with worker := WorkerPc.parked w frame false })
    (close : ∀ rd mt, s.worker = WorkerPc.close →
      P (Step.worker rd mt) [Effect.closed]
        { s with queue := s.queue.close, worker := WorkerPc.done,
                 controller := notify_consumer s.controller })
    (teardown : s.controller = ControllerPc.idle →
      P Step.controller [] { s with running_ := false, controller := ControllerPc.drain })
    (drain_frame : ∀ x rest,
      s.controller = ControllerPc.drain ∨ s.controller = ControllerPc.parked true →
      s.queue.queue_ = some x :: rest →
      P Step.controller [Effect.popped (some x)]
        { s with queue := { s.queue with queue_ := rest },
                 worker := notify_producer s.worker, controller := ControllerPc.drain })
    (drain_disengaged : ∀ rest,
      s.controller = ControllerPc.drain ∨ s.controller = ControllerPc.parked true →
      s.queue.queue_ = none :: rest →
      P Step.controller []
        { s with queue := { s.queue with queue_ := rest },
                 worker := notify_producer s.worker, controller := ControllerPc.parked false })
    (drain_end :
      s.controller = ControllerPc.drain ∨ s.controller = ControllerPc.parked true →
      s.queue.queue_ = [] → s.queue.closed_ = true →
      P Step.controller [Effect.popped none] { s with controller := ControllerPc.join })
    (drain_wait :
      s.controller = ControllerPc.drain ∨ s.controller = ControllerPc.parked true →
      s.queue.queue_ = [] → s.queue.closed_ = false →
      P Step.controller [] { s with controller := ControllerPc.parked false })
    (join : s.controller = ControllerPc.join → s.worker = WorkerPc.done →
      P Step.controller [] { s with controller := ControllerPc.finished })
    (pop_empty : s.controller = ControllerPc.idle → s.queue.queue_ = [] →
      P Step.consumer_pop [Effect.popped none] s)
    (pop_front : ∀ x rest, s.controller = ControllerPc.idle → s.queue.queue_ = x :: rest →
      P Step.consumer_pop [Effect.popped x]
        { s with queue := { s.queue with queue_ := rest },
                 worker := notify_producer s.worker })
    (t : Step) (es : List Effect) (s1 : Machine) (hs : s.step t = some (es, s1)) :
    P t es s1 := by
  cases t with
  | worker rd mt =>
    simp only [step, worker_step] at hs
    cases hw : s.worker with
    | test w =>
      rw [hw] at hs
      cases hr : s.running_ with
      | true =>
        simp only [hr, if_true, Option.some.injEq, Prod.mk.injEq] at hs
        obtain ⟨rfl, rfl⟩ := hs
        exact test_run rd mt w hw hr
      | false =>
        simp only [hr, Bool.false_eq_true, if_false, Option.some.injEq, Prod.mk.injEq] at hs
        obtain ⟨rfl, rfl⟩ := hs
        exact test_stop rd mt w hw hr
    | check w =>
      rw [hw] at hs
      by_cases hf : s.queue.size = s.queue.capacity
      · simp only [hf, if_true, Option.some.injEq, Prod.mk.injEq] at hs
        obtain ⟨rfl, rfl⟩ := hs
        exact check_full rd mt w hw hf
      · simp only [hf, if_false, Option.some.injEq, Prod.mk.injEq] at hs
        obtain ⟨rfl, rfl⟩ := hs
        exact check_room rd mt w hw hf
    | read w =>
      rw [hw] at hs
      simp only at hs
      cases ha : w.after_read s.video_duration_ rd mt with
      | mk dec w1 =>
        rw [ha] at hs
        cases dec with
        | leave =>
          simp only [Option.some.injEq, Prod.mk.injEq] at hs
          obtain ⟨rfl, rfl⟩ := hs
          exact read_leave rd mt w w1 hw ha
        | again b =>
          cases b with
          | true =>
            simp only [Option.some.injEq, Prod.mk.injEq] at hs
            obtain ⟨rfl, rfl⟩ := hs
            exact read_rewind rd mt w w1 hw ha
          | false =>
            simp only [Option.some.injEq, Prod.mk.injEq] at hs
            obtain ⟨rfl, rfl⟩ := hs
            exact read_skip rd mt w w1 hw ha
        | push d frame =>
          simp only [Option.some.injEq, Prod.mk.injEq] at hs
          obtain ⟨rfl, rfl⟩ := hs
          exact read_push rd mt w w1 d frame hw ha
    | push w frame =>
      rw [hw] at hs
      simp only [Option.some.injEq] at hs
      cases hc : s.queue.closed_ with
      | true =>
        rw [ConcurrentQueue.emplace_of_closed _ _ hc] at hs
        simp only [after_push, Prod.mk.injEq] at hs
        obtain ⟨rfl, rfl⟩ := hs
        have h1 := push_refused rd mt w frame hw hc
        simpa using h1
      | false =>
        rw [ConcurrentQueue.emplace_of_open _ _ hc] at hs
        by_cases hl : s.queue.size < s.queue.capacity
        · rw [ConcurrentQueue.emplace_wait_of_lt _ _ hl] at hs
          simp only [after_push, Prod.mk.injEq] at hs
          obtain ⟨rfl, rfl⟩ := hs
          exact push_done rd mt w frame hw hc hl
        · rw [ConcurrentQueue.emplace_wait_of_ge _ _ (Nat.not_lt.mp hl)] at hs
          simp only [after_push, Prod.mk.injEq] at hs
          obtain ⟨rfl, rfl⟩ := hs
          have h1 := push_full rd mt w frame hw hc (Nat.not_lt.mp hl)
          simpa using h1
    | parked w frame n =>
      rw [hw] at hs
      cases n with
      | false => simp at hs
      | true =>
        simp only [Option.some.injEq] at hs
        by_cases hl : s.queue.size < s.queue.capacity
        · rw [ConcurrentQueue.emplace_wait_of_lt _ _ hl] at hs
          simp only [after_push, Prod.mk.injEq] at hs
          obtain ⟨rfl, rfl⟩ := hs
          exact wake_done rd mt w frame hw hl
        · rw [ConcurrentQueue.emplace_wait_of_ge _ _ (Nat.not_lt.mp hl)] at hs
          simp only [after_push, Prod.mk.injEq] at hs
          obtain ⟨rfl, rfl⟩ := hs
          have h1 := wake_full rd mt w frame hw (Nat.not_lt.mp hl)
          simpa using h1
    | close =>
      rw [hw] at hs
      simp only [Option.some.injEq, Prod.mk.injEq] at hs
      obtain ⟨rfl, rfl⟩ := hs
      exact close rd mt hw
    | done =>
      rw [hw] at hs
      simp at hs
  | controller =>
    simp only [step, controller_step] at hs
    have hround : ∀ (es : List Effect) (s1 : Machine),
        s.controller = ControllerPc.drain ∨ s.controller = ControllerPc.parked true →
        after_pop_wait s s.queue s.queue.pop_wait_wait = (es, s1) →
        P Step.controller es s1 := by
      intro es s1 hc hr
      cases hq : s.queue.queue_ with
      | nil =>
        cases hcl : s.queue.closed_ with
        | true =>
          rw [ConcurrentQueue.pop_wait_wait_nil_closed _ hq hcl] at hr
          simp only [after_pop_wait, ConcurrentQueue.closed, hq, hcl, List.isEmpty_nil,
            Bool.and_self, Bool.or_self, if_true, Prod.mk.injEq] at hr
          obtain ⟨rfl, rfl⟩ := hr
          have h1 := drain_end hc hq hcl
          simpa using h1
        | false =>
          rw [ConcurrentQueue.pop_wait_wait_nil_open _ hq hcl] at hr
          simp only [after_pop_wait, ConcurrentQueue.closed, hq, hcl, List.isEmpty_nil,
            Bool.and_false, Bool.or_true, if_true, Prod.mk.injEq] at hr
          obtain ⟨rfl, rfl⟩ := hr
          have h1 := drain_wait hc hq hcl
          simpa using h1
      | cons x rest =>
        cases x with
        | none =>
          rw [ConcurrentQueue.pop_wait_wait_cons_none _ _ hq] at hr
          simp only [after_pop_wait, ConcurrentQueue.closed, hq, List.isEmpty_cons,
            Bool.false_and, Bool.or_self, Bool.false_eq_true, if_false, Prod.mk.injEq] at hr
          obtain ⟨rfl, rfl⟩ := hr
          exact drain_disengaged rest hc hq
        | some v =>
          rw [ConcurrentQueue.pop_wait_wait_cons_some _ _ _ hq] at hr
          simp only [after_pop_wait, ConcurrentQueue.closed, hq, List.isEmpty_cons,
            Bool.false_and, Bool.or_self, Bool.false_eq_true, if_false, Prod.mk.injEq] at hr
          obtain ⟨rfl, rfl⟩ := hr
          exact drain_frame v rest hc hq
    obtain ⟨c, hc⟩ : ∃ c, s.controller = c := ⟨_, rfl⟩
    rw [hc] at hs
    cases c with
    | idle =>
      simp only [Option.some.injEq, Prod.mk.injEq] at hs
      obtain ⟨rfl, rfl⟩ := hs
      exact teardown hc
    | drain =>
      simp only [Option.some.injEq, ConcurrentQueue.pop_wait] at hs
      exact hround es s1 (Or.inl hc) hs
    | parked n =>
      cases n with
      | false => simp at hs
      | true =>
        simp only [Option.some.injEq] at hs
        exact hround es s1 (Or.inr hc) hs
    | join =>
      obtain ⟨p, hw⟩ : ∃ p, s.worker = p := ⟨_, rfl⟩
      rw [hw] at hs
      cases p with
      | done =>
        simp only [Option.some.injEq, Prod.mk.injEq] at hs
        obtain ⟨rfl, rfl⟩ := hs
        rw [← hw]
        exact join hc hw
      | _ => simp at hs
    | finished => simp at hs
  | consumer_pop =>
    simp only [step, consumer_step] at hs
    obtain ⟨c, hc⟩ : ∃ c, s.controller = c := ⟨_, rfl⟩
    rw [hc] at hs
    cases c with
    | idle =>
      cases hq : s.queue.queue_ with
      | nil =>
        simp only [ConcurrentQueue.try_pop, hq, List.isEmpty_nil, if_true, Option.some.injEq,
          Prod.mk.injEq] at hs
        obtain ⟨rfl, rfl⟩ := hs
        rw [← hc]
        exact pop_empty hc hq
      | cons x rest =>
        simp only [ConcurrentQueue.try_pop, hq, List.isEmpty_cons, Bool.false_eq_true,
          if_false, Option.some.injEq, Prod.mk.injEq] at hs
        obtain ⟨rfl, rfl⟩ := hs
        rw [← hc]
        exact pop_front x rest hc hq
    | _ => simp at hs

end Machine

end mf

end sandy

namespace sandy

namespace mf

namespace Machine

theorem notify_consumer_asleep (c : ControllerPc) : (notify_consumer c).asleep = false := by
  cases c with
  | parked n => rfl
  | _ => rfl

theorem notify_consumer_tearing_down (c : ControllerPc) :
    (notify_consumer c).tearing_down = c.tearing_down := by
  cases c <;> rfl

theorem notify_consumer_drained (c : ControllerPc) :
    (notify_consumer c).drained = c.drained := by
  cases c <;> rfl

theorem notify_producer_asleep (p : WorkerPc) : (notify_producer p).asleep = false := by
  cases p <;> rfl

theorem notify_producer_saw_room (p : WorkerPc) :
    (notify_producer p).saw_room = p.saw_room := by
  cases p <;> rfl

theorem notify_producer_returned (p : WorkerPc) :
    (notify_producer p).returned = p.returned := by
  cases p <;> rfl

theorem notify_producer_waits (p : WorkerPc) : (notify_producer p).waits = p.waits := by
  cases p <;> rfl

theorem notify_producer_in_loop (p : WorkerPc) :
    (notify_producer p).in_loop = p.in_loop := by
  cases p <;> rfl

theorem step_within_capacity (s : Machine) (h1 : s.queue.size ≤ s.queue.capacity)
    (t : Step) (es : List Effect) (s1 : Machine)
    (hs : s.step t = some (es, s1)) :
    s1.queue.size ≤ s1.queue.capacity ∧ s1.queue.capacity = s.queue.capacity
      ∧ s1.video_duration_ = s.video_duration_ := by
  revert t es s1
  apply transition_cases s (fun _ _ s1 => s1.queue.size ≤ s1.queue.capacity
    ∧ s1.queue.capacity = s.queue.capacity ∧ s1.video_duration_ = s.video_duration_)
  all_goals
    intros
    try simp only [notify_consumer_asleep, notify_consumer_tearing_down,
      notify_consumer_drained, notify_producer_asleep, notify_producer_saw_room,
      notify_producer_returned, notify_producer_waits, notify_producer_in_loop] at *
    try simp_all [ConcurrentQueue.size, ConcurrentQueue.capacity, ConcurrentQueue.close]
  all_goals omega

theorem step_engaged_queue (s : Machine) (h : s.queue.Engaged)
    (t : Step) (es : List Effect) (s1 : Machine)
    (hs : s.step t = some (es, s1)) : s1.queue.Engaged := by
  unfold ConcurrentQueue.Engaged at h ⊢
  revert t es s1
  apply transition_cases s (fun _ _ s1 => ∀ x ∈ s1.queue.queue_, x.isSome = true)
  all_goals
    intros
    try simp only [notify_consumer_asleep, notify_consumer_tearing_down,
      notify_consumer_drained, notify_producer_asleep, notify_producer_saw_room,
      notify_producer_returned, notify_producer_waits, notify_producer_in_loop] at *
    try simp_all [ConcurrentQueue.close]
  all_goals
    rename_i x hx
    rcases hx with hx | hx
    · exact h x hx
    · simp [hx]

theorem step_closed_flag (s : Machine)
    (h3 : s.worker.returned = false → s.queue.closed_ = false)
    (h4 : s.worker.returned = true → s.queue.closed_ = true)
    (t : Step) (es : List Effect) (s1 : Machine)
    (hs : s.step t = some (es, s1)) :
    (s1.worker.returned = false → s1.queue.closed_ = false)
      ∧ (s1.worker.returned = true → s1.queue.closed_ = true) := by
  revert t es s1
  apply transition_cases s (fun _ _ s1 => (s1.worker.returned = false → s1.queue.closed_ = false)
      ∧ (s1.worker.returned = true → s1.queue.closed_ = true))
  all_goals
    intros
    try simp only [notify_consumer_asleep, notify_consumer_tearing_down,
      notify_consumer_drained, notify_producer_asleep, notify_producer_saw_room,
      notify_producer_returned, notify_producer_waits, notify_producer_in_loop] at *
    try simp_all [WorkerPc.returned, ConcurrentQueue.close, notify_producer_returned]

theorem step_room (s : Machine) (h1 : s.queue.size ≤ s.queue.capacity)
    (h2 : s.worker.saw_room = true → s.queue.size < s.queue.capacity)
    (t : Step) (es : List Effect) (s1 : Machine)
    (hs : s.step t = some (es, s1)) :
    s1.worker.saw_room = true → s1.queue.size < s1.queue.capacity := by
  revert t es s1
  apply transition_cases s (fun _ _ s1 => s1.worker.saw_room = true →
    s1.queue.size < s1.queue.capacity)
  all_goals
    intros
    try simp only [notify_consumer_asleep, notify_consumer_tearing_down,
      notify_consumer_drained, notify_producer_asleep, notify_producer_saw_room,
      notify_producer_returned, notify_producer_waits, notify_producer_in_loop] at *
    try simp_all [WorkerPc.saw_room, ConcurrentQueue.size, ConcurrentQueue.capacity,
      ConcurrentQueue.close, notify_producer_saw_room]
  all_goals omega

theorem step_asleep_full (s : Machine)
    (h5 : s.worker.asleep = true → s.queue.capacity ≤ s.queue.size)
    (t : Step) (es : List Effect) (s1 : Machine)
    (hs : s.step t = some (es, s1)) :
    s1.worker.asleep = true → s1.queue.capacity ≤ s1.queue.size := by
  revert t es s1
  apply transition_cases s (fun _ _ s1 => s1.worker.asleep = true →
    s1.queue.capacity ≤ s1.queue.size)
  all_goals
    intros
    try simp only [notify_consumer_asleep, notify_consumer_tearing_down,
      notify_consumer_drained, notify_producer_asleep, notify_producer_saw_room,
      notify_producer_returned, notify_producer_waits, notify_producer_in_loop] at *
    try simp_all [WorkerPc.asleep, ConcurrentQueue.size, ConcurrentQueue.capacity,
      ConcurrentQueue.close, notify_producer_asleep]

theorem step_waits_cap (s : Machine)
    (h2 : s.worker.saw_room = true → s.queue.size < s.queue.capacity)
    (h6 : s.worker.waits = true → 0 < s.queue.capacity)
    (t : Step) (es : List Effect) (s1 : Machine)
    (hs : s.step t = some (es, s1)) :
    s1.worker.waits = true → 0 < s1.queue.capacity := by
  revert t es s1
  apply transition_cases s (fun _ _ s1 => s1.worker.waits = true → 0 < s1.queue.capacity)
  all_goals
    intros
    try simp only [notify_consumer_asleep, notify_consumer_tearing_down,
      notify_consumer_drained, notify_producer_asleep, notify_producer_saw_room,
      notify_producer_returned, notify_producer_waits, notify_producer_in_loop] at *
    try simp_all [WorkerPc.waits, WorkerPc.saw_room, ConcurrentQueue.size,
      ConcurrentQueue.capacity, ConcurrentQueue.close, notify_producer_waits]
  all_goals omega

theorem step_flag (s : Machine)
    (h7 : s.controller.tearing_down = true → s.worker.in_loop = true → s.running_ = false)
    (t : Step) (es : List Effect) (s1 : Machine)
    (hs : s.step t = some (es, s1)) :
    s1.controller.tearing_down = true → s1.worker.in_loop = true → s1.running_ = false := by
  revert t es s1
  have hd : s.controller = ControllerPc.drain ∨ s.controller = ControllerPc.parked true →
      s.worker.in_loop = true → s.running_ = false := by
    intro hc
    apply h7
    rcases hc with hc | hc <;> simp [hc, ControllerPc.tearing_down]
  apply transition_cases s (fun _ _ s1 => s1.controller.tearing_down = true →
    s1.worker.in_loop = true → s1.running_ = false)
  case drain_frame =>
    intro x rest hc _ _ hl
    exact hd hc (by simpa [notify_producer_in_loop] using hl)
  case drain_disengaged =>
    intro rest hc _ _ hl
    exact hd hc (by simpa [notify_producer_in_loop] using hl)
  case drain_end =>
    intro hc _ _ _ hl
    exact hd hc hl
  case drain_wait =>
    intro hc _ _ _ hl
    exact hd hc hl
  all_goals
    intros
    try simp only [notify_consumer_asleep, notify_consumer_tearing_down,
      notify_consumer_drained, notify_producer_asleep, notify_producer_saw_room,
      notify_producer_returned, notify_producer_waits, notify_producer_in_loop] at *
    try simp_all [WorkerPc.in_loop, ControllerPc.tearing_down, notify_producer_in_loop,
      notify_consumer_tearing_down]

theorem step_consumer_asleep (s : Machine) (h10 : s.queue.Engaged)
    (h8 : s.controller.asleep = true → s.queue.queue_ = [] ∧ s.queue.closed_ = false)
    (t : Step) (es : List Effect) (s1 : Machine)
    (hs : s.step t = some (es, s1)) :
    s1.controller.asleep = true → s1.queue.queue_ = [] ∧ s1.queue.closed_ = false := by
  unfold ConcurrentQueue.Engaged at h10
  revert t es s1
  apply transition_cases s (fun _ _ s1 => s1.controller.asleep = true →
    s1.queue.queue_ = [] ∧ s1.queue.closed_ = false)
  all_goals
    intros
    try simp only [notify_consumer_asleep, notify_consumer_tearing_down,
      notify_consumer_drained, notify_producer_asleep, notify_producer_saw_room,
      notify_producer_returned, notify_producer_waits, notify_producer_in_loop] at *
    try simp_all [ControllerPc.asleep, ConcurrentQueue.close, notify_consumer_asleep]

theorem step_drained (s : Machine)
    (h3 : s.worker.returned = false → s.queue.closed_ = false)
    (h9 : s.controller.drained = true → s.worker.returned = true)
    (t : Step) (es : List Effect) (s1 : Machine)
    (hs : s.step t = some (es, s1)) :
    s1.controller.drained = true → s1.worker.returned = true := by
  revert t es s1
  apply transition_cases s (fun _ _ s1 => s1.controller.drained = true →
    s1.worker.returned = true)
  all_goals
    intros
    try simp only [notify_consumer_asleep, notify_consumer_tearing_down,
      notify_consumer_drained, notify_producer_asleep, notify_producer_saw_room,
      notify_producer_returned, notify_producer_waits, notify_producer_in_loop] at *
    try simp_all [ControllerPc.drained, WorkerPc.returned, notify_consumer_drained,
      notify_producer_returned]

/-- Every step keeps the invariant. -/
theorem step_inv (s : Machine) (hinv : s.Inv) (t : Step) (es : List Effect) (s1 : Machine)
    (hs : s.step t = some (es, s1)) : s1.Inv := by
  obtain ⟨h1, h2, h3, h4, h5, h6, h7, h8, h9, h10⟩ := hinv
  exact
    { size_le := (step_within_capacity s h1 t es s1 hs).1
      room := step_room s h1 h2 t es s1 hs
      opened := (step_closed_flag s h3 h4 t es s1 hs).1
      closed := (step_closed_flag s h3 h4 t es s1 hs).2
      asleep_full := step_asleep_full s h5 t es s1 hs
      waits_cap := step_waits_cap s h2 h6 t es s1 hs
      flag := step_flag s h7 t es s1 hs
      consumer_asleep := step_consumer_asleep s h10 h8 t es s1 hs
      drained := step_drained s h3 h9 t es s1 hs
      engaged := step_engaged_queue s h10 t es s1 hs }

end Machine

end mf

end sandy

namespace sandy

namespace mf

namespace Machine

theorem notify_consumer_weight (c : ControllerPc) :
    (notify_consumer c).weight ≤ c.weight + 1 := by
  cases c with
  | parked n => cases n <;> simp [notify_consumer, ControllerPc.weight]
  | _ => simp [notify_consumer]

theorem notify_producer_weight (p : WorkerPc) :
    (notify_producer p).weight ≤ p.weight + 1 := by
  cases p with
  | parked w frame n => cases n <;> simp [notify_producer, WorkerPc.weight]
  | _ => simp [notify_producer]

/-- Once a teardown is under way every step lowers the measure, and the
teardown stays under way. -/
theorem step_measure (s : Machine) (hinv : s.Inv) (htd : s.controller.tearing_down = true)
    (t : Step) (es : List Effect) (s1 : Machine) (hs : s.step t = some (es, s1)) :
    s1.measure < s.measure ∧ s1.controller.tearing_down = true := by
  have hflag := hinv.flag htd
  revert t es s1
  apply transition_cases s (fun _ _ s1 => s1.measure < s.measure
    ∧ s1.controller.tearing_down = true)
  case test_run =>
    intro rd mt w hw hr
    rw [hflag (by simp [hw, WorkerPc.in_loop])] at hr
    cases hr
  case push_done =>
    intro rd mt w frame hw _ _
    have := notify_consumer_weight s.controller
    refine ⟨?_, by rw [notify_consumer_tearing_down]; exact htd⟩
    simp only [Machine.measure, hw, WorkerPc.weight, ConcurrentQueue.size, List.length_append,
      List.length_singleton]
    omega
  case wake_done =>
    intro rd mt w frame hw _
    have := notify_consumer_weight s.controller
    refine ⟨?_, by rw [notify_consumer_tearing_down]; exact htd⟩
    simp only [Machine.measure, hw, WorkerPc.weight, ConcurrentQueue.size, List.length_append,
      List.length_singleton]
    omega
  case close =>
    intro rd mt hw
    have := notify_consumer_weight s.controller
    refine ⟨?_, by rw [notify_consumer_tearing_down]; exact htd⟩
    simp only [Machine.measure, hw, WorkerPc.weight, ConcurrentQueue.size,
      ConcurrentQueue.close]
    omega
  case drain_frame =>
    intro x rest hc hq
    have := notify_producer_weight s.worker
    refine ⟨?_, rfl⟩
    rcases hc with hc | hc <;>
      · simp only [Machine.measure, hc, ControllerPc.weight, ConcurrentQueue.size, hq,
          List.length_cons]
        omega
  case drain_disengaged =>
    intro rest hc hq
    have := notify_producer_weight s.worker
    refine ⟨?_, rfl⟩
    rcases hc with hc | hc <;>
      · simp only [Machine.measure, hc, ControllerPc.weight, ConcurrentQueue.size, hq,
          List.length_cons]
        omega
  case drain_end =>
    intro hc _ _
    refine ⟨?_, rfl⟩
    rcases hc with hc | hc <;>
      · simp only [Machine.measure, hc, ControllerPc.weight]
        omega
  case drain_wait =>
    intro hc _ _
    refine ⟨?_, rfl⟩
    rcases hc with hc | hc <;>
      · simp only [Machine.measure, hc, ControllerPc.weight]
        omega
  case teardown =>
    intro hc
    rw [hc] at htd
    cases htd
  case pop_empty =>
    intro hc _
    rw [hc] at htd
    cases htd
  case pop_front =>
    intro x rest hc _
    rw [hc] at htd
    cases htd
  all_goals
    intros
    refine ⟨?_, by first | exact htd | rfl⟩
    simp_all [Machine.measure, WorkerPc.weight, ControllerPc.weight]

end Machine

end mf

end sandy

namespace sandy

namespace mf

namespace Machine

/-- While a teardown is under way and not over, the worker or the
tearing-down thread can move. -/
theorem no_deadlock (s : Machine) (hinv : s.Inv) (htd : s.controller.tearing_down = true)
    (hnf : s.controller ≠ ControllerPc.finished) (rd : ReadSampleResult)
    (mt : MediaTypeResult) :
    (s.step (Step.worker rd mt)).isSome = true ∨ (s.step Step.controller).isSome = true := by
  obtain ⟨c, hc⟩ : ∃ c, s.controller = c := ⟨_, rfl⟩
  cases c with
  | idle => rw [hc] at htd; cases htd
  | finished => exact absurd hc hnf
  | drain => right; simp [step, controller_step, hc]
  | join =>
    right
    have h := hinv.drained (by simp [hc, ControllerPc.drained])
    obtain ⟨p, hp⟩ : ∃ p, s.worker = p := ⟨_, rfl⟩
    cases p with
    | done => simp [step, controller_step, hc, hp]
    | _ => simp [hp, WorkerPc.returned] at h
  | parked n =>
    cases n with
    | true => right; simp [step, controller_step, hc]
    | false =>
      left
      obtain ⟨hq, hcl⟩ := hinv.consumer_asleep (by simp [hc, ControllerPc.asleep])
      obtain ⟨p, hp⟩ : ∃ p, s.worker = p := ⟨_, rfl⟩
      cases p with
      | test w => simp only [step, worker_step, hp]; split <;> rfl
      | check w => simp only [step, worker_step, hp]; split <;> rfl
      | read w =>
        simp only [step, worker_step, hp]
        rcases after_read_cases s.video_duration_ w rd mt with
          ⟨w1, h, _⟩ | ⟨w1, h, _⟩ | ⟨w1, h, _⟩ | ⟨d, w1, h, _⟩ <;> rw [h] <;> rfl
      | push w frame => simp [step, worker_step, hp]
      | close => simp [step, worker_step, hp]
      | parked w frame m =>
        cases m with
        | true => simp [step, worker_step, hp]
        | false =>
          have h1 := hinv.asleep_full (by simp [hp, WorkerPc.asleep])
          have h2 := hinv.waits_cap (by simp [hp, WorkerPc.waits])
          simp only [ConcurrentQueue.size, hq, List.length_nil] at h1
          omega
      | done =>
        have h := hinv.closed (by simp [hp, WorkerPc.returned])
        rw [hcl] at h
        cases h

/-- A schedule whose steps can all be taken, started while a teardown is
under way, is no longer than the measure of its first state, and it keeps
the invariant and the teardown under way. -/
theorem exec_bound (s : Machine) (hinv : s.Inv) (htd : s.controller.tearing_down = true)
    (ts : List Step) (s1 : Machine) (hexec : s.exec ts = some s1) :
    ts.length + s1.measure ≤ s.measure ∧ s1.Inv ∧ s1.controller.tearing_down = true := by
  induction ts generalizing s with
  | nil =>
    simp only [exec, Option.some.injEq] at hexec
    subst hexec
    exact ⟨by simp, hinv, htd⟩
  | cons t ts ih =>
    simp only [exec] at hexec
    cases hstep : s.step t with
    | none => rw [hstep] at hexec; cases hexec
    | some r =>
      obtain ⟨es, s2⟩ := r
      rw [hstep] at hexec
      have hm := step_measure s hinv htd t es s2 hstep
      have hi := step_inv s hinv t es s2 hstep
      obtain ⟨h1, h2, h3⟩ := ih s2 hi hm.2 hexec
      refine ⟨?_, h2, h3⟩
      simp only [List.length_cons]
      omega

/-- The invariant holds along every run. -/
theorem run_inv (s : Machine) (hinv : s.Inv) (ts : List Step) : (s.run ts).Inv := by
  induction ts generalizing s with
  | nil => exact hinv
  | cons t ts ih =>
    simp only [run]
    cases hstep : s.step t with
    | none => exact ih s hinv
    | some r =>
      obtain ⟨es, s2⟩ := r
      exact ih s2 (step_inv s hinv t es s2 hstep)

theorem start_inv (depth : Nat) (duration : Int) (looping : Bool) :
    (Machine.start depth duration looping).Inv := by
  constructor <;>
    simp [Machine.start, ConcurrentQueue.new, ConcurrentQueue.size, ConcurrentQueue.capacity,
      WorkerPc.saw_room, WorkerPc.returned, WorkerPc.asleep, WorkerPc.waits,
      ControllerPc.tearing_down, ControllerPc.asleep, ControllerPc.drained,
      ConcurrentQueue.Engaged]

end Machine

end mf

/-- C20: the teardown cannot deadlock and terminates on every interleaving.
Starting the teardown (`running_.clear()`) is always possible and keeps the
invariant. From every state that satisfies the invariant with a teardown
under way (among them the states in which the worker waits in `push`
against a full queue), every schedule of steps of the worker and of the
tearing-down thread that can be taken is at most `measure` steps long;
the state it reaches still satisfies the invariant; as long as `join()`
has not returned there, one of the two threads can move; and when `join()`
has returned the worker's thread function has returned. -/
theorem C20_teardown_terminates (s : mf.Machine) (hinv : s.Inv) :
    (s.controller = mf.ControllerPc.idle →
        s.step mf.Step.controller
            = some ([], { s with running_ := false, controller := mf.ControllerPc.drain })
          ∧ ({ s with running_ := false, controller := mf.ControllerPc.drain } :
              mf.Machine).Inv)
      ∧ (s.controller.tearing_down = true → ∀ (ts : List mf.Step) (s1 : mf.Machine),
          s.exec ts = some s1 →
          ts.length ≤ s.measure
            ∧ s1.Inv
            ∧ (s1.controller ≠ mf.ControllerPc.finished → ∀ rd mt,
                (s1.step (mf.Step.worker rd mt)).isSome = true
                  ∨ (s1.step mf.Step.controller).isSome = true)
            ∧ (s1.controller = mf.ControllerPc.finished → s1.worker = mf.WorkerPc.done)) := by
  constructor
  · intro hc
    have hstep : s.step mf.Step.controller
        = some ([], { s with running_ := false, controller := mf.ControllerPc.drain }) := by
      simp [mf.Machine.step, mf.Machine.controller_step, hc]
    exact ⟨hstep, mf.Machine.step_inv s hinv _ _ _ hstep⟩
  · intro htd ts s1 hexec
    obtain ⟨h1, h2, h3⟩ := mf.Machine.exec_bound s hinv htd ts s1 hexec
    refine ⟨by omega, h2, ?_, ?_⟩
    · intro hnf rd mt
      exact mf.Machine.no_deadlock s1 h2 h3 hnf rd mt
    · intro hf
      have h := h2.drained (by simp [hf, mf.ControllerPc.drained])
      obtain ⟨p, hp⟩ : ∃ p, s1.worker = p := ⟨_, rfl⟩
      cases p with
      | done => exact hp
      | _ => simp [hp, mf.WorkerPc.returned] at h

end sandy

namespace sandy

/-- C20 on a worker asleep in `push` against a full queue of capacity 1 when
the teardown starts: the schedule pop, wake-up and push, pop, loop test,
close, last `pop_wait`, join can be taken, is within the bound, and ends
with `join()` returned. -/
theorem C20_teardown_terminates_witness :
    [mf.Step.controller, mf.Step.worker mf.end_of_stream_read mf.media_type_ok,
        mf.Step.controller, mf.Step.worker mf.end_of_stream_read mf.media_type_ok,
        mf.Step.worker mf.end_of_stream_read mf.media_type_ok, mf.Step.controller,
        mf.Step.controller].length
      ≤ (mf.Machine.mk 300 false (ConcurrentQueue.mk 1 [some (some ⟨0, 0⟩)] false)
          (mf.WorkerPc.parked ⟨false, 0, some 0⟩ ⟨100, 1⟩ false)
          mf.ControllerPc.drain).measure :=
  ((C20_teardown_terminates
      (mf.Machine.mk 300 false (ConcurrentQueue.mk 1 [some (some ⟨0, 0⟩)] false)
        (mf.WorkerPc.parked ⟨false, 0, some 0⟩ ⟨100, 1⟩ false) mf.ControllerPc.drain)
      (by
        constructor <;>
          simp [ConcurrentQueue.size, ConcurrentQueue.capacity, mf.WorkerPc.saw_room,
            mf.WorkerPc.returned, mf.WorkerPc.asleep, mf.WorkerPc.waits,
            mf.WorkerPc.in_loop, mf.ControllerPc.tearing_down, mf.ControllerPc.asleep,
            mf.ControllerPc.drained, ConcurrentQueue.Engaged])).2 rfl
    [mf.Step.controller, mf.Step.worker mf.end_of_stream_read mf.media_type_ok,
      mf.Step.controller, mf.Step.worker mf.end_of_stream_read mf.media_type_ok,
      mf.Step.worker mf.end_of_stream_read mf.media_type_ok, mf.Step.controller,
      mf.Step.controller]
    (mf.Machine.mk 300 true (ConcurrentQueue.mk 1 [] true) mf.WorkerPc.done
      mf.ControllerPc.finished)
    (by decide)).1

end sandy

namespace sandy

namespace mf

namespace Machine

theorem notify_producer_loop_count_is (p : WorkerPc) (k : Nat) :
    (notify_producer p).loop_count_is k ↔ p.loop_count_is k := by
  cases p <;> rfl

theorem notify_producer_pending (p : WorkerPc) : (notify_producer p).pending = p.pending := by
  cases p <;> rfl

/-- What one step does to the rebasing record: nothing, or a rewind that
raises the pass by one, or one sample rebased with the current pass. -/
theorem step_rebased (s : Machine) (k : Nat) (h : s.worker.loop_count_is k) (t : Step)
    (es : List Effect) (s1 : Machine) (hs : s.step t = some (es, s1)) :
    s1.video_duration_ = s.video_duration_
      ∧ (((∀ k1 rest, rebased_by_pass k1 (es ++ rest) = rebased_by_pass k1 rest)
            ∧ s1.worker.loop_count_is k)
        ∨ ((∀ k1 rest, rebased_by_pass k1 (es ++ rest) = rebased_by_pass (k1 + 1) rest)
            ∧ s1.worker.loop_count_is (k + 1))
        ∨ (∃ lc d frame,
            (∀ k1 rest, rebased_by_pass k1 (es ++ rest)
              = (k1, d, frame) :: rebased_by_pass k1 rest)
            ∧ s1.worker.loop_count_is k
            ∧ frame.time
              = wrap_int64 (d.time + s.video_duration_ * ((k % 2 ^ 32 : Nat) : Int))
            ∧ frame.tag = d.tag ∧ lc = k % 2 ^ 32)) := by
  revert t es s1
  apply transition_cases s (fun _ es s1 => s1.video_duration_ = s.video_duration_
      ∧ (((∀ k1 rest, rebased_by_pass k1 (es ++ rest) = rebased_by_pass k1 rest)
            ∧ s1.worker.loop_count_is k)
        ∨ ((∀ k1 rest, rebased_by_pass k1 (es ++ rest) = rebased_by_pass (k1 + 1) rest)
            ∧ s1.worker.loop_count_is (k + 1))
        ∨ (∃ lc d frame,
            (∀ k1 rest, rebased_by_pass k1 (es ++ rest)
              = (k1, d, frame) :: rebased_by_pass k1 rest)
            ∧ s1.worker.loop_count_is k
            ∧ frame.time
              = wrap_int64 (d.time + s.video_duration_ * ((k % 2 ^ 32 : Nat) : Int))
            ∧ frame.tag = d.tag ∧ lc = k % 2 ^ 32)))
  case read_rewind =>
    intro rd mt w w1 hw ha
    refine ⟨rfl, Or.inr (Or.inl ⟨fun k1 rest => by simp [rebased_by_pass], ?_⟩)⟩
    rw [hw] at h
    rcases after_read_cases s.video_duration_ w rd mt with
      ⟨w2, h2, _⟩ | ⟨w2, h2, _, _, _, _, h3⟩ | ⟨w2, h2, _⟩ | ⟨d, w2, h2, _⟩
    · rw [h2] at ha; cases ha
    · rw [h2] at ha
      simp only [Prod.mk.injEq, true_and] at ha
      subst ha
      simp only [WorkerPc.loop_count_is] at h ⊢
      rw [h3, h]
      omega
    · rw [h2] at ha; simp at ha
    · rw [h2] at ha; cases ha
  case read_push =>
    intro rd mt w w1 d frame hw ha
    rw [hw] at h
    simp only [WorkerPc.loop_count_is] at h
    rcases after_read_cases s.video_duration_ w rd mt with
      ⟨w2, h2, _⟩ | ⟨w2, h2, _⟩ | ⟨w2, h2, _⟩ | ⟨d2, w2, h2, _, _, _, _, h3⟩
    · rw [h2] at ha; cases ha
    · rw [h2] at ha; cases ha
    · rw [h2] at ha; cases ha
    · rw [h2] at ha
      simp only [Prod.mk.injEq, Decision.push.injEq] at ha
      obtain ⟨⟨rfl, rfl⟩, rfl⟩ := ha
      refine ⟨rfl, Or.inr (Or.inr ⟨w2.loop_count, d2,
        { d2 with
          time := wrap_int64 (d2.time + wrap_int64 (s.video_duration_ * w.loop_count)) },
        fun k1 rest => by simp [rebased_by_pass], ?_, ?_, rfl, ?_⟩)⟩
      · simp only [WorkerPc.loop_count_is]
        rw [h3, h]
      · simp only [wrap_int64_add_wrap, h]
      · rw [h3, h]
  case read_skip =>
    intro rd mt w w1 hw ha
    refine ⟨rfl, Or.inl ⟨fun k1 rest => by simp [rebased_by_pass], ?_⟩⟩
    rw [hw] at h
    simp only [WorkerPc.loop_count_is] at h ⊢
    rcases after_read_cases s.video_duration_ w rd mt with
      ⟨w2, h2, _⟩ | ⟨w2, h2, _⟩ | ⟨w2, h2, _, _, _, _, h3⟩ | ⟨d, w2, h2, _⟩
    · rw [h2] at ha; cases ha
    · rw [h2] at ha; simp at ha
    · rw [h2] at ha
      simp only [Prod.mk.injEq, true_and] at ha
      subst ha
      rw [h3, h]
    · rw [h2] at ha; cases ha
  all_goals
    intros
    refine ⟨rfl, Or.inl ⟨fun k1 rest => by simp [rebased_by_pass], ?_⟩⟩
    try simp only [notify_producer_loop_count_is]
    simp_all [WorkerPc.loop_count_is]

end Machine

end mf

end sandy

namespace sandy

namespace mf

theorem rebased_by_pass_frames (k : Nat) (es : List Effect) :
    (rebased_by_pass k es).map (fun p => p.2.2) = rebased_frames es := by
  induction es generalizing k with
  | nil => rfl
  | cons e es ih =>
    cases e <;> simp [rebased_by_pass, rebased_frames, ih]

theorem rebased_frames_append (es fs : List Effect) :
    rebased_frames (es ++ fs) = rebased_frames es ++ rebased_frames fs := by
  induction es with
  | nil => rfl
  | cons e es ih =>
    cases e <;> simp [rebased_frames, ih]

theorem enqueued_frames_append (es fs : List Effect) :
    enqueued_frames (es ++ fs) = enqueued_frames es ++ enqueued_frames fs := by
  induction es with
  | nil => rfl
  | cons e es ih =>
    cases e with
    | pushed frame ok => cases ok <;> simp [enqueued_frames, ih]
    | _ => simp [enqueued_frames, ih]

/-- The passes recorded with the rebased samples do not decrease and start
at the pass the record is counted from. -/
theorem rebased_by_pass_sorted (k : Nat) (es : List Effect) :
    (rebased_by_pass k es).Pairwise (fun a b => a.1 ≤ b.1)
      ∧ ∀ p ∈ rebased_by_pass k es, k ≤ p.1 := by
  induction es generalizing k with
  | nil => simp [rebased_by_pass]
  | cons e es ih =>
    cases e with
    | rewound =>
      simp only [rebased_by_pass]
      exact ⟨(ih (k + 1)).1, fun p hp => Nat.le_of_succ_le ((ih (k + 1)).2 p hp)⟩
    | rebased lc d frame =>
      simp only [rebased_by_pass, List.pairwise_cons, List.mem_cons]
      refine ⟨⟨fun p hp => (ih k).2 p hp, (ih k).1⟩, ?_⟩
      rintro p (rfl | hp)
      · exact Nat.le_refl _
      · exact (ih k).2 p hp
    | _ => simpa [rebased_by_pass] using ih k

namespace Machine

/-- Every sample rebased during a run started with the pass `k` carries the
time `sample time + video_duration_ * loop_count` in `LONGLONG` arithmetic,
`loop_count` being its pass reduced to a `DWORD`. -/
theorem trace_rebased (s : Machine) (k : Nat) (h : s.worker.loop_count_is k)
    (ts : List Step) :
    ∀ p ∈ rebased_by_pass k (s.trace ts),
      p.2.2.time
          = wrap_int64 (p.2.1.time + s.video_duration_ * ((p.1 % 2 ^ 32 : Nat) : Int))
        ∧ p.2.2.tag = p.2.1.tag := by
  induction ts generalizing s k with
  | nil => simp [trace, rebased_by_pass]
  | cons t ts ih =>
    simp only [trace]
    cases hstep : s.step t with
    | none => exact ih s k h
    | some r =>
      obtain ⟨es, s1⟩ := r
      simp only
      obtain ⟨hd, hcase⟩ := step_rebased s k h t es s1 hstep
      rcases hcase with ⟨he, hk⟩ | ⟨he, hk⟩ | ⟨lc, d, frame, he, hk, htime, htag, _⟩
      · rw [he, ← hd]
        exact ih s1 k hk
      · rw [he, ← hd]
        exact ih s1 (k + 1) hk
      · rw [he]
        intro p hp
        rcases List.mem_cons.mp hp with rfl | hp
        · exact ⟨htime, htag⟩
        · rw [← hd]
          exact ih s1 k hk p hp

/-- With the invariant, one step enqueues exactly the frame that was
pending, and a frame made by rebasing becomes the pending one. -/
theorem step_pending (s : Machine) (hinv : s.Inv) (t : Step) (es : List Effect)
    (s1 : Machine) (hs : s.step t = some (es, s1)) :
    enqueued_frames es ++ s1.worker.pending = s.worker.pending ++ rebased_frames es := by
  have hopen := hinv.opened
  revert t es s1
  apply transition_cases s (fun _ es s1 =>
    enqueued_frames es ++ s1.worker.pending = s.worker.pending ++ rebased_frames es)
  case push_refused =>
    intro rd mt w frame hw hc
    rw [hopen (by simp [hw, WorkerPc.returned])] at hc
    cases hc
  all_goals
    intros
    try simp only [notify_producer_pending]
    simp_all [enqueued_frames, rebased_frames, WorkerPc.pending]

/-- Along a run that keeps the invariant the frames enqueued, followed by
the frame still pending, are the frame pending at the start followed by the
frames made by rebasing. -/
theorem trace_pending (s : Machine) (hinv : s.Inv) (ts : List Step) :
    enqueued_frames (s.trace ts) ++ (s.run ts).worker.pending
      = s.worker.pending ++ rebased_frames (s.trace ts) := by
  induction ts generalizing s with
  | nil => simp [trace, run, enqueued_frames, rebased_frames]
  | cons t ts ih =>
    simp only [trace, run]
    cases hstep : s.step t with
    | none => exact ih s hinv
    | some r =>
      obtain ⟨es, s1⟩ := r
      simp only
      have h1 := step_pending s hinv t es s1 hstep
      have h2 := ih s1 (step_inv s hinv t es s1 hstep)
      rw [enqueued_frames_append, rebased_frames_append, List.append_assoc, h2,
        ← List.append_assoc, h1, List.append_assoc]

end Machine

end mf

end sandy

namespace sandy

namespace mf

theorem rewinds_append (es fs : List Effect) :
    rewinds (es ++ fs) = rewinds es + rewinds fs := by
  induction es with
  | nil => simp [rewinds]
  | cons e es ih =>
    cases e <;> simp [rewinds, ih]
    omega

/-- A sample delivered by a successful read without the end-of-stream flag,
in an iteration whose media type query, if made, succeeds, is rebased and
goes to `push`. -/
theorem after_read_push (duration : Int) (w : Worker) (rd : ReadSampleResult)
    (mt : MediaTypeResult) (d : SampleData) (h1 : rd.hr_failed = false)
    (h2 : rd.flags_end_of_stream = false) (h3 : rd.sample = some d)
    (h4 : w.queries_media_type rd = true → mt.hr_failed = false) :
    w.after_read duration rd mt
      = (Decision.push d { d with time := wrap_int64 (d.time + duration * (w.loop_count : Int)) },
          if w.queries_media_type rd then { w with frame_media_type_ := mt.media_type }
          else w) := by
  unfold Worker.queries_media_type at h4 ⊢
  by_cases hq : (w.frame_media_type_.isNone || rd.flags_media_type_changed) = true
  · have hm := h4 hq
    simp only [Worker.after_read, h1, h2, h3, hq, hm, Bool.and_false, Bool.false_eq_true,
      if_false, if_true, wrap_int64_add_wrap]
  · have hq : (w.frame_media_type_.isNone || rd.flags_media_type_changed) = false :=
      (Bool.not_eq_true _).mp hq
    simp only [Worker.after_read, h1, h2, h3, hq, Bool.false_and, Bool.false_eq_true,
      if_false, wrap_int64_add_wrap]

/-- A read that fails, carries the end-of-stream flag, or comes in an
iteration whose media type query fails, leads to no push, whatever sample
it delivers. -/
theorem after_read_drop (duration : Int) (w : Worker) (rd : ReadSampleResult)
    (mt : MediaTypeResult)
    (h : rd.hr_failed = true ∨ rd.flags_end_of_stream = true
      ∨ (w.queries_media_type rd = true ∧ mt.hr_failed = true)) :
    ∀ d frame w1, w.after_read duration rd mt ≠ (Decision.push d frame, w1) := by
  intro d frame w1 he
  rcases after_read_cases duration w rd mt with
    ⟨w2, h2, _⟩ | ⟨w2, h2, _⟩ | ⟨w2, h2, _⟩ | ⟨d2, w2, h2, hr, he2, _⟩
  · rw [h2] at he; cases he
  · rw [h2] at he; cases he
  · rw [h2] at he; cases he
  · rcases h with h | h | ⟨hq, hm⟩
    · rw [hr] at h; cases h
    · rw [he2] at h; cases h
    · unfold Worker.queries_media_type at hq
      simp [Worker.after_read, hr, hq, hm] at h2

namespace Machine

/-- One step keeps `video_duration_` and raises the worker's `loop_count` by
the number of rewinds it records. -/
theorem step_rewinds (s : Machine) (k : Nat) (h : s.worker.loop_count_is k) (t : Step)
    (es : List Effect) (s1 : Machine) (hs : s.step t = some (es, s1)) :
    s1.video_duration_ = s.video_duration_ ∧ s1.worker.loop_count_is (k + rewinds es) := by
  revert t es s1
  apply transition_cases s (fun _ es s1 => s1.video_duration_ = s.video_duration_
      ∧ s1.worker.loop_count_is (k + rewinds es))
  case read_rewind =>
    intro rd mt w w1 hw ha
    refine ⟨rfl, ?_⟩
    rw [hw] at h
    rcases after_read_cases s.video_duration_ w rd mt with
      ⟨w2, h2, _⟩ | ⟨w2, h2, _, _, _, _, h3⟩ | ⟨w2, h2, _⟩ | ⟨d, w2, h2, _⟩
    · rw [h2] at ha; cases ha
    · rw [h2] at ha
      simp only [Prod.mk.injEq, true_and] at ha
      subst ha
      simp only [WorkerPc.loop_count_is, rewinds] at h ⊢
      rw [h3, h]
      omega
    · rw [h2] at ha; simp at ha
    · rw [h2] at ha; cases ha
  case read_push =>
    intro rd mt w w1 d frame hw ha
    refine ⟨rfl, ?_⟩
    rw [hw] at h
    simp only [WorkerPc.loop_count_is, rewinds] at h ⊢
    rcases after_read_cases s.video_duration_ w rd mt with
      ⟨w2, h2, _⟩ | ⟨w2, h2, _⟩ | ⟨w2, h2, _⟩ | ⟨d2, w2, h2, _, _, _, _, h3⟩
    · rw [h2] at ha; cases ha
    · rw [h2] at ha; cases ha
    · rw [h2] at ha; cases ha
    · rw [h2] at ha
      simp only [Prod.mk.injEq, Decision.push.injEq] at ha
      obtain ⟨_, rfl⟩ := ha
      rw [h3, h]
      rfl
  case read_skip =>
    intro rd mt w w1 hw ha
    refine ⟨rfl, ?_⟩
    rw [hw] at h
    simp only [WorkerPc.loop_count_is, rewinds] at h ⊢
    rcases after_read_cases s.video_duration_ w rd mt with
      ⟨w2, h2, _⟩ | ⟨w2, h2, _⟩ | ⟨w2, h2, _, _, _, _, h3⟩ | ⟨d, w2, h2, _⟩
    · rw [h2] at ha; cases ha
    · rw [h2] at ha; simp at ha
    · rw [h2] at ha
      simp only [Prod.mk.injEq, true_and] at ha
      subst ha
      rw [h3, h]
      rfl
    · rw [h2] at ha; cases ha
  all_goals
    intros
    refine ⟨rfl, ?_⟩
    try simp only [notify_producer_loop_count_is]
    simp_all [WorkerPc.loop_count_is, rewinds]

/-- Along a run `video_duration_` stays and the worker's `loop_count` is the
number of rewinds recorded, as a `DWORD`. -/
theorem run_rewinds (s : Machine) (k : Nat) (h : s.worker.loop_count_is k) (ts : List Step) :
    (s.run ts).video_duration_ = s.video_duration_
      ∧ (s.run ts).worker.loop_count_is (k + rewinds (s.trace ts)) := by
  induction ts generalizing s k with
  | nil => exact ⟨rfl, by simpa [trace, rewinds, run] using h⟩
  | cons t ts ih =>
    simp only [trace, run]
    cases hstep : s.step t with
    | none => exact ih s k h
    | some r =>
      obtain ⟨es, s1⟩ := r
      simp only
      obtain ⟨hd, hk⟩ := step_rewinds s k h t es s1 hstep
      obtain ⟨h1, h2⟩ := ih s1 (k + rewinds es) hk
      refine ⟨by rw [h1, hd], ?_⟩
      rw [rewinds_append, ← Nat.add_assoc]
      exact h2

end Machine

end mf

end sandy

namespace sandy

/-- C15, as stated, fails: not every sample read is pushed. In a session of
depth 8 and duration 1000, a first read that delivers the sample with
timestamp 0 while the media type query of that iteration fails makes the
worker leave its loop and close the queue, and nothing was pushed; so does a
first read that delivers the sample together with a failure code; and a
read that delivers the sample with timestamp 999 together with the
end-of-stream flag is answered by the rewind alone: the next sample, read
with timestamp 0, is the only one pushed, with time 1000. -/
theorem C15_counterexample :
    (mf.Machine.start 8 1000 true).trace
        (List.replicate 4 (mf.Step.worker (mf.sample_read 0 0) ⟨true, none⟩))
      = [mf.Effect.read (mf.sample_read 0 0), mf.Effect.closed]
    ∧ (mf.Machine.start 8 1000 true).trace
        (List.replicate 4 (mf.Step.worker ⟨true, false, false, some ⟨0, 0⟩⟩ mf.media_type_ok))
      = [mf.Effect.read ⟨true, false, false, some ⟨0, 0⟩⟩, mf.Effect.closed]
    ∧ (mf.Machine.start 8 1000 true).trace
        (List.replicate 3 (mf.Step.worker ⟨false, false, true, some ⟨999, 0⟩⟩ mf.media_type_ok)
          ++ List.replicate 4 (mf.Step.worker (mf.sample_read 0 1) mf.media_type_ok))
      = [mf.Effect.read ⟨false, false, true, some ⟨999, 0⟩⟩, mf.Effect.rewound,
          mf.Effect.read (mf.sample_read 0 1), mf.Effect.rebased 1 ⟨0, 1⟩ ⟨1000, 1⟩,
          mf.Effect.pushed ⟨1000, 1⟩ true] := by
  decide

/-- C15, amended: in every state a session reaches in which the worker is
about to read, with `loop_count` the number of end-of-stream rewinds so far
as a `DWORD`, a sample delivered by a `ReadSample` that succeeds and does
not carry the end-of-stream flag, in an iteration whose media type query,
if one is made, succeeds, is rebased to
`sample time + video_duration_ * loop_count` in signed 64-bit arithmetic
and the worker is about to push it; a frame about to be pushed is enqueued
at once and `push` returns true; a read that fails, carries the
end-of-stream flag or meets a failed media type query pushes nothing. Over
a whole run every sample rebased, read after `p.1` rewinds, carries that
time and keeps its identity (exactly `sample time + video_duration_ *
rewinds` when the number of rewinds is below `2^32` and the sum is in the
64-bit range), and the frames made this way are the frames that enter the
queue, in the same order, the last one possibly still on its way. -/
theorem C15_loop_rebasing (depth : Nat) (duration : Int) (looping : Bool)
    (ts : List mf.Step) :
    (∀ p ∈ mf.rebased_by_pass 0 ((mf.Machine.start depth duration looping).trace ts),
        p.2.2.time = mf.wrap_int64 (p.2.1.time + duration * ((p.1 % 2 ^ 32 : Nat) : Int))
          ∧ p.2.2.tag = p.2.1.tag
          ∧ (p.1 < 2 ^ 32 → -(2 ^ 63) ≤ p.2.1.time + duration * (p.1 : Int) →
              p.2.1.time + duration * (p.1 : Int) < 2 ^ 63 →
              p.2.2.time = p.2.1.time + duration * (p.1 : Int)))
      ∧ mf.enqueued_frames ((mf.Machine.start depth duration looping).trace ts)
          ++ ((mf.Machine.start depth duration looping).run ts).worker.pending
        = mf.rebased_frames ((mf.Machine.start depth duration looping).trace ts)
      ∧ (∀ w frame rd mt,
          ((mf.Machine.start depth duration looping).run ts).worker = mf.WorkerPc.push w frame →
          ∃ s1, ((mf.Machine.start depth duration looping).run ts).step (mf.Step.worker rd mt)
              = some ([mf.Effect.pushed frame true], s1)
            ∧ s1.queue.queue_
              = ((mf.Machine.start depth duration looping).run ts).queue.queue_
                ++ [some (some frame)])
      ∧ (∀ w rd mt d,
          ((mf.Machine.start depth duration looping).run ts).worker = mf.WorkerPc.read w →
          rd.hr_failed = false → rd.flags_end_of_stream = false → rd.sample = some d →
          (w.queries_media_type rd = true → mt.hr_failed = false) →
          w.loop_count
              = mf.rewinds ((mf.Machine.start depth duration looping).trace ts) % 2 ^ 32
            ∧ ((mf.Machine.start depth duration looping).run ts).step (mf.Step.worker rd mt)
              = some ([mf.Effect.read rd,
                    mf.Effect.rebased w.loop_count d
                      { d with time := mf.wrap_int64 (d.time + duration * (w.loop_count : Int)) }],
                  { (mf.Machine.start depth duration looping).run ts with
                    worker := mf.WorkerPc.push
                      (if w.queries_media_type rd then { w with frame_media_type_ := mt.media_type }
                        else w)
                      { d with
                        time := mf.wrap_int64 (d.time + duration * (w.loop_count : Int)) } }))
      ∧ (∀ w rd mt,
          ((mf.Machine.start depth duration looping).run ts).worker = mf.WorkerPc.read w →
          (rd.hr_failed = true ∨ rd.flags_end_of_stream = true
            ∨ (w.queries_media_type rd = true ∧ mt.hr_failed = true)) →
          ∃ es s1, ((mf.Machine.start depth duration looping).run ts).step (mf.Step.worker rd mt)
              = some (es, s1)
            ∧ mf.rebased_frames es = [] ∧ mf.enqueued_frames es = []
            ∧ s1.worker.pending = []) := by
  refine ⟨?_, ?_, ?_, ?_, ?_⟩
  · intro p hp
    obtain ⟨h1, h2⟩ := mf.Machine.trace_rebased (mf.Machine.start depth duration looping) 0
      (by simp [mf.Machine.start, mf.WorkerPc.loop_count_is]) ts p hp
    have h1 : p.2.2.time
        = mf.wrap_int64 (p.2.1.time + duration * ((p.1 % 2 ^ 32 : Nat) : Int)) := h1
    refine ⟨h1, h2, ?_⟩
    intro hk hlo hhi
    rw [h1, Nat.mod_eq_of_lt hk]
    exact mf.wrap_int64_of_range _ hlo hhi
  · have h := mf.Machine.trace_pending (mf.Machine.start depth duration looping)
      (mf.Machine.start_inv depth duration looping) ts
    simpa [mf.Machine.start, mf.WorkerPc.pending] using h
  · intro w frame rd mt hw
    have hinv := mf.Machine.run_inv (mf.Machine.start depth duration looping)
      (mf.Machine.start_inv depth duration looping) ts
    generalize (mf.Machine.start depth duration looping).run ts = s at hw hinv ⊢
    have hopen := hinv.opened (by simp [hw, mf.WorkerPc.returned])
    have hroom := hinv.room (by simp [hw, mf.WorkerPc.saw_room])
    refine ⟨{ s with queue := { s.queue with queue_ := s.queue.queue_ ++ [some (some frame)] },
                     worker := mf.WorkerPc.test w,
                     controller := mf.Machine.notify_consumer s.controller }, ?_, rfl⟩
    simp only [mf.Machine.step, mf.Machine.worker_step, hw,
      ConcurrentQueue.emplace_of_open _ _ hopen, ConcurrentQueue.emplace_wait_of_lt _ _ hroom,
      mf.Machine.after_push]
  · intro w rd mt d hw h1 h2 h3 h4
    obtain ⟨hd, hk⟩ := mf.Machine.run_rewinds (mf.Machine.start depth duration looping) 0
      (by simp [mf.Machine.start, mf.WorkerPc.loop_count_is]) ts
    have hd : ((mf.Machine.start depth duration looping).run ts).video_duration_ = duration := hd
    rw [hw] at hk
    simp only [mf.WorkerPc.loop_count_is, Nat.zero_add] at hk
    refine ⟨hk, ?_⟩
    simp only [mf.Machine.step, mf.Machine.worker_step, hw, hd,
      mf.after_read_push duration w rd mt d h1 h2 h3 h4]
    split <;> rfl
  · intro w rd mt hw h
    have hdrop := mf.after_read_drop
      ((mf.Machine.start depth duration looping).run ts).video_duration_ w rd mt h
    generalize (mf.Machine.start depth duration looping).run ts = s at hw hdrop ⊢
    simp only [mf.Machine.step, mf.Machine.worker_step, hw]
    cases ha : w.after_read s.video_duration_ rd mt with
    | mk dec w1 =>
      cases dec with
      | leave => exact ⟨_, _, rfl, rfl, rfl, rfl⟩
      | again b =>
        cases b with
        | true => exact ⟨_, _, rfl, rfl, rfl, rfl⟩
        | false => exact ⟨_, _, rfl, rfl, rfl, rfl⟩
      | push d frame => exact absurd ha (hdrop d frame w1)

/-- C15 amended, on the claim's example: a stream of duration 1000 whose
source emits the timestamps 0, 500, 999, the end of the stream, and the
same timestamps again; the frames enqueued carry 0, 500, 999, 1000, 1500,
1999, every sample rebased keeps its identity, and after the three samples
and the rewind the worker, about to read, turns the sample with timestamp
500 into the frame with time 1500 and is about to push it. -/
theorem C15_loop_rebasing_witness :
    (mf.enqueued_frames ((mf.Machine.start 8 1000 true).trace
        (List.replicate 4 (mf.Step.worker (mf.sample_read 0 0) mf.media_type_ok)
          ++ List.replicate 4 (mf.Step.worker (mf.sample_read 500 1) mf.media_type_ok)
          ++ List.replicate 4 (mf.Step.worker (mf.sample_read 999 2) mf.media_type_ok)
          ++ List.replicate 3 (mf.Step.worker mf.end_of_stream_read mf.media_type_ok)
          ++ List.replicate 4 (mf.Step.worker (mf.sample_read 0 3) mf.media_type_ok)
          ++ List.replicate 4 (mf.Step.worker (mf.sample_read 500 4) mf.media_type_ok)
          ++ List.replicate 4 (mf.Step.worker (mf.sample_read 999 5) mf.media_type_ok)))).map
        (fun f => f.time)
      = [0, 500, 999, 1000, 1500, 1999]
      ∧ (∀ p ∈ mf.rebased_by_pass 0 ((mf.Machine.start 8 1000 true).trace
          (List.replicate 4 (mf.Step.worker (mf.sample_read 0 0) mf.media_type_ok)
            ++ List.replicate 4 (mf.Step.worker (mf.sample_read 500 1) mf.media_type_ok)
            ++ List.replicate 4 (mf.Step.worker (mf.sample_read 999 2) mf.media_type_ok)
            ++ List.replicate 3 (mf.Step.worker mf.end_of_stream_read mf.media_type_ok)
            ++ List.replicate 4 (mf.Step.worker (mf.sample_read 0 3) mf.media_type_ok)
            ++ List.replicate 4 (mf.Step.worker (mf.sample_read 500 4) mf.media_type_ok)
            ++ List.replicate 4 (mf.Step.worker (mf.sample_read 999 5) mf.media_type_ok))),
          p.2.2.tag = p.2.1.tag)
      ∧ ((mf.Machine.start 8 1000 true).run
          (List.replicate 4 (mf.Step.worker (mf.sample_read 0 0) mf.media_type_ok)
            ++ List.replicate 4 (mf.Step.worker (mf.sample_read 500 1) mf.media_type_ok)
            ++ List.replicate 4 (mf.Step.worker (mf.sample_read 999 2) mf.media_type_ok)
            ++ List.replicate 3 (mf.Step.worker mf.end_of_stream_read mf.media_type_ok)
            ++ List.replicate 2 (mf.Step.worker (mf.sample_read 500 4) mf.media_type_ok))).step
          (mf.Step.worker (mf.sample_read 500 4) mf.media_type_ok)
        = some ([mf.Effect.read (mf.sample_read 500 4), mf.Effect.rebased 1 ⟨500, 4⟩ ⟨1500, 4⟩],
            { video_duration_ := 1000, running_ := true,
              queue := { capacity_ := 8,
                         queue_ := [some (some ⟨0, 0⟩), some (some ⟨500, 1⟩),
                           some (some ⟨999, 2⟩)],
                         closed_ := false },
              worker := mf.WorkerPc.push ⟨true, 1, some 0⟩ ⟨1500, 4⟩,
              controller := mf.ControllerPc.idle }) :=
  ⟨by decide, fun p hp => ((C15_loop_rebasing 8 1000 true _).1 p hp).2.1,
    ((C15_loop_rebasing 8 1000 true
      (List.replicate 4 (mf.Step.worker (mf.sample_read 0 0) mf.media_type_ok)
        ++ List.replicate 4 (mf.Step.worker (mf.sample_read 500 1) mf.media_type_ok)
        ++ List.replicate 4 (mf.Step.worker (mf.sample_read 999 2) mf.media_type_ok)
        ++ List.replicate 3 (mf.Step.worker mf.end_of_stream_read mf.media_type_ok)
        ++ List.replicate 2 (mf.Step.worker (mf.sample_read 500 4) mf.media_type_ok))).2.2.2.1
      ⟨true, 1, some 0⟩ (mf.sample_read 500 4) mf.media_type_ok ⟨500, 4⟩
      (by decide) rfl rfl rfl (fun _ => rfl)).2⟩

end sandy

namespace sandy

namespace mf

namespace Machine

/-- A sample rebased in a session after fewer than `2^32` rewinds, with a
sum in the 64-bit range, carries exactly
`sample time + video_duration_ * rewinds`. -/
theorem start_rebased_exact (depth : Nat) (duration : Int) (looping : Bool) (ts : List Step)
    (p : Nat × SampleData × SampleData)
    (hp : p ∈ rebased_by_pass 0 ((Machine.start depth duration looping).trace ts))
    (hk : p.1 < 2 ^ 32) (hlo : -(2 ^ 63) ≤ p.2.1.time + duration * (p.1 : Int))
    (hhi : p.2.1.time + duration * (p.1 : Int) < 2 ^ 63) :
    p.2.2.time = p.2.1.time + duration * (p.1 : Int) := by
  obtain ⟨h1, _⟩ := trace_rebased (Machine.start depth duration looping) 0
    (by simp [Machine.start, WorkerPc.loop_count_is]) ts p hp
  have h1 : p.2.2.time
      = wrap_int64 (p.2.1.time + duration * ((p.1 % 2 ^ 32 : Nat) : Int)) := h1
  rw [h1, Nat.mod_eq_of_lt hk]
  exact wrap_int64_of_range _ hlo hhi

end Machine

end mf

end sandy

namespace sandy

/-- C16, as stated, fails: with duration 1000 and a source that emits the
timestamps 0 and 1500 in each pass (non-decreasing within the pass), the
frames pushed carry 0, 1500, 1000, 2500: the time goes down at the loop
boundary. -/
theorem C16_counterexample :
    (mf.rebased_by_pass 0 ((mf.Machine.start 8 1000 true).trace
        (List.replicate 4 (mf.Step.worker (mf.sample_read 0 0) mf.media_type_ok)
          ++ List.replicate 4 (mf.Step.worker (mf.sample_read 1500 1) mf.media_type_ok)
          ++ List.replicate 3 (mf.Step.worker mf.end_of_stream_read mf.media_type_ok)
          ++ List.replicate 4 (mf.Step.worker (mf.sample_read 0 2) mf.media_type_ok)
          ++ List.replicate 4 (mf.Step.worker (mf.sample_read 1500 3) mf.media_type_ok)))).map
        (fun p => (p.1, p.2.1.time, p.2.2.time))
      = [(0, 0, 0), (0, 1500, 1500), (1, 0, 1000), (1, 1500, 2500)]
      ∧ (mf.enqueued_frames ((mf.Machine.start 8 1000 true).trace
        (List.replicate 4 (mf.Step.worker (mf.sample_read 0 0) mf.media_type_ok)
          ++ List.replicate 4 (mf.Step.worker (mf.sample_read 1500 1) mf.media_type_ok)
          ++ List.replicate 3 (mf.Step.worker mf.end_of_stream_read mf.media_type_ok)
          ++ List.replicate 4 (mf.Step.worker (mf.sample_read 0 2) mf.media_type_ok)
          ++ List.replicate 4 (mf.Step.worker (mf.sample_read 1500 3) mf.media_type_ok)))).map
        (fun f => f.time)
      = [0, 1500, 1000, 2500]
      ∧ ¬ List.Pairwise (fun a b : Int => a ≤ b) [0, 1500, 1000, 2500] := by
  decide

/-- C16, amended: in every run of a session, when every sample rebased has
a source timestamp between 0 and `video_duration_`, the timestamps do not
decrease within a pass over the stream, the number of rewinds stays below
`2^32` and `video_duration_ * (rewinds + 1)` stays below `2^63`, the times
of the frames made by rebasing, and so of the frames that enter the queue,
do not decrease over the whole run, loop boundaries included. -/
theorem C16_rebased_monotone (depth : Nat) (duration : Int) (looping : Bool)
    (ts : List mf.Step)
    (hrange : ∀ p ∈ mf.rebased_by_pass 0 ((mf.Machine.start depth duration looping).trace ts),
      0 ≤ p.2.1.time ∧ p.2.1.time ≤ duration)
    (hpass : (mf.rebased_by_pass 0 ((mf.Machine.start depth duration looping).trace ts)).Pairwise
      (fun a b => a.1 = b.1 → a.2.1.time ≤ b.2.1.time))
    (hwrap : ∀ p ∈ mf.rebased_by_pass 0 ((mf.Machine.start depth duration looping).trace ts),
      p.1 < 2 ^ 32 ∧ duration * ((p.1 : Int) + 1) < 2 ^ 63) :
    (mf.rebased_frames ((mf.Machine.start depth duration looping).trace ts)).Pairwise
        (fun a b => a.time ≤ b.time)
      ∧ (mf.enqueued_frames ((mf.Machine.start depth duration looping).trace ts)).Pairwise
        (fun a b => a.time ≤ b.time) := by
  have hexact : ∀ p ∈ mf.rebased_by_pass 0
      ((mf.Machine.start depth duration looping).trace ts),
      p.2.2.time = p.2.1.time + duration * (p.1 : Int) := by
    intro p hp
    obtain ⟨h0, hd⟩ := hrange p hp
    obtain ⟨hk, hw⟩ := hwrap p hp
    have hdn : 0 ≤ duration := le_trans h0 hd
    have hmul : 0 ≤ duration * (p.1 : Int) := mul_nonneg hdn (Int.ofNat_nonneg _)
    refine mf.Machine.start_rebased_exact depth duration looping ts p hp hk ?_ ?_
    · have : (0 : Int) ≤ p.2.1.time + duration * (p.1 : Int) := add_nonneg h0 hmul
      omega
    · have e : duration * ((p.1 : Int) + 1) = duration * (p.1 : Int) + duration := by ring
      omega
  have hsorted := (mf.rebased_by_pass_sorted 0
    ((mf.Machine.start depth duration looping).trace ts)).1
  have hpair : (mf.rebased_by_pass 0
      ((mf.Machine.start depth duration looping).trace ts)).Pairwise
      (fun a b => a.2.2.time ≤ b.2.2.time) := by
    refine List.Pairwise.imp_of_mem ?_ (hsorted.and hpass)
    intro a b ha hb hab
    obtain ⟨hle, hsame⟩ := hab
    rw [hexact a ha, hexact b hb]
    obtain ⟨ha0, had⟩ := hrange a ha
    obtain ⟨hb0, hbd⟩ := hrange b hb
    have hdn : 0 ≤ duration := le_trans ha0 had
    rcases Nat.eq_or_lt_of_le hle with heq | hlt
    · have := hsame heq
      rw [heq]
      omega
    · have h1 : ((a.1 : Int) + 1) ≤ (b.1 : Int) := by omega
      have h2 : duration * ((a.1 : Int) + 1) ≤ duration * (b.1 : Int) :=
        mul_le_mul_of_nonneg_left h1 hdn
      have e : duration * ((a.1 : Int) + 1) = duration * (a.1 : Int) + duration := by ring
      omega
  have hframes : (mf.rebased_frames ((mf.Machine.start depth duration looping).trace ts)).Pairwise
      (fun a b => a.time ≤ b.time) := by
    rw [← mf.rebased_by_pass_frames 0, List.pairwise_map]
    exact hpair
  refine ⟨hframes, ?_⟩
  have hpend := mf.Machine.trace_pending (mf.Machine.start depth duration looping)
    (mf.Machine.start_inv depth duration looping) ts
  have hsub : List.Sublist (mf.enqueued_frames
      ((mf.Machine.start depth duration looping).trace ts))
      (mf.rebased_frames ((mf.Machine.start depth duration looping).trace ts)) := by
    have h : mf.enqueued_frames ((mf.Machine.start depth duration looping).trace ts)
        ++ ((mf.Machine.start depth duration looping).run ts).worker.pending
        = mf.rebased_frames ((mf.Machine.start depth duration looping).trace ts) := by
      simpa [mf.Machine.start, mf.WorkerPc.pending] using hpend
    rw [← h]
    exact List.sublist_append_left _ _
  exact List.Pairwise.sublist hsub hframes

end sandy

namespace sandy

/-- C16 amended, on a stream of duration 1000 whose source emits 0, 500, 999
in each of two passes: the frames enqueued have non-decreasing times. -/
theorem C16_rebased_monotone_witness :
    (mf.enqueued_frames ((mf.Machine.start 8 1000 true).trace
        (List.replicate 4 (mf.Step.worker (mf.sample_read 0 0) mf.media_type_ok)
          ++ List.replicate 4 (mf.Step.worker (mf.sample_read 500 1) mf.media_type_ok)
          ++ List.replicate 4 (mf.Step.worker (mf.sample_read 999 2) mf.media_type_ok)
          ++ List.replicate 3 (mf.Step.worker mf.end_of_stream_read mf.media_type_ok)
          ++ List.replicate 4 (mf.Step.worker (mf.sample_read 0 3) mf.media_type_ok)
          ++ List.replicate 4 (mf.Step.worker (mf.sample_read 500 4) mf.media_type_ok)
          ++ List.replicate 4
            (mf.Step.worker (mf.sample_read 999 5) mf.media_type_ok)))).Pairwise
      (fun a b => a.time ≤ b.time) :=
  (C16_rebased_monotone 8 1000 true
    (List.replicate 4 (mf.Step.worker (mf.sample_read 0 0) mf.media_type_ok)
      ++ List.replicate 4 (mf.Step.worker (mf.sample_read 500 1) mf.media_type_ok)
      ++ List.replicate 4 (mf.Step.worker (mf.sample_read 999 2) mf.media_type_ok)
      ++ List.replicate 3 (mf.Step.worker mf.end_of_stream_read mf.media_type_ok)
      ++ List.replicate 4 (mf.Step.worker (mf.sample_read 0 3) mf.media_type_ok)
      ++ List.replicate 4 (mf.Step.worker (mf.sample_read 500 4) mf.media_type_ok)
      ++ List.replicate 4 (mf.Step.worker (mf.sample_read 999 5) mf.media_type_ok))
    (by decide) (by decide) (by decide)).2

end sandy

namespace sandy

namespace mf

namespace Machine

/-- A worker that has left its loop never comes back and pushes nothing. -/
theorem step_after_exit (s : Machine) (h : s.worker = WorkerPc.close ∨ s.worker = WorkerPc.done)
    (t : Step) (es : List Effect) (s1 : Machine) (hs : s.step t = some (es, s1)) :
    (s1.worker = WorkerPc.close ∨ s1.worker = WorkerPc.done)
      ∧ ∀ e ∈ es, e.is_push = false := by
  revert t es s1
  apply transition_cases s (fun _ es s1 => (s1.worker = WorkerPc.close ∨ s1.worker = WorkerPc.done)
      ∧ ∀ e ∈ es, e.is_push = false)
  all_goals
    intros
    rcases h with h | h <;> simp_all [Effect.is_push, notify_producer]

theorem trace_after_exit (s : Machine)
    (h : s.worker = WorkerPc.close ∨ s.worker = WorkerPc.done) (ts : List Step) :
    (∀ e ∈ s.trace ts, e.is_push = false)
      ∧ ((s.run ts).worker = WorkerPc.close ∨ (s.run ts).worker = WorkerPc.done) := by
  induction ts generalizing s with
  | nil => exact ⟨by simp [trace], h⟩
  | cons t ts ih =>
    simp only [trace, run]
    cases hstep : s.step t with
    | none => exact ih s h
    | some r =>
      obtain ⟨es, s1⟩ := r
      obtain ⟨h1, h2⟩ := step_after_exit s h t es s1 hstep
      obtain ⟨h3, h4⟩ := ih s1 h1
      refine ⟨?_, h4⟩
      intro e he
      rcases List.mem_append.mp he with he | he
      · exact h2 e he
      · exact h3 e he

/-- The loop is left only towards the call of `close()`, by a step that
pushes nothing. -/
theorem step_exit (s : Machine) (t : Step) (es : List Effect) (s1 : Machine)
    (hs : s.step t = some (es, s1)) (hin : s.worker.in_loop = true)
    (hout : s1.worker.in_loop = false) :
    s1.worker = WorkerPc.close ∧ ∀ e ∈ es, e.is_push = false := by
  revert t es s1
  apply transition_cases s (fun _ es s1 => s1.worker.in_loop = false →
      s1.worker = WorkerPc.close ∧ ∀ e ∈ es, e.is_push = false)
  all_goals
    intros
    try simp only [notify_producer_in_loop] at *
    simp_all [Effect.is_push, WorkerPc.in_loop]

end Machine

end mf

/-- C17: the worker leaves its loop on four paths: the loop test finds the
flag cleared, `ReadSample` fails, the media type query fails, or the stream
ends with looping off. Each of them leads to the call of `close()` by a
step that pushes nothing, and no other step leaves the loop. The worker's
next step then closes the queue and ends the thread; from the moment the
loop is left no step of any thread pushes a frame and the worker stays out
of the loop; and in every state a session reaches in which the thread
function has returned, the queue is closed. -/
theorem C17_exit_closes (s : mf.Machine) (depth : Nat) (duration : Int) (looping : Bool)
    (ts : List mf.Step) :
    (∀ w rd mt, s.worker = mf.WorkerPc.test w → s.running_ = false →
        s.step (mf.Step.worker rd mt)
          = some ([], { s with running_ := true, worker := mf.WorkerPc.close }))
      ∧ (∀ w rd mt, s.worker = mf.WorkerPc.read w → rd.hr_failed = true →
          s.step (mf.Step.worker rd mt)
            = some ([mf.Effect.read rd], { s with worker := mf.WorkerPc.close }))
      ∧ (∀ w rd mt, s.worker = mf.WorkerPc.read w → rd.hr_failed = false →
          (w.frame_media_type_.isNone || rd.flags_media_type_changed) = true →
          mt.hr_failed = true →
          s.step (mf.Step.worker rd mt)
            = some ([mf.Effect.read rd], { s with worker := mf.WorkerPc.close }))
      ∧ (∀ w rd mt, s.worker = mf.WorkerPc.read w → rd.hr_failed = false →
          ((w.frame_media_type_.isNone || rd.flags_media_type_changed) && mt.hr_failed)
            = false →
          rd.flags_end_of_stream = true → w.looping = false →
          s.step (mf.Step.worker rd mt)
            = some ([mf.Effect.read rd], { s with worker := mf.WorkerPc.close }))
      ∧ (∀ t es s1, s.step t = some (es, s1) → s.worker.in_loop = true →
          s1.worker.in_loop = false →
          s1.worker = mf.WorkerPc.close ∧ ∀ e ∈ es, e.is_push = false)
      ∧ (∀ rd mt, s.worker = mf.WorkerPc.close →
          s.step (mf.Step.worker rd mt)
            = some ([mf.Effect.closed],
                { s with queue := s.queue.close, worker := mf.WorkerPc.done,
                         controller := mf.Machine.notify_consumer s.controller })
          ∧ s.queue.close.closed_ = true)
      ∧ (s.worker = mf.WorkerPc.close ∨ s.worker = mf.WorkerPc.done →
          ∀ ts1, (∀ e ∈ s.trace ts1, e.is_push = false)
            ∧ ((s.run ts1).worker = mf.WorkerPc.close
              ∨ (s.run ts1).worker = mf.WorkerPc.done))
      ∧ (((mf.Machine.start depth duration looping).run ts).worker = mf.WorkerPc.done →
          ((mf.Machine.start depth duration looping).run ts).queue.closed_ = true) := by
  refine ⟨?_, ?_, ?_, ?_, ?_, ?_, ?_, ?_⟩
  · intro w rd mt hw hr
    simp [mf.Machine.step, mf.Machine.worker_step, hw, hr]
  · intro w rd mt hw hf
    simp [mf.Machine.step, mf.Machine.worker_step, hw, mf.Worker.after_read, hf]
  · intro w rd mt hw hf hq hm
    simp [mf.Machine.step, mf.Machine.worker_step, hw, mf.Worker.after_read, hf, hq, hm]
  · intro w rd mt hw hf hq he hl
    rcases mf.after_read_cases s.video_duration_ w rd mt with
      ⟨w1, h2, _⟩ | ⟨w1, _, _, _, h3, _⟩ | ⟨w1, _, _, h3, _⟩ | ⟨d, w1, _, _, h3, _⟩
    · simp only [mf.Machine.step, mf.Machine.worker_step, hw, h2]
    · rw [hl] at h3; cases h3
    · rw [he] at h3; cases h3
    · rw [he] at h3; cases h3
  · intro t es s1 hs hin hout
    exact mf.Machine.step_exit s t es s1 hs hin hout
  · intro rd mt hw
    exact ⟨by simp [mf.Machine.step, mf.Machine.worker_step, hw], rfl⟩
  · intro h ts1
    exact mf.Machine.trace_after_exit s h ts1
  · intro hw
    exact (mf.Machine.run_inv _ (mf.Machine.start_inv depth duration looping) ts).closed
      (by simp [hw, mf.WorkerPc.returned])

/-- C17 on a worker about to read whose `ReadSample` fails: the step goes to
the call of `close()` and pushes nothing. -/
theorem C17_exit_closes_witness :
    (mf.Machine.mk 300 true (ConcurrentQueue.mk 4 [] false)
        (mf.WorkerPc.read ⟨false, 0, some 0⟩) mf.ControllerPc.idle).step
        (mf.Step.worker ⟨true, false, false, none⟩ mf.media_type_ok)
      = some ([mf.Effect.read ⟨true, false, false, none⟩],
          mf.Machine.mk 300 true (ConcurrentQueue.mk 4 [] false) mf.WorkerPc.close
            mf.ControllerPc.idle) :=
  (C17_exit_closes
    (mf.Machine.mk 300 true (ConcurrentQueue.mk 4 [] false)
      (mf.WorkerPc.read ⟨false, 0, some 0⟩) mf.ControllerPc.idle) 0 0 false []).2.1
    ⟨false, 0, some 0⟩ ⟨true, false, false, none⟩ mf.media_type_ok rfl rfl

end sandy

/-! ## Properties of Rewind and Play -/

namespace sandy

namespace mf

namespace Decoder

/-- What `Rewind` leaves on a ready decoder. -/
theorem Rewind_of_ready (d : Decoder) (looping : Bool) (hready : d.impl.ready_ = true) :
    (d.Rewind looping).impl.decoded_frames_
        = some (ConcurrentQueue.new d.impl.decoder_queue_depth_)
      ∧ (d.Rewind looping).impl.next_frame_
        = (if d.worker_thread_.isSome then none else d.impl.next_frame_)
      ∧ (d.Rewind looping).impl.running_ = true
      ∧ (d.Rewind looping).impl.ready_ = true
      ∧ (d.Rewind looping).impl.video_duration_ = d.impl.video_duration_
      ∧ (d.Rewind looping).impl.decoder_queue_depth_ = d.impl.decoder_queue_depth_
      ∧ (d.Rewind looping).worker_thread_
        = some (WorkerPc.test { looping := looping, loop_count := 0, frame_media_type_ := none })
      := by
  have hr : d.impl.IsReady = true := hready
  unfold Rewind
  simp only [hr, Bool.not_true, Bool.false_eq_true, if_false]
  cases d.worker_thread_ <;> simp [hready]

theorem constructed_consistent (ready : Bool) (depth : Nat) (duration : Int) :
    (constructed ready depth duration).Consistent := by
  intro _
  exact ⟨rfl, rfl⟩

theorem Rewind_consistent (d : Decoder) (looping : Bool) (hc : d.Consistent) :
    (d.Rewind looping).Consistent := by
  unfold Rewind
  cases hr : d.impl.IsReady with
  | false => simpa using hc
  | true =>
    intro h
    simp at h

end Decoder

end mf

/-- C18: `Rewind(looping)` on a ready decoder (whose look-ahead slot is
empty whenever it has no worker thread, as after construction) starts a
fresh session. Afterwards the look-ahead slot is empty; the queue is a new
queue, empty, open and of capacity `decoder_queue_depth_`; the flag is set;
the worker stands at the top of its loop with `loop_count = 0`, so the
session is `Machine.start`; no frame is held, hence every frame a later
`FetchFrame` returns was pushed after the `Rewind`; and a sample rebased
before the first rewind of the new session keeps its source time (offset
0). The decoder stays consistent, and `VideoPlaybackTexture::Rewind` does
this to its decoder and leaves `playing_` false and
`need_to_clear_texture_` true. -/
theorem C18_Rewind_fresh_session (d : mf.Decoder) (looping : Bool)
    (hready : d.impl.ready_ = true) (hc : d.Consistent) :
    (d.Rewind looping).impl.next_frame_ = none
      ∧ (d.Rewind looping).impl.decoded_frames_
        = some { capacity_ := d.impl.decoder_queue_depth_, queue_ := [], closed_ := false }
      ∧ (d.Rewind looping).impl.running_ = true
      ∧ (d.Rewind looping).worker_thread_
        = some (mf.WorkerPc.test
            { looping := looping, loop_count := 0, frame_media_type_ := none })
      ∧ (d.Rewind looping).session
        = some (mf.Machine.start d.impl.decoder_queue_depth_ d.impl.video_duration_ looping)
      ∧ (d.Rewind looping).impl.held = []
      ∧ (∀ es, List.Sublist ((d.Rewind looping).impl.session_fetched es)
          ((d.Rewind looping).impl.session_pushed es))
      ∧ (∀ ts, ∀ p ∈ mf.rebased_by_pass 0
            ((mf.Machine.start d.impl.decoder_queue_depth_ d.impl.video_duration_
              looping).trace ts),
          p.1 = 0 → p.2.2.time = mf.wrap_int64 p.2.1.time ∧ p.2.2.tag = p.2.1.tag)
      ∧ (d.Rewind looping).Consistent
      ∧ (∀ (s : VideoPlaybackTexture), s.decoder_ = d →
          (s.Rewind looping).decoder_ = d.Rewind looping
            ∧ (s.Rewind looping).playing_ = false
            ∧ (s.Rewind looping).need_to_clear_texture_ = true) := by
  obtain ⟨h1, h2, h3, h4, h5, h6, h7⟩ := mf.Decoder.Rewind_of_ready d looping hready
  have hslot : (d.Rewind looping).impl.next_frame_ = none := by
    rw [h2]
    cases hw : d.worker_thread_ with
    | none => simpa using (hc hw).1
    | some p => rfl
  have hheld : (d.Rewind looping).impl.held = [] := by
    simp [mf.Impl.held, hslot, h1, mf.queue_frames, ConcurrentQueue.new]
  have hwf : (d.Rewind looping).impl.WellFormed := by
    intro dq hdq e he
    rw [h1] at hdq
    simp only [Option.some.injEq] at hdq
    subst hdq
    simp [ConcurrentQueue.new] at he
  refine ⟨hslot, h1, h3, h7, ?_, hheld, ?_, ?_, mf.Decoder.Rewind_consistent d looping hc, ?_⟩
  · simp [mf.Decoder.session, h1, h7, h3, h5, mf.Machine.start]
  · intro es
    have h := mf.Impl.session_fetched_sublist (d.Rewind looping).impl es hwf
    rw [hheld, List.nil_append] at h
    exact h
  · intro ts p hp h0
    obtain ⟨ht, htag⟩ := mf.Machine.trace_rebased
      (mf.Machine.start d.impl.decoder_queue_depth_ d.impl.video_duration_ looping) 0
      (by simp [mf.Machine.start, mf.WorkerPc.loop_count_is]) ts p hp
    refine ⟨?_, htag⟩
    rw [ht, h0]
    simp [mf.Machine.start]
  · intro s hs
    have hr : d.impl.IsReady = true := hready
    simp [VideoPlaybackTexture.Rewind, hs, hr]

/-- C18 on a decoder in the middle of a session, with a frame in the
look-ahead slot and a closed queue: after `Rewind` the slot is empty. -/
theorem C18_Rewind_fresh_session_witness :
    ((mf.Decoder.mk
        (mf.Impl.mk true 4 300 true (some (ConcurrentQueue.mk 4 [] true)) (some ⟨200, 2⟩))
        (some mf.WorkerPc.done)).Rewind false).impl.next_frame_ = none :=
  (C18_Rewind_fresh_session
    (mf.Decoder.mk
      (mf.Impl.mk true 4 300 true (some (ConcurrentQueue.mk 4 [] true)) (some ⟨200, 2⟩))
      (some mf.WorkerPc.done)) false rfl (by intro h; cases h)).1

/-- C19: `Play()` at clock time `now` sets `play_started_at_ = now` and
`playing_` exactly when the decoder is ready and `playing_` is not set, and
is a no-op otherwise: the whole state, `playing_` and `play_started_at_`
included, is unchanged. A second `Play()` never changes anything, so the
current position read at any time is the same with or without it; and
`playing_` is set after `Play()` exactly when it was set before or the
decoder is ready. -/
theorem C19_Play (s : VideoPlaybackTexture) (now : Int) :
    (s.decoder_.impl.IsReady = true → s.playing_ = false →
        s.Play now = { s with play_started_at_ := now, playing_ := true })
      ∧ (s.playing_ = true → s.Play now = s)
      ∧ (s.decoder_.impl.IsReady = false → s.Play now = s)
      ∧ (∀ now2, (s.Play now).Play now2 = s.Play now)
      ∧ (∀ (cast : Int → Int) (now2 t : Int),
          VideoPlaybackTexture.GetCurrentPosition cast ((s.Play now).Play now2) t
            = VideoPlaybackTexture.GetCurrentPosition cast (s.Play now) t)
      ∧ ((s.Play now).playing_ = true
          ↔ s.playing_ = true ∨ s.decoder_.impl.IsReady = true) := by
  have hidem : ∀ now2, (s.Play now).Play now2 = s.Play now := by
    intro now2
    unfold VideoPlaybackTexture.Play
    cases hr : s.decoder_.impl.IsReady <;> cases hp : s.playing_ <;> simp [hr, hp]
  refine ⟨?_, ?_, ?_, hidem, ?_, ?_⟩
  · intro hr hp
    simp [VideoPlaybackTexture.Play, hr, hp]
  · intro hp
    simp [VideoPlaybackTexture.Play, hp]
  · intro hr
    simp [VideoPlaybackTexture.Play, hr]
  · intro cast now2 t
    rw [hidem]
  · unfold VideoPlaybackTexture.Play
    cases hr : s.decoder_.impl.IsReady <;> cases hp : s.playing_ <;> simp [hr, hp]

/-- C19 on a ready decoder: `Play()` at time 100 and again at time 250; the
origin is still 100. -/
theorem C19_Play_witness :
    (((VideoPlaybackTexture.mk (mf.Decoder.constructed true 4 300) true false 0).Play
        100).Play 250).play_started_at_ = 100 :=
  congrArg VideoPlaybackTexture.play_started_at_
    (((C19_Play (VideoPlaybackTexture.mk (mf.Decoder.constructed true 4 300) true false 0)
        100).2.2.2.1 250).trans
      ((C19_Play (VideoPlaybackTexture.mk (mf.Decoder.constructed true 4 300) true false 0)
        100).1 rfl rfl))

end sandy

/-! ## Properties of the end of the stream and of the full queue -/

namespace sandy

end sandy

namespace sandy

namespace mf

namespace Machine

theorem notify_producer_distance (p : WorkerPc) :
    (notify_producer p).distance = p.distance := by
  cases p <;> rfl

/-- A worker that saw room before its push never comes to wait inside
`push`. -/
theorem step_no_wait (s : Machine)
    (hroom : s.worker.saw_room = true → s.queue.size < s.queue.capacity)
    (hnw : s.worker.waits = false) (t : Step) (es : List Effect) (s1 : Machine)
    (hs : s.step t = some (es, s1)) : s1.worker.waits = false := by
  revert t es s1
  apply transition_cases s (fun _ _ s1 => s1.worker.waits = false)
  case push_full =>
    intro rd mt w frame hw hc hfull
    have := hroom (by simp [hw, WorkerPc.saw_room])
    omega
  all_goals
    intros
    try simp only [notify_producer_waits] at *
    simp_all [WorkerPc.waits]

/-- A worker that saw room before its push gets `true` from every `push` at
once. -/
theorem step_push_at_once (s : Machine) (hinv : s.Inv) (hnw : s.worker.waits = false)
    (t : Step) (es : List Effect) (s1 : Machine) (hs : s.step t = some (es, s1)) :
    ∀ e ∈ es, e.held_up = false := by
  have hopen := hinv.opened
  have hroom := hinv.room
  revert t es s1
  apply transition_cases s (fun _ es _ => ∀ e ∈ es, e.held_up = false)
  case push_refused =>
    intro rd mt w frame hw hc
    rw [hopen (by simp [hw, WorkerPc.returned])] at hc
    cases hc
  case push_full =>
    intro rd mt w frame hw hc hfull
    have := hroom (by simp [hw, WorkerPc.saw_room])
    omega
  case wake_full =>
    intro rd mt w frame hw
    simp [hw, WorkerPc.waits] at hnw
  all_goals
    intros
    first
    | (simp_all [Effect.held_up]; done)
    | (rename_i he
       simp only [List.mem_cons, List.mem_singleton, List.not_mem_nil, or_false] at he
       rcases he with rfl | rfl <;> rfl)

/-- While a teardown is under way every step of a worker that is not
inside `push` brings it nearer to the end of its thread function, and no
step of another thread takes it away from there. -/
theorem step_distance (s : Machine) (hinv : s.Inv) (hnw : s.worker.waits = false)
    (htd : s.controller.tearing_down = true) (t : Step) (es : List Effect) (s1 : Machine)
    (hs : s.step t = some (es, s1)) :
    s1.controller.tearing_down = true ∧ s1.worker.distance + t.cost ≤ s.worker.distance := by
  have hflag := hinv.flag htd
  have hroom := hinv.room
  revert t es s1
  apply transition_cases s (fun t _ s1 =>
    s1.controller.tearing_down = true ∧ s1.worker.distance + t.cost ≤ s.worker.distance)
  case test_run =>
    intro rd mt w hw hr
    rw [hflag (by simp [hw, WorkerPc.in_loop])] at hr
    cases hr
  case push_full =>
    intro rd mt w frame hw hc hfull
    have := hroom (by simp [hw, WorkerPc.saw_room])
    omega
  all_goals
    intros
    try simp only [notify_producer_distance, notify_consumer_tearing_down] at *
    simp_all [WorkerPc.distance, Step.cost, WorkerPc.waits, ControllerPc.tearing_down]

/-- The worker cannot move only when it waits inside `push` or has
returned. -/
theorem worker_step_none (s : Machine) (rd : ReadSampleResult) (mt : MediaTypeResult)
    (h : s.worker_step rd mt = none) : s.worker.waits = true ∨ s.worker = WorkerPc.done := by
  obtain ⟨p, hp⟩ : ∃ p, s.worker = p := ⟨_, rfl⟩
  cases p with
  | test w => simp only [worker_step, hp] at h; split at h <;> cases h
  | check w => simp only [worker_step, hp] at h; split at h <;> cases h
  | read w =>
    simp only [worker_step, hp] at h
    split at h <;> cases h
  | push w frame => simp only [worker_step, hp] at h; cases h
  | parked w frame n => left; rw [hp]; rfl
  | close => simp only [worker_step, hp] at h; cases h
  | done => exact Or.inr hp

/-- Over a schedule run during a teardown, the worker's way to the end of
its thread function shrinks by one with each of its steps. -/
theorem run_distance (s : Machine) (hinv : s.Inv) (hnw : s.worker.waits = false)
    (htd : s.controller.tearing_down = true) (ts : List Step) :
    (s.run ts).worker.distance ≤ s.worker.distance - worker_steps ts := by
  induction ts generalizing s with
  | nil => simp [run, worker_steps]
  | cons t ts ih =>
    simp only [run]
    cases hstep : s.step t with
    | none =>
      simp only
      have h1 := ih s hinv hnw htd
      cases t with
      | worker rd mt =>
        rcases worker_step_none s rd mt hstep with h | h
        · rw [hnw] at h; cases h
        · rw [h] at h1 ⊢
          simp only [WorkerPc.distance] at h1 ⊢
          omega
      | controller => simpa [worker_steps] using h1
      | consumer_pop => simpa [worker_steps] using h1
    | some r =>
      obtain ⟨es, s1⟩ := r
      simp only
      have h1 := step_distance s hinv hnw htd t es s1 hstep
      have h2 := ih s1 (step_inv s hinv t es s1 hstep)
        (step_no_wait s hinv.room hnw t es s1 hstep) h1.1
      have h3 := h1.2
      cases t <;> simp only [worker_steps, Step.cost] at h3 ⊢ <;> omega

/-- In every state a session reaches the worker is not waiting inside
`push`. -/
theorem run_no_wait (s : Machine) (hinv : s.Inv) (hnw : s.worker.waits = false)
    (ts : List Step) : (s.run ts).worker.waits = false := by
  induction ts generalizing s with
  | nil => exact hnw
  | cons t ts ih =>
    simp only [run]
    cases hstep : s.step t with
    | none => exact ih s hinv hnw
    | some r =>
      obtain ⟨es, s1⟩ := r
      exact ih s1 (step_inv s hinv t es s1 hstep) (step_no_wait s hinv.room hnw t es s1 hstep)

/-- Over every run of a session each `push` returns true at once. -/
theorem trace_push_at_once (s : Machine) (hinv : s.Inv) (hnw : s.worker.waits = false)
    (ts : List Step) :
    ∀ e ∈ s.trace ts, e.held_up = false := by
  induction ts generalizing s with
  | nil => intro e he; simp [trace] at he
  | cons t ts ih =>
    simp only [trace]
    cases hstep : s.step t with
    | none => exact ih s hinv hnw
    | some r =>
      obtain ⟨es, s1⟩ := r
      simp only
      intro e he
      rcases List.mem_append.mp he with he | he
      · exact step_push_at_once s hinv hnw t es s1 hstep e he
      · exact ih s1 (step_inv s hinv t es s1 hstep)
          (step_no_wait s hinv.room hnw t es s1 hstep) e he

end Machine

end mf

end sandy

namespace sandy

/-- C22: in every state `s` a session reaches from its start. At the size
check with `size() == capacity()` the worker's step only sleeps: no read, no
push, the queue untouched, and the next thing it does is the loop test of
the flag. The worker is never waiting inside `push`; a worker about to call
`push` has `size() < capacity()` on an open queue; and over the whole run no
`push` was refused or went to sleep. Once a teardown has cleared the flag,
the flag is still cleared for a worker inside its loop, every step of the
worker brings it nearer to the end of its thread function, and after five
steps of the worker at most, whatever the other threads do in between, the
thread function has returned. -/
theorem C22_full_queue_backoff (depth : Nat) (duration : Int) (looping : Bool)
    (ts : List mf.Step) (s : mf.Machine)
    (hs : s = (mf.Machine.start depth duration looping).run ts) :
    (∀ w rd mt, s.worker = mf.WorkerPc.check w → s.queue.size = s.queue.capacity →
        s.step (mf.Step.worker rd mt)
          = some ([mf.Effect.slept], { s with worker := mf.WorkerPc.test w }))
      ∧ s.worker.waits = false
      ∧ (∀ w frame, s.worker = mf.WorkerPc.push w frame →
          s.queue.size < s.queue.capacity ∧ s.queue.closed_ = false)
      ∧ (∀ e ∈ (mf.Machine.start depth duration looping).trace ts, e.held_up = false)
      ∧ (s.controller.tearing_down = true →
          (s.worker.in_loop = true → s.running_ = false)
          ∧ ∀ ts1, (s.run ts1).worker.distance ≤ s.worker.distance - mf.worker_steps ts1
              ∧ (5 ≤ mf.worker_steps ts1 → (s.run ts1).worker = mf.WorkerPc.done)) := by
  have hinv0 := mf.Machine.start_inv depth duration looping
  have hnw0 : (mf.Machine.start depth duration looping).worker.waits = false := rfl
  have hinv : s.Inv := hs ▸ mf.Machine.run_inv _ hinv0 ts
  have hnw : s.worker.waits = false := hs ▸ mf.Machine.run_no_wait _ hinv0 hnw0 ts
  refine ⟨?_, hnw, ?_, mf.Machine.trace_push_at_once _ hinv0 hnw0 ts, ?_⟩
  · intro w rd mt hw hfull
    simp [mf.Machine.step, mf.Machine.worker_step, hw, hfull]
  · intro w frame hw
    exact ⟨hinv.room (by simp [hw, mf.WorkerPc.saw_room]),
      hinv.opened (by simp [hw, mf.WorkerPc.returned])⟩
  · intro htd
    refine ⟨hinv.flag htd, ?_⟩
    intro ts1
    have h := mf.Machine.run_distance s hinv hnw htd ts1
    refine ⟨h, ?_⟩
    intro h5
    have hd : s.worker.distance ≤ 5 := by cases s.worker <;> simp [mf.WorkerPc.distance]
    have h0 : (s.run ts1).worker.distance = 0 := by omega
    revert h0
    cases (s.run ts1).worker <;> simp [mf.WorkerPc.distance]

/-- C22 on a session with a queue of one entry: after a first frame is
pushed the worker finds the queue full at its size check; its step only
sleeps and leads back to the loop test. -/
theorem C22_full_queue_backoff_witness :
    ((mf.Machine.start 1 300 false).run
        (List.replicate 5 (mf.Step.worker (mf.sample_read 0 0) mf.media_type_ok))).step
        (mf.Step.worker (mf.sample_read 100 1) mf.media_type_ok)
      = some ([mf.Effect.slept],
          mf.Machine.mk 300 true (ConcurrentQueue.mk 1 [some (some ⟨0, 0⟩)] false)
            (mf.WorkerPc.test ⟨false, 0, some 0⟩) mf.ControllerPc.idle) :=
  (C22_full_queue_backoff 1 300 false
    (List.replicate 5 (mf.Step.worker (mf.sample_read 0 0) mf.media_type_ok)) _ rfl).1
    ⟨false, 0, some 0⟩ (mf.sample_read 100 1) mf.media_type_ok (by decide) (by decide)

/-- C23 fails on the code. On a decoder that has been rewound, with the
frames at 0, 100, 200 pushed and the queue closed by the worker, after
`FetchFrame(0)` and `FetchFrame(150)` have returned the frames at 0 and at
100, `IsEndOfStream()` is true while the look-ahead slot holds the frame at
200: that frame was pushed and has been neither returned nor skipped. It
stays there: once `IsEndOfStream()` is true on a ready decoder every
`FetchFrame` returns nothing and leaves the slot as it is. -/
theorem C23_end_of_stream_frame_held :
    ((mf.Decoder.constructed true 4 300).Rewind false).impl = mf.Impl.fresh 4 300
      ∧ ((mf.Decoder.constructed true 4 300).Rewind false).impl.session_results
          [mf.SessionEvent.push ⟨0, 0⟩, mf.SessionEvent.push ⟨100, 1⟩,
            mf.SessionEvent.push ⟨200, 2⟩, mf.SessionEvent.close,
            mf.SessionEvent.fetch 0, mf.SessionEvent.fetch 150]
          = [some ⟨0, 0⟩, some ⟨100, 1⟩]
      ∧ (((mf.Decoder.constructed true 4 300).Rewind false).impl.session_run
          [mf.SessionEvent.push ⟨0, 0⟩, mf.SessionEvent.push ⟨100, 1⟩,
            mf.SessionEvent.push ⟨200, 2⟩, mf.SessionEvent.close,
            mf.SessionEvent.fetch 0, mf.SessionEvent.fetch 150]).IsEndOfStream = true
      ∧ (((mf.Decoder.constructed true 4 300).Rewind false).impl.session_run
          [mf.SessionEvent.push ⟨0, 0⟩, mf.SessionEvent.push ⟨100, 1⟩,
            mf.SessionEvent.push ⟨200, 2⟩, mf.SessionEvent.close,
            mf.SessionEvent.fetch 0, mf.SessionEvent.fetch 150]).next_frame_
          = some ⟨200, 2⟩
      ∧ (∀ (s : mf.Impl) (current_time : Int), s.ready_ = true →
          s.decoded_frames_.isSome = true → s.IsEndOfStream = true →
          s.FetchFrame current_time = some (none, s)) := by
  refine ⟨by decide, by decide, by decide, by decide, ?_⟩
  intro s current_time _ hq he
  cases hdq : s.decoded_frames_ with
  | none => rw [hdq] at hq; cases hq
  | some dq =>
    have hcl : dq.closed = true := by simpa [mf.Impl.IsEndOfStream, hdq] using he
    exact mf.Impl.FetchFrame_closed s current_time dq hdq hcl

end sandy

/-! ## Properties of the interpolation functions -/

namespace sandy

theorem clamp_of_mem {α : Type} [LinearOrder α] (v lo hi : α) (h0 : lo ≤ v) (h1 : v ≤ hi) :
    std.clamp v lo hi = v := by
  simp only [std.clamp, not_lt.mpr h0, not_lt.mpr h1, if_false]

/-- The value of `hermite` for `t` between 0 and 1: the first coefficient is
`6t - 3t^2 + 1`, from the term `2.0f * t * 3.0f` of the source. -/
theorem hermite_eq (pos0 tan0 pos1 tan1 t : ℚ) (h0 : 0 ≤ t) (h1 : t ≤ 1) :
    hermite pos0 tan0 pos1 tan1 t
      = (6 * t - 3 * t ^ 2 + 1) * pos0 + (t ^ 3 - 2 * t ^ 2 + t) * tan0
        + (-2 * t ^ 3 + 3 * t ^ 2) * pos1 + (t ^ 3 - t ^ 2) * tan1 := by
  simp only [hermite, clamp_of_mem t 0 1 h0 h1]
  ring

/-- C24 fails on the code. `hermite(1, 0, 0, 0, 1)` is 4, where the cubic
Hermite interpolation gives `pos1 = 0`; `hermite(1, 0, 0, 0, 1/2)` is 13/4,
where it gives 1/2. For every `t` between 0 and 1 the code's value is the
cubic Hermite interpolation plus `(6t - 2t^3) * pos0`, so at `t = 1` it is
`4 * pos0 + pos1`; the two agree at `t = 0`, where both give `pos0`, and
wherever `pos0 = 0`. -/
theorem C24_hermite_first_coefficient :
    hermite 1 0 0 0 1 = 4
      ∧ cubic_hermite 1 0 0 0 1 = 0
      ∧ hermite 1 0 0 0 (1 / 2) = 13 / 4
      ∧ cubic_hermite 1 0 0 0 (1 / 2) = 1 / 2
      ∧ (∀ pos0 tan0 pos1 tan1 t : ℚ, 0 ≤ t → t ≤ 1 →
          hermite pos0 tan0 pos1 tan1 t
            = cubic_hermite pos0 tan0 pos1 tan1 t + (6 * t - 2 * t ^ 3) * pos0)
      ∧ (∀ pos0 tan0 pos1 tan1 : ℚ, hermite pos0 tan0 pos1 tan1 1 = 4 * pos0 + pos1)
      ∧ (∀ pos0 tan0 pos1 tan1 : ℚ, hermite pos0 tan0 pos1 tan1 0 = pos0) := by
  refine ⟨?_, ?_, ?_, ?_, ?_, ?_, ?_⟩
  · rw [hermite_eq 1 0 0 0 1 (by norm_num) (by norm_num)]; norm_num
  · norm_num [cubic_hermite]
  · rw [hermite_eq 1 0 0 0 (1 / 2) (by norm_num) (by norm_num)]; norm_num
  · norm_num [cubic_hermite]
  · intro pos0 tan0 pos1 tan1 t h0 h1
    rw [hermite_eq pos0 tan0 pos1 tan1 t h0 h1, cubic_hermite]
    ring
  · intro pos0 tan0 pos1 tan1
    rw [hermite_eq pos0 tan0 pos1 tan1 1 (by norm_num) (by norm_num)]
    ring
  · intro pos0 tan0 pos1 tan1
    rw [hermite_eq pos0 tan0 pos1 tan1 0 (by norm_num) (by norm_num)]
    ring

end sandy

/-! ## Properties of SimpleAtlasAlgorithm -/

namespace sandy

namespace d3d11

namespace SimpleAtlasAlgorithm

theorem wrap_int32_of_range (x : Int) (h1 : -(2 ^ 31) ≤ x) (h2 : x < 2 ^ 31) :
    wrap_int32 x = x := by
  unfold wrap_int32
  omega

theorem Reset_good (s : SimpleAtlasAlgorithm) (atlas_size : SIZE) :
    (s.Reset atlas_size).Good := by
  constructor <;> simp [Reset]

/-- What one `Reserve` with a size that fits does in a good state. -/
theorem Reserve_spec (s : SimpleAtlasAlgorithm) (hg : s.Good) (size : SIZE)
    (hs : size.fits s.texture_size_) :
    (s.Reserve size).2.Good
      ∧ (s.Reserve size).2.texture_size_ = s.texture_size_
      ∧ ((s.Reserve size).1 = none → (s.Reserve size).2 = s)
      ∧ (∀ b, (s.Reserve size).1 = some b →
          b.right - b.left = size.cx ∧ b.bottom - b.top = size.cy
            ∧ 0 ≤ b.left ∧ 0 ≤ b.top
            ∧ b.right < s.texture_size_.cx ∧ b.bottom < s.texture_size_.cy
            ∧ (s.Reserve size).2.Clear b)
      ∧ (∀ a, s.Clear a →
          (s.Reserve size).2.Clear a ∧ ∀ b, (s.Reserve size).1 = some b → a.clear_of b) := by
  obtain ⟨hx0, hy0, hc0, hx1, hrow⟩ := hg
  obtain ⟨h1, h2, h3, h4⟩ := hs
  have e1 : wrap_int32 (s.cursor_.x + size.cx) = s.cursor_.x + size.cx :=
    wrap_int32_of_range _ (by omega) (by omega)
  have e2 : wrap_int32 (s.cursor_.y + size.cy) = s.cursor_.y + size.cy :=
    wrap_int32_of_range _ (by omega) (by omega)
  have e3 : wrap_int32 (s.cursor_.y + s.current_cy_) = s.cursor_.y + s.current_cy_ :=
    wrap_int32_of_range _ (by omega) (by omega)
  have e4 : wrap_int32 (s.cursor_.y + s.current_cy_ + size.cy)
      = s.cursor_.y + s.current_cy_ + size.cy :=
    wrap_int32_of_range _ (by omega) (by omega)
  unfold Reserve
  rw [e1, e2, e3, e4]
  split
  · rename_i hc
    obtain ⟨hc1', hc2'⟩ := hc
    have e5 : wrap_int32 (size.cx + 1) = size.cx + 1 :=
      wrap_int32_of_range _ (by omega) (by omega)
    have e6 : wrap_int32 (size.cy + 1) = size.cy + 1 :=
      wrap_int32_of_range _ (by omega) (by omega)
    have e8 : wrap_int32 (s.cursor_.x + (size.cx + 1)) = s.cursor_.x + (size.cx + 1) :=
      wrap_int32_of_range _ (by omega) (by omega)
    simp only [Reserve_place, e1, e2, e5, e6, e8]
    refine ⟨?_, trivial, ?_, ?_, ?_⟩
    · constructor <;> simp only <;> omega
    · intro h; cases h
    · intro b hb
      simp only [Option.some.injEq] at hb
      subst hb
      simp only [Clear]
      omega
    · intro a ha
      simp only [Clear] at ha ⊢
      refine ⟨by omega, ?_⟩
      intro b hb
      simp only [Option.some.injEq] at hb
      subst hb
      simp only [RECT.clear_of]
      omega
  · split
    · rename_i hn hc
      obtain ⟨hc1', hc2'⟩ := hc
      have e5 : wrap_int32 (size.cx + 1) = size.cx + 1 :=
        wrap_int32_of_range _ (by omega) (by omega)
      have e6 : wrap_int32 (size.cy + 1) = size.cy + 1 :=
        wrap_int32_of_range _ (by omega) (by omega)
      have e7 : wrap_int32 (0 + size.cx) = 0 + size.cx :=
        wrap_int32_of_range _ (by omega) (by omega)
      have e8 : wrap_int32 (0 + (size.cx + 1)) = 0 + (size.cx + 1) :=
        wrap_int32_of_range _ (by omega) (by omega)
      simp only [Reserve_place, e3, e4, e5, e6, e7, e8]
      refine ⟨?_, trivial, ?_, ?_, ?_⟩
      · constructor <;> simp only <;> omega
      · intro h; cases h
      · intro b hb
        simp only [Option.some.injEq] at hb
        subst hb
        simp only [Clear]
        omega
      · intro a ha
        simp only [Clear] at ha ⊢
        refine ⟨by omega, ?_⟩
        intro b hb
        simp only [Option.some.injEq] at hb
        subst hb
        simp only [RECT.clear_of]
        omega
    · refine ⟨⟨hx0, hy0, hc0, hx1, hrow⟩, rfl, fun _ => rfl, ?_, ?_⟩
      · intro b hb; cases hb
      · intro a ha
        exact ⟨ha, fun b hb => by cases hb⟩

/-- `Reserve` changes nothing when it returns `nullopt`. -/
theorem Reserve_none (s : SimpleAtlasAlgorithm) (size : SIZE)
    (h : (s.Reserve size).1 = none) : (s.Reserve size).2 = s := by
  unfold Reserve at h ⊢
  split
  · rename_i hc
    rw [if_pos hc] at h
    cases h
  · rename_i hc
    rw [if_neg hc] at h
    split
    · rename_i hc2
      rw [if_pos hc2] at h
      cases h
    · rfl

/-- `Reserve` never changes the size of the atlas. -/
theorem Reserve_texture_size (s : SimpleAtlasAlgorithm) (size : SIZE) :
    (s.Reserve size).2.texture_size_ = s.texture_size_ := by
  unfold Reserve
  split
  · rfl
  · split
    · rfl
    · rfl

/-- What one `Reserve` does in a good state when the request is refused or
has a size that fits. -/
theorem Reserve_granted (s : SimpleAtlasAlgorithm) (hg : s.Good) (size : SIZE)
    (hs : (s.Reserve size).1 ≠ none → size.fits s.texture_size_) :
    (s.Reserve size).2.Good
      ∧ (∀ b, (s.Reserve size).1 = some b →
          b.right - b.left = size.cx ∧ b.bottom - b.top = size.cy
            ∧ 0 ≤ b.left ∧ 0 ≤ b.top
            ∧ b.right < s.texture_size_.cx ∧ b.bottom < s.texture_size_.cy
            ∧ (s.Reserve size).2.Clear b)
      ∧ (∀ a, s.Clear a →
          (s.Reserve size).2.Clear a ∧ ∀ b, (s.Reserve size).1 = some b → a.clear_of b) := by
  by_cases h : (s.Reserve size).1 = none
  · have e := Reserve_none s size h
    refine ⟨by rw [e]; exact hg, ?_, ?_⟩
    · intro b hb
      rw [h] at hb
      cases hb
    · intro a ha
      refine ⟨by rw [e]; exact ha, ?_⟩
      intro b hb
      rw [h] at hb
      cases hb
  · have hspec := Reserve_spec s hg size (hs h)
    exact ⟨hspec.1, hspec.2.2.2.1, hspec.2.2.2.2⟩

/-- The condition that every granted request of a sequence has a size that
fits, split into the first request and the others. -/
theorem granted_cons (s : SimpleAtlasAlgorithm) (size : SIZE) (rest : List SIZE)
    (hs : ∀ p ∈ List.zip (size :: rest) (s.reserve_all (size :: rest)),
      p.2 ≠ none → p.1.fits s.texture_size_) :
    ((s.Reserve size).1 ≠ none → size.fits s.texture_size_)
      ∧ ∀ p ∈ List.zip rest ((s.Reserve size).2.reserve_all rest),
          p.2 ≠ none → p.1.fits (s.Reserve size).2.texture_size_ := by
  simp only [reserve_all, List.zip_cons_cons, List.mem_cons] at hs
  refine ⟨fun h => hs (size, (s.Reserve size).1) (Or.inl rfl) h, ?_⟩
  intro p hp h
  rw [Reserve_texture_size]
  exact hs p (Or.inr hp) h

end SimpleAtlasAlgorithm

theorem clear_of_disjoint (a b : RECT) (h : a.clear_of b) (x y : Int) :
    ¬ (a.covers x y ∧ b.covers x y) := by
  simp only [RECT.clear_of, RECT.covers] at *
  omega

namespace SimpleAtlasAlgorithm

theorem reserve_run_good (s : SimpleAtlasAlgorithm) (hg : s.Good) (sizes : List SIZE)
    (hs : ∀ size ∈ sizes, size.fits s.texture_size_) : (s.reserve_run sizes).Good := by
  induction sizes generalizing s with
  | nil => exact hg
  | cons size rest ih =>
    simp only [reserve_run]
    have h := Reserve_spec s hg size (hs size (List.mem_cons_self _ _))
    exact ih _ h.1 (fun z hz => by rw [h.2.1]; exact hs z (List.mem_cons_of_mem _ hz))

theorem reserve_run_texture_size (s : SimpleAtlasAlgorithm) (sizes : List SIZE) :
    (s.reserve_run sizes).texture_size_ = s.texture_size_ := by
  induction sizes generalizing s with
  | nil => rfl
  | cons size rest ih =>
    simp only [reserve_run]
    rw [ih, Reserve_texture_size]

/-- A rectangle handed out earlier ends left of or above every rectangle
handed out later, when every granted request has a size that fits. -/
theorem reserve_all_clear (s : SimpleAtlasAlgorithm) (hg : s.Good) (sizes : List SIZE)
    (hs : ∀ p ∈ List.zip sizes (s.reserve_all sizes), p.2 ≠ none → p.1.fits s.texture_size_)
    (a : RECT) (ha : s.Clear a) :
    ∀ b ∈ (s.reserve_all sizes).reduceOption, a.clear_of b := by
  induction sizes generalizing s with
  | nil => intro b hb; simp [reserve_all] at hb
  | cons size rest ih =>
    intro b hb
    obtain ⟨hhead, hrest⟩ := granted_cons s size rest hs
    have h := Reserve_granted s hg size hhead
    have h5 := h.2.2 a ha
    simp only [reserve_all] at hb
    cases hr : (s.Reserve size).1 with
    | none =>
      rw [hr, List.reduceOption_cons_of_none] at hb
      exact ih _ h.1 hrest h5.1 b hb
    | some r =>
      rw [hr, List.reduceOption_cons_of_some, List.mem_cons] at hb
      rcases hb with rfl | hb
      · exact h5.2 _ hr
      · exact ih _ h.1 hrest h5.1 b hb

theorem reserve_all_pairwise (s : SimpleAtlasAlgorithm) (hg : s.Good) (sizes : List SIZE)
    (hs : ∀ p ∈ List.zip sizes (s.reserve_all sizes),
      p.2 ≠ none → p.1.fits s.texture_size_) :
    List.Pairwise RECT.clear_of (s.reserve_all sizes).reduceOption := by
  induction sizes generalizing s with
  | nil => simp [reserve_all]
  | cons size rest ih =>
    obtain ⟨hhead, hrest⟩ := granted_cons s size rest hs
    have h := Reserve_granted s hg size hhead
    have hp := ih _ h.1 hrest
    simp only [reserve_all]
    cases hr : (s.Reserve size).1 with
    | none =>
      rw [List.reduceOption_cons_of_none]
      exact hp
    | some r =>
      rw [List.reduceOption_cons_of_some, List.pairwise_cons]
      refine ⟨?_, hp⟩
      exact reserve_all_clear _ h.1 rest hrest r (h.2.1 r hr).2.2.2.2.2.2

/-- Every rectangle handed out has the size asked for and lies inside the
atlas, when every granted request has a size that fits. -/
theorem reserve_all_inside (s : SimpleAtlasAlgorithm) (hg : s.Good) (sizes : List SIZE)
    (hs : ∀ p ∈ List.zip sizes (s.reserve_all sizes),
      p.2 ≠ none → p.1.fits s.texture_size_) :
    ∀ p ∈ List.zip sizes (s.reserve_all sizes), ∀ b, p.2 = some b →
      b.right - b.left = p.1.cx ∧ b.bottom - b.top = p.1.cy ∧ 0 ≤ b.left ∧ 0 ≤ b.top
        ∧ b.right < s.texture_size_.cx ∧ b.bottom < s.texture_size_.cy := by
  induction sizes generalizing s with
  | nil => intro p hp; simp [reserve_all] at hp
  | cons size rest ih =>
    intro p hp b hb
    obtain ⟨hhead, hrest⟩ := granted_cons s size rest hs
    have h := Reserve_granted s hg size hhead
    simp only [reserve_all, List.zip_cons_cons, List.mem_cons] at hp
    rcases hp with rfl | hp
    · obtain ⟨h1, h2, h3, h4, h5, h6, _⟩ := h.2.1 b hb
      exact ⟨h1, h2, h3, h4, h5, h6⟩
    · have := ih _ h.1 hrest p hp b hb
      rw [Reserve_texture_size] at this
      exact this

/-- Why the amended C25 and C26 bound the sizes from above as well: with
requests of non-negative size whose sums leave the 32-bit range, on the
wrapping arithmetic of the build, the third rectangle starts far left of
the atlas and covers part of the first. -/
theorem reserve_all_wraps :
    (default_constructed.Reset ⟨100, 100⟩).reserve_all
        [⟨50, 10⟩, ⟨2147483647, 5⟩, ⟨2147483647, 5⟩]
      = [some ⟨0, 0, 50, 10⟩, some ⟨51, 0, -2147483598, 5⟩, some ⟨-2147483597, 0, 50, 5⟩] := by
  decide

end SimpleAtlasAlgorithm

end d3d11

/-- C25, as stated, fails: on an atlas of 100 by 100 the requests
`{50, 10}`, `{-20, 5}`, `{30, 5}` all succeed; the first and the third, both
of positive size, return `{0, 0, 50, 10}` and `{32, 0, 62, 5}`, and the
pixel (40, 2) lies in both: the request of negative width in between moved
the cursor back. -/
theorem C25_counterexample :
    (d3d11.SimpleAtlasAlgorithm.default_constructed.Reset ⟨100, 100⟩).reserve_all
        [⟨50, 10⟩, ⟨-20, 5⟩, ⟨30, 5⟩]
      = [some ⟨0, 0, 50, 10⟩, some ⟨51, 0, 31, 5⟩, some ⟨32, 0, 62, 5⟩]
      ∧ (d3d11.RECT.mk 0 0 50 10).covers 40 2 ∧ (d3d11.RECT.mk 32 0 62 5).covers 40 2 := by
  refine ⟨by decide, ?_, ?_⟩ <;> simp [d3d11.RECT.covers]

/-- C25, amended: after `Reset(atlas_size)`, for every sequence of `Reserve`
requests in which every request that is granted has a non-negative size
that fits (its width and height, added to those of the atlas, stay below
`2^31`, so that no sum of `LONG`s in `Reserve` overflows; a request that is
refused may have any size), of any two rectangles returned the earlier one
ends left of or above the start of the later one, so no pixel lies in
both. -/
theorem C25_reserved_rects_disjoint (s0 : d3d11.SimpleAtlasAlgorithm) (atlas_size : d3d11.SIZE)
    (sizes : List d3d11.SIZE)
    (hs : ∀ p ∈ List.zip sizes ((s0.Reset atlas_size).reserve_all sizes),
      p.2 ≠ none → p.1.fits atlas_size) :
    List.Pairwise (fun a b => a.clear_of b ∧ ∀ x y, ¬ (a.covers x y ∧ b.covers x y))
      ((s0.Reset atlas_size).reserve_all sizes).reduceOption := by
  have h := d3d11.SimpleAtlasAlgorithm.reserve_all_pairwise (s0.Reset atlas_size)
    (d3d11.SimpleAtlasAlgorithm.Reset_good s0 atlas_size) sizes hs
  exact h.imp (fun hab => ⟨hab, d3d11.clear_of_disjoint _ _ hab⟩)

/-- C25 amended, on an atlas of 100 by 100: four requests fill two rows, a
request of negative width in between is refused for its height, and the
rectangles returned are pairwise disjoint. -/
theorem C25_reserved_rects_disjoint_witness :
    ((d3d11.SimpleAtlasAlgorithm.default_constructed.Reset ⟨100, 100⟩).reserve_all
        [⟨40, 10⟩, ⟨-5, 200⟩, ⟨40, 20⟩, ⟨40, 5⟩, ⟨70, 70⟩]
      = [some ⟨0, 0, 40, 10⟩, none, some ⟨41, 0, 81, 20⟩, some ⟨0, 21, 40, 26⟩,
          some ⟨0, 27, 70, 97⟩])
      ∧ List.Pairwise (fun a b => a.clear_of b ∧ ∀ x y, ¬ (a.covers x y ∧ b.covers x y))
          ((d3d11.SimpleAtlasAlgorithm.default_constructed.Reset ⟨100, 100⟩).reserve_all
            [⟨40, 10⟩, ⟨-5, 200⟩, ⟨40, 20⟩, ⟨40, 5⟩, ⟨70, 70⟩]).reduceOption :=
  ⟨by decide,
    C25_reserved_rects_disjoint d3d11.SimpleAtlasAlgorithm.default_constructed ⟨100, 100⟩
      [⟨40, 10⟩, ⟨-5, 200⟩, ⟨40, 20⟩, ⟨40, 5⟩, ⟨70, 70⟩]
      (by
        have e : (d3d11.SimpleAtlasAlgorithm.default_constructed.Reset ⟨100, 100⟩).reserve_all
            [⟨40, 10⟩, ⟨-5, 200⟩, ⟨40, 20⟩, ⟨40, 5⟩, ⟨70, 70⟩]
          = [some ⟨0, 0, 40, 10⟩, none, some ⟨41, 0, 81, 20⟩, some ⟨0, 21, 40, 26⟩,
              some ⟨0, 27, 70, 97⟩] := by decide
        rw [e]
        intro p hp hne
        simp only [List.zip_cons_cons, List.zip_nil_right, List.mem_cons, List.mem_singleton,
          List.not_mem_nil, or_false] at hp
        rcases hp with rfl | rfl | rfl | rfl | rfl
        · simp [d3d11.SIZE.fits]
        · exact absurd rfl hne
        · simp [d3d11.SIZE.fits]
        · simp [d3d11.SIZE.fits]
        · simp [d3d11.SIZE.fits])⟩

/-- C26, as stated, fails: on an atlas of 100 by 100, after the request
`{-20, 5}` has been granted, the request `{30, 5}`, of non-negative size,
returns `{-19, 0, 11, 5}`, whose left edge is negative. -/
theorem C26_counterexample :
    (d3d11.SimpleAtlasAlgorithm.default_constructed.Reset ⟨100, 100⟩).reserve_all
        [⟨-20, 5⟩, ⟨30, 5⟩]
      = [some ⟨0, 0, -20, 5⟩, some ⟨-19, 0, 11, 5⟩] := by
  decide

/-- C26, amended: after `Reset(atlas_size)` and any `Reserve` requests of
which every one that is granted has a non-negative size that fits (its
width and height, added to those of the atlas, stay below `2^31`, so that
no sum of `LONG`s in `Reserve` overflows; a request that is refused may have
any size), every rectangle returned has exactly the width and height of its
request and lies inside the atlas, `0 <= left`, `0 <= top`,
`right < atlas_size.cx`, `bottom < atlas_size.cy`; and in any state
whatever, for any size whatever, a `Reserve` that returns `nullopt` leaves
the state, cursor and row height included, as it was. -/
theorem C26_reserved_rect_inside (s0 : d3d11.SimpleAtlasAlgorithm) (atlas_size : d3d11.SIZE)
    (sizes : List d3d11.SIZE)
    (hs : ∀ p ∈ List.zip sizes ((s0.Reset atlas_size).reserve_all sizes),
      p.2 ≠ none → p.1.fits atlas_size) :
    (∀ p ∈ List.zip sizes ((s0.Reset atlas_size).reserve_all sizes), ∀ b, p.2 = some b →
        b.right - b.left = p.1.cx ∧ b.bottom - b.top = p.1.cy ∧ 0 ≤ b.left ∧ 0 ≤ b.top
          ∧ b.right < atlas_size.cx ∧ b.bottom < atlas_size.cy)
      ∧ (∀ (s : d3d11.SimpleAtlasAlgorithm) (size : d3d11.SIZE),
          (s.Reserve size).1 = none →
          (s.Reserve size).2 = s ∧ (s.Reserve size).2.cursor_ = s.cursor_
            ∧ (s.Reserve size).2.current_cy_ = s.current_cy_) := by
  refine ⟨?_, ?_⟩
  · exact d3d11.SimpleAtlasAlgorithm.reserve_all_inside (s0.Reset atlas_size)
      (d3d11.SimpleAtlasAlgorithm.Reset_good s0 atlas_size) sizes hs
  · intro s size h
    have e := d3d11.SimpleAtlasAlgorithm.Reserve_none s size h
    exact ⟨e, by rw [e], by rw [e]⟩

/-- C26 amended, on an atlas of 100 by 100: a request of 99 by 1 is placed
in a row of its own, and requests of 100 by 1 and of -5 by 200 are refused
with the state as it was. -/
theorem C26_reserved_rect_inside_witness :
    (∀ p ∈ List.zip [(⟨40, 10⟩ : d3d11.SIZE), ⟨99, 1⟩, ⟨100, 1⟩, ⟨-5, 200⟩]
          ((d3d11.SimpleAtlasAlgorithm.default_constructed.Reset ⟨100, 100⟩).reserve_all
            [⟨40, 10⟩, ⟨99, 1⟩, ⟨100, 1⟩, ⟨-5, 200⟩]), ∀ b, p.2 = some b →
        b.right - b.left = p.1.cx ∧ b.bottom - b.top = p.1.cy ∧ 0 ≤ b.left ∧ 0 ≤ b.top
          ∧ b.right < 100 ∧ b.bottom < 100)
      ∧ (d3d11.SimpleAtlasAlgorithm.default_constructed.Reset ⟨100, 100⟩).reserve_all
          [⟨40, 10⟩, ⟨99, 1⟩, ⟨100, 1⟩, ⟨-5, 200⟩]
        = [some ⟨0, 0, 40, 10⟩, some ⟨0, 11, 99, 12⟩, none, none] :=
  ⟨(C26_reserved_rect_inside d3d11.SimpleAtlasAlgorithm.default_constructed ⟨100, 100⟩
      [⟨40, 10⟩, ⟨99, 1⟩, ⟨100, 1⟩, ⟨-5, 200⟩]
      (by
        have e : (d3d11.SimpleAtlasAlgorithm.default_constructed.Reset ⟨100, 100⟩).reserve_all
            [⟨40, 10⟩, ⟨99, 1⟩, ⟨100, 1⟩, ⟨-5, 200⟩]
          = [some ⟨0, 0, 40, 10⟩, some ⟨0, 11, 99, 12⟩, none, none] := by decide
        rw [e]
        intro p hp hne
        simp only [List.zip_cons_cons, List.zip_nil_right, List.mem_cons, List.mem_singleton,
          List.not_mem_nil, or_false] at hp
        rcases hp with rfl | rfl | rfl | rfl
        · simp [d3d11.SIZE.fits]
        · simp [d3d11.SIZE.fits]
        · exact absurd rfl hne
        · exact absurd rfl hne)).1,
    by decide⟩

end sandy

/-! ## Properties of the buffer classes -/

namespace sandy

namespace d3d11

theorem wrap_size_t_of_lt (x : Nat) (h : x < 2 ^ 64) : wrap_size_t x = x :=
  Nat.mod_eq_of_lt h

/-- On a buffer that is not empty every request inside the buffer makes
`UpdatePartial` throw: the part before the elements asked for by the test
`index < Desc.ByteWidth`, the rest by `length + length < Desc.ByteWidth`. -/
theorem UpdatePartial_in_range_throws (ByteWidth Stride index count : Nat)
    (h0 : 0 < ByteWidth) (h1 : ByteWidth < 2 ^ 32)
    (hin : index + count ≤ ByteWidth / Stride) :
    ((TypedBufferResource.constructed ByteWidth Stride).UpdatePartial index count).raised
      = true := by
  have h2 : (index + count) * Stride ≤ ByteWidth :=
    (Nat.mul_le_mul_right _ hin).trans (Nat.div_mul_le_self _ _)
  rw [Nat.add_mul] at h2
  have h3 : ByteWidth / Stride ≤ ByteWidth := Nat.div_le_self _ _
  have e1 : wrap_size_t (index + count) = index + count :=
    wrap_size_t_of_lt _ (by omega)
  have e2 : wrap_size_t (index * Stride) = index * Stride := wrap_size_t_of_lt _ (by omega)
  have e3 : wrap_size_t (count * Stride) = count * Stride := wrap_size_t_of_lt _ (by omega)
  have e4 : wrap_size_t (count * Stride + count * Stride) = count * Stride + count * Stride :=
    wrap_size_t_of_lt _ (by omega)
  simp only [TypedBufferResource.UpdatePartial, TypedBufferResource.constructed, e1, e2, e3,
    BufferResource.UpdatePartial, e4]
  rw [if_neg (by omega), if_neg (by omega)]
  by_cases h : index * Stride < ByteWidth
  · rw [if_pos h]; rfl
  · rw [if_neg h, if_pos (by omega)]; rfl

end d3d11

/-- C27 fails on the code. On a buffer of 16 bytes holding 4 elements of 4
bytes, `UpdatePartial(data, 0, 1)` throws `out_of_range("index")` and
`UpdatePartial(data, 4, 0)` throws `out_of_range("index + length")`, both
requests being in range; the claim says that they raise nothing and update
the bytes from 0 to 4, or none. In general, on every buffer that is not
empty every request with `index + count <= Count` makes `UpdatePartial`
throw, and so does every request the two tests of
`TypedBufferResource::UpdatePartial` reject. -/
theorem C27_in_range_update_throws :
    (d3d11.TypedBufferResource.constructed 16 4).UpdatePartial 0 1
        = d3d11.Outcome.threw (d3d11.Exception.out_of_range "index")
      ∧ (d3d11.TypedBufferResource.constructed 16 4).UpdatePartial 4 0
        = d3d11.Outcome.threw (d3d11.Exception.out_of_range "index + length")
      ∧ (∀ ByteWidth Stride index count : Nat, 0 < ByteWidth → ByteWidth < 2 ^ 32 →
          index + count ≤ ByteWidth / Stride →
          ((d3d11.TypedBufferResource.constructed ByteWidth Stride).UpdatePartial
            index count).raised = true)
      ∧ (∀ (b : d3d11.TypedBufferResource) (index count : Nat),
          (index > b.Count ∨ d3d11.wrap_size_t (index + count) > b.Count) →
          (b.UpdatePartial index count).raised = true) := by
  refine ⟨by decide, by decide, ?_, ?_⟩
  · intro ByteWidth Stride index count h0 h1 hin
    exact d3d11.UpdatePartial_in_range_throws ByteWidth Stride index count h0 h1 hin
  · intro b index count h
    simp only [d3d11.TypedBufferResource.UpdatePartial]
    by_cases h1 : index > b.Count
    · rw [if_pos h1]; rfl
    · rw [if_neg h1]
      rcases h with h | h
      · exact absurd h h1
      · rw [if_pos h]; rfl

end sandy

namespace sandy

namespace d3d11

namespace DynamicVertexBuffer

variable {T : Type}

/-- What the copy loop of `Append` leaves in the buffer: the elements of
`data` from `start + i` on, every other element as it was. -/
theorem Append_copy_apply (start : Nat) (data : List T) (i : Nat) (elements : Nat → Option T)
    (j : Nat) :
    Append_copy start data i elements j
      = if start + i ≤ j ∧ j < start + i + data.length then data[j - (start + i)]?
        else elements j := by
  induction data generalizing i elements with
  | nil =>
    simp only [Append_copy, List.length_nil, Nat.add_zero]
    rw [if_neg (by omega)]
  | cons x rest ih =>
    simp only [Append_copy, List.length_cons]
    rw [ih]
    by_cases h1 : start + (i + 1) ≤ j ∧ j < start + (i + 1) + rest.length
    · rw [if_pos h1, if_pos (by omega)]
      have e : j - (start + i) = (j - (start + (i + 1))) + 1 := by omega
      rw [e, List.getElem?_cons_succ]
    · rw [if_neg h1]
      by_cases h2 : j = start + i
      · subst h2
        rw [if_pos rfl, if_pos (by omega), Nat.sub_self, List.getElem?_cons_zero]
      · rw [if_neg h2, if_neg (by omega)]

/-- `Append` of more than `Count` elements throws. -/
theorem Append_too_large (b : DynamicVertexBuffer T) (data : List T)
    (hc : b.Cursor ≤ b.Count) (hlen : data.length + b.Count < 2 ^ 64)
    (h : b.Count < data.length) :
    b.Append data = Outcome.threw (Exception.out_of_range "count too large") := by
  have e : wrap_size_t (b.Cursor + data.length) = b.Cursor + data.length :=
    Nat.mod_eq_of_lt (by omega)
  simp only [Append, Map, e]
  rw [if_neg (by omega), if_neg (by omega)]

/-- `Append` of elements that fit behind the cursor. -/
theorem Append_behind (b : DynamicVertexBuffer T) (data : List T)
    (hlen : data.length + b.Count < 2 ^ 64) (h : b.Cursor + data.length ≤ b.Count) :
    b.Append data
      = Outcome.returned (b.Cursor,
          { b with Cursor := b.Cursor + data.length,
                   elements := Append_copy b.Cursor data 0 b.elements }) := by
  have e : wrap_size_t (b.Cursor + data.length) = b.Cursor + data.length :=
    Nat.mod_eq_of_lt (by omega)
  simp only [Append, Map, e]
  rw [if_pos h]
  simp only [Unmap, e]

/-- `Append` of elements that fit the buffer but not behind the cursor. -/
theorem Append_wrapped (b : DynamicVertexBuffer T) (data : List T)
    (hc : b.Cursor ≤ b.Count) (hlen : data.length + b.Count < 2 ^ 64)
    (h1 : ¬ b.Cursor + data.length ≤ b.Count) (h2 : data.length ≤ b.Count) :
    b.Append data
      = Outcome.returned (0,
          { b with Cursor := data.length,
                   elements := Append_copy 0 data 0 (fun _ => none) }) := by
  have e : wrap_size_t (b.Cursor + data.length) = b.Cursor + data.length :=
    Nat.mod_eq_of_lt (by omega)
  have e0 : wrap_size_t (0 + data.length) = data.length := by
    rw [Nat.zero_add]; exact Nat.mod_eq_of_lt (by omega)
  simp only [Append, Map, e]
  rw [if_neg h1, if_pos h2]
  simp only [Unmap, e0]

/-- `Count` stays and `Cursor <= Count` holds over every sequence of
`Append` calls. -/
theorem append_run_cursor (b : DynamicVertexBuffer T) (calls : List (List T))
    (hc : b.Cursor ≤ b.Count) (hlen : ∀ d ∈ calls, d.length + b.Count < 2 ^ 64) :
    (b.append_run calls).Count = b.Count ∧ (b.append_run calls).Cursor ≤ b.Count := by
  induction calls generalizing b with
  | nil => exact ⟨rfl, hc⟩
  | cons data rest ih =>
    have hd := hlen data (List.mem_cons_self _ _)
    have hr : ∀ d ∈ rest, d.length + b.Count < 2 ^ 64 :=
      fun d h => hlen d (List.mem_cons_of_mem _ h)
    simp only [append_run]
    by_cases h1 : b.Cursor + data.length ≤ b.Count
    · rw [Append_behind b data hd h1]
      exact ih _ h1 hr
    · by_cases h2 : data.length ≤ b.Count
      · rw [Append_wrapped b data hc hd h1 h2]
        exact ih _ h2 hr
      · rw [Append_too_large b data hc hd (by omega)]
        exact ih _ hc hr

end DynamicVertexBuffer

end d3d11

/-- C28: for a `DynamicVertexBuffer` of `Count` elements, after every
sequence of `Append` calls (each array, with `Count`, within the range of
`size_t`), `Cursor <= Count`, and the next `Append(data, n)` throws
`out_of_range` if and only if `n > Count`. Otherwise it returns the start
index `s`, the previous cursor if `previous cursor + n <= Count` and 0
otherwise; element `s + i` of the buffer is `data[i]` for every `i < n`;
afterwards `Cursor = s + n <= Count`; and an `Append` behind the cursor
leaves every other element as it was. -/
theorem C28_Append {T : Type} (count_of_elements : Nat) (calls : List (List T))
    (data : List T) (b : d3d11.DynamicVertexBuffer T)
    (hb : b = (d3d11.DynamicVertexBuffer.constructed count_of_elements).append_run calls)
    (hlen : ∀ d ∈ data :: calls, d.length + count_of_elements < 2 ^ 64) :
    b.Count = count_of_elements ∧ b.Cursor ≤ b.Count
      ∧ ((b.Append data).raised = true ↔ data.length > b.Count)
      ∧ (data.length > b.Count →
          b.Append data
            = d3d11.Outcome.threw (d3d11.Exception.out_of_range "count too large"))
      ∧ (data.length ≤ b.Count →
          ∃ s b1, b.Append data = d3d11.Outcome.returned (s, b1)
            ∧ s = (if b.Cursor + data.length ≤ b.Count then b.Cursor else 0)
            ∧ (∀ i, i < data.length → b1.elements (s + i) = data[i]?)
            ∧ b1.Cursor = s + data.length ∧ b1.Count = b.Count ∧ b1.Cursor ≤ b1.Count
            ∧ (b.Cursor + data.length ≤ b.Count →
                ∀ j, j < s ∨ s + data.length ≤ j → b1.elements j = b.elements j)) := by
  have h0 := d3d11.DynamicVertexBuffer.append_run_cursor
    (d3d11.DynamicVertexBuffer.constructed count_of_elements : d3d11.DynamicVertexBuffer T)
    calls (Nat.zero_le _) (fun d h => hlen d (List.mem_cons_of_mem _ h))
  rw [← hb] at h0
  have hcount : b.Count = count_of_elements := h0.1
  have hc : b.Cursor ≤ b.Count := by rw [hcount]; exact h0.2
  have hd : data.length + b.Count < 2 ^ 64 := by
    rw [hcount]; exact hlen data (List.mem_cons_self _ _)
  have hbig : data.length > b.Count →
      b.Append data
        = d3d11.Outcome.threw (d3d11.Exception.out_of_range "count too large") :=
    fun h => d3d11.DynamicVertexBuffer.Append_too_large b data hc hd h
  have hfit : data.length ≤ b.Count →
      ∃ s b1, b.Append data = d3d11.Outcome.returned (s, b1)
        ∧ s = (if b.Cursor + data.length ≤ b.Count then b.Cursor else 0)
        ∧ (∀ i, i < data.length → b1.elements (s + i) = data[i]?)
        ∧ b1.Cursor = s + data.length ∧ b1.Count = b.Count ∧ b1.Cursor ≤ b1.Count
        ∧ (b.Cursor + data.length ≤ b.Count →
            ∀ j, j < s ∨ s + data.length ≤ j → b1.elements j = b.elements j) := by
    intro h2
    by_cases h1 : b.Cursor + data.length ≤ b.Count
    · refine ⟨_, _, d3d11.DynamicVertexBuffer.Append_behind b data hd h1, by rw [if_pos h1],
        ?_, rfl, rfl, h1, ?_⟩
      · intro i hi
        simp only [d3d11.DynamicVertexBuffer.Append_copy_apply]
        rw [if_pos (by omega)]
        congr 1
        omega
      · intro _ j hj
        simp only [d3d11.DynamicVertexBuffer.Append_copy_apply]
        rw [if_neg (by omega)]
    · refine ⟨_, _, d3d11.DynamicVertexBuffer.Append_wrapped b data hc hd h1 h2,
        by rw [if_neg h1], ?_, by simp, rfl, by simpa using h2, ?_⟩
      · intro i hi
        simp only [d3d11.DynamicVertexBuffer.Append_copy_apply]
        rw [if_pos (by omega)]
        congr 1
        omega
      · intro h; exact absurd h h1
  refine ⟨hcount, hc, ?_, hbig, hfit⟩
  constructor
  · intro hr
    by_contra hle
    obtain ⟨s, b1, e, _⟩ := hfit (by omega)
    rw [e] at hr
    cases hr
  · intro h
    rw [hbig h]
    rfl

/-- C28 on a buffer of 4 elements: appending 3 elements, then 2, then 5
returns 0, then 0 again after the buffer is mapped anew, and then throws;
the cursor ends at 2 with the elements 0 and 1 holding the second array. -/
theorem C28_Append_witness :
    ∃ s b1, ((d3d11.DynamicVertexBuffer.constructed 4).append_run [[10, 11, 12]]).Append
          [20, 21] = d3d11.Outcome.returned (s, b1)
      ∧ s = 0 ∧ b1.Cursor = 2 ∧ b1.elements 0 = some 20 ∧ b1.elements 1 = some 21
      ∧ (b1.Append [1, 2, 3, 4, 5]).raised = true := by
  obtain ⟨h1, h2, _, _, h5⟩ := C28_Append 4 [[10, 11, 12]] [20, 21] _ rfl
    (by
      intro d hd
      simp only [List.mem_cons, List.mem_singleton, List.not_mem_nil, or_false] at hd
      rcases hd with rfl | rfl <;> decide)
  obtain ⟨s, b1, e, hs, hel, hcur, hcnt, _, _⟩ := h5 (by rw [h1]; decide)
  have hs0 : s = 0 := by
    rw [hs]
    decide
  subst hs0
  refine ⟨0, b1, e, rfl, by simpa using hcur, by simpa using hel 0 (by decide),
    by simpa using hel 1 (by decide), ?_⟩
  have hcur2 : b1.Cursor = 2 := by simpa using hcur
  have hcnt4 : b1.Count = 4 := by rw [hcnt, h1]
  simp [d3d11.DynamicVertexBuffer.Append, d3d11.DynamicVertexBuffer.Map, hcur2, hcnt4,
    d3d11.wrap_size_t, d3d11.Outcome.raised]

end sandy

/-! ## Properties of ClipRect -/

namespace sandy

/-- C29 fails on the code. For the source rectangle at (0, 0) of 10 by 10,
the destination position (0, 0) and the clip rectangle at (5, 5) of 100 by
100, as `BitBlt32bppArgb` makes them from `src_rect_ = {0, 0, 10, 10}`,
`dst_pos_ = {0, 0}` and `dst_clip_ = {5, 5, 105, 105}`, `ClipRect` leaves
the source rectangle at (5, 5) of 15 by 15 and the destination position
(5, 5): the pixel (12, 12) lies in that source rectangle and not in the
original one. The width should shrink by the 5 columns clipped away; the
statement `src_rect.Width -= -dst_pos.X - dst_clip.X` makes it grow by 5.
The offset between source and destination is kept and the destination
rectangle lies in the clip rectangle here. With the clip rectangle at the
origin the same request is clipped as the claim says. -/
theorem C29_ClipRect_source_grows :
    gdip.Rect.of_RECT ⟨0, 0, 10, 10⟩ = ⟨0, 0, 10, 10⟩
      ∧ gdip.Rect.of_RECT ⟨5, 5, 105, 105⟩ = ⟨5, 5, 100, 100⟩
      ∧ gdip.ClipRect ⟨0, 0, 10, 10⟩ ⟨0, 0⟩ ⟨5, 5, 100, 100⟩ = (⟨5, 5, 15, 15⟩, ⟨5, 5⟩)
      ∧ (gdip.ClipRect ⟨0, 0, 10, 10⟩ ⟨0, 0⟩ ⟨5, 5, 100, 100⟩).1.covers 12 12
      ∧ ¬ (gdip.Rect.mk 0 0 10 10).covers 12 12
      ∧ (gdip.ClipRect ⟨0, 0, 10, 10⟩ ⟨0, 0⟩ ⟨5, 5, 100, 100⟩).1.X
          - (gdip.ClipRect ⟨0, 0, 10, 10⟩ ⟨0, 0⟩ ⟨5, 5, 100, 100⟩).2.X = 0 - 0
      ∧ gdip.ClipRect ⟨0, 0, 10, 10⟩ ⟨-5, -5⟩ ⟨0, 0, 100, 100⟩ = (⟨5, 5, 5, 5⟩, ⟨0, 0⟩) := by
  refine ⟨by decide, by decide, by decide, ?_, ?_, by decide, by decide⟩
  · have e : gdip.ClipRect ⟨0, 0, 10, 10⟩ ⟨0, 0⟩ ⟨5, 5, 100, 100⟩ = (⟨5, 5, 15, 15⟩, ⟨5, 5⟩) := by
      decide
    rw [e]
    simp [gdip.Rect.covers]
  · simp [gdip.Rect.covers]

end sandy

/-! ## Properties of the NV12 conversion -/

namespace sandy

namespace mf

namespace sfc

/-- `n & ~1` is `n` rounded down to an even number. -/
theorem even_floor_eq (n : Nat) (h : n < 2 ^ 64) : even_floor n = 2 * (n / 2) := by
  unfold even_floor
  apply Nat.eq_of_testBit_eq
  intro i
  rw [Nat.testBit_and]
  rcases Nat.lt_or_ge i 64 with hi | hi
  · cases i with
    | zero => simp [Nat.testBit_zero]
    | succ j =>
      have h2 : (2 ^ 64 - 2 : Nat).testBit (j + 1) = true := by
        have : j < 63 := by omega
        interval_cases j <;> decide
      rw [h2, Bool.and_true, Nat.testBit_succ, Nat.testBit_succ]
      congr 1
      omega
  · have h1 : n.testBit i = false :=
      Nat.testBit_lt_two_pow (lt_of_lt_of_le h (Nat.pow_le_pow_right (by decide) hi))
    have h3 : (2 * (n / 2)).testBit i = false :=
      Nat.testBit_lt_two_pow (lt_of_lt_of_le (by omega) (Nat.pow_le_pow_right (by decide) hi))
    rw [h1, h3, Bool.false_and]

theorem store_bgra_apply (k : Kernel) (m : Int → Int) (p y cb cr j : Int) :
    store_bgra k m p y cb cr j
      = if j = p + 3 then 255
        else if j = p + 2 then channel k.kRGBy k.kRu k.kRv y cb cr
        else if j = p + 1 then channel k.kRGBy k.kGu k.kGv y cb cr
        else if j = p + 0 then channel k.kRGBy k.kBu k.kBv y cb cr
        else m j := by
  simp only [store_bgra, store]
  rfl

/-- One pass through the body of the scalar loop at an even column `x`,
with the two destination rows apart: the eight bytes at each destination
pointer are those of the pixels `x` and `x + 1` of the two rows, and nothing
else changes. -/
theorem scalar_step_apply (k : Kernel) (luma chroma : Int → Int)
    (src_luma0 src_luma1 src_chroma : Int) (x : Nat) (p0 p1 : Int) (m : Int → Int)
    (hx : x % 2 = 0) (hp : p0 + 8 ≤ p1 ∨ p1 + 8 ≤ p0) :
    (∀ i c : Nat, i < 2 → c < 4 →
        scalar_step k luma chroma src_luma0 src_luma1 src_chroma x p0 p1 m (p0 + 4 * i + c)
            = pixel k luma chroma src_luma0 src_chroma (x + i) c
          ∧ scalar_step k luma chroma src_luma0 src_luma1 src_chroma x p0 p1 m (p1 + 4 * i + c)
            = pixel k luma chroma src_luma1 src_chroma (x + i) c)
      ∧ (∀ j, (j < p0 ∨ p0 + 8 ≤ j) → (j < p1 ∨ p1 + 8 ≤ j) →
          scalar_step k luma chroma src_luma0 src_luma1 src_chroma x p0 p1 m j = m j) := by
  have e0 : 2 * ((x + 0) / 2) = x := by omega
  have e1 : 2 * ((x + 1) / 2) = x := by omega
  refine ⟨?_, ?_⟩
  · intro i c hi hc
    simp only [scalar_step, store_bgra_apply]
    interval_cases i <;> interval_cases c <;> refine ⟨?_, ?_⟩ <;>
      simp only [pixel, e0, e1, Nat.cast_zero, Nat.cast_one, Nat.cast_ofNat, Nat.cast_add] <;>
      (repeat (first | rw [if_pos (by omega)] | rw [if_neg (by omega)])) <;>
      simp only [Int.add_zero, Nat.add_zero]
  · intro j h0 h1
    simp only [scalar_step, store_bgra_apply]
    repeat (first | rw [if_pos (by omega)] | rw [if_neg (by omega)])

end sfc

end mf

end sandy

namespace sandy

namespace mf

namespace sfc

/-- The scalar loop from an even column `x` with the two destination rows
apart: it ends within the fuel, the bytes of the pixels from column `x` up
to `width & ~1` of the two rows are as the loop body computes them, and
nothing else changes. -/
theorem scalar_loop_apply (k : Kernel) (luma chroma : Int → Int)
    (src_luma0 src_luma1 src_chroma : Int) (width : Nat) (hw : even_floor width % 2 = 0)
    (fuel x : Nat) (p0 p1 : Int) (m : Int → Int) (hx : x % 2 = 0)
    (hfuel : even_floor width ≤ x + 2 * fuel)
    (hp : p0 + 4 * ((even_floor width : Int) - x) ≤ p1
      ∨ p1 + 4 * ((even_floor width : Int) - x) ≤ p0) :
    ∃ out, scalar_loop k luma chroma src_luma0 src_luma1 src_chroma width fuel x p0 p1 m
        = some out
      ∧ (∀ i c : Nat, x ≤ i → i < even_floor width → c < 4 →
          out (p0 + 4 * ((i : Int) - x) + c) = pixel k luma chroma src_luma0 src_chroma i c
            ∧ out (p1 + 4 * ((i : Int) - x) + c)
              = pixel k luma chroma src_luma1 src_chroma i c)
      ∧ (∀ j, (j < p0 ∨ p0 + 4 * ((even_floor width : Int) - x) ≤ j) →
          (j < p1 ∨ p1 + 4 * ((even_floor width : Int) - x) ≤ j) → out j = m j) := by
  induction fuel generalizing x p0 p1 m with
  | zero =>
    refine ⟨m, ?_, ?_, ?_⟩
    · simp only [scalar_loop]
      rw [if_neg (by omega)]
    · intro i c h1 h2 _
      omega
    · intro j _ _
      rfl
  | succ fuel ih =>
    by_cases hlt : x < even_floor width
    · have hstep := scalar_step_apply k luma chroma src_luma0 src_luma1 src_chroma x p0 p1 m hx
        (by omega)
      obtain ⟨out, hout, hA, hB⟩ := ih (x + 2) (p0 + 8) (p1 + 8)
        (scalar_step k luma chroma src_luma0 src_luma1 src_chroma x p0 p1 m)
        (by omega) (by omega) (by push_cast; omega)
      refine ⟨out, ?_, ?_, ?_⟩
      · simp only [scalar_loop]
        rw [if_pos hlt]
        exact hout
      · intro i c h1 h2 hc
        by_cases hi : x + 2 ≤ i
        · have h := hA i c hi h2 hc
          have e0 : p0 + 8 + 4 * ((i : Int) - ((x + 2 : Nat) : Int)) + c
              = p0 + 4 * ((i : Int) - x) + c := by push_cast; omega
          have e1 : p1 + 8 + 4 * ((i : Int) - ((x + 2 : Nat) : Int)) + c
              = p1 + 4 * ((i : Int) - x) + c := by push_cast; omega
          rw [e0, e1] at h
          exact h
        · obtain ⟨d, hd⟩ : ∃ d, i = x + d := ⟨i - x, by omega⟩
          have hd2 : d < 2 := by omega
          have h := hstep.1 d c hd2 hc
          subst hd
          constructor
          · rw [hB _ (by push_cast; omega) (by push_cast; omega)]
            have e : p0 + 4 * (((x + d : Nat) : Int) - x) + c = p0 + 4 * d + c := by
              push_cast; omega
            rw [e]
            exact h.1
          · rw [hB _ (by push_cast; omega) (by push_cast; omega)]
            have e : p1 + 4 * (((x + d : Nat) : Int) - x) + c = p1 + 4 * d + c := by
              push_cast; omega
            rw [e]
            exact h.2
      · intro j h0 h1
        rw [hB j (by push_cast; omega) (by push_cast; omega)]
        exact hstep.2 j (by omega) (by omega)
    · refine ⟨m, ?_, ?_, ?_⟩
      · simp only [scalar_loop]
        rw [if_neg hlt]
      · intro i c h1 h2 _
        omega
      · intro j _ _
        rfl

end sfc

end mf

end sandy

namespace sandy

namespace mf

namespace sfc

/-- Rows at least as far apart as they are long do not meet: an address in
row `r` lies outside every other row. -/
theorem rows_disjoint (s W : Int) (hW : W ≤ |s|) (r r1 : Int) (hne : r ≠ r1) (j : Int)
    (h0 : s * r ≤ j) (h1 : j < s * r + W) : j < s * r1 ∨ s * r1 + W ≤ j := by
  by_contra hcon
  have hc1 : s * r1 ≤ j := by omega
  have hc2 : j < s * r1 + W := by omega
  have h2 : |s * (r - r1)| < W := by
    rw [mul_sub]
    exact abs_lt.mpr ⟨by linarith, by linarith⟩
  have h3 : |s| ≤ |s * (r - r1)| := by
    rw [abs_mul]
    exact le_mul_of_one_le_right (abs_nonneg s) (Int.one_le_abs (sub_ne_zero.mpr hne))
  linarith

end sfc

end mf

end sandy

namespace sandy

theorem clamp_mem {α : Type} [LinearOrder α] (v lo hi : α) (h : lo ≤ hi) :
    lo ≤ std.clamp v lo hi ∧ std.clamp v lo hi ≤ hi := by
  unfold std.clamp
  split
  · exact ⟨le_refl _, h⟩
  · split
    · exact ⟨h, le_refl _⟩
    · rename_i h1 h2
      exact ⟨not_lt.mp h1, not_lt.mp h2⟩

namespace mf

namespace sfc

/-- With products that stay far inside the range of `int`, the colour byte
of the scalar loop is the clamped, shifted sum itself. -/
theorem channel_of_bounds (ky ku kv y cb cr : Int)
    (h1 : -(2 ^ 29) ≤ ky * y ∧ ky * y < 2 ^ 29) (h2 : -(2 ^ 29) ≤ ku * cb ∧ ku * cb < 2 ^ 29)
    (h3 : -(2 ^ 29) ≤ kv * cr ∧ kv * cr < 2 ^ 29) :
    channel ky ku kv y cb cr = std.clamp ((ky * y + ku * cb + kv * cr) >>> (5 : Nat)) 0 255 := by
  have e1 : wrap_int32 (ky * y) = ky * y := by unfold wrap_int32; omega
  have e2 : wrap_int32 (ku * cb) = ku * cb := by unfold wrap_int32; omega
  have e3 : wrap_int32 (kv * cr) = kv * cr := by unfold wrap_int32; omega
  have e4 : wrap_int32 (ky * y + ku * cb) = ky * y + ku * cb := by unfold wrap_int32; omega
  have e5 : wrap_int32 (ky * y + ku * cb + kv * cr) = ky * y + ku * cb + kv * cr := by
    unfold wrap_int32; omega
  have e6 : kPostShift = 5 := rfl
  unfold channel
  rw [e1, e2, e3, e4, e5, e6]
  have h := clamp_mem ((ky * y + ku * cb + kv * cr) >>> (5 : Nat)) 0 255 (by decide)
  exact Int.emod_eq_of_lt h.1 (lt_of_le_of_lt h.2 (by decide : (255 : Int) < 256))

/-- The coefficients of the two kernels: the constants times 256 cut off
towards zero, and these shifted right by 3. -/
theorem kernel_values :
    BT601 = ⟨297, 0, -100, 516, 408, -208, 0⟩
      ∧ (BT601.kRGBy = 37 ∧ BT601.kRu = 0 ∧ BT601.kRv = 51 ∧ BT601.kGu = -13
        ∧ BT601.kGv = -26 ∧ BT601.kBu = 64 ∧ BT601.kBv = 0)
      ∧ BT709 = ⟨297, 0, -54, 540, 459, -136, 0⟩
      ∧ (BT709.kRGBy = 37 ∧ BT709.kRu = 0 ∧ BT709.kRv = 57 ∧ BT709.kGu = -7
        ∧ BT709.kGv = -17 ∧ BT709.kBu = 67 ∧ BT709.kBv = 0) := by
  decide

/-- For the two kernels of the source and source bytes, every colour byte
of the scalar loop is the clamped, shifted sum the conversion is said to
give. -/
theorem pixel_converted (k : Kernel) (hk : k = BT601 ∨ k = BT709) (luma chroma : Int → Int)
    (hluma : ∀ a, 0 ≤ luma a ∧ luma a ≤ 255) (hchroma : ∀ a, 0 ≤ chroma a ∧ chroma a ≤ 255)
    (src_luma src_chroma : Int) (x : Nat) :
    pixel k luma chroma src_luma src_chroma x 0
        = converted k.kRGBy k.kBu k.kBv (luma (src_luma + x))
            (chroma (src_chroma + (2 * (x / 2) : Nat)))
            (chroma (src_chroma + ((2 * (x / 2) : Nat) + 1)))
      ∧ pixel k luma chroma src_luma src_chroma x 1
        = converted k.kRGBy k.kGu k.kGv (luma (src_luma + x))
            (chroma (src_chroma + (2 * (x / 2) : Nat)))
            (chroma (src_chroma + ((2 * (x / 2) : Nat) + 1)))
      ∧ pixel k luma chroma src_luma src_chroma x 2
        = converted k.kRGBy k.kRu k.kRv (luma (src_luma + x))
            (chroma (src_chroma + (2 * (x / 2) : Nat)))
            (chroma (src_chroma + ((2 * (x / 2) : Nat) + 1)))
      ∧ pixel k luma chroma src_luma src_chroma x 3 = 255 := by
  have hy := hluma (src_luma + x)
  have hb := hchroma (src_chroma + (2 * (x / 2) : Nat))
  have hr := hchroma (src_chroma + ((2 * (x / 2) : Nat) + 1))
  obtain ⟨v1, v2, v3, v4⟩ := kernel_values
  obtain ⟨a1, a2, a3, a4, a5, a6, a7⟩ := v2
  obtain ⟨b1, b2, b3, b4, b5, b6, b7⟩ := v4
  simp only [pixel, converted]
  rcases hk with rfl | rfl
  · rw [a1, a2, a3, a4, a5, a6, a7]
    refine ⟨?_, ?_, ?_, trivial⟩ <;>
      exact channel_of_bounds _ _ _ _ _ _ (by omega) (by omega) (by omega)
  · rw [b1, b2, b3, b4, b5, b6, b7]
    refine ⟨?_, ?_, ?_, trivial⟩ <;>
      exact channel_of_bounds _ _ _ _ _ _ (by omega) (by omega) (by omega)

end sfc

end mf

end sandy

namespace sandy

namespace mf

namespace sfc

/-- Masking a `size_t` with `~(2^k - 1)` rounds it down to a multiple of
`2^k`. -/
theorem and_mask_eq (n k : Nat) (hk : k ≤ 64) (h : n < 2 ^ 64) :
    n &&& (2 ^ 64 - 2 ^ k) = 2 ^ k * (n / 2 ^ k) := by
  apply Nat.eq_of_testBit_eq
  intro i
  have hpos : 0 < 2 ^ k := Nat.two_pow_pos k
  have e : 2 ^ 64 - 2 ^ k = 2 ^ 64 - ((2 ^ k - 1) + 1) := by omega
  have hlt : 2 ^ k - 1 < 2 ^ 64 :=
    lt_of_lt_of_le (by omega) (Nat.pow_le_pow_right (by decide) hk)
  rw [Nat.testBit_and, e, Nat.testBit_two_pow_sub_succ hlt, Nat.testBit_two_pow_sub_one,
    Nat.testBit_mul_pow_two, ← Nat.shiftRight_eq_div_pow, Nat.testBit_shiftRight]
  by_cases hik : k ≤ i
  · have e2 : k + (i - k) = i := by omega
    rw [e2]
    by_cases hi : i < 64
    · simp [hi, hik, Nat.not_lt.mpr hik]
    · have h1 : n.testBit i = false :=
        Nat.testBit_lt_two_pow
          (lt_of_lt_of_le h (Nat.pow_le_pow_right (by decide) (Nat.not_lt.mp hi)))
      simp [h1]
  · have hik2 : i < k := Nat.not_le.mp hik
    simp [hik2, hik]

theorem floor16_eq (n : Nat) (h : n < 2 ^ 64) : floor16 n = 16 * (n / 16) :=
  and_mask_eq n 4 (by decide) h

theorem floor32_eq (n : Nat) (h : n < 2 ^ 64) : floor32 n = 32 * (n / 32) :=
  and_mask_eq n 5 (by decide) h

theorem and_31_eq (n : Nat) : n &&& 31 = n % 32 := Nat.and_pow_two_sub_one_eq_mod n 5

theorem and_15_eq (n : Nat) : n &&& 15 = n % 16 := Nat.and_pow_two_sub_one_eq_mod n 4

/-- The width the loops run over, in plain arithmetic, for an image whose
rows fit the destination stride of a `ptrdiff_t`: with `w` the even part of
`image_width`, the next multiple of 32 when `w` is none and the strides
leave room, else the next multiple of 16 when `w` is none and the strides
leave room, else `w`. -/
theorem rounded_width_eq (dst_stride src_stride : Int) (image_width : Nat)
    (hrows : 4 * image_width ≤ dst_stride.natAbs) (hd : dst_stride.natAbs ≤ 2 ^ 63) :
    rounded_width dst_stride src_stride image_width
      = if 2 * (image_width / 2) % 32 ≠ 0
            ∧ 32 * ((2 * (image_width / 2) + 31) / 32) ≤ src_stride.natAbs
            ∧ 4 * (32 * ((2 * (image_width / 2) + 31) / 32)) ≤ dst_stride.natAbs then
          32 * ((2 * (image_width / 2) + 31) / 32)
        else if 2 * (image_width / 2) % 16 ≠ 0
            ∧ 16 * ((2 * (image_width / 2) + 15) / 16) ≤ src_stride.natAbs
            ∧ 4 * (16 * ((2 * (image_width / 2) + 15) / 16)) ≤ dst_stride.natAbs then
          16 * ((2 * (image_width / 2) + 15) / 16)
        else 2 * (image_width / 2) := by
  have hiw : image_width < 2 ^ 61 + 1 := by omega
  have eW := even_floor_eq image_width (by omega)
  generalize hw : 2 * (image_width / 2) = w at eW ⊢
  have hw61 : w ≤ 2 ^ 61 := by omega
  have e32 : floor32 (d3d11.wrap_size_t (w + 31)) = 32 * ((w + 31) / 32) := by
    have : d3d11.wrap_size_t (w + 31) = w + 31 := by unfold d3d11.wrap_size_t; omega
    rw [this, floor32_eq _ (by omega)]
  have e16 : floor16 (d3d11.wrap_size_t (w + 15)) = 16 * ((w + 15) / 16) := by
    have : d3d11.wrap_size_t (w + 15) = w + 15 := by unfold d3d11.wrap_size_t; omega
    rw [this, floor16_eq _ (by omega)]
  have m1 : d3d11.wrap_size_t (32 * ((w + 31) / 32) * 1) = 32 * ((w + 31) / 32) := by
    unfold d3d11.wrap_size_t; omega
  have m2 : d3d11.wrap_size_t (32 * ((w + 31) / 32) * 4) = 4 * (32 * ((w + 31) / 32)) := by
    unfold d3d11.wrap_size_t; omega
  have m3 : d3d11.wrap_size_t (16 * ((w + 15) / 16) * 1) = 16 * ((w + 15) / 16) := by
    unfold d3d11.wrap_size_t; omega
  have m4 : d3d11.wrap_size_t (16 * ((w + 15) / 16) * 4) = 4 * (16 * ((w + 15) / 16)) := by
    unfold d3d11.wrap_size_t; omega
  unfold rounded_width
  simp only [eW, e32, and_31_eq, and_15_eq, m1, m2, ge_iff_le]
  by_cases hA : w % 32 ≠ 0 ∧ 32 * ((w + 31) / 32) ≤ src_stride.natAbs
      ∧ 4 * (32 * ((w + 31) / 32)) ≤ dst_stride.natAbs
  · rw [if_pos hA, if_neg (by omega), if_pos hA]
  · rw [if_neg hA]
    simp only [e16, m3, m4]
    rw [if_neg hA]

end sfc

end mf

end sandy

namespace sandy

namespace mf

namespace sfc

/-- One pass through the block for 32 columns, with the two destination rows
apart: the 128 bytes at each destination pointer are those the block makes
of the luma of its row and the chroma, and nothing else changes. -/
theorem vector32_step_apply (V : VectorCode) (k : Kernel) (luma chroma : Int → Int)
    (src_luma0 src_luma1 src_chroma : Int) (x : Nat) (p0 p1 : Int) (m : Int → Int)
    (hp : p0 + 128 ≤ p1 ∨ p1 + 128 ≤ p0) :
    (∀ i : Nat, i < 128 →
        vector32_step V k luma chroma src_luma0 src_luma1 src_chroma x p0 p1 m (p0 + i)
            = V.block32 k (load_u luma (src_luma0 + x) 32) (load_u chroma (src_chroma + x) 32) i
          ∧ vector32_step V k luma chroma src_luma0 src_luma1 src_chroma x p0 p1 m (p1 + i)
            = V.block32 k (load_u luma (src_luma1 + x) 32)
                (load_u chroma (src_chroma + x) 32) i)
      ∧ (∀ j, (j < p0 ∨ p0 + 128 ≤ j) → (j < p1 ∨ p1 + 128 ≤ j) →
          vector32_step V k luma chroma src_luma0 src_luma1 src_chroma x p0 p1 m j = m j) := by
  refine ⟨?_, ?_⟩
  · intro i hi
    have hcase : i < 32 ∨ (32 ≤ i ∧ i < 64) ∨ (64 ≤ i ∧ i < 96) ∨ 96 ≤ i := by omega
    simp only [vector32_step, store_u]
    refine ⟨?_, ?_⟩
    · rcases hcase with h | h | h | h <;>
        (repeat (first | rw [if_pos (by omega)] | rw [if_neg (by omega)])) <;>
        congr 1 <;> omega
    · rcases hcase with h | h | h | h <;>
        (repeat (first | rw [if_pos (by omega)] | rw [if_neg (by omega)])) <;>
        congr 1 <;> omega
  · intro j h0 h1
    simp only [vector32_step, store_u]
    repeat (first | rw [if_pos (by omega)] | rw [if_neg (by omega)])

/-- One pass through the block for 16 columns, with the two destination rows
apart: the 64 bytes at each destination pointer are those the block makes of
the luma of its row and the chroma, and nothing else changes. -/
theorem vector16_step_apply (V : VectorCode) (k : Kernel) (luma chroma : Int → Int)
    (src_luma0 src_luma1 src_chroma : Int) (x : Nat) (p0 p1 : Int) (m : Int → Int)
    (hp : p0 + 64 ≤ p1 ∨ p1 + 64 ≤ p0) :
    (∀ i : Nat, i < 64 →
        vector16_step V k luma chroma src_luma0 src_luma1 src_chroma x p0 p1 m (p0 + i)
            = V.block16 k (load_u luma (src_luma0 + x) 16) (load_u chroma (src_chroma + x) 16) i
          ∧ vector16_step V k luma chroma src_luma0 src_luma1 src_chroma x p0 p1 m (p1 + i)
            = V.block16 k (load_u luma (src_luma1 + x) 16)
                (load_u chroma (src_chroma + x) 16) i)
      ∧ (∀ j, (j < p0 ∨ p0 + 64 ≤ j) → (j < p1 ∨ p1 + 64 ≤ j) →
          vector16_step V k luma chroma src_luma0 src_luma1 src_chroma x p0 p1 m j = m j) := by
  refine ⟨?_, ?_⟩
  · intro i hi
    have hcase : i < 32 ∨ 32 ≤ i := by omega
    simp only [vector16_step, store_u]
    refine ⟨?_, ?_⟩
    · rcases hcase with h | h <;>
        (repeat (first | rw [if_pos (by omega)] | rw [if_neg (by omega)])) <;>
        congr 1 <;> omega
    · rcases hcase with h | h <;>
        (repeat (first | rw [if_pos (by omega)] | rw [if_neg (by omega)])) <;>
        congr 1 <;> omega
  · intro j h0 h1
    simp only [vector16_step, store_u]
    repeat (first | rw [if_pos (by omega)] | rw [if_neg (by omega)])

end sfc

end mf

end sandy

namespace sandy

namespace mf

namespace sfc

/-- The loop over blocks of 32 columns from a column `x` that is a multiple
of 32, with the destination rows, which start at `b0` and `b1`, apart: it
ends within the fuel at the column `width & ~31` with the pointers advanced
by four bytes a column, the bytes of the columns from `x` up to there are
those of the blocks, and nothing else changes. -/
theorem vector32_loop_apply (V : VectorCode) (k : Kernel) (luma chroma : Int → Int)
    (src_luma0 src_luma1 src_chroma : Int) (width F : Nat) (hF : floor32 width = F)
    (hF32 : F % 32 = 0) (b0 b1 : Int)
    (hp : b0 + 4 * (F : Int) ≤ b1 ∨ b1 + 4 * (F : Int) ≤ b0)
    (fuel x : Nat) (m : Int → Int) (hx : x % 32 = 0) (hxF : x ≤ F)
    (hfuel : F ≤ x + 32 * fuel) :
    ∃ out, vector32_loop V k luma chroma src_luma0 src_luma1 src_chroma width fuel x
          (b0 + 4 * x) (b1 + 4 * x) m
        = some (F, b0 + 4 * F, b1 + 4 * F, out)
      ∧ (∀ i : Nat, 4 * x ≤ i → i < 4 * F →
          out (b0 + i) = row32 V k luma chroma src_luma0 src_chroma i
            ∧ out (b1 + i) = row32 V k luma chroma src_luma1 src_chroma i)
      ∧ (∀ j, (j < b0 + 4 * x ∨ b0 + 4 * F ≤ j) → (j < b1 + 4 * x ∨ b1 + 4 * F ≤ j) →
          out j = m j) := by
  induction fuel generalizing x m with
  | zero =>
    have e : x = F := by omega
    subst e
    refine ⟨m, ?_, ?_, ?_⟩
    · simp only [vector32_loop, hF]
      rw [if_neg (by omega)]
    · intro i h1 h2
      omega
    · intro j _ _
      rfl
  | succ fuel ih =>
    by_cases hlt : x < F
    · have hstep := vector32_step_apply V k luma chroma src_luma0 src_luma1 src_chroma x
        (b0 + 4 * x) (b1 + 4 * x) m (by omega)
      obtain ⟨out, hout, hA, hB⟩ := ih (x + 32)
        (vector32_step V k luma chroma src_luma0 src_luma1 src_chroma x (b0 + 4 * x)
          (b1 + 4 * x) m)
        (by omega) (by omega) (by omega)
      have e0 : b0 + 4 * (x : Int) + 32 * 4 = b0 + 4 * ((x + 32 : Nat) : Int) := by
        push_cast; omega
      have e1 : b1 + 4 * (x : Int) + 32 * 4 = b1 + 4 * ((x + 32 : Nat) : Int) := by
        push_cast; omega
      refine ⟨out, ?_, ?_, ?_⟩
      · simp only [vector32_loop, hF]
        rw [if_pos hlt, e0, e1]
        exact hout
      · intro i h1 h2
        by_cases hi : 4 * (x + 32) ≤ i
        · exact hA i hi h2
        · obtain ⟨d, hd⟩ : ∃ d, i = 4 * x + d := ⟨i - 4 * x, by omega⟩
          have hd2 : d < 128 := by omega
          have h := hstep.1 d hd2
          have eq1 : 32 * (i / 128) = x := by omega
          have eq2 : i % 128 = d := by omega
          have ei0 : b0 + (i : Int) = b0 + 4 * (x : Int) + (d : Int) := by
            rw [hd]; push_cast; omega
          have ei1 : b1 + (i : Int) = b1 + 4 * (x : Int) + (d : Int) := by
            rw [hd]; push_cast; omega
          simp only [row32, eq1, eq2]
          constructor
          · rw [hB _ (by push_cast; omega) (by push_cast; omega), ei0]
            exact h.1
          · rw [hB _ (by push_cast; omega) (by push_cast; omega), ei1]
            exact h.2
      · intro j h0 h1
        rw [hB j (by push_cast; omega) (by push_cast; omega)]
        exact hstep.2 j (by omega) (by omega)
    · have e : x = F := by omega
      subst e
      refine ⟨m, ?_, ?_, ?_⟩
      · simp only [vector32_loop, hF]
        rw [if_neg (by omega)]
      · intro i h1 h2
        omega
      · intro j _ _
        rfl

/-- The loop over blocks of 16 columns from a column `x` that is a multiple
of 16, with the destination rows apart: it ends within the fuel at the
column `width & ~15` with the pointers advanced by four bytes a column, the
bytes of the columns from `x` up to there are those of the blocks, and
nothing else changes. -/
theorem vector16_loop_apply (V : VectorCode) (k : Kernel) (luma chroma : Int → Int)
    (src_luma0 src_luma1 src_chroma : Int) (width F : Nat) (hF : floor16 width = F)
    (hF16 : F % 16 = 0) (b0 b1 : Int)
    (hp : b0 + 4 * (F : Int) ≤ b1 ∨ b1 + 4 * (F : Int) ≤ b0)
    (fuel x : Nat) (m : Int → Int) (hx : x % 16 = 0) (hxF : x ≤ F)
    (hfuel : F ≤ x + 16 * fuel) :
    ∃ out, vector16_loop V k luma chroma src_luma0 src_luma1 src_chroma width fuel x
          (b0 + 4 * x) (b1 + 4 * x) m
        = some (F, b0 + 4 * F, b1 + 4 * F, out)
      ∧ (∀ i : Nat, 4 * x ≤ i → i < 4 * F →
          out (b0 + i) = row16 V k luma chroma src_luma0 src_chroma i
            ∧ out (b1 + i) = row16 V k luma chroma src_luma1 src_chroma i)
      ∧ (∀ j, (j < b0 + 4 * x ∨ b0 + 4 * F ≤ j) → (j < b1 + 4 * x ∨ b1 + 4 * F ≤ j) →
          out j = m j) := by
  induction fuel generalizing x m with
  | zero =>
    have e : x = F := by omega
    subst e
    refine ⟨m, ?_, ?_, ?_⟩
    · simp only [vector16_loop, hF]
      rw [if_neg (by omega)]
    · intro i h1 h2
      omega
    · intro j _ _
      rfl
  | succ fuel ih =>
    by_cases hlt : x < F
    · have hstep := vector16_step_apply V k luma chroma src_luma0 src_luma1 src_chroma x
        (b0 + 4 * x) (b1 + 4 * x) m (by omega)
      obtain ⟨out, hout, hA, hB⟩ := ih (x + 16)
        (vector16_step V k luma chroma src_luma0 src_luma1 src_chroma x (b0 + 4 * x)
          (b1 + 4 * x) m)
        (by omega) (by omega) (by omega)
      have e0 : b0 + 4 * (x : Int) + 32 * 2 = b0 + 4 * ((x + 16 : Nat) : Int) := by
        push_cast; omega
      have e1 : b1 + 4 * (x : Int) + 32 * 2 = b1 + 4 * ((x + 16 : Nat) : Int) := by
        push_cast; omega
      refine ⟨out, ?_, ?_, ?_⟩
      · simp only [vector16_loop, hF]
        rw [if_pos hlt, e0, e1]
        exact hout
      · intro i h1 h2
        by_cases hi : 4 * (x + 16) ≤ i
        · exact hA i hi h2
        · obtain ⟨d, hd⟩ : ∃ d, i = 4 * x + d := ⟨i - 4 * x, by omega⟩
          have hd2 : d < 64 := by omega
          have h := hstep.1 d hd2
          have eq1 : 16 * (i / 64) = x := by omega
          have eq2 : i % 64 = d := by omega
          have ei0 : b0 + (i : Int) = b0 + 4 * (x : Int) + (d : Int) := by
            rw [hd]; push_cast; omega
          have ei1 : b1 + (i : Int) = b1 + 4 * (x : Int) + (d : Int) := by
            rw [hd]; push_cast; omega
          simp only [row16, eq1, eq2]
          constructor
          · rw [hB _ (by push_cast; omega) (by push_cast; omega), ei0]
            exact h.1
          · rw [hB _ (by push_cast; omega) (by push_cast; omega), ei1]
            exact h.2
      · intro j h0 h1
        rw [hB j (by push_cast; omega) (by push_cast; omega)]
        exact hstep.2 j (by omega) (by omega)
    · have e : x = F := by omega
      subst e
      refine ⟨m, ?_, ?_, ?_⟩
      · simp only [vector16_loop, hF]
        rw [if_neg (by omega)]
      · intro i h1 h2
        omega
      · intro j _ _
        rfl

end sfc

end mf

end sandy

namespace sandy

namespace mf

namespace sfc

/-- The body of the loop over `y` for an even `width` and two destination
rows that do not overlap: the three loops end, the bytes of the columns up
to `width` of the two rows are those the three loops leave, and nothing else
changes. -/
theorem rows_step_apply (V : VectorCode) (k : Kernel) (dst_stride : Int)
    (luma chroma : Int → Int) (src_stride : Int) (width : Nat) (hw64 : width < 2 ^ 64)
    (hw : width % 2 = 0) (y : Nat) (m : Int → Int)
    (hp : dst_stride * y + 4 * (width : Int) ≤ dst_stride * (y + 1)
      ∨ dst_stride * (y + 1) + 4 * (width : Int) ≤ dst_stride * y) :
    ∃ out, rows_step V k dst_stride luma chroma src_stride width y m = some out
      ∧ (∀ i : Nat, i < 4 * width →
          out (dst_stride * y + i)
              = row_bytes V k luma chroma (src_stride * y) (src_stride * (y / 2 : Nat)) width i
            ∧ out (dst_stride * (y + 1) + i)
              = row_bytes V k luma chroma (src_stride * (y + 1)) (src_stride * (y / 2 : Nat))
                  width i)
      ∧ (∀ j, (j < dst_stride * y ∨ dst_stride * y + 4 * (width : Int) ≤ j) →
          (j < dst_stride * (y + 1) ∨ dst_stride * (y + 1) + 4 * (width : Int) ≤ j) →
          out j = m j) := by
  have e32 := floor32_eq width hw64
  have e16 := floor16_eq width hw64
  have e2 : even_floor width = width := by rw [even_floor_eq width hw64]; omega
  have ey : dst_stride * ((y : Int) + 0) = dst_stride * y := by rw [add_zero]
  have esy : src_stride * ((y : Int) + 0) = src_stride * y := by rw [add_zero]
  simp only [rows_step, ey, esy]
  generalize dst_stride * (y : Int) = b0 at hp ⊢
  generalize dst_stride * ((y : Int) + 1) = b1 at hp ⊢
  generalize src_stride * (y : Int) = sl0
  generalize src_stride * ((y : Int) + 1) = sl1
  generalize src_stride * ((y / 2 : Nat) : Int) = sc
  obtain ⟨m1, h1, hA1, hB1⟩ := vector32_loop_apply V k luma chroma sl0 sl1 sc width
    (32 * (width / 32)) e32 (by omega) b0 b1 (by omega) width 0 m (by decide) (by omega)
    (by omega)
  have z0 : b0 + 4 * ((0 : Nat) : Int) = b0 := by simp
  have z1 : b1 + 4 * ((0 : Nat) : Int) = b1 := by simp
  rw [z0, z1] at h1 hB1
  obtain ⟨m2, h2, hA2, hB2⟩ := vector16_loop_apply V k luma chroma sl0 sl1 sc width
    (16 * (width / 16)) e16 (by omega) b0 b1 (by omega) width (32 * (width / 32)) m1
    (by omega) (by omega) (by omega)
  obtain ⟨m3, h3, hA3, hB3⟩ := scalar_loop_apply k luma chroma sl0 sl1 sc width
    (by rw [e2]; exact hw) width (16 * (width / 16)) (b0 + 4 * ((16 * (width / 16) : Nat) : Int))
    (b1 + 4 * ((16 * (width / 16) : Nat) : Int)) m2 (by omega) (by rw [e2]; omega)
    (by rw [e2]; push_cast; omega)
  rw [e2] at hA3 hB3
  rw [h1]
  simp only
  rw [h2]
  simp only
  refine ⟨m3, h3, ?_, ?_⟩
  · intro i hi
    simp only [row_bytes, e32, e16]
    by_cases c1 : i < 4 * (32 * (width / 32))
    · simp only [if_pos c1]
      have h := hA1 i (by omega) c1
      constructor
      · rw [hB3 _ (by push_cast; omega) (by push_cast; omega),
          hB2 _ (by push_cast; omega) (by push_cast; omega)]
        exact h.1
      · rw [hB3 _ (by push_cast; omega) (by push_cast; omega),
          hB2 _ (by push_cast; omega) (by push_cast; omega)]
        exact h.2
    · simp only [if_neg c1]
      by_cases c2 : i < 4 * (16 * (width / 16))
      · simp only [if_pos c2]
        have h := hA2 i (by omega) c2
        constructor
        · rw [hB3 _ (by push_cast; omega) (by push_cast; omega)]
          exact h.1
        · rw [hB3 _ (by push_cast; omega) (by push_cast; omega)]
          exact h.2
      · simp only [if_neg c2]
        have h := hA3 (i / 4) (i % 4) (by omega) (by omega) (by omega)
        have q0 : b0 + 4 * ((16 * (width / 16) : Nat) : Int)
            + 4 * (((i / 4 : Nat) : Int) - ((16 * (width / 16) : Nat) : Int))
            + ((i % 4 : Nat) : Int) = b0 + (i : Int) := by
          push_cast; omega
        have q1 : b1 + 4 * ((16 * (width / 16) : Nat) : Int)
            + 4 * (((i / 4 : Nat) : Int) - ((16 * (width / 16) : Nat) : Int))
            + ((i % 4 : Nat) : Int) = b1 + (i : Int) := by
          push_cast; omega
        rw [q0, q1] at h
        exact h
  · intro j h0 hj1
    rw [hB3 j (by push_cast; omega) (by push_cast; omega),
      hB2 j (by push_cast; omega) (by push_cast; omega)]
    exact hB1 j (by push_cast; omega) (by push_cast; omega)

end sfc

end mf

end sandy

namespace sandy

namespace mf

namespace sfc

/-- The loop over the pairs of rows from an even row `y`, with destination
rows that do not overlap: it ends within the fuel, every byte of the rows
from `y` up to `height` in the columns up to `width` is the one the three
loops leave, made of the luma of its row and the row `r / 2` of chroma, and
nothing else changes. -/
theorem rows_loop_apply (V : VectorCode) (k : Kernel) (dst_stride : Int)
    (luma chroma : Int → Int) (src_stride : Int) (width height : Nat) (hw64 : width < 2 ^ 64)
    (hw : width % 2 = 0) (hhe : even_floor height = height) (hh : height % 2 = 0)
    (hrows : 4 * (width : Int) ≤ |dst_stride|) (fuel y : Nat) (m : Int → Int)
    (hy : y % 2 = 0) (hfuel : height ≤ y + 2 * fuel) :
    ∃ out, rows_loop V k dst_stride luma chroma src_stride width height fuel y m = some out
      ∧ (∀ r i : Nat, y ≤ r → r < height → i < 4 * width →
          out (dst_stride * r + i)
            = row_bytes V k luma chroma (src_stride * r) (src_stride * (r / 2 : Nat)) width i)
      ∧ (∀ j, (∀ r : Nat, y ≤ r → r < height →
            (j < dst_stride * r ∨ dst_stride * r + 4 * width ≤ j)) → out j = m j) := by
  induction fuel generalizing y m with
  | zero =>
    refine ⟨m, ?_, ?_, ?_⟩
    · simp only [rows_loop, hhe]
      rw [if_neg (by omega)]
    · intro r i h1 h2
      omega
    · intro j _
      rfl
  | succ fuel ih =>
    by_cases hlt : y < height
    · have hs : dst_stride * ((y : Int) + 1) = dst_stride * y + dst_stride := by ring
      obtain ⟨m1, hm1, hA1, hB1⟩ := rows_step_apply V k dst_stride luma chroma src_stride
        width hw64 hw y m
        (by
          rw [hs]
          rcases le_abs.mp hrows with h | h
          · left; omega
          · right; omega)
      obtain ⟨out, hout, hA, hB⟩ := ih (y + 2) m1 (by omega) (by omega)
      refine ⟨out, ?_, ?_, ?_⟩
      · simp only [rows_loop, hhe]
        rw [if_pos hlt, hm1]
        exact hout
      · intro r i h1 h2 hi
        by_cases hr : y + 2 ≤ r
        · exact hA r i hr h2 hi
        · have hrow : ∀ r1 : Nat, y + 2 ≤ r1 → r1 < height →
              (dst_stride * r + i < dst_stride * r1
                ∨ dst_stride * r1 + 4 * width ≤ dst_stride * r + i) := by
            intro r1 hr1 _
            exact rows_disjoint dst_stride (4 * width) hrows r r1
              (by intro e; have : r = r1 := by exact_mod_cast e
                  omega)
              _ (by omega) (by omega)
          rw [hB _ hrow]
          have h := hA1 i hi
          rcases Nat.lt_or_ge r (y + 1) with hr0 | hr0
          · have e : r = y := by omega
            subst e
            exact h.1
          · have e : r = y + 1 := by omega
            subst e
            have e4 : (y + 1) / 2 = y / 2 := by omega
            rw [e4]
            push_cast
            exact h.2
      · intro j hj
        rw [hB j (fun r h1 h2 => hj r (by omega) h2)]
        have h0 := hj y (Nat.le_refl _) hlt
        have h1 := hj (y + 1) (by omega) (by omega)
        push_cast at h1
        exact hB1 j h0 h1
    · refine ⟨m, ?_, ?_, ?_⟩
      · simp only [rows_loop, hhe]
        rw [if_neg hlt]
      · intro r i h1 h2
        omega
      · intro j _
        rfl

end sfc

end mf

end sandy

namespace sandy

namespace mf

namespace sfc

/-- What the rounding leaves: an even width below `2^64` that is at least
the even part of `image_width` and less than 32 more, whose rows fit the
destination stride; it is the even part of `image_width` itself, or else a
multiple of 16 that also fits the source stride. -/
theorem rounded_width_facts (dst_stride src_stride : Int) (image_width : Nat)
    (hrows : 4 * image_width ≤ dst_stride.natAbs) (hd : dst_stride.natAbs ≤ 2 ^ 63) :
    rounded_width dst_stride src_stride image_width % 2 = 0
      ∧ 4 * rounded_width dst_stride src_stride image_width ≤ dst_stride.natAbs
      ∧ 2 * (image_width / 2) ≤ rounded_width dst_stride src_stride image_width
      ∧ rounded_width dst_stride src_stride image_width < 2 * (image_width / 2) + 32
      ∧ (rounded_width dst_stride src_stride image_width = 2 * (image_width / 2)
        ∨ (rounded_width dst_stride src_stride image_width % 16 = 0
          ∧ rounded_width dst_stride src_stride image_width ≤ src_stride.natAbs
          ∧ 2 * (image_width / 2) < rounded_width dst_stride src_stride image_width)) := by
  rw [rounded_width_eq dst_stride src_stride image_width hrows hd]
  split
  · omega
  · split
    · omega
    · omega

/-- The whole conversion for an image whose rows fit the destination
stride: it returns, every byte of the rows below `image_height & ~1` in the
columns below the rounded width is the one the three loops leave, and
nothing else changes. -/
theorem TransformImage_apply (V : VectorCode) (k : Kernel) (dst : Int → Int)
    (dst_stride : Int) (luma chroma : Int → Int) (src_stride : Int)
    (image_width image_height : Nat) (hh : image_height < 2 ^ 64)
    (hrows : 4 * (image_width : Int) ≤ |dst_stride|) (hd : |dst_stride| ≤ 2 ^ 63) :
    ∃ out, TransformImage_NV12_to_A8R8G8B8 V k dst dst_stride luma chroma src_stride
          image_width image_height = some out
      ∧ (∀ r i : Nat, r < even_floor image_height →
          i < 4 * rounded_width dst_stride src_stride image_width →
          out (dst_stride * r + i)
            = row_bytes V k luma chroma (src_stride * r) (src_stride * (r / 2 : Nat))
                (rounded_width dst_stride src_stride image_width) i)
      ∧ (∀ j, (∀ r : Nat, r < even_floor image_height →
            (j < dst_stride * r
              ∨ dst_stride * r + 4 * (rounded_width dst_stride src_stride image_width : Nat)
                ≤ j)) →
          out j = dst j) := by
  have hn : (dst_stride.natAbs : Int) = |dst_stride| := Int.natCast_natAbs _
  obtain ⟨f1, f2, f3, f4, _⟩ := rounded_width_facts dst_stride src_stride image_width
    (by omega) (by omega)
  have eH := even_floor_eq image_height hh
  have eHH := even_floor_eq (even_floor image_height) (by omega)
  obtain ⟨out, hout, hA, hB⟩ := rows_loop_apply V k dst_stride luma chroma src_stride
    (rounded_width dst_stride src_stride image_width) (even_floor image_height) (by omega) f1
    (by omega) (by omega) (by omega) (even_floor image_height) 0 dst (by decide) (by omega)
  exact ⟨out, hout, fun r i hr hi => hA r i (Nat.zero_le _) hr hi,
    fun j hj => hB j (fun r _ hr => hj r hr)⟩

end sfc

end mf

end sandy

namespace sandy

/-- C30, as stated, fails in the build, which compiles the blocks under
`__AVX2__`. For an image of 3 by 3 with a destination stride of 128 and a
source stride of 32 the width 2 is rounded up to 32, and the one pass of the
loop over blocks of 32 columns covers it: the scalar loop, which starts at
column 32, takes no pixel. The four bytes of the pixel in column 0 of row 0
are bytes 0 to 3 of what that block stores, and the four bytes of the pixel
in column 2, the odd last column, are its bytes 8 to 11, whatever the vector
code computes and whatever the destination held: the pixel of the odd last
column is written. -/
theorem C30_counterexample :
    mf.sfc.rounded_width 128 32 3 = 32 ∧ mf.sfc.floor32 32 = 32
      ∧ mf.sfc.floor16 32 = 32 ∧ mf.sfc.even_floor 32 = 32
      ∧ ∀ (V : mf.sfc.VectorCode) (k : mf.sfc.Kernel) (dst luma chroma : Int → Int),
          ∃ out, mf.sfc.TransformImage_NV12_to_A8R8G8B8 V k dst 128 luma chroma 32 3 3
              = some out
            ∧ out 0 = V.block32 k (mf.sfc.load_u luma 0 32) (mf.sfc.load_u chroma 0 32) 0
            ∧ out 1 = V.block32 k (mf.sfc.load_u luma 0 32) (mf.sfc.load_u chroma 0 32) 1
            ∧ out 2 = V.block32 k (mf.sfc.load_u luma 0 32) (mf.sfc.load_u chroma 0 32) 2
            ∧ out 3 = V.block32 k (mf.sfc.load_u luma 0 32) (mf.sfc.load_u chroma 0 32) 3
            ∧ out 8 = V.block32 k (mf.sfc.load_u luma 0 32) (mf.sfc.load_u chroma 0 32) 8
            ∧ out 9 = V.block32 k (mf.sfc.load_u luma 0 32) (mf.sfc.load_u chroma 0 32) 9
            ∧ out 10 = V.block32 k (mf.sfc.load_u luma 0 32) (mf.sfc.load_u chroma 0 32) 10
            ∧ out 11
              = V.block32 k (mf.sfc.load_u luma 0 32) (mf.sfc.load_u chroma 0 32) 11 := by
  have hw : mf.sfc.rounded_width 128 32 3 = 32 := by decide
  have hf : mf.sfc.floor32 32 = 32 := by decide
  refine ⟨hw, hf, by decide, by decide, ?_⟩
  intro V k dst luma chroma
  obtain ⟨out, hout, hA, _⟩ := mf.sfc.TransformImage_apply V k dst 128 luma chroma 32 3 3
    (by decide) (by decide) (by decide)
  rw [hw] at hA
  have hrow : ∀ i : Nat, i < 128 →
      out i = V.block32 k (mf.sfc.load_u luma 0 32) (mf.sfc.load_u chroma 0 32) i := by
    intro i hi
    have h := hA 0 i (by decide) (by omega)
    have e1 : i / 128 = 0 := by omega
    have e2 : i % 128 = i := by omega
    simp only [mf.sfc.row_bytes, hf, mf.sfc.row32, e1, e2] at h
    rw [if_pos (by omega)] at h
    simpa using h
  exact ⟨out, hout, hrow 0 (by decide), hrow 1 (by decide), hrow 2 (by decide),
    hrow 3 (by decide), hrow 8 (by decide), hrow 9 (by decide), hrow 10 (by decide),
    hrow 11 (by decide)⟩

/-- C30, amended: the conversion as it is built, for the BT.601 or the
BT.709 kernel, an image of `image_width` by `image_height`, source bytes,
and destination rows that do not overlap (`4 * image_width <= |dst_stride|`,
a stride being a `ptrdiff_t`), whatever the vector blocks compute. Let
`width` be the width the loops run over: `image_width & ~1`, rounded up to
the next multiple of 32, else of 16, when it is none and both strides leave
room. The call returns. The scalar loop takes the columns from `width & ~15`
up to `width & ~1`: for every pixel `(x, y)` of these columns with
`y < (image_height & ~1)` the four bytes at `dst + dst_stride * y + 4 * x`
are blue, green, red and 255, each colour being
`clamp((kY * (Y[y][x] - 16) + kU * (Cb - 128) + kV * (Cr - 128)) >> 5, 0, 255)`
with `Cb`, `Cr` the chroma bytes of row `y / 2` at the columns `x & ~1` and
`(x & ~1) + 1`. The columns below `width & ~31` hold what the blocks of 32
columns store, and those from there up to `width & ~15` what the blocks of
16 columns store. No byte outside the columns below `width` of the rows
below `image_height & ~1` is written: the pixels of an odd last row keep
their bytes, and so do the pixels of an odd last column when the width was
not rounded up; when it was, `width` is a multiple of 16 and the scalar
loop takes no column. The coefficients are the constants of the kernel
times 256, cut off towards zero (297, 408, -100, -208, 516 for BT.601 and
297, 459, -54, -136, 540 for BT.709), shifted right by 3 with the sign
kept. -/
theorem C30_scalar_path (V : mf.sfc.VectorCode) (k : mf.sfc.Kernel)
    (hk : k = mf.sfc.BT601 ∨ k = mf.sfc.BT709)
    (dst : Int → Int) (dst_stride : Int) (luma chroma : Int → Int) (src_stride : Int)
    (image_width image_height : Nat) (hh : image_height < 2 ^ 64)
    (hluma : ∀ a, 0 ≤ luma a ∧ luma a ≤ 255) (hchroma : ∀ a, 0 ≤ chroma a ∧ chroma a ≤ 255)
    (hrows : 4 * (image_width : Int) ≤ |dst_stride|) (hd : |dst_stride| ≤ 2 ^ 63) :
    ∃ out, mf.sfc.TransformImage_NV12_to_A8R8G8B8 V k dst dst_stride luma chroma src_stride
          image_width image_height = some out
      ∧ (∀ x y : Nat,
          mf.sfc.floor16 (mf.sfc.rounded_width dst_stride src_stride image_width) ≤ x →
          x < mf.sfc.even_floor (mf.sfc.rounded_width dst_stride src_stride image_width) →
          y < mf.sfc.even_floor image_height →
          out (dst_stride * y + 4 * x + 0)
              = mf.sfc.converted k.kRGBy k.kBu k.kBv (luma (src_stride * y + x))
                  (chroma (src_stride * (y / 2 : Nat) + mf.sfc.even_floor x))
                  (chroma (src_stride * (y / 2 : Nat) + (mf.sfc.even_floor x + 1)))
            ∧ out (dst_stride * y + 4 * x + 1)
              = mf.sfc.converted k.kRGBy k.kGu k.kGv (luma (src_stride * y + x))
                  (chroma (src_stride * (y / 2 : Nat) + mf.sfc.even_floor x))
                  (chroma (src_stride * (y / 2 : Nat) + (mf.sfc.even_floor x + 1)))
            ∧ out (dst_stride * y + 4 * x + 2)
              = mf.sfc.converted k.kRGBy k.kRu k.kRv (luma (src_stride * y + x))
                  (chroma (src_stride * (y / 2 : Nat) + mf.sfc.even_floor x))
                  (chroma (src_stride * (y / 2 : Nat) + (mf.sfc.even_floor x + 1)))
            ∧ out (dst_stride * y + 4 * x + 3) = 255)
      ∧ (∀ x y c : Nat,
          x < mf.sfc.floor32 (mf.sfc.rounded_width dst_stride src_stride image_width) →
          y < mf.sfc.even_floor image_height → c < 4 →
          out (dst_stride * y + 4 * x + c)
            = V.block32 k (mf.sfc.load_u luma (src_stride * y + (32 * (x / 32) : Nat)) 32)
                (mf.sfc.load_u chroma (src_stride * (y / 2 : Nat) + (32 * (x / 32) : Nat)) 32)
                (4 * (x % 32) + c))
      ∧ (∀ x y c : Nat,
          mf.sfc.floor32 (mf.sfc.rounded_width dst_stride src_stride image_width) ≤ x →
          x < mf.sfc.floor16 (mf.sfc.rounded_width dst_stride src_stride image_width) →
          y < mf.sfc.even_floor image_height → c < 4 →
          out (dst_stride * y + 4 * x + c)
            = V.block16 k (mf.sfc.load_u luma (src_stride * y + (16 * (x / 16) : Nat)) 16)
                (mf.sfc.load_u chroma (src_stride * (y / 2 : Nat) + (16 * (x / 16) : Nat)) 16)
                (4 * (x % 16) + c))
      ∧ (∀ j, (∀ r : Nat, r < mf.sfc.even_floor image_height →
            (j < dst_stride * r
              ∨ dst_stride * r
                  + 4 * (mf.sfc.rounded_width dst_stride src_stride image_width : Nat) ≤ j)) →
          out j = dst j)
      ∧ (∀ x y c : Nat, x < image_width → y < image_height → c < 4 →
          mf.sfc.even_floor image_height ≤ y →
          out (dst_stride * y + 4 * x + c) = dst (dst_stride * y + 4 * x + c))
      ∧ (mf.sfc.rounded_width dst_stride src_stride image_width
            = mf.sfc.even_floor image_width →
          ∀ x y c : Nat, x < image_width → y < image_height → c < 4 →
            mf.sfc.even_floor image_width ≤ x →
            out (dst_stride * y + 4 * x + c) = dst (dst_stride * y + 4 * x + c))
      ∧ (mf.sfc.rounded_width dst_stride src_stride image_width
          = (if mf.sfc.even_floor image_width % 32 ≠ 0
                ∧ 32 * ((mf.sfc.even_floor image_width + 31) / 32) ≤ src_stride.natAbs
                ∧ 4 * (32 * ((mf.sfc.even_floor image_width + 31) / 32))
                  ≤ dst_stride.natAbs then
              32 * ((mf.sfc.even_floor image_width + 31) / 32)
            else if mf.sfc.even_floor image_width % 16 ≠ 0
                ∧ 16 * ((mf.sfc.even_floor image_width + 15) / 16) ≤ src_stride.natAbs
                ∧ 4 * (16 * ((mf.sfc.even_floor image_width + 15) / 16))
                  ≤ dst_stride.natAbs then
              16 * ((mf.sfc.even_floor image_width + 15) / 16)
            else mf.sfc.even_floor image_width))
      ∧ (mf.sfc.rounded_width dst_stride src_stride image_width
            = mf.sfc.even_floor image_width
          ∨ (mf.sfc.even_floor image_width
                < mf.sfc.rounded_width dst_stride src_stride image_width
              ∧ mf.sfc.floor16 (mf.sfc.rounded_width dst_stride src_stride image_width)
                = mf.sfc.even_floor
                    (mf.sfc.rounded_width dst_stride src_stride image_width)))
      ∧ (k.kRGBy = k.kYrgb >>> (3 : Nat) ∧ k.kRu = k.kUr >>> (3 : Nat)
          ∧ k.kRv = k.kVr >>> (3 : Nat) ∧ k.kGu = k.kUg >>> (3 : Nat)
          ∧ k.kGv = k.kVg >>> (3 : Nat) ∧ k.kBu = k.kUb >>> (3 : Nat)
          ∧ k.kBv = k.kVb >>> (3 : Nat))
      ∧ mf.sfc.BT601 = ⟨297, 0, -100, 516, 408, -208, 0⟩
      ∧ mf.sfc.BT709 = ⟨297, 0, -54, 540, 459, -136, 0⟩ := by
  have hn : (dst_stride.natAbs : Int) = |dst_stride| := Int.natCast_natAbs _
  have hrn : 4 * image_width ≤ dst_stride.natAbs := by omega
  have hdn : dst_stride.natAbs ≤ 2 ^ 63 := by omega
  have hweq := mf.sfc.rounded_width_eq dst_stride src_stride image_width hrn hdn
  obtain ⟨f1, f2, f3, f4, f5⟩ := mf.sfc.rounded_width_facts dst_stride src_stride image_width
    hrn hdn
  have eW := mf.sfc.even_floor_eq image_width (by omega)
  have eH := mf.sfc.even_floor_eq image_height hh
  obtain ⟨out, hout, hA, hB⟩ := mf.sfc.TransformImage_apply V k dst dst_stride luma chroma
    src_stride image_width image_height hh hrows hd
  generalize mf.sfc.rounded_width dst_stride src_stride image_width = w at *
  have e2 := mf.sfc.even_floor_eq w (by omega)
  have e16 := mf.sfc.floor16_eq w (by omega)
  have e32 := mf.sfc.floor32_eq w (by omega)
  have hwr : 4 * (w : Int) ≤ |dst_stride| := by omega
  refine ⟨out, hout, ?_, ?_, ?_, hB, ?_, ?_, ?_, ?_, ?_, mf.sfc.kernel_values.1,
    mf.sfc.kernel_values.2.2.1⟩
  · intro x y h16 hx hy
    have ex : mf.sfc.even_floor x = 2 * (x / 2) := mf.sfc.even_floor_eq x (by omega)
    obtain ⟨p0, p1, p2, p3⟩ := mf.sfc.pixel_converted k hk luma chroma hluma hchroma
      (src_stride * y) (src_stride * (y / 2 : Nat)) x
    have hbyte : ∀ c : Nat, c < 4 →
        out (dst_stride * y + 4 * x + c)
          = mf.sfc.pixel k luma chroma (src_stride * y) (src_stride * (y / 2 : Nat)) x c := by
      intro c hc
      have h := hA y (4 * x + c) hy (by omega)
      have q1 : (4 * x + c) / 4 = x := by omega
      have q2 : (4 * x + c) % 4 = c := by omega
      simp only [mf.sfc.row_bytes, e16, e32, q1, q2] at h
      rw [if_neg (by omega), if_neg (by omega)] at h
      rw [← h]
      congr 1
      push_cast
      omega
    have h0 := hbyte 0 (by decide)
    have h1 := hbyte 1 (by decide)
    have h2 := hbyte 2 (by decide)
    have h3 := hbyte 3 (by decide)
    rw [ex]
    exact ⟨h0.trans p0, h1.trans p1, h2.trans p2, h3.trans p3⟩
  · intro x y c hx hy hc
    have h := hA y (4 * x + c) hy (by omega)
    have q1 : (4 * x + c) / 128 = x / 32 := by omega
    have q2 : (4 * x + c) % 128 = 4 * (x % 32) + c := by omega
    simp only [mf.sfc.row_bytes, e16, e32, mf.sfc.row32, q1, q2] at h
    rw [if_pos (by omega)] at h
    rw [← h]
    congr 1
    push_cast
    omega
  · intro x y c hx1 hx2 hy hc
    have h := hA y (4 * x + c) hy (by omega)
    have q1 : (4 * x + c) / 64 = x / 16 := by omega
    have q2 : (4 * x + c) % 64 = 4 * (x % 16) + c := by omega
    simp only [mf.sfc.row_bytes, e16, e32, mf.sfc.row16, q1, q2] at h
    rw [if_neg (by omega), if_pos (by omega)] at h
    rw [← h]
    congr 1
    push_cast
    omega
  · intro x y c hx hy hc hodd
    apply hB
    intro r hr
    have h := mf.sfc.rows_disjoint dst_stride (|dst_stride|) (le_refl _) y r
      (by intro e; have : y = r := by exact_mod_cast e
          omega)
      (dst_stride * y + 4 * x + c) (by omega) (by omega)
    omega
  · intro hnr x y c hx hy hc hodd
    apply hB
    intro r hr
    by_cases hry : r = y
    · subst hry
      right
      have : (w : Int) ≤ x := by exact_mod_cast (by omega : w ≤ x)
      omega
    · have h := mf.sfc.rows_disjoint dst_stride (|dst_stride|) (le_refl _) y r
        (by intro e; have : y = r := by exact_mod_cast e
            exact hry this.symm)
        (dst_stride * y + 4 * x + c) (by omega) (by omega)
      omega
  · rw [eW]
    exact hweq
  · rcases f5 with h | ⟨h1, _, h3⟩
    · left; omega
    · right
      refine ⟨by omega, ?_⟩
      omega
  · obtain ⟨_, ⟨a1, a2, a3, a4, a5, a6, a7⟩, _, ⟨b1, b2, b3, b4, b5, b6, b7⟩⟩ :=
      mf.sfc.kernel_values
    rcases hk with rfl | rfl
    · rw [a1, a2, a3, a4, a5, a6, a7]
      decide
    · rw [b1, b2, b3, b4, b5, b6, b7]
      decide

end sandy

namespace sandy

/-- C30 amended, on an image of 19 by 3 with a destination of 76 bytes a row
and a source of 19 bytes a row, BT.601, and a vector code whose blocks store
the number of each byte: the strides leave no room for rounding, so the
width is 18, the block of 16 columns writes the columns 0 to 15 (byte 12 is
the first byte of column 3), the scalar loop writes the columns 16 and 17
(column 17 gets blue 16, green 185, red 88 and alpha 255 from the luma byte
134 and the chroma bytes 68 and 98), and the pixel of column 18, the odd
last column, keeps its bytes. -/
theorem C30_scalar_path_witness :
    ∃ out, mf.sfc.TransformImage_NV12_BT601_to_A8R8G8B8
          ⟨fun _ _ _ i => i, fun _ _ _ i => i⟩ (fun _ => 7) 76
          (fun a => (50 + 20 * a) % 256) (fun a => (100 + 30 * a) % 256) 19 19 3 = some out
      ∧ out 68 = 16 ∧ out 69 = 185 ∧ out 70 = 88 ∧ out 71 = 255 ∧ out 72 = 7
      ∧ out 12 = 12 := by
  obtain ⟨out, h, hA, _, h16, _, _, hcol, _⟩ := C30_scalar_path
    ⟨fun _ _ _ i => i, fun _ _ _ i => i⟩ mf.sfc.BT601 (Or.inl rfl) (fun _ => 7) 76
    (fun a => (50 + 20 * a) % 256) (fun a => (100 + 30 * a) % 256) 19 19 3 (by decide)
    (by intro a; constructor <;> simp only <;> omega)
    (by intro a; constructor <;> simp only <;> omega)
    (by decide) (by decide)
  obtain ⟨h0, h1, h2, h3⟩ := hA 17 0 (by decide) (by decide) (by decide)
  have h8 := hcol (by decide) 18 0 0 (by decide) (by decide) (by decide) (by decide)
  have h12 := h16 3 0 0 (by decide) (by decide) (by decide) (by decide)
  refine ⟨out, h, ?_, ?_, ?_, ?_, ?_, ?_⟩
  · exact (congrArg out (by decide : (68 : Int) = 76 * ((0 : Nat) : Int)
      + 4 * ((17 : Nat) : Int) + 0)).trans (h0.trans (by decide))
  · exact (congrArg out (by decide : (69 : Int) = 76 * ((0 : Nat) : Int)
      + 4 * ((17 : Nat) : Int) + 1)).trans (h1.trans (by decide))
  · exact (congrArg out (by decide : (70 : Int) = 76 * ((0 : Nat) : Int)
      + 4 * ((17 : Nat) : Int) + 2)).trans (h2.trans (by decide))
  · exact (congrArg out (by decide : (71 : Int) = 76 * ((0 : Nat) : Int)
      + 4 * ((17 : Nat) : Int) + 3)).trans h3
  · exact (congrArg out (by decide : (72 : Int) = 76 * ((0 : Nat) : Int)
      + 4 * ((18 : Nat) : Int) + ((0 : Nat) : Int))).trans h8
  · exact (congrArg out (by decide : (12 : Int) = 76 * ((0 : Nat) : Int)
      + 4 * ((3 : Nat) : Int) + ((0 : Nat) : Int))).trans h12

end sandy
